import Mathlib

/-!
Load/Store lowering of `LoadStoreOpToLLVM.cpp`

A shallow embedding of the NVIDIA load/store lowering
(`third_party/nvidia/lib/TritonNVIDIAGPUToLLVM/LoadStoreOpToLLVM.cpp`).

Conventions of the embedding.

* An `mlir::Value` is represented by the run-time value it denotes in one
  execution lane: an `i1` is a `Bool`, an integer or an element is the natural
  number of its bit pattern, a vector register is the list of its lanes
  (`none` for an `undef` lane).  A nullable `Value` is an `Option`.
* `unsigned`, `uint32_t` and `int32_t` quantities are natural numbers holding the
  32-bit pattern; conversions that narrow are written out (`toUnsigned`,
  `toInt32`, `toSizeT`).
* Counted `for` loops are `forLoop`; the strided loop over vector groups is
  `forStep`, which carries fuel; a strided loop whose body may `return` is
  `forStepReturn`.
* A failed `assert` or an out-of-range subscript makes the lowering return `none`.
* The lowering of an atomic, of a descriptor bulk copy and of a gather or scatter
  is represented by the list of the operations it creates, in order, together
  with whether the pattern reports success.
-/

set_option linter.constructorNameAsVariable false

namespace Triton

/-! ## Machine integers -/

/-- Conversion to `unsigned` (32 bits). -/
def toUnsigned (n : Nat) : Nat := n % 2 ^ 32

/-- Bitwise complement `~x` of an `unsigned`. -/
def notUnsigned (x : Nat) : Nat := 2 ^ 32 - 1 - x % 2 ^ 32

/-- Conversion of an `unsigned` to `int` (two's complement, 32 bits). -/
def toInt32 (n : Nat) : Int :=
  if n % 2 ^ 32 < 2 ^ 31 then ((n % 2 ^ 32 : Nat) : Int) else ((n % 2 ^ 32 : Nat) : Int) - 2 ^ 32

/-- Conversion of a signed integer to `size_t` (64 bits). -/
def toSizeT (i : Int) : Nat := (i % 2 ^ 64).toNat

/-- Bit pattern of an `int64_t`. -/
def toU64 (i : Int) : Nat := (i % 2 ^ 64).toNat

/-- Value of the `int64_t` with the given bit pattern. -/
def ofU64 (n : Nat) : Int :=
  if n % 2 ^ 64 < 2 ^ 63 then ((n % 2 ^ 64 : Nat) : Int) else ((n % 2 ^ 64 : Nat) : Int) - 2 ^ 64

/-- The operation `a << s` on `int64_t`. -/
def shl64 (a : Int) (s : Nat) : Int := ofU64 (toU64 a <<< s)

/-- The operation `a | b` on `int64_t`. -/
def or64 (a b : Int) : Int := ofU64 (toU64 a ||| toU64 b)

/-! ## Loops -/

/-- The loop `for (i = 0; i < n; ++i) s = body(i, s)`; `none` when an iteration fails. -/
def forLoop {σ : Type} (body : Nat → σ → Option σ) (init : σ) : Nat → Option σ
  | 0 => some init
  | n + 1 => (forLoop body init n).bind (body n)

/-- The loop `for (i = start; i < stop; i += step) s = body(i, s)`, run with fuel:
`none` when an iteration fails or the fuel runs out before `i` reaches `stop`. -/
def forStep {σ : Type} (stop step : Nat) (body : Nat → σ → Option σ) : Nat → Nat → σ → Option σ
  | 0, i, s => if i < stop then none else some s
  | fuel + 1, i, s =>
    if i < stop then (body i s).bind (forStep stop step body fuel (i + step)) else some s

/-! ## Builder operations on values -/

/-- The constant `b.i32_val(v)`. -/
def i32_val (v : Nat) : Nat := v % 2 ^ 32

/-- The operation `b.and_(x, y)` on integers. -/
def and_ (x y : Nat) : Nat := x &&& y

/-- The comparison `b.icmp_eq(x, y)`. -/
def icmp_eq (x y : Nat) : Bool := decide (x = y)

/-- A vector register: its lanes, `none` for an undefined lane. -/
abbrev VecReg := List (Option Nat)

/-- The value `b.undef(vecTy)` for a vector type of `n` lanes. -/
def undefVec (n : Nat) : VecReg := List.replicate n none

/-- The operation `b.insert_element(vecTy, v, elem, idx)`. -/
def insert_element (v : VecReg) (elem : Nat) (idx : Nat) : VecReg := v.set idx (some elem)

/-- Bitcast of a vector of `nbits`-bit lanes to one integer, lane 0 in the low bits;
undefined as soon as one lane is. -/
def bitcastVecToInt (nbits : Nat) : VecReg → Option Nat
  | [] => some 0
  | none :: _ => none
  | some x :: rest => (bitcastVecToInt nbits rest).map (fun r => x % 2 ^ nbits + 2 ^ nbits * r)

/-- Bitcast of an integer to a vector of `lanes` lanes of `nbits` bits, lane 0 from the low bits. -/
def bitcastIntToVec (nbits : Nat) : Nat → Nat → List Nat
  | 0, _ => []
  | lanes + 1, w => w % 2 ^ nbits :: bitcastIntToVec nbits lanes (w / 2 ^ nbits)

/-- Sign extension `b.sext(i8_ty, elem)` of an `i1`. -/
def sextI1ToI8 (elem : Nat) : Nat := if elem % 2 = 1 then 255 else 0

/-! ## Guards -/

/-- Conjunction of two optional guards (source lines 44-50). -/
def maybeAnd (a b : Option Bool) : Option Bool :=
  match a, b with
  | some x, some y => some (x && y)
  | some x, none => some x
  | none, b => b

/-- Whether a lane runs an instruction carrying the guard `g`: an absent guard
means unconditional execution. -/
def guardHolds (g : Option Bool) : Bool := g.getD true

/-- The map from dimension name to free-variable mask (`MapVector<StringAttr, int32_t>`). -/
abbrev FreeVarMasks := List (String × Nat)

/-- Lookup `freeVarMasks.lookup(name)` and `freeVarMasks[name]`: the default
value 0 for a name that is not a key. -/
def FreeVarMasks.get (m : FreeVarMasks) (name : String) : Nat := (m.lookup name).getD 0

/-- The identifiers of the running thread. -/
structure ThreadEnv where
  laneId : Nat
  warpId : Nat
  clusterCTAId : Nat
  deriving DecidableEq

/-- Redundant-thread predicate (source lines 52-82). -/
def emitRedundantThreadPredicate (freeVarMasks : FreeVarMasks) (env : ThreadEnv) : Option Bool :=
  let zero := i32_val 0
  let laneId := env.laneId
  let warpId := env.warpId
  let blockId := if freeVarMasks.get "block" = 0 then zero else env.clusterCTAId
  let dimNames := ["lane", "warp", "block"]
  let dimIds := [laneId, warpId, blockId]
  (List.zip dimNames dimIds).foldl
    (fun pred (d : String × Nat) =>
      let mask := freeVarMasks.get d.1
      if mask ≠ 0 then
        let dimPred := icmp_eq (and_ d.2 (i32_val mask)) zero
        maybeAnd pred (some dimPred)
      else pred)
    none

/-- Canonical index (source lines 84-86): `index & ~freeVarMask` on `unsigned`. -/
def getCanonicalIndex (index freeVarMask : Nat) : Nat :=
  toUnsigned index &&& notUnsigned freeVarMask

/-- Modelled from the spec: `isCanonicalIndex` is declared outside this file; an
index is canonical when it is its own canonical index `i & ~mask`. -/
def isCanonicalIndex (index freeVarMask : Nat) : Bool :=
  decide (getCanonicalIndex index freeVarMask = toUnsigned index)

/-! ## Vector width -/

/-- The method `LoadStoreConversionBase::getContiguity` (source lines 145-150):
`axisContiguity` is the answer of the axis analysis for the pointer. -/
def getContiguity (ptrIsTensor : Bool) (axisContiguity : Nat) : Nat :=
  if !ptrIsTensor then 1 else axisContiguity

/-- The method `LoadStoreConversionBase::getVectorSize` (source lines 152-162). -/
def getVectorSize (ptrIsTensor : Bool) (axisContiguity pointeeBitWidth : Nat) : Nat :=
  if !ptrIsTensor then 1
  else
    let contiguity := getContiguity ptrIsTensor axisContiguity
    min (128 / pointeeBitWidth) contiguity

/-- The vector width of Load and Store (source lines 208-216 and 437-454):
`getVectorSize`, then the minimum with the mask alignment when the op has a mask. -/
def vectorWidth (ptrIsTensor : Bool) (axisContiguity pointeeBitWidth : Nat)
    (maskAlignment : Option Nat) : Nat :=
  let vec := getVectorSize ptrIsTensor axisContiguity pointeeBitWidth
  match maskAlignment with
  | some maskAlign => min vec maskAlign
  | none => vec

/-- Following the spec's words (section 4.1), not the source: the bound
min(contiguity, maskAlignment, 128/bitwidth), the mask alignment counted as
unbounded when the op is unmasked. -/
def specWidthBound (contiguity : Nat) (maskAlignment : Option Nat) (bitwidth : Nat) : Nat :=
  match maskAlignment with
  | some a => min (min contiguity a) (128 / bitwidth)
  | none => min contiguity (128 / bitwidth)

/-- Following the spec's words (section 4.1), not the source: `w` is the largest
power of two that is at most `bound`. -/
def IsLargestPowerOfTwoLE (w bound : Nat) : Prop :=
  (∃ k, w = 2 ^ k) ∧ w ≤ bound ∧ ∀ k, 2 ^ k ≤ bound → 2 ^ k ≤ w

/-! ## Cache policy -/

inductive EvictionPolicy where
  | NORMAL | EVICT_FIRST | EVICT_LAST
  deriving DecidableEq

inductive CacheModifier where
  | NONE | CA | CG | WB | CS | WT | CV
  deriving DecidableEq

/-- The qualifier chain `.o(name, cond)` of the PTX builder: the qualifier is
appended when `cond` holds. -/
def ptxO (opts : List String) (name : String) (cond : Bool) : List String :=
  if cond then opts ++ [name] else opts

/-- The side instruction `createpolicy.fractional...b64 dst, 1.0`. -/
structure CachePolicyInstr where
  opts : List String
  bits : Nat
  fraction : String
  deriving DecidableEq

/-- The function `createCachePolicy` (source lines 105-137): the policy register, when one is made. -/
def createCachePolicy (opEvict : EvictionPolicy) (computeCapability : Int) :
    Option CachePolicyInstr :=
  let hasL2EvictPolicy :=
    decide (opEvict = EvictionPolicy.EVICT_FIRST) || decide (opEvict = EvictionPolicy.EVICT_LAST)
  let hardwareSupport := decide (computeCapability ≥ 80)
  if hasL2EvictPolicy && hardwareSupport then
    some { opts := ptxO (ptxO [] "L2::evict_first" (decide (opEvict = EvictionPolicy.EVICT_FIRST)))
                     "L2::evict_last" (decide (opEvict = EvictionPolicy.EVICT_LAST)),
           bits := 64, fraction := "1.0" }
  else none

/-! ## Word plan -/

/-- The packing of one vector group into machine words. -/
structure WordPlan where
  maxWordWidth : Nat
  totalWidth : Nat
  width : Nat
  nWords : Nat
  wordNElems : Nat
  deriving DecidableEq

/-- The word plan, computed by the same five lines in Load (279-283) and in Store
(482-486).  The products are kept unbounded: the widths reaching this point are at most
128 / bitwidth, far from the range of `unsigned` and `size_t`. -/
def wordPlan (valueElemNBits vec : Nat) : WordPlan :=
  let maxWordWidth := max 32 valueElemNBits
  let totalWidth := valueElemNBits * vec
  let width := min totalWidth maxWordWidth
  let nWords := max 1 (totalWidth / width)
  let wordNElems := width / valueElemNBits
  { maxWordWidth := maxWordWidth, totalWidth := totalWidth, width := width,
    nWords := nWords, wordNElems := wordNElems }

/-- The assertion `wordNElems * nWords * numVecs == numElems` (lines 285 and 487):
`numVecs` is an `int`, the product is computed in `size_t`. -/
def wordPlanAssertion (plan : WordPlan) (numVecs : Int) (numElems : Nat) : Bool :=
  decide ((plan.wordNElems * plan.nWords * toSizeT numVecs) % 2 ^ 64 = numElems % 2 ^ 64)

/-- The element width `valueElemNBits` of Load (source lines 254-255). -/
def LoadOpConversion.valueElemNBits (valueElemBitWidth : Nat) : Nat := max 8 valueElemBitWidth

/-- The element width `valueElemNBits` of Store (source lines 464-466): `dtsize * 8`. -/
def StoreOpConversion.valueElemNBits (valueElemBitWidth : Nat) : Nat :=
  max 1 (valueElemBitWidth / 8) * 8

/-- The move width `movWidth` of Load (source line 284). -/
def LoadOpConversion.movWidth (width : Nat) : Nat := if width < 16 then 16 else width

/-- The register constraint of a word of `width` bits. -/
def readConstraint (width : Nat) : String :=
  if width = 64 then "l" else if width = 32 then "r" else "c"

/-- The output constraint of a word of `width` bits. -/
def writeConstraint (width : Nat) : String :=
  if width = 64 then "=l" else if width = 32 then "=r" else "=c"

/-! ## Operands -/

/-- The mask operand of an op: the alignment the axis analysis reports for it
(`getMaskAlignment`) and its unpacked per-slot values. -/
structure MaskOperand where
  alignment : Nat
  elems : List Bool
  deriving DecidableEq

/-- The fill operand `other` of a load: its unpacked per-slot values and, when it
is a constant splat of an integer element type, the sign-extended splat value
(`constAttr.getSplatValue<APInt>().getSExtValue()`). -/
structure OtherOperand where
  elems : List Nat
  splatConstInt : Option Int
  deriving DecidableEq

/-- The remark `Warning: vectorization fails ...`. -/
structure Remark where
  vec : Nat
  vecOrig : Nat
  numElems : Nat
  maskValue : Int
  deriving DecidableEq

/-! ## Load -/

/-- What the lowering reads off a `triton::LoadOp` and its adaptor. -/
structure LoadOp where
  ptrIsTensor : Bool
  axisContiguity : Nat
  pointeeBitWidth : Nat
  numElems : Nat
  ptrElems : List Nat
  mask : Option MaskOperand
  other : Option OtherOperand
  valueElemBitWidth : Nat
  valueElemIsInteger : Bool
  freeVarMasks : FreeVarMasks
  cache : CacheModifier
  evict : EvictionPolicy
  isVolatile : Bool
  deriving DecidableEq

/-- The source operand of a fill move. -/
inductive MovOperand where
  | const (v : Int)
  | reg (v : Option Nat) (constraint : String)
  deriving DecidableEq

/-- The instruction `mov.u<movWidth> dst, src` that initialises destination word `dst`. -/
structure MovInstr where
  movWidth : Nat
  dst : Nat
  src : MovOperand
  deriving DecidableEq

/-- The emitted `ld.global` instruction with its fill moves. -/
structure LdInstr where
  opts : List String
  nWords : Nat
  width : Nat
  dstConstraint : String
  dstInit : Bool
  movs : List MovInstr
  addr : Nat
  inOff : Nat
  evictOpr : Option CachePolicyInstr
  pred : Option Bool
  deriving DecidableEq

/-- The immediate of the fill move for a constant splat (source lines 327-330). -/
def replicatedSplatVal (splatVal : Int) (movWidth valueElemNBits : Nat) : Option Int :=
  forStep movWidth valueElemNBits
    (fun s replicated => some (or64 replicated (shl64 splatVal s))) movWidth 0 0

/-- The vector `v` of fill values of word `ii` (source lines 312-322), before its bitcast. -/
def LoadOpConversion.fillVector (otherElems : List Nat) (vecStart ii size : Nat) : Option VecReg :=
  forLoop
    (fun s v => (otherElems[vecStart + ii * size + s]?).map (fun falseVal => insert_element v falseVal s))
    (undefVec size) size

/-- The source operand of a fill move (source lines 324-333). -/
def LoadOpConversion.fillOperand (otherIsSplatConstInt : Bool) (splatVal : Int) (v : Option Nat)
    (valueElemNBits width movWidth : Nat) : Option MovOperand :=
  if otherIsSplatConstInt then
    (replicatedSplatVal splatVal movWidth valueElemNBits).map MovOperand.const
  else some (MovOperand.reg v (readConstraint width))

/-- The fill moves of one group (source lines 306-337). -/
def LoadOpConversion.fillMoves (op : LoadOp) (other : OtherOperand) (valueElemNBits vecStart : Nat)
    (plan : WordPlan) (movWidth : Nat) : Option (List MovInstr) :=
  let otherIsSplatConstInt := op.valueElemIsInteger && other.splatConstInt.isSome
  let splatVal := other.splatConstInt.getD 0
  forLoop
    (fun ii movs =>
      let size := plan.width / valueElemNBits
      (LoadOpConversion.fillVector other.elems vecStart ii size).bind fun v =>
      let v := bitcastVecToInt valueElemNBits v
      (LoadOpConversion.fillOperand otherIsSplatConstInt splatVal v valueElemNBits plan.width
        movWidth).map fun opr =>
      movs ++ [{ movWidth := movWidth, dst := ii, src := opr }])
    [] plan.nWords

/-- The guard of the `ld` of the group at `vecStart` (source line 289). -/
def LoadOpConversion.pred (mask : Option MaskOperand) (vecStart : Nat) : Option (Option Bool) :=
  match mask with
  | some mask => (mask.elems[vecStart]?).map some
  | none => some none

/-- The qualifiers of the `ld` (source lines 347-356). -/
def LoadOpConversion.ldOpts (op : LoadOp) (l2PolicyReg : Option CachePolicyInstr) : List String :=
  ptxO (ptxO (ptxO (ptxO (ptxO (ptxO (ptxO [] "volatile" op.isVolatile) "global" true)
    "ca" (decide (op.cache = CacheModifier.CA)))
    "cg" (decide (op.cache = CacheModifier.CG)))
    "L1::evict_first" (decide (op.evict = EvictionPolicy.EVICT_FIRST)))
    "L1::evict_last" (decide (op.evict = EvictionPolicy.EVICT_LAST)))
    "L2::cache_hint" l2PolicyReg.isSome

/-- The `ld` instruction of one group (source lines 287-367). -/
def LoadOpConversion.ldInstr (op : LoadOp) (computeCapability : Int) (valueElemNBits vecStart : Nat)
    (plan : WordPlan) (movWidth : Nat) : Option LdInstr :=
  (LoadOpConversion.pred op.mask vecStart).bind fun pred =>
  let init := op.other.isNone
  (match op.other with
    | some other => LoadOpConversion.fillMoves op other valueElemNBits vecStart plan movWidth
    | none => some []).bind fun movs =>
  (op.ptrElems[vecStart]?).bind fun addr =>
  let l2PolicyReg := createCachePolicy op.evict computeCapability
  some { opts := LoadOpConversion.ldOpts op l2PolicyReg, nWords := plan.nWords,
         width := plan.width, dstConstraint := writeConstraint plan.width, dstInit := init,
         movs := movs, addr := addr, inOff := 0, evictOpr := l2PolicyReg, pred := pred }

/-- The vectors `rets` of the words returned by the `ld` (source lines 378-389);
`ret ii` is destination word `ii` of the launched instruction. -/
def LoadOpConversion.rets (ret : Nat → Nat) (valueElemNBits : Nat) (plan : WordPlan) :
    Option (List (List Nat)) :=
  let isStruct := decide (1 < plan.nWords)
  forLoop
    (fun ii rets =>
      let curr := if isStruct then ret ii else ret 0
      some (rets ++ [bitcastIntToVec valueElemNBits (plan.width / valueElemNBits) curr]))
    [] plan.nWords

/-- Unpacking of the words returned by the `ld` into elements (source lines 377-396). -/
def LoadOpConversion.unpack (ret : Nat → Nat) (valueElemNBits vec : Nat) (plan : WordPlan) :
    Option (List Nat) :=
  (LoadOpConversion.rets ret valueElemNBits plan).bind fun rets =>
  let tmp := plan.width / valueElemNBits
  forLoop
    (fun ii vals =>
      (rets[ii / tmp]?).bind fun word =>
      (word[ii % tmp]?).map fun loaded =>
      vals ++ [loaded])
    [] vec

/-- The state of the loop over vector groups of a load: the instructions emitted
so far, each with the start of its group, and `loadedVals`. -/
structure LoadState where
  emitted : List (Nat × LdInstr)
  loadedVals : List Nat
  deriving DecidableEq

/-- The copy of the canonical group into a redundant one (source lines 270-272). -/
def LoadOpConversion.copyCanonical (loadedVals : List Nat) (canonicalVecStart vec : Nat) :
    Option (List Nat) :=
  forLoop
    (fun iVec loadedVals =>
      (loadedVals[canonicalVecStart + iVec]?).map fun v => loadedVals ++ [v])
    loadedVals vec

/-- The instruction and the loaded values of a canonical group (source lines 276-396);
`launch instr ii` is word `ii` of what the launched `instr` returns. -/
def LoadOpConversion.canonicalGroup (op : LoadOp) (launch : LdInstr → Nat → Nat)
    (computeCapability : Int) (vec : Nat) (numVecs : Int) (vecStart : Nat) :
    Option (LdInstr × List Nat) :=
  let valueElemNBits := LoadOpConversion.valueElemNBits op.valueElemBitWidth
  let plan := wordPlan valueElemNBits vec
  let movWidth := LoadOpConversion.movWidth plan.width
  if !wordPlanAssertion plan numVecs op.numElems then none
  else
    (LoadOpConversion.ldInstr op computeCapability valueElemNBits vecStart plan movWidth).bind
      fun instr =>
    (LoadOpConversion.unpack (launch instr) valueElemNBits vec plan).map fun vals =>
    (instr, vals)

/-- One iteration of the loop over vector groups (source lines 266-397). -/
def LoadOpConversion.group (op : LoadOp) (launch : LdInstr → Nat → Nat) (computeCapability : Int)
    (vec : Nat) (numVecs : Int) (regMask : Nat) (vecStart : Nat) (st : LoadState) :
    Option LoadState :=
  let canonicalVecStart := getCanonicalIndex vecStart regMask
  if vecStart ≠ canonicalVecStart then
    (LoadOpConversion.copyCanonical st.loadedVals canonicalVecStart vec).map fun vals =>
    { emitted := st.emitted, loadedVals := vals }
  else
    (LoadOpConversion.canonicalGroup op launch computeCapability vec numVecs vecStart).map
      fun r =>
    { emitted := st.emitted ++ [(vecStart, r.1)], loadedVals := st.loadedVals ++ r.2 }

/-- The loop over vector groups of a load, for a given width and register mask. -/
def LoadOpConversion.groups (op : LoadOp) (launch : LdInstr → Nat → Nat) (computeCapability : Int)
    (vec regMask : Nat) : Option LoadState :=
  let numVecs := toInt32 (op.numElems / vec)
  forStep op.numElems vec (LoadOpConversion.group op launch computeCapability vec numVecs regMask)
    op.numElems 0 { emitted := [], loadedVals := [] }

/-- The remark of Load and Store when vectorization fails (source lines 218-224 and 456-462). -/
def vectorizationRemarks (vec vecOrig numElems : Nat) (mask : Option MaskOperand) : List Remark :=
  if vec = 1 ∧ numElems > 1 then
    [{ vec := vec, vecOrig := vecOrig, numElems := numElems,
       maskValue := match mask with
         | none => -1
         | some m => toInt32 m.alignment }]
  else []

/-- The outcome of lowering a load: remarks, emitted instructions, and the
per-slot values that replace the op. -/
structure LoadResult where
  remarks : List Remark
  emitted : List (Nat × LdInstr)
  result : List Nat
  deriving DecidableEq

/-- The method `LoadOpConversion::matchAndRewrite` (source lines 183-404). -/
def LoadOpConversion.matchAndRewrite (op : LoadOp) (launch : LdInstr → Nat → Nat)
    (computeCapability : Int) : Option LoadResult :=
  let vecOrig := getVectorSize op.ptrIsTensor op.axisContiguity op.pointeeBitWidth
  let vec := vectorWidth op.ptrIsTensor op.axisContiguity op.pointeeBitWidth
    (op.mask.map (fun m => m.alignment))
  let remarks := vectorizationRemarks vec vecOrig op.numElems op.mask
  if op.ptrElems.length ≠ op.numElems then none
  else if (match op.mask with
      | some m => decide (m.elems.length ≠ op.numElems)
      | none => false) then none
  else if vec = 0 then none
  else
    let regMask := toUnsigned (op.freeVarMasks.get "reg")
    (LoadOpConversion.groups op launch computeCapability vec regMask).map fun st =>
    { remarks := remarks, emitted := st.emitted, result := st.loadedVals }

/-! ## Store -/

/-- What the lowering reads off a `triton::StoreOp` and its adaptor. -/
structure StoreOp where
  ptrIsTensor : Bool
  axisContiguity : Nat
  pointeeBitWidth : Nat
  elemsPerThread : Nat
  ptrElems : List Nat
  valueElems : List Nat
  valueIsI1 : Bool
  mask : Option MaskOperand
  valueElemBitWidth : Nat
  freeVarMasks : FreeVarMasks
  cache : CacheModifier
  evict : EvictionPolicy
  deriving DecidableEq

/-- The emitted `st.global` instruction. -/
structure StInstr where
  opts : List String
  nWords : Nat
  width : Nat
  addr : Nat
  inOff : Nat
  asmArgs : List (Option Nat × String)
  evictOpr : Option CachePolicyInstr
  pred : Option Bool
  deriving DecidableEq

/-- The vector `llWord` of word `wordIdx` (source lines 498-509), before its bitcast. -/
def StoreOpConversion.packWord (valueElems : List Nat) (valueIsI1 : Bool)
    (vecStart wordIdx wordNElems : Nat) : Option VecReg :=
  forLoop
    (fun elemIdx llWord =>
      let elemOffset := vecStart + wordIdx * wordNElems + elemIdx
      if ¬ elemOffset < valueElems.length then none
      else
        (valueElems[elemOffset]?).map fun elem =>
        let elem := if valueIsI1 then sextI1ToI8 elem else elem
        insert_element llWord elem elemIdx)
    (undefVec wordNElems) wordNElems

/-- Packing of the elements of one group into words (source lines 495-514). -/
def StoreOpConversion.pack (valueElems : List Nat) (valueIsI1 : Bool)
    (valueElemNBits vecStart : Nat) (plan : WordPlan) : Option (List (Option Nat × String)) :=
  forLoop
    (fun wordIdx asmArgs =>
      (StoreOpConversion.packWord valueElems valueIsI1 vecStart wordIdx plan.wordNElems).map
        fun llWord =>
      let llWord := bitcastVecToInt valueElemNBits llWord
      let constraint := readConstraint plan.width
      asmArgs ++ [(llWord, constraint)])
    [] plan.nWords

/-- The guard of the `st` of the group at `vecStart` (source lines 520-524). -/
def StoreOpConversion.pred (threadPred : Option Bool) (mask : Option MaskOperand)
    (vecStart : Nat) : Option (Option Bool) :=
  match mask with
  | some mask => (mask.elems[vecStart]?).map fun m => maybeAnd threadPred (some m)
  | none => some threadPred

/-- The qualifiers of the `st` (source lines 533-544). -/
def StoreOpConversion.stOpts (op : StoreOp) (l2PolicyReg : Option CachePolicyInstr) :
    List String :=
  ptxO (ptxO (ptxO (ptxO (ptxO (ptxO (ptxO (ptxO [] "global" true)
    "wb" (decide (op.cache = CacheModifier.WB)))
    "cg" (decide (op.cache = CacheModifier.CG)))
    "cs" (decide (op.cache = CacheModifier.CS)))
    "wt" (decide (op.cache = CacheModifier.WT)))
    "L1::evict_first" (decide (op.evict = EvictionPolicy.EVICT_FIRST)))
    "L1::evict_last" (decide (op.evict = EvictionPolicy.EVICT_LAST)))
    "L2::cache_hint" l2PolicyReg.isSome

/-- The `st` instruction of a canonical group (source lines 479-558). -/
def StoreOpConversion.stInstr (op : StoreOp) (threadPred : Option Bool) (computeCapability : Int)
    (vec : Nat) (numVecs : Int) (vecStart : Nat) : Option StInstr :=
  let valueElemNBits := StoreOpConversion.valueElemNBits op.valueElemBitWidth
  let plan := wordPlan valueElemNBits vec
  if !wordPlanAssertion plan numVecs op.elemsPerThread then none
  else
    (StoreOpConversion.pack op.valueElems op.valueIsI1 valueElemNBits vecStart plan).bind
      fun asmArgs =>
    (StoreOpConversion.pred threadPred op.mask vecStart).bind fun pred =>
    (op.ptrElems[vecStart]?).bind fun addr =>
    let l2PolicyReg := createCachePolicy op.evict computeCapability
    some { opts := StoreOpConversion.stOpts op l2PolicyReg, nWords := plan.nWords,
           width := plan.width, addr := addr, inOff := 0, asmArgs := asmArgs,
           evictOpr := l2PolicyReg, pred := pred }

/-- One iteration of the loop over vector groups of a store (source lines 474-559). -/
def StoreOpConversion.group (op : StoreOp) (threadPred : Option Bool) (computeCapability : Int)
    (vec : Nat) (numVecs : Int) (regMask : Nat) (vecStart : Nat) (emitted : List (Nat × StInstr)) :
    Option (List (Nat × StInstr)) :=
  if !isCanonicalIndex vecStart regMask then some emitted
  else
    (StoreOpConversion.stInstr op threadPred computeCapability vec numVecs vecStart).map
      fun instr => emitted ++ [(vecStart, instr)]

/-- The loop over vector groups of a store, for a given width, thread predicate and register mask. -/
def StoreOpConversion.groups (op : StoreOp) (threadPred : Option Bool) (computeCapability : Int)
    (vec regMask : Nat) : Option (List (Nat × StInstr)) :=
  let numVecs := toInt32 (op.elemsPerThread / vec)
  forStep op.elemsPerThread vec
    (StoreOpConversion.group op threadPred computeCapability vec numVecs regMask)
    op.elemsPerThread 0 []

/-- The outcome of lowering a store: remarks and emitted instructions (the op is erased). -/
structure StoreResult where
  remarks : List Remark
  emitted : List (Nat × StInstr)
  deriving DecidableEq

/-- The method `StoreOpConversion::matchAndRewrite` (source lines 419-562). -/
def StoreOpConversion.matchAndRewrite (op : StoreOp) (env : ThreadEnv) (computeCapability : Int) :
    Option StoreResult :=
  let vecOrig := getVectorSize op.ptrIsTensor op.axisContiguity op.pointeeBitWidth
  if op.ptrElems.length ≠ op.valueElems.length then none
  else if (match op.mask with
      | some m => decide (op.valueElems.length ≠ m.elems.length)
      | none => false) then none
  else
    let vec := vectorWidth op.ptrIsTensor op.axisContiguity op.pointeeBitWidth
      (op.mask.map (fun m => m.alignment))
    let remarks := vectorizationRemarks vec vecOrig op.elemsPerThread op.mask
    let threadPred := emitRedundantThreadPredicate op.freeVarMasks env
    let regMask := toUnsigned (op.freeVarMasks.get "reg")
    if vec = 0 then none
    else
      (StoreOpConversion.groups op threadPred computeCapability vec regMask).map fun emitted =>
      { remarks := remarks, emitted := emitted }

/-! ## Example operations -/

/-- A masked store of four 32-bit elements per lane, contiguity 2, data duplicated
across pairs of lanes. -/
def exampleStoreOp : StoreOp :=
  { ptrIsTensor := true, axisContiguity := 2, pointeeBitWidth := 32, elemsPerThread := 4,
    ptrElems := [1000, 1004, 2000, 2004], valueElems := [11, 22, 33, 44], valueIsI1 := false,
    mask := some { alignment := 2, elems := [true, true, false, false] },
    valueElemBitWidth := 32, freeVarMasks := [("register", 0), ("lane", 1), ("warp", 0), ("block", 0)],
    cache := CacheModifier.NONE, evict := EvictionPolicy.NORMAL }

/-- An unmasked load of four 32-bit elements per lane, contiguity 2, data duplicated
across pairs of lanes. -/
def exampleLoadOp : LoadOp :=
  { ptrIsTensor := true, axisContiguity := 2, pointeeBitWidth := 32, numElems := 4,
    ptrElems := [1000, 1004, 2000, 2004], mask := none, other := none,
    valueElemBitWidth := 32, valueElemIsInteger := true,
    freeVarMasks := [("register", 0), ("lane", 1), ("warp", 0), ("block", 0)],
    cache := CacheModifier.NONE, evict := EvictionPolicy.NORMAL, isVolatile := false }

/-- A masked load of four 8-bit integers per lane, contiguity 4, whose fill value is
the constant splat -2 (bit pattern 0xFE in every slot). -/
def exampleSplatLoadOp : LoadOp :=
  { ptrIsTensor := true, axisContiguity := 4, pointeeBitWidth := 8, numElems := 4,
    ptrElems := [1000, 1001, 1002, 1003],
    mask := some { alignment := 4, elems := [false, false, false, false] },
    other := some { elems := [254, 254, 254, 254], splatConstInt := some (-2) },
    valueElemBitWidth := 8, valueElemIsInteger := true,
    freeVarMasks := [("register", 0), ("lane", 0), ("warp", 0), ("block", 0)],
    cache := CacheModifier.NONE, evict := EvictionPolicy.NORMAL, isVolatile := false }

/-- The load of the spec's scenario: 256 32-bit integers per lane, contiguity 4, no mask. -/
def scenarioLoadOp : LoadOp :=
  { ptrIsTensor := true, axisContiguity := 4, pointeeBitWidth := 32, numElems := 256,
    ptrElems := List.replicate 256 0, mask := none, other := none,
    valueElemBitWidth := 32, valueElemIsInteger := true,
    freeVarMasks := [("register", 0), ("lane", 0), ("warp", 0), ("block", 0)],
    cache := CacheModifier.NONE, evict := EvictionPolicy.NORMAL, isVolatile := false }

/-- A store of 256 32-bit integers per lane, contiguity 4, no mask. -/
def scenarioStoreOp : StoreOp :=
  { ptrIsTensor := true, axisContiguity := 4, pointeeBitWidth := 32, elemsPerThread := 256,
    ptrElems := List.replicate 256 0, valueElems := List.replicate 256 7, valueIsI1 := false,
    mask := none, valueElemBitWidth := 32,
    freeVarMasks := [("register", 0), ("lane", 0), ("warp", 0), ("block", 0)],
    cache := CacheModifier.NONE, evict := EvictionPolicy.NORMAL }

/-! ## Reference notions -/

/-- The field of `nbits` bits at lane `lane` of the word `w`. -/
def laneOfWord (nbits w lane : Nat) : Nat := w / 2 ^ (nbits * lane) % 2 ^ nbits

/-- The integer whose consecutive `nbits`-bit fields, from the low bits up, are the
elements of the list. -/
def wordOfElems (nbits : Nat) : List Nat → Nat
  | [] => 0
  | x :: rest => x % 2 ^ nbits + 2 ^ nbits * wordOfElems nbits rest

/-- Following the spec's words (section 4.4), not the source: the bit-replicated
pattern of `v`, that is `copies` consecutive copies of the low `n` bits of `v`. -/
def specReplicatedPattern (v : Int) (n : Nat) : Nat → Nat
  | 0 => 0
  | copies + 1 => toU64 v % 2 ^ n + 2 ^ n * specReplicatedPattern v n copies

/-- The starts `0, vec, 2 vec, ...` of the first `count` vector groups. -/
def vectorStarts (vec count : Nat) : List Nat := (List.range count).map (fun j => j * vec)

/-- The invariant of the loop over vector groups of a load, after `j` groups: one
instruction for each canonical start so far, `j * vec` loaded values, and the values of
every group equal to those of its canonical group. -/
def LoadLoopInvariant (vec regMask j : Nat) (st : LoadState) : Prop :=
  st.emitted.map Prod.fst = (vectorStarts vec j).filter (fun s => decide (s &&& regMask = 0)) ∧
  st.loadedVals.length = j * vec ∧
  ∀ i, i < j → ∀ e, e < vec →
    st.loadedVals[i * vec + e]? = st.loadedVals[getCanonicalIndex (i * vec) regMask + e]?

/-- The invariant of the loop over vector groups of a store, after `j` groups. -/
def StoreLoopInvariant (vec regMask j : Nat) (emitted : List (Nat × StInstr)) : Prop :=
  emitted.map Prod.fst = (vectorStarts vec j).filter (fun s => decide (s &&& regMask = 0))

/-! ## Atomics: types -/

/-- The element types the lowering tells apart; `f8` stands for any 8-bit float and
`ptr` for a type that is neither integer nor float. -/
inductive ElemType where
  | int (width : Nat)
  | f8
  | f16
  | bf16
  | f32
  | f64
  | ptr
  deriving DecidableEq

/-- The query `Type::isIntOrFloat`. -/
def ElemType.isIntOrFloat : ElemType → Bool
  | ElemType.ptr => false
  | _ => true

/-- The query `Type::getIntOrFloatBitWidth`; it asserts on a type that is neither. -/
def ElemType.getIntOrFloatBitWidth : ElemType → Option Nat
  | ElemType.int width => some width
  | ElemType.f8 => some 8
  | ElemType.f16 => some 16
  | ElemType.bf16 => some 16
  | ElemType.f32 => some 32
  | ElemType.f64 => some 64
  | ElemType.ptr => none

/-- The query `Type::isF16`. -/
def ElemType.isF16 (t : ElemType) : Bool := decide (t = ElemType.f16)

/-- The query `Type::isBF16`. -/
def ElemType.isBF16 (t : ElemType) : Bool := decide (t = ElemType.bf16)

/-- The query `Type::isF32`. -/
def ElemType.isF32 (t : ElemType) : Bool := decide (t = ElemType.f32)

/-- The enumeration `RMWOp`; `other` stands for any value outside the ten named
kinds, which the `switch` of the lowering sends to `default`. -/
inductive RMWOp where
  | AND | OR | XOR | ADD | FADD | MAX | MIN | UMAX | UMIN | XCHG
  | other (raw : Nat)
  deriving DecidableEq

/-- The enumeration `MemSemantic`. -/
inductive MemSemantic where
  | RELAXED | ACQUIRE | RELEASE | ACQUIRE_RELEASE
  deriving DecidableEq

/-- The enumeration `MemSyncScope`; `other` stands for any value outside the three
named scopes. -/
inductive MemSyncScope where
  | GPU | CTA | SYSTEM
  | other (raw : Nat)
  deriving DecidableEq

/-- The attribute of an `arith.constant`. -/
inductive ConstantAttr where
  | float (isZero : Bool)
  | integer (isZero : Bool)
  | other
  deriving DecidableEq

/-- The operation that defines a value, as far as the lowering looks at it. -/
inductive DefiningOp where
  | constant (value : ConstantAttr)
  | other
  deriving DecidableEq

/-- What the lowering reads off the module and the target. -/
structure ModuleInfo where
  numCTAs : Int
  computeCapability : Int
  supportVectorizedAtomics : Bool
  deriving DecidableEq

/-- Modelled from the spec: `atomicNeedsSharedMemory` is declared outside this file; a
result needs publication through shared memory when it is a scalar that is used. -/
def atomicNeedsSharedMemory (isTensor resultUsed : Bool) : Bool := !isTensor && resultUsed

/-- The function `getRegisterSizeCode` (source lines 88-103); unreachable for other sizes. -/
def getRegisterSizeCode (size : Nat) (is_float : Bool) : Option String :=
  if size = 1 then some "b"
  else if size = 16 then some "h"
  else if size = 32 then some (if is_float then "f" else "r")
  else if size = 64 then some (if is_float then "d" else "l")
  else if size = 128 then some "q"
  else none

/-! ## Atomic compare-and-swap: width -/

/-- What the lowering reads off a `triton::AtomicCASOp` and its adaptor.  The pointer
and the result have the same shape, so one flag says whether they are tensors. -/
structure AtomicCASOp where
  isTensor : Bool
  axisContiguity : Nat
  pointeeBitWidth : Nat
  valueElemTy : ElemType
  elemsPerThread : Nat
  ptrElements : List Nat
  cmpElements : List Nat
  valElements : List Nat
  sem : MemSemantic
  scope : MemSyncScope
  resultUsed : Bool
  freeVarMasks : FreeVarMasks
  deriving DecidableEq

/-- The vector width of AtomicCAS (source lines 614-621). -/
def AtomicCASOpConversion.vectorSize (op : AtomicCASOp) : Nat :=
  let vec := getVectorSize op.isTensor op.axisContiguity op.pointeeBitWidth
  if op.isTensor then min vec (if op.valueElemTy.isF16 then 2 else 1) else vec

/-! ## Atomic read-modify-write: width, promotion, mnemonic -/

/-- What the lowering reads off a `triton::AtomicRMWOp` and its adaptor.  The pointer,
the value and the result have the same shape, so one flag says whether they are tensors. -/
structure AtomicRMWOp where
  isTensor : Bool
  axisContiguity : Nat
  pointeeBitWidth : Nat
  valueElemTy : ElemType
  elemsPerThread : Nat
  numElements : Nat
  ptrElements : List Nat
  valElements : List Nat
  mask : Option MaskOperand
  kind : RMWOp
  sem : MemSemantic
  scope : MemSyncScope
  valDefiningOp : Option DefiningOp
  resultUsed : Bool
  freeVarMasks : FreeVarMasks
  deriving DecidableEq

/-- The method `AtomicRMWOpConversion::supportsVectorized` (source lines 725-735). -/
def AtomicRMWOpConversion.supportsVectorized (supportVectorizedAtomics : Bool) (opType : RMWOp)
    (elementType : ElemType) : Bool :=
  if !supportVectorizedAtomics then false
  else decide (opType = RMWOp.FADD) &&
    (elementType.isF16 || elementType.isBF16 || elementType.isF32)

/-- The widths computed for an AtomicRMW. -/
structure RmwWidths where
  vec : Nat
  vecOrig : Nat
  numElems : Nat
  packed : Nat
  deriving DecidableEq

/-- The widths of AtomicRMW (source lines 812-836). -/
def AtomicRMWOpConversion.widths (op : AtomicRMWOp) (supportVectorizedAtomics : Bool) :
    RmwWidths :=
  if op.isTensor then
    let vec := vectorWidth op.isTensor op.axisContiguity op.pointeeBitWidth
      (op.mask.map (fun m => m.alignment))
    let vecOrig := vec
    if !AtomicRMWOpConversion.supportsVectorized supportVectorizedAtomics op.kind op.valueElemTy
    then
      { vec := 1, vecOrig := vecOrig, numElems := op.numElements,
        packed := min vecOrig (if op.valueElemTy.isF16 then 2 else 1) }
    else { vec := vec, vecOrig := vecOrig, numElems := op.numElements, packed := 1 }
  else { vec := 1, vecOrig := 1, numElems := 1, packed := 1 }

/-- The assertion `packed == 1 || vec == 1` (source line 837). -/
def AtomicRMWOpConversion.widthAssertion (w : RmwWidths) : Bool :=
  decide (w.packed = 1) || decide (w.vec = 1)

/-- The toggle `disableLDAcquireLowering` (source line 40). -/
def disableLDAcquireLowering : Bool := false

/-- The method `AtomicRMWOpConversion::isPromotableToNVPTXLD` (source lines 737-777). -/
def AtomicRMWOpConversion.isPromotableToNVPTXLD (op : AtomicRMWOp) : Bool :=
  if disableLDAcquireLowering then false
  else if !op.valueElemTy.isIntOrFloat then false
  else if op.sem ≠ MemSemantic.ACQUIRE ∧ op.sem ≠ MemSemantic.RELAXED then false
  else if op.scope ≠ MemSyncScope.CTA ∧ op.scope ≠ MemSyncScope.GPU ∧
      op.scope ≠ MemSyncScope.SYSTEM then false
  else if op.kind ≠ RMWOp.ADD ∧ op.kind ≠ RMWOp.FADD then false
  else if op.isTensor then false
  else
    match op.valDefiningOp with
    | none => false
    | some DefiningOp.other => false
    | some (DefiningOp.constant value) =>
      match value with
      | ConstantAttr.other => false
      | ConstantAttr.float isZero => if !isZero then false else true
      | ConstantAttr.integer isZero => if !isZero then false else true

/-- The membership test `ScopeMap.count(op.getScope())` (source lines 853-860). -/
def AtomicRMWOpConversion.scopeMapCount (scope : MemSyncScope) : Bool :=
  decide (scope = MemSyncScope.CTA) || decide (scope = MemSyncScope.GPU) ||
    decide (scope = MemSyncScope.SYSTEM)

/-- The flag `doPTXLDPromotion` (source lines 859-860). -/
def AtomicRMWOpConversion.doPTXLDPromotion (op : AtomicRMWOp) (vec packed : Nat) : Bool :=
  AtomicRMWOpConversion.isPromotableToNVPTXLD op && decide (vec = 1) && decide (packed = 1) &&
    AtomicRMWOpConversion.scopeMapCount op.scope

/-- The mnemonic and the type suffix of the native atomic (source lines 1036-1076), `none`
for the `default` case; `stringifyRMWOp` is the generated name of a kind. -/
def AtomicRMWOpConversion.mnemonic (stringifyRMWOp : RMWOp → String) (kind : RMWOp)
    (valueElemNBits : Nat) (isBF16 : Bool) (packed : Nat) : Option (String × String) :=
  let rmwOp := stringifyRMWOp kind
  let sBits := toString valueElemNBits
  match kind with
  | RMWOp.AND => some (rmwOp, "b" ++ sBits)
  | RMWOp.OR => some (rmwOp, "b" ++ sBits)
  | RMWOp.XOR => some (rmwOp, "b" ++ sBits)
  | RMWOp.ADD => some (rmwOp, "u" ++ sBits)
  | RMWOp.FADD =>
    some ("add" ++ (if valueElemNBits = 16 then ".noftz" else ""),
      (if isBF16 then "bf" else "f") ++ sBits ++
        (if packed = 2 ∧ valueElemNBits = 16 then "x2" else ""))
  | RMWOp.MAX => some (rmwOp, "s" ++ sBits)
  | RMWOp.MIN => some (rmwOp, "s" ++ sBits)
  | RMWOp.UMAX => some ("max", "u" ++ sBits)
  | RMWOp.UMIN => some ("min", "u" ++ sBits)
  | RMWOp.XCHG => some (rmwOp, "b" ++ sBits)
  | RMWOp.other _ => none

/-! ## Direct-addressed async copy: width -/

/-- The width `maxVec` of the async copy (source lines 1209-1214); `axisContiguity` is
the answer of the axis analysis for the source pointers. -/
def AsyncCopyGlobalToLocalOpConversion.maxVec (srcIsTensor : Bool) (axisContiguity : Nat)
    (maskAlignment : Option Nat) (bitWidth : Nat) : Nat :=
  let maxVec := getContiguity srcIsTensor axisContiguity
  let maxVec := match maskAlignment with
    | some a => min maxVec a
    | none => maxVec
  min maxVec (128 / bitWidth)

/-- The byte count `vecBytes` (source line 1216), an `unsigned` product converted to `int`. -/
def AsyncCopyGlobalToLocalOpConversion.vecBytes (maxVec bitWidth : Nat) : Int :=
  toInt32 (toUnsigned (maxVec * bitWidth) / 8)

/-- The width check of the async copy (source lines 1209-1222): the error of a transfer
below 4 bytes, a crash on the assertion, or the width and byte count that are used. -/
def AsyncCopyGlobalToLocalOpConversion.checkWidth (srcIsTensor : Bool) (axisContiguity : Nat)
    (maskAlignment : Option Nat) (bitWidth : Nat) : Option (Except String (Nat × Int)) :=
  if bitWidth = 0 then none
  else
    let maxVec := AsyncCopyGlobalToLocalOpConversion.maxVec srcIsTensor axisContiguity
      maskAlignment bitWidth
    let vecBytes := AsyncCopyGlobalToLocalOpConversion.vecBytes maxVec bitWidth
    if vecBytes < 4 then
      some (Except.error ("cp.async does not support transfers smaller than " ++
        "4 bytes; calculated this as " ++ toString vecBytes ++ " bytes"))
    else if ¬ (vecBytes = 16 ∨ vecBytes = 8 ∨ vecBytes = 4) then none
    else some (Except.ok (maxVec, vecBytes))

/-! ## Atomics: emitted operations -/

/-- The outcome of one iteration of a loop whose body may `return`: go on with a new
state, or return a result. -/
inductive LoopStep (σ ρ : Type) where
  | next (s : σ)
  | done (r : ρ)

/-- The loop `for (i = start; i < stop; i += step)` whose body may `return`, run with
fuel: `none` when an iteration crashes or the fuel
runs out, `done r` when an iteration returns `r`, `next s` when the loop runs to its end. -/
def forStepReturn {σ ρ : Type} (stop step : Nat) (body : Nat → σ → Option (LoopStep σ ρ)) :
    Nat → Nat → σ → Option (LoopStep σ ρ)
  | 0, i, s => if i < stop then none else some (LoopStep.next s)
  | fuel + 1, i, s =>
    if i < stop then
      match body i s with
      | none => none
      | some (LoopStep.done r) => some (LoopStep.done r)
      | some (LoopStep.next t) => forStepReturn stop step body fuel (i + step) t
    else some (LoopStep.next s)

/-- A value handed to an instruction or carried between blocks: a scalar, a vector
register, or a list of scalars. -/
inductive AsmValue where
  | scalar (v : Nat)
  | vector (v : VecReg)
  | list (vs : List Nat)
  deriving DecidableEq

/-- The instruction `atom.global.<sem>.<scope>.cas.<sTy>`. -/
structure AtomCasInstr where
  sem : MemSemantic
  scope : MemSyncScope
  sTy : String
  tyId : String
  ptr : Nat
  cmp : Nat
  val : AsmValue
  deriving DecidableEq

/-- The instruction `atom.global.<scope>.<sem>.<rmwOp>[.v<vec>].<sTy>`. -/
structure AtomRmwInstr where
  scope : MemSyncScope
  sem : MemSemantic
  rmwOp : String
  vec : Nat
  sTy : String
  tyId : String
  ptr : Nat
  val : AsmValue
  deriving DecidableEq

/-- What the lowering of an atomic does to the IR, in order. -/
inductive AtomicAction where
  | atomCas (instr : AtomCasInstr) (pred : Option Bool)
  | atomRmw (instr : AtomRmwInstr) (pred : Option Bool)
  | loadAcquire (ptr : Nat) (pred : Option Bool) (sem : MemSemantic) (scope : MemSyncScope)
  | condBr (cond : Bool) (falseArg : Option AsmValue)
  | llvmAtomicRmw (kind : RMWOp) (ptr val : Nat) (sem : MemSemantic) (syncScope : String)
  | br (arg : AsmValue)
  | stShared (sTy : String) (val : Nat) (pred : Option Bool)
  | storeShared (val : Nat) (pred : Option Bool)
  | store (val : AsmValue)
  | barrier
  | clusterArrive
  | clusterWait
  | load (result : Nat)
  | eraseOp
  | replaceOp (vals : List (Option Nat))
  deriving DecidableEq

/-- The remark `Warning: vectorization fails ...` of an atomic. -/
structure AtomicRemark where
  vec : Nat
  packed : Nat
  vecOrig : Nat
  numElems : Nat
  deriving DecidableEq

/-- The outcome of lowering an atomic: remarks, the actions in order, and whether the
pattern reports success. -/
structure AtomicLowering where
  remarks : List AtomicRemark
  trace : List AtomicAction
  succeeded : Bool
  deriving DecidableEq

/-- The run-time answers the lowering cannot know: what each instruction returns. -/
structure AtomicOracle where
  casResult : AtomCasInstr → Nat → Nat
  rmwResult : AtomRmwInstr → Nat → Nat
  loadAcquireResult : Nat → Nat
  llvmAtomicResult : RMWOp → Nat → Nat → Nat
  readBack : Nat

/-- The function `createBarrier` (source lines 567-576). -/
def createBarrier (numCTAs : Int) : List AtomicAction :=
  if numCTAs = 1 then [AtomicAction.barrier]
  else [AtomicAction.clusterArrive, AtomicAction.clusterWait]

/-- The state of the loop of an atomic: the actions so far and `resultVals`, whose
entries start as null values. -/
structure AtomicState where
  trace : List AtomicAction
  resultVals : List (Option Nat)
  deriving DecidableEq

/-- The assignment `resultVals[idx] = v`. -/
def assignResult (resultVals : List (Option Nat)) (idx : Nat) (v : Option Nat) :
    Option (List (Option Nat)) :=
  if idx < resultVals.length then some (resultVals.set idx v) else none

/-- The copy of the canonical results into a redundant group (source lines 640-642 and
866-868). -/
def copyCanonicalResults (resultVals : List (Option Nat)) (i canonicalStart width : Nat) :
    Option (List (Option Nat)) :=
  forLoop
    (fun iVec resultVals =>
      (resultVals[canonicalStart + iVec]?).bind fun v => assignResult resultVals (i + iVec) v)
    resultVals width

/-- The assignments `resultVals[i + ii] = component ii` for `ii < count`. -/
def assignComponents (resultVals : List (Option Nat)) (i count : Nat)
    (component : Nat → Option Nat) : Option (List (Option Nat)) :=
  forLoop (fun ii resultVals => assignResult resultVals (i + ii) (component ii)) resultVals count

/-! ## Atomic compare-and-swap -/

/-- The vector `casVal` built by the loop at source lines 646-651. -/
def AtomicCASOpConversion.casValVector (valElements : List Nat) (i vec : Nat) : Option VecReg :=
  forLoop (fun ii casVal => (valElements[i + ii]?).map fun v => insert_element casVal v ii)
    (undefVec vec) vec

/-- The compare-and-swap instruction of the group at `i` (source lines 646-671). -/
def AtomicCASOpConversion.casInstr (op : AtomicCASOp) (valueElemNBits vec i : Nat) :
    Option AtomCasInstr :=
  (AtomicCASOpConversion.casValVector op.valElements i vec).bind fun _casVal =>
  (op.ptrElements[i]?).bind fun casPtr =>
  (op.cmpElements[i]?).bind fun casCmp =>
  (op.valElements[i]?).map fun casVal =>
  let tyId := if valueElemNBits * vec = 64 then "l"
    else if valueElemNBits * vec = 32 then "r" else "h"
  { sem := op.sem, scope := op.scope, sTy := "b" ++ toString valueElemNBits, tyId := tyId,
    ptr := casPtr, cmp := casCmp, val := AsmValue.scalar casVal }

/-- One iteration of the loop of AtomicCAS (source lines 636-703). -/
def AtomicCASOpConversion.group (op : AtomicCASOp) (oracle : AtomicOracle) (numCTAs : Int)
    (remarks : List AtomicRemark) (threadPred : Option Bool) (valueElemNBits vec regMask : Nat)
    (i : Nat) (st : AtomicState) : Option (LoopStep AtomicState AtomicLowering) :=
  let canonicalVecStart := getCanonicalIndex i regMask
  if canonicalVecStart ≠ i then
    (copyCanonicalResults st.resultVals i canonicalVecStart vec).map fun vals =>
    LoopStep.next { trace := st.trace, resultVals := vals }
  else
    (AtomicCASOpConversion.casInstr op valueElemNBits vec i).bind fun instr =>
    let trace := st.trace ++ [AtomicAction.atomCas instr threadPred]
    if op.isTensor then
      (assignComponents st.resultVals i vec
        (fun ii => some (if vec = 1 then oracle.casResult instr 0
          else oracle.casResult instr ii))).map fun vals =>
      LoopStep.next { trace := trace, resultVals := vals }
    else
      let old := oracle.casResult instr 0
      if !atomicNeedsSharedMemory op.isTensor op.resultUsed then
        some (LoopStep.done
          { remarks := remarks, trace := trace ++ [AtomicAction.eraseOp], succeeded := true })
      else
        let ret := oracle.readBack
        some (LoopStep.next
          { trace := trace ++ [AtomicAction.stShared ("b" ++ toString valueElemNBits) old threadPred]
              ++ createBarrier numCTAs ++ [AtomicAction.load ret, AtomicAction.replaceOp [some ret]],
            resultVals := st.resultVals })

/-- The method `AtomicCASOpConversion::matchAndRewrite` (source lines 588-712). -/
def AtomicCASOpConversion.matchAndRewrite (op : AtomicCASOp) (env : ThreadEnv)
    (oracle : AtomicOracle) (numCTAs : Int) : Option AtomicLowering :=
  (op.valueElemTy.getIntOrFloatBitWidth).bind fun valueElemNBits =>
  let vecOrig := getVectorSize op.isTensor op.axisContiguity op.pointeeBitWidth
  let vec := AtomicCASOpConversion.vectorSize op
  let remarks : List AtomicRemark :=
    if vec = 1 ∧ op.elemsPerThread > 1 then
      [{ vec := vec, packed := 1, vecOrig := vecOrig, numElems := op.elemsPerThread }]
    else []
  let threadPred := emitRedundantThreadPredicate op.freeVarMasks env
  let regMask := toUnsigned (op.freeVarMasks.get "reg")
  match forStepReturn op.elemsPerThread vec
      (AtomicCASOpConversion.group op oracle numCTAs remarks threadPred valueElemNBits vec regMask)
      op.elemsPerThread 0
      { trace := [], resultVals := List.replicate op.elemsPerThread none } with
  | none => none
  | some (LoopStep.done r) => some r
  | some (LoopStep.next st) =>
    some { remarks := remarks,
           trace := if op.isTensor then st.trace ++ [AtomicAction.replaceOp st.resultVals]
             else st.trace,
           succeeded := true }

/-! ## Atomic read-modify-write -/

/-- Modelled from the spec: `matchAtomicOp` is declared outside this file; it knows the
kinds of the table of section 4.6 and gives no answer for any other. -/
def matchAtomicOp (kind : RMWOp) : Option RMWOp :=
  match kind with
  | RMWOp.other _ => none
  | k => some k

/-- The component `ii` of a value made of several: an element of a vector or of a list. -/
def AsmValue.component : AsmValue → Nat → Option Nat
  | AsmValue.scalar _, _ => none
  | AsmValue.vector v, ii => (v[ii]?).join
  | AsmValue.list vs, ii => vs[ii]?

/-- A value read as one scalar. -/
def AsmValue.asScalar : AsmValue → Option Nat
  | AsmValue.scalar v => some v
  | _ => none

/-- The guard `pred` of the group at `i` (source lines 873-874). -/
def AtomicRMWOpConversion.pred (threadPred : Option Bool) (mask : Option MaskOperand)
    (i : Nat) : Option (Option Bool) :=
  match mask with
  | some mask => (mask.elems[i]?).map fun m => maybeAnd threadPred (some m)
  | none => some threadPred

/-- The path that promotes the atomic to a load (source lines 876-900). -/
def AtomicRMWOpConversion.promoted (op : AtomicRMWOp) (mod : ModuleInfo) (oracle : AtomicOracle)
    (remarks : List AtomicRemark) (rmwPtr : Nat) (pred : Option Bool) (st : AtomicState) :
    Option (LoopStep AtomicState AtomicLowering) :=
  let loadAcquireOp := AtomicAction.loadAcquire rmwPtr pred
    (if op.sem = MemSemantic.ACQUIRE then MemSemantic.ACQUIRE else MemSemantic.RELAXED) op.scope
  let loaded := oracle.loadAcquireResult rmwPtr
  if !atomicNeedsSharedMemory op.isTensor op.resultUsed then
    some (LoopStep.done
      { remarks := remarks, trace := st.trace ++ [loadAcquireOp, AtomicAction.eraseOp],
        succeeded := true })
  else
    let ret := oracle.readBack
    some (LoopStep.next
      { trace := st.trace ++ [loadAcquireOp, AtomicAction.storeShared loaded pred]
          ++ createBarrier mod.numCTAs ++ [AtomicAction.load ret, AtomicAction.replaceOp [some ret]],
        resultVals := st.resultVals })

/-- The value `atom` of the branch-based path (source lines 934-951). -/
def AtomicRMWOpConversion.branchAtom (op : AtomicRMWOp) (oracle : AtomicOracle)
    (binOp : RMWOp) (valueElemNBits : Nat) (w : RmwWidths) (rmwPtr i : Nat) :
    Option (List AtomicAction × AsmValue) :=
  (op.valElements[i]?).bind fun val =>
  let atom := oracle.llvmAtomicResult binOp rmwPtr val
  let first := AtomicAction.llvmAtomicRmw binOp rmwPtr val op.sem "agent"
  if w.packed = 2 ∧ valueElemNBits = 16 then
    (op.ptrElements[i + 1]?).bind fun ptr2 =>
    (op.valElements[i + 1]?).map fun val2 =>
    let atom2 := oracle.llvmAtomicResult binOp ptr2 val2
    let tmp := insert_element (undefVec w.vec) atom 0
    ([first, AtomicAction.llvmAtomicRmw binOp ptr2 val2 op.sem "agent"],
      AsmValue.vector (insert_element tmp atom2 1))
  else some ([first], AsmValue.scalar atom)

/-- The path through explicit control flow (source lines 903-995). -/
def AtomicRMWOpConversion.branchBased (op : AtomicRMWOp) (oracle : AtomicOracle)
    (remarks : List AtomicRemark) (valueElemNBits : Nat) (w : RmwWidths) (rmwPtr : Nat)
    (pred : Option Bool) (i : Nat) (st : AtomicState) :
    Option (LoopStep AtomicState AtomicLowering) :=
  (matchAtomicOp op.kind).bind fun llvmAtomicBinOp =>
  let undefVal : Option AsmValue := none
  let doesAtomicNeedMEM := atomicNeedsSharedMemory op.isTensor op.resultUsed
  pred.bind fun cond =>
  let condBr := AtomicAction.condBr cond undefVal
  (AtomicRMWOpConversion.branchAtom op oracle llvmAtomicBinOp valueElemNBits w rmwPtr i).bind
    fun r =>
  let atomics := r.1
  let atom := r.2
  if op.isTensor then
    let ret : Option AsmValue := if cond then some atom else undefVal
    let trace := st.trace ++ [condBr] ++ atomics ++ [AtomicAction.br atom]
    (if w.vec > 1 then
        assignComponents st.resultVals i w.vec (fun ii => ret.bind fun v => v.component ii)
      else if w.packed > 1 then
        assignComponents st.resultVals i w.packed (fun ii => ret.bind fun v => v.component ii)
      else assignResult st.resultVals i (ret.bind fun v => v.asScalar)).map fun vals =>
    LoopStep.next { trace := trace, resultVals := vals }
  else if !doesAtomicNeedMEM then
    some (LoopStep.done
      { remarks := remarks,
        trace := st.trace ++ [condBr] ++ atomics ++ [AtomicAction.br atom, AtomicAction.eraseOp],
        succeeded := true })
  else
    let ret := oracle.readBack
    some (LoopStep.next
      { trace := st.trace ++ [condBr] ++ atomics ++
          [AtomicAction.store atom, AtomicAction.br atom, AtomicAction.barrier,
           AtomicAction.load ret, AtomicAction.replaceOp [some ret]],
        resultVals := st.resultVals })

/-- The value operand of the native atomic (source lines 1016-1032). -/
def AtomicRMWOpConversion.valOperand (valElements : List Nat) (w : RmwWidths) (i : Nat) :
    Option AsmValue :=
  if w.vec > 1 then
    (forLoop (fun ii vals => (valElements[i + ii]?).map fun v => vals ++ [v]) [] w.vec).map
      AsmValue.list
  else if w.packed > 1 then
    (forLoop (fun ii rmwVal => (valElements[i + ii]?).map fun v => insert_element rmwVal v ii)
      (undefVec w.packed) w.packed).map AsmValue.vector
  else (valElements[i]?).map AsmValue.scalar

/-- The native predicated atomic (source lines 997-1124). -/
def AtomicRMWOpConversion.native (op : AtomicRMWOp) (mod : ModuleInfo) (oracle : AtomicOracle)
    (stringifyRMWOp : RMWOp → String) (remarks : List AtomicRemark) (valueElemNBits : Nat)
    (w : RmwWidths) (rmwPtr : Nat) (pred : Option Bool) (i : Nat) (st : AtomicState) :
    Option (LoopStep AtomicState AtomicLowering) :=
  (getRegisterSizeCode (valueElemNBits * w.packed) false).bind fun tyId =>
  (AtomicRMWOpConversion.valOperand op.valElements w i).bind fun valOpr =>
  match AtomicRMWOpConversion.mnemonic stringifyRMWOp op.kind valueElemNBits
      op.valueElemTy.isBF16 w.packed with
  | none =>
    some (LoopStep.done { remarks := remarks, trace := st.trace, succeeded := false })
  | some (rmwOp, sTy) =>
    let instr : AtomRmwInstr :=
      { scope := op.scope, sem := op.sem, rmwOp := rmwOp, vec := w.vec, sTy := sTy,
        tyId := tyId, ptr := rmwPtr, val := valOpr }
    let trace := st.trace ++ [AtomicAction.atomRmw instr pred]
    if op.isTensor then
      (if w.vec > 1 then
          assignComponents st.resultVals i w.vec (fun ii => some (oracle.rmwResult instr ii))
        else if w.packed > 1 then
          assignComponents st.resultVals i w.packed (fun ii => some (oracle.rmwResult instr ii))
        else assignResult st.resultVals i (some (oracle.rmwResult instr 0))).map fun vals =>
      LoopStep.next { trace := trace, resultVals := vals }
    else
      let old := oracle.rmwResult instr 0
      if !atomicNeedsSharedMemory op.isTensor op.resultUsed then
        some (LoopStep.done
          { remarks := remarks, trace := trace ++ [AtomicAction.eraseOp], succeeded := true })
      else
        let ret := oracle.readBack
        some (LoopStep.next
          { trace := trace ++ [AtomicAction.storeShared old pred] ++ createBarrier mod.numCTAs
              ++ [AtomicAction.load ret, AtomicAction.replaceOp [some ret]],
            resultVals := st.resultVals })

/-- One iteration of the loop of AtomicRMW (source lines 862-1125). -/
def AtomicRMWOpConversion.group (op : AtomicRMWOp) (mod : ModuleInfo) (oracle : AtomicOracle)
    (stringifyRMWOp : RMWOp → String) (remarks : List AtomicRemark)
    (threadPred : Option Bool) (valueElemNBits : Nat) (w : RmwWidths) (doPTXLDPromotion : Bool)
    (regMask : Nat) (i : Nat) (st : AtomicState) :
    Option (LoopStep AtomicState AtomicLowering) :=
  let canonicalStart := getCanonicalIndex i regMask
  if canonicalStart ≠ i then
    (copyCanonicalResults st.resultVals i canonicalStart (w.vec * w.packed)).map fun vals =>
    LoopStep.next { trace := st.trace, resultVals := vals }
  else
    (op.ptrElements[i]?).bind fun rmwPtr =>
    (AtomicRMWOpConversion.pred threadPred op.mask i).bind fun pred =>
    if doPTXLDPromotion then
      AtomicRMWOpConversion.promoted op mod oracle remarks rmwPtr pred st
    else if op.valueElemTy.isBF16 && decide (mod.computeCapability < 90) then
      AtomicRMWOpConversion.branchBased op oracle remarks valueElemNBits w rmwPtr pred i st
    else
      AtomicRMWOpConversion.native op mod oracle stringifyRMWOp remarks valueElemNBits w
        rmwPtr pred i st

/-- The method `AtomicRMWOpConversion::matchAndRewrite` (source lines 779-1133). -/
def AtomicRMWOpConversion.matchAndRewrite (op : AtomicRMWOp) (env : ThreadEnv)
    (mod : ModuleInfo) (oracle : AtomicOracle) (stringifyRMWOp : RMWOp → String) :
    Option AtomicLowering :=
  (op.valueElemTy.getIntOrFloatBitWidth).bind fun valueElemNBits =>
  let w := AtomicRMWOpConversion.widths op mod.supportVectorizedAtomics
  if !AtomicRMWOpConversion.widthAssertion w then none
  else
    let remarks : List AtomicRemark :=
      if w.vec * w.packed = 1 ∧ w.numElems > 1 then
        [{ vec := w.vec, packed := w.packed, vecOrig := w.vecOrig, numElems := w.numElems }]
      else []
    let threadPred := emitRedundantThreadPredicate op.freeVarMasks env
    let regMask := toUnsigned (op.freeVarMasks.get "reg")
    let doPTXLDPromotion := AtomicRMWOpConversion.doPTXLDPromotion op w.vec w.packed
    match forStepReturn op.elemsPerThread (w.vec * w.packed)
        (AtomicRMWOpConversion.group op mod oracle stringifyRMWOp remarks threadPred
          valueElemNBits w doPTXLDPromotion regMask)
        op.elemsPerThread 0
        { trace := [], resultVals := List.replicate op.elemsPerThread none } with
    | none => none
    | some (LoopStep.done r) => some r
    | some (LoopStep.next st) =>
      some { remarks := remarks,
             trace := if op.isTensor then st.trace ++ [AtomicAction.replaceOp st.resultVals]
               else st.trace,
             succeeded := true }

/-! ## Descriptor bulk copies -/

/-- The builder operation `icmp_ult` on 32-bit values. -/
def icmp_ult (x y : Nat) : Bool := decide (x % 2 ^ 32 < y % 2 ^ 32)

/-- The builder operation `add` on 32-bit values. -/
def add (x y : Nat) : Nat := (x + y) % 2 ^ 32

/-- One bulk-copy instruction as one lane sees it: the value of its guard `boxPred`
and of the message index `copyIdxVal`. -/
structure TmaCopy where
  boxPred : Bool
  copyIdxVal : Nat
  deriving DecidableEq

/-- The state of the copy loop: the value `warpID`, which the loop overwrites, and the
instructions so far. -/
structure TmaCopyState where
  warpID : Nat
  emitted : List TmaCopy
  deriving DecidableEq

/-- One iteration of the copy loop (source lines 1407-1414 and 1495-1502); `id` is the
thread id of the lane and `pred` the guard computed before the loop. -/
def tmaCopyBatch (numCopies numWarps warpSize : Nat) (pred : Bool) (id : Nat)
    (copyIdx : Nat) (st : TmaCopyState) : Option TmaCopyState :=
  let numWarpsToCopy := min (numCopies - copyIdx) numWarps
  let warpID := if numWarpsToCopy = 1 then i32_val 0 else st.warpID
  let boxPred := pred && icmp_ult id (i32_val (numWarpsToCopy * warpSize))
  let copyIdxVal := add warpID (i32_val copyIdx)
  some { warpID := warpID,
         emitted := st.emitted ++ [{ boxPred := boxPred, copyIdxVal := copyIdxVal }] }

/-- What the lowering of a bulk copy does to the IR, in order. -/
inductive TmaAction where
  | copy (instr : TmaCopy)
  | commitGroup
  | eraseOp
  deriving DecidableEq

/-- The copy loop of `AsyncTMACopyGlobalToLocalOpConversion::matchAndRewrite` (source
lines 1373-1450), past the checks of the cache modifier, eviction policy and volatility:
`opPred` is the operand `pred`, `elect` the election predicate, both in this lane. -/
def AsyncTMACopyGlobalToLocalOpConversion.matchAndRewrite (numCopies numWarps warpSize : Nat)
    (opPred elect : Bool) (id warpID : Nat) : Option (List TmaAction) :=
  let pred := opPred && elect
  (forStep numCopies numWarps (tmaCopyBatch numCopies numWarps warpSize pred id) numCopies 0
    { warpID := warpID, emitted := [] }).map fun st =>
  st.emitted.map TmaAction.copy ++ [TmaAction.eraseOp]

/-- The function `convertTMAStoreLikeOp` (source lines 1454-1534). -/
def convertTMAStoreLikeOp (numCopies numWarps warpSize : Nat) (elect : Bool)
    (id warpID : Nat) : Option (List TmaAction) :=
  let pred := elect
  (forStep numCopies numWarps (tmaCopyBatch numCopies numWarps warpSize pred id) numCopies 0
    { warpID := warpID, emitted := [] }).map fun st =>
  st.emitted.map TmaAction.copy ++ [TmaAction.commitGroup, TmaAction.eraseOp]

/-! ## Gather and scatter -/

/-- What `iterateGatherScatterIndices` reads off the op: the register bases of the layout
of the x offsets (its register dimension has `2 ^ length` slots), the sizes of its lane and
warp dimensions, its free-variable masks, the shapes and the encoding of the memory
descriptor, the last entries of `shapePerCTA` and of the block shape, and the operands. -/
structure GatherScatterOp where
  xRegisterBases : List (List Int)
  threadsPerWarp : Nat
  numWarps : Nat
  freeVars : FreeVarMasks
  allocShape : List Int
  shape : List Int
  encodingIsNVMMAShared : Bool
  innerBlockSize : Nat
  contigDimSize : Nat
  xOffsets : List Nat
  yOffset : Nat
  msgToShared : Nat → Nat → Nat → Nat → Nat → Nat

/-- One invocation of the callback: guard, shared-memory offset, y offset, x offsets. -/
structure GatherScatterCall where
  pred : Bool
  shMemOffset : Nat
  yOffset : Nat
  xOffsets : List Nat
  deriving DecidableEq

/-- The outcome of `iterateGatherScatterIndices`: the invocations of the callback, in
order, and the error when it returns failure. -/
structure GatherScatterIteration where
  calls : List GatherScatterCall
  error : Option String
  deriving DecidableEq

/-- The query `LinearLayout::getInDimSize` for the register dimension. -/
def GatherScatterOp.registerSize (op : GatherScatterOp) : Nat := 2 ^ op.xRegisterBases.length

/-- The test of the first two register bases (source lines 1630-1634): `none` when a
basis is missing or empty, else whether both are as required. -/
def GatherScatterOp.basesGrouped (op : GatherScatterOp) : Option Bool :=
  forLoop
    (fun i ok =>
      if !ok then some false
      else (op.xRegisterBases[i]?).bind fun basis =>
        (basis.head?).map fun front => decide (front = ((1 <<< i : Nat) : Int)))
    true 2

/-- The function `llvm::isPowerOf2_32`. -/
def isPowerOf2_32 (value : Nat) : Bool := decide (value ≠ 0) && decide (value &&& (value - 1) = 0)

/-- The messages of one group of four x offsets (source lines 1702-1721). -/
def gatherScatterMessages (op : GatherScatterOp) (pred : Bool) (warpId blockId : Nat)
    (numMessagesPerRow msgSize regId : Nat) (calls : List GatherScatterCall) :
    Option (List GatherScatterCall) :=
  forLoop
    (fun msgId calls =>
      if op.xOffsets.length < regId + 4 then none
      else
        some (calls ++
          [{ pred := pred,
             shMemOffset := op.msgToShared (i32_val regId) (i32_val 0) warpId blockId (i32_val msgId),
             yOffset := add op.yOffset (i32_val (msgId * msgSize)),
             xOffsets := (op.xOffsets.drop regId).take 4 }]))
    calls numMessagesPerRow

/-- The function `iterateGatherScatterIndices` (source lines 1604-1725); `pred` is the
guard handed in, `elect` the election predicate, both in this lane. -/
def iterateGatherScatterIndices (op : GatherScatterOp) (pred elect : Bool)
    (warpId blockId : Nat) : Option GatherScatterIteration :=
  if op.registerSize < 4 then
    some { calls := [], error := some "must have at least 4 x offsets per warp" }
  else
    (op.basesGrouped).bind fun grouped =>
    if !grouped then
      some { calls := [], error := some "x offsets are not grouped by 4 contiguous elements" }
    else if op.allocShape.length < 2 ∨
        op.shape ≠ op.allocShape.drop (op.allocShape.length - 2) then
      some { calls := [], error := some "memdesc shape must match alloc shape" }
    else if !op.encodingIsNVMMAShared then
      some { calls := [], error := some "requires dst encoding NVMMASharedEncodingAttr" }
    else if op.contigDimSize % 2 ^ 32 = 0 then none
    else
      let innerBlockSize := toUnsigned op.innerBlockSize
      let contigDimSize := toUnsigned op.contigDimSize
      let numMessagesPerRow := toUnsigned (innerBlockSize + contigDimSize - 1) / contigDimSize
      if numMessagesPerRow = 0 then none
      else if innerBlockSize % numMessagesPerRow ≠ 0 then none
      else if !isPowerOf2_32 numMessagesPerRow then none
      else
        let msgSize := innerBlockSize / numMessagesPerRow
        let regMask := toUnsigned (op.freeVars.get "register")
        let warpMask := toUnsigned (op.freeVars.get "warp")
        if toUnsigned (op.freeVars.get "lane") ≠ toUnsigned (op.threadsPerWarp + (2 ^ 32 - 1)) then
          some { calls := [], error := some "x offsets must be broadcasted across each warp" }
        else
          let pred := pred && icmp_eq (i32_val 0) (and_ warpId (i32_val warpMask))
          let pred := pred && elect
          (forStep op.xOffsets.length 4
            (fun regId calls =>
              if regMask &&& regId ≠ 0 then some calls
              else gatherScatterMessages op pred warpId blockId numMessagesPerRow msgSize
                regId calls)
            op.xOffsets.length 0 []).map fun calls =>
          { calls := calls, error := none }

/-- What the lowering of a gather or scatter does to the IR, in order. -/
inductive GatherScatterAction where
  | gather4 (call : GatherScatterCall)
  | scatter4 (call : GatherScatterCall)
  | commitGroup
  | eraseOp
  deriving DecidableEq

/-- The outcome of lowering a gather or scatter. -/
structure GatherScatterLowering where
  actions : List GatherScatterAction
  succeeded : Bool
  error : Option String
  deriving DecidableEq

/-- The method `AsyncTMAGatherOpConversion::matchAndRewrite` (source lines 1736-1781). -/
def AsyncTMAGatherOpConversion.matchAndRewrite (op : GatherScatterOp) (opPred elect : Bool)
    (warpId blockId : Nat) : Option GatherScatterLowering :=
  (iterateGatherScatterIndices op opPred elect warpId blockId).map fun it =>
  let actions := it.calls.map GatherScatterAction.gather4
  match it.error with
  | some e => { actions := actions, succeeded := false, error := some e }
  | none =>
    { actions := actions ++ [GatherScatterAction.eraseOp], succeeded := true, error := none }

/-- The method `AsyncTMAScatterOpConversion::matchAndRewrite` (source lines 1792-1836). -/
def AsyncTMAScatterOpConversion.matchAndRewrite (op : GatherScatterOp) (elect : Bool)
    (warpId blockId : Nat) : Option GatherScatterLowering :=
  (iterateGatherScatterIndices op true elect warpId blockId).map fun it =>
  let actions := it.calls.map GatherScatterAction.scatter4
  match it.error with
  | some e => { actions := actions, succeeded := false, error := some e }
  | none =>
    { actions := actions ++ [GatherScatterAction.commitGroup, GatherScatterAction.eraseOp],
      succeeded := true, error := none }

/-! ## Reference notions for atomics -/

/-- What an action means for the publication of a scalar result: the atomic access with
the value it returns and the guard it runs under, the store to the scratch location with
the value stored and its guard, the barriers, the load from the scratch location, and
the erasure or replacement of the op. -/
inductive PublicationEvent where
  | atomic (returned : AsmValue) (guard : Option Bool)
  | scratchStore (val : AsmValue) (guard : Option Bool)
  | blockBarrier
  | clusterArrive
  | clusterWait
  | readBack (v : Nat)
  | erase
  | replace (vals : List (Option Nat))
  deriving DecidableEq

/-- The events of a sequence of actions.  `blockGuard` is the condition of the block the
actions are in, absent outside a conditional block: `condBr` opens the block of its
condition and `br` leaves it; an action without a guard of its own runs under the guard
of its block. -/
def publicationEvents (oracle : AtomicOracle) :
    Option Bool → List AtomicAction → List PublicationEvent
  | _, [] => []
  | g, AtomicAction.atomCas instr pred :: rest =>
    PublicationEvent.atomic (AsmValue.scalar (oracle.casResult instr 0)) (maybeAnd g pred) ::
      publicationEvents oracle g rest
  | g, AtomicAction.atomRmw instr pred :: rest =>
    PublicationEvent.atomic (AsmValue.scalar (oracle.rmwResult instr 0)) (maybeAnd g pred) ::
      publicationEvents oracle g rest
  | g, AtomicAction.loadAcquire ptr pred _ _ :: rest =>
    PublicationEvent.atomic (AsmValue.scalar (oracle.loadAcquireResult ptr)) (maybeAnd g pred) ::
      publicationEvents oracle g rest
  | g, AtomicAction.llvmAtomicRmw kind ptr val _ _ :: rest =>
    PublicationEvent.atomic (AsmValue.scalar (oracle.llvmAtomicResult kind ptr val)) g ::
      publicationEvents oracle g rest
  | _, AtomicAction.condBr cond _ :: rest => publicationEvents oracle (some cond) rest
  | _, AtomicAction.br _ :: rest => publicationEvents oracle none rest
  | g, AtomicAction.stShared _ val pred :: rest =>
    PublicationEvent.scratchStore (AsmValue.scalar val) (maybeAnd g pred) ::
      publicationEvents oracle g rest
  | g, AtomicAction.storeShared val pred :: rest =>
    PublicationEvent.scratchStore (AsmValue.scalar val) (maybeAnd g pred) ::
      publicationEvents oracle g rest
  | g, AtomicAction.store val :: rest =>
    PublicationEvent.scratchStore val g :: publicationEvents oracle g rest
  | g, AtomicAction.barrier :: rest =>
    PublicationEvent.blockBarrier :: publicationEvents oracle g rest
  | g, AtomicAction.clusterArrive :: rest =>
    PublicationEvent.clusterArrive :: publicationEvents oracle g rest
  | g, AtomicAction.clusterWait :: rest =>
    PublicationEvent.clusterWait :: publicationEvents oracle g rest
  | g, AtomicAction.load result :: rest =>
    PublicationEvent.readBack result :: publicationEvents oracle g rest
  | g, AtomicAction.eraseOp :: rest => PublicationEvent.erase :: publicationEvents oracle g rest
  | g, AtomicAction.replaceOp vals :: rest =>
    PublicationEvent.replace vals :: publicationEvents oracle g rest

/-- Whether an action belongs to the publication sequence: a store to the scratch
location, a barrier, or the load that reads the value back. -/
def AtomicAction.isPublication : AtomicAction → Bool
  | AtomicAction.stShared _ _ _ => true
  | AtomicAction.storeShared _ _ => true
  | AtomicAction.store _ => true
  | AtomicAction.barrier => true
  | AtomicAction.clusterArrive => true
  | AtomicAction.clusterWait => true
  | AtomicAction.load _ => true
  | _ => false

/-- Whether an action is a barrier of either kind. -/
def AtomicAction.isBarrier : AtomicAction → Bool
  | AtomicAction.barrier => true
  | AtomicAction.clusterArrive => true
  | AtomicAction.clusterWait => true
  | _ => false

/-- Whether an action is the load an atomic is promoted to. -/
def AtomicAction.isLoadAcquire : AtomicAction → Bool
  | AtomicAction.loadAcquire _ _ _ _ => true
  | _ => false

/-- Whether an action is a native atomic instruction. -/
def AtomicAction.isAtomRmw : AtomicAction → Bool
  | AtomicAction.atomRmw _ _ => true
  | _ => false

/-- Following the spec's words (section 4.5), not the source: the barrier of the
publication protocol, a single barrier within one cooperative block and the two-phase
arrive and wait for a launch of several blocks. -/
def specBarrier (numCTAs : Int) : List AtomicAction :=
  if numCTAs = 1 then [AtomicAction.barrier]
  else [AtomicAction.clusterArrive, AtomicAction.clusterWait]

/-- Following the spec's words (section 4.6), not the source: the conditions under which
an AtomicRMW is promoted to a plain load. -/
def specPromotes (op : AtomicRMWOp) (vec packed : Nat) : Prop :=
  (op.valDefiningOp = some (DefiningOp.constant (ConstantAttr.integer true)) ∨
    op.valDefiningOp = some (DefiningOp.constant (ConstantAttr.float true))) ∧
  (op.sem = MemSemantic.ACQUIRE ∨ op.sem = MemSemantic.RELAXED) ∧
  (op.scope = MemSyncScope.CTA ∨ op.scope = MemSyncScope.GPU ∨
    op.scope = MemSyncScope.SYSTEM) ∧
  (op.kind = RMWOp.ADD ∨ op.kind = RMWOp.FADD) ∧
  op.isTensor = false ∧ op.valueElemTy.isIntOrFloat = true ∧
  vec = 1 ∧ packed = 1

/-! ## Example atomics -/

/-- Answers for the examples: every instruction returns 5 and the read-back gives 9. -/
def exampleOracle : AtomicOracle :=
  { casResult := fun _ _ => 5, rmwResult := fun _ _ => 5, loadAcquireResult := fun _ => 5,
    llvmAtomicResult := fun _ _ _ => 5, readBack := 9 }

/-- The free-variable masks of a scalar: every lane, warp and block holds the same value. -/
def scalarFreeVarMasks : FreeVarMasks :=
  [("register", 2 ^ 32 - 1), ("lane", 2 ^ 32 - 1), ("warp", 2 ^ 32 - 1), ("block", 2 ^ 32 - 1)]

/-- The first lane of the first warp of the first block. -/
def firstLane : ThreadEnv := { laneId := 0, warpId := 0, clusterCTAId := 0 }

/-- A scalar compare-and-swap on a 32-bit integer whose result is used. -/
def exampleScalarCasOp : AtomicCASOp :=
  { isTensor := false, axisContiguity := 1, pointeeBitWidth := 32,
    valueElemTy := ElemType.int 32, elemsPerThread := 1, ptrElements := [1000],
    cmpElements := [3], valElements := [4], sem := MemSemantic.ACQUIRE_RELEASE,
    scope := MemSyncScope.GPU, resultUsed := true, freeVarMasks := scalarFreeVarMasks }

/-- A compare-and-swap over a tensor of fp16 elements, four per lane, contiguity 4. -/
def exampleTensorCasOp : AtomicCASOp :=
  { isTensor := true, axisContiguity := 4, pointeeBitWidth := 16,
    valueElemTy := ElemType.f16, elemsPerThread := 4, ptrElements := [1000, 1002, 1004, 1006],
    cmpElements := [1, 2, 3, 4], valElements := [5, 6, 7, 8],
    sem := MemSemantic.ACQUIRE_RELEASE, scope := MemSyncScope.GPU, resultUsed := false,
    freeVarMasks := [("register", 0), ("lane", 0), ("warp", 0), ("block", 0)] }

/-- A scalar atomic add of a 32-bit integer whose result is used. -/
def exampleScalarRmwOp : AtomicRMWOp :=
  { isTensor := false, axisContiguity := 1, pointeeBitWidth := 32,
    valueElemTy := ElemType.int 32, elemsPerThread := 1, numElements := 1,
    ptrElements := [1000], valElements := [7], mask := none, kind := RMWOp.ADD,
    sem := MemSemantic.ACQUIRE_RELEASE, scope := MemSyncScope.GPU,
    valDefiningOp := some DefiningOp.other, resultUsed := true,
    freeVarMasks := scalarFreeVarMasks }

/-- A scalar atomic add of the constant zero, with acquire ordering. -/
def examplePromotedRmwOp : AtomicRMWOp :=
  { isTensor := false, axisContiguity := 1, pointeeBitWidth := 32,
    valueElemTy := ElemType.int 32, elemsPerThread := 1, numElements := 1,
    ptrElements := [1000], valElements := [0], mask := none, kind := RMWOp.ADD,
    sem := MemSemantic.ACQUIRE, scope := MemSyncScope.GPU,
    valDefiningOp := some (DefiningOp.constant (ConstantAttr.integer true)),
    resultUsed := true, freeVarMasks := scalarFreeVarMasks }

/-- A scalar atomic add of a bf16 value whose result is used. -/
def exampleBf16RmwOp : AtomicRMWOp :=
  { isTensor := false, axisContiguity := 1, pointeeBitWidth := 16,
    valueElemTy := ElemType.bf16, elemsPerThread := 1, numElements := 1,
    ptrElements := [1000], valElements := [7], mask := none, kind := RMWOp.FADD,
    sem := MemSemantic.ACQUIRE_RELEASE, scope := MemSyncScope.GPU,
    valDefiningOp := some DefiningOp.other, resultUsed := true,
    freeVarMasks := scalarFreeVarMasks }

/-- An atomic add over a tensor of fp16 elements, four per lane, contiguity 4. -/
def exampleTensorRmwOp : AtomicRMWOp :=
  { isTensor := true, axisContiguity := 4, pointeeBitWidth := 16,
    valueElemTy := ElemType.f16, elemsPerThread := 4, numElements := 128,
    ptrElements := [1000, 1002, 1004, 1006], valElements := [5, 6, 7, 8], mask := none,
    kind := RMWOp.FADD, sem := MemSemantic.ACQUIRE_RELEASE, scope := MemSyncScope.GPU,
    valDefiningOp := some DefiningOp.other, resultUsed := true,
    freeVarMasks := [("register", 0), ("lane", 0), ("warp", 0), ("block", 0)] }

/-- An atomic of a kind outside the ten named ones, on a 32-bit integer scalar. -/
def exampleUnknownKindRmwOp : AtomicRMWOp :=
  { isTensor := false, axisContiguity := 1, pointeeBitWidth := 32,
    valueElemTy := ElemType.int 32, elemsPerThread := 1, numElements := 1,
    ptrElements := [1000], valElements := [7], mask := none, kind := RMWOp.other 11,
    sem := MemSemantic.ACQUIRE_RELEASE, scope := MemSyncScope.GPU,
    valDefiningOp := some DefiningOp.other, resultUsed := true,
    freeVarMasks := scalarFreeVarMasks }

/-- A module of one CTA per cluster on compute capability 90. -/
def hopperModule : ModuleInfo :=
  { numCTAs := 1, computeCapability := 90, supportVectorizedAtomics := true }

/-- A module of two CTAs per cluster on compute capability 80. -/
def ampereClusterModule : ModuleInfo :=
  { numCTAs := 2, computeCapability := 80, supportVectorizedAtomics := false }

/-- The name of a kind as `stringifyRMWOp` prints it. -/
def exampleStringifyRMWOp : RMWOp → String
  | RMWOp.AND => "and"
  | RMWOp.OR => "or"
  | RMWOp.XOR => "xor"
  | RMWOp.ADD => "add"
  | RMWOp.FADD => "fadd"
  | RMWOp.MAX => "max"
  | RMWOp.MIN => "min"
  | RMWOp.UMAX => "umax"
  | RMWOp.UMIN => "umin"
  | RMWOp.XCHG => "exch"
  | RMWOp.other _ => ""

/-- The store of the spec's scenario: eight 8-bit integers per lane, mask alignment 1. -/
def scenarioMaskedStoreOp : StoreOp :=
  { ptrIsTensor := true, axisContiguity := 8, pointeeBitWidth := 8, elemsPerThread := 8,
    ptrElems := [0, 1, 2, 3, 4, 5, 6, 7], valueElems := [1, 2, 3, 4, 5, 6, 7, 8],
    valueIsI1 := false,
    mask := some { alignment := 1,
                   elems := [true, false, true, false, true, false, true, false] },
    valueElemBitWidth := 8,
    freeVarMasks := [("register", 0), ("lane", 0), ("warp", 0), ("block", 0)],
    cache := CacheModifier.NONE, evict := EvictionPolicy.NORMAL }

/-- A gather whose x offsets are not grouped in runs of four: the first register basis
is 2, not 1. -/
def exampleUngroupedGatherOp : GatherScatterOp :=
  { xRegisterBases := [[2], [1], [4]], threadsPerWarp := 32, numWarps := 4,
    freeVars := [("register", 0), ("lane", 31), ("warp", 0), ("block", 0)],
    allocShape := [32, 64], shape := [32, 64], encodingIsNVMMAShared := true,
    innerBlockSize := 64, contigDimSize := 64, xOffsets := [0, 1, 2, 3, 4, 5, 6, 7],
    yOffset := 0, msgToShared := fun reg _ warp _ msg => reg * 64 + warp * 1024 + msg }

/-- A gather that passes every check: eight x offsets in two runs of four. -/
def exampleGatherOp : GatherScatterOp :=
  { xRegisterBases := [[1], [2], [4]], threadsPerWarp := 32, numWarps := 4,
    freeVars := [("register", 0), ("lane", 31), ("warp", 0), ("block", 0)],
    allocShape := [32, 64], shape := [32, 64], encodingIsNVMMAShared := true,
    innerBlockSize := 64, contigDimSize := 64, xOffsets := [0, 1, 2, 3, 4, 5, 6, 7],
    yOffset := 0, msgToShared := fun reg _ warp _ msg => reg * 64 + warp * 1024 + msg }

/-- Following the spec's words (section 4.5), not the source: the events of the expansion
of a scalar-result atomic.  When the result is unused: the atomic, then the erasure of the
op, and nothing else.  When it is used: the atomic, a store of the value it returned to the
scratch location under the guard of the atomic, a barrier of either kind, and a load
from the scratch location whose value replaces the op. -/
def specScalarExpansion (resultUsed : Bool) (events : List PublicationEvent) : Prop :=
  if resultUsed then
    ∃ v g bar rb,
      (bar = [PublicationEvent.blockBarrier] ∨
        bar = [PublicationEvent.clusterArrive, PublicationEvent.clusterWait]) ∧
      events = [PublicationEvent.atomic v g, PublicationEvent.scratchStore v g] ++ bar ++
        [PublicationEvent.readBack rb, PublicationEvent.replace [some rb]]
  else ∃ v g, events = [PublicationEvent.atomic v g, PublicationEvent.erase]

/-! ## Reference notions for descriptor bulk copies -/

/-- Following the spec's words (section 4.8), not the source: the batching of `numCopies`
messages over `numWarps` warps, as the lane with thread id `id` sees the instructions
`copies`.  There are ceil(numCopies / numWarps) of them; the guard of batch `k` is the
guard `pred` computed before the loop and `id` below the number of messages of the batch
times the warp size; and the lane issues message `m` in batch `k` exactly when `pred`
holds, `m` is below `numCopies`, `k` is `m / numWarps` and the warp of the lane is
`m % numWarps`. -/
def SpecTmaBatching (numCopies numWarps warpSize : Nat) (pred : Bool) (id : Nat)
    (copies : List TmaCopy) : Prop :=
  copies.length = (numCopies + numWarps - 1) / numWarps ∧
  (∀ k, k < copies.length → ∃ c, copies[k]? = some c ∧
    c.boxPred = (pred && decide (id < min (numCopies - k * numWarps) numWarps * warpSize))) ∧
  (∀ k m, (∃ c, copies[k]? = some c ∧ c.boxPred = true ∧ c.copyIdxVal = m) ↔
    (pred = true ∧ m < numCopies ∧ k = m / numWarps ∧ id / warpSize = m % numWarps))

/-- The instruction of batch `k` in closed form, for a lane of warp `warp`. -/
def tmaBatchCopy (numCopies numWarps warpSize : Nat) (pred : Bool) (id warp : Nat) (k : Nat) :
    TmaCopy :=
  { boxPred := pred && decide (id < min (numCopies - k * numWarps) numWarps * warpSize),
    copyIdxVal := (if min (numCopies - k * numWarps) numWarps = 1 then 0 else warp)
      + k * numWarps }

/-! ## Reference notions for gather and scatter -/

/-- The value `xCoordsLayout.getBasis(kRegister, i).front()`, when the basis exists and
has an output coordinate. -/
def GatherScatterOp.registerBasisFront (op : GatherScatterOp) (i : Nat) : Option Int :=
  (op.xRegisterBases[i]?).bind List.head?

/-- The value `numMessagesPerRow` (source line 1658). -/
def GatherScatterOp.numMessagesPerRow (op : GatherScatterOp) : Nat :=
  toUnsigned (toUnsigned op.innerBlockSize + toUnsigned op.contigDimSize - 1) /
    toUnsigned op.contigDimSize

/-- The block sizes are such that the division and the two assertions at source lines
1658-1663 go through. -/
def GatherScatterOp.assertionsHold (op : GatherScatterOp) : Prop :=
  op.contigDimSize % 2 ^ 32 ≠ 0 ∧ op.numMessagesPerRow ≠ 0 ∧
  toUnsigned op.innerBlockSize % op.numMessagesPerRow = 0 ∧
  isPowerOf2_32 op.numMessagesPerRow = true

/-- Following the spec's words (section 4.9), not the source: a gather or scatter is
invalid when the layout of the x offsets has fewer than 4 register slots, or its first two
register bases are not 1 and 2 (the offsets are not grouped by 4 contiguous elements), or
the shape of the memory descriptor differs from the last two dimensions of its allocation
shape, or the encoding is not NVMMA-shared, or the offsets are not broadcast across the
lanes of a warp (the lane free-variable mask differs from threadsPerWarp - 1). -/
def GatherScatterOp.specInvalid (op : GatherScatterOp) : Prop :=
  op.registerSize < 4 ∨
  ¬ (op.registerBasisFront 0 = some 1 ∧ op.registerBasisFront 1 = some 2) ∨
  (op.allocShape.length < 2 ∨ op.shape ≠ op.allocShape.drop (op.allocShape.length - 2)) ∨
  op.encodingIsNVMMAShared = false ∨
  toUnsigned (op.freeVars.get "lane") ≠ toUnsigned (op.threadsPerWarp + (2 ^ 32 - 1))

/-! ## Reference notions for the paths of an AtomicRMW -/

/-- Whether an action is control flow: a conditional or an unconditional branch. -/
def AtomicAction.isControlFlow : AtomicAction → Bool
  | AtomicAction.condBr _ _ => true
  | AtomicAction.br _ => true
  | _ => false

/-- Whether an action is the generic atomic `LLVM::AtomicRMWOp`. -/
def AtomicAction.isGenericAtomic : AtomicAction → Bool
  | AtomicAction.llvmAtomicRmw _ _ _ _ _ => true
  | _ => false

/-- The condition under which the branch-based path is taken when the promotion did not
fire (source line 903). -/
def AtomicRMWOpConversion.takesBranchPath (op : AtomicRMWOp) (mod : ModuleInfo) : Bool :=
  op.valueElemTy.isBF16 && decide (mod.computeCapability < 90)

/-! ## Direct-addressed async copy: the instruction -/

/-- The source-size operand of a `cp.async`: the constant that is also the copy size, or
a register holding a computed size. -/
inductive CpAsyncSrcSize where
  | const (n : Nat)
  | reg (v : Nat) (constraint : String)
  deriving DecidableEq

/-- The emitted `cp.async` instruction. -/
structure CpAsyncInstr where
  cacheModifier : CacheModifier
  dst : Nat
  src : Nat
  copySize : Nat
  srcSize : CpAsyncSrcSize
  pred : Option Bool
  deriving DecidableEq

/-- The pairs `vals` of a source pointer and its mask bit (source lines 1185-1195); the
mask bit is false when the op has no mask. -/
def AsyncCopyGlobalToLocalOpConversion.zipVals (srcElems : List Nat)
    (maskElems : Option (List Bool)) : Option (List (Nat × Bool)) :=
  forLoop
    (fun i vals =>
      (srcElems[i]?).bind fun src =>
      (match maskElems with
        | some m => m[i]?
        | none => some false).map fun maskElem =>
      vals ++ [(src, maskElem)])
    [] srcElems.length

/-- The guard of every `cp.async` (source lines 1224-1230): the redundant-thread predicate
with the block mask set to zero. -/
def AsyncCopyGlobalToLocalOpConversion.threadPred (freeVarMasks : FreeVarMasks)
    (env : ThreadEnv) : Option Bool :=
  emitRedundantThreadPredicate (("block", 0) :: freeVarMasks) env

/-- The builder operation `select`. -/
def select (cond : Bool) (a b : Nat) : Nat := if cond then a else b

/-- The lambda `emitCpAsync` (source lines 1232-1271); `numElements` and `elemBitWidth`
describe the vector type it is called with. -/
def AsyncCopyGlobalToLocalOpConversion.emitCpAsync (threadPred : Option Bool) (hasMask : Bool)
    (vals : List (Nat × Bool)) (shmemAddr startIdx numElements elemBitWidth : Nat) :
    Option CpAsyncInstr :=
  let nBytes := numElements * elemBitWidth / 8
  if ¬ (nBytes = 16 ∨ nBytes = 8 ∨ nBytes = 4) then none
  else
    let srcCacheModifier := if nBytes = 16 then CacheModifier.CG else CacheModifier.CA
    (vals[startIdx]?).map fun structElem =>
    let srcElem := structElem.1
    let maskElem := structElem.2
    let copySize := CpAsyncSrcSize.const nBytes
    let srcSize :=
      if hasMask then CpAsyncSrcSize.reg (select maskElem (i32_val nBytes) (i32_val 0)) "r"
      else copySize
    { cacheModifier := srcCacheModifier, dst := shmemAddr, src := srcElem, copySize := nBytes,
      srcSize := srcSize, pred := threadPred }

/-! ## Descriptor bulk copies: operands and checks -/

/-- The value of an operand of an inline-asm instruction: a predicate, a word, or the
address `gep base offset`. -/
inductive OperandValue where
  | i1 (b : Bool)
  | word (v : Nat)
  | gep (base offset : Nat)
  deriving DecidableEq

/-- An operand `newOperand(value, constraint)`. -/
structure AsmOperand where
  value : OperandValue
  constraint : String
  deriving DecidableEq

/-- A descriptor instruction: its text and its operands, in order. -/
structure TmaInstr where
  text : String
  operands : List AsmOperand
  deriving DecidableEq

/-- The outcome of lowering a descriptor bulk copy: the actions, the instructions of the
copies among them, whether the pattern reports success, and the error otherwise. -/
structure TmaLowering where
  actions : List TmaAction
  instrs : List TmaInstr
  succeeded : Bool
  error : Option String
  deriving DecidableEq

/-- The copy an action emits, if it is one. -/
def TmaAction.asCopy : TmaAction → Option TmaCopy
  | TmaAction.copy c => some c
  | _ => none

/-- The instructions of a list of copies, `none` when building one of them crashes. -/
def collectInstrs (instr : TmaCopy → Option TmaInstr) : List TmaCopy → Option (List TmaInstr)
  | [] => some []
  | c :: cs => (instr c).bind fun i => (collectInstrs instr cs).map fun rest => i :: rest

/-- What the lowering reads off a `AsyncTMACopyGlobalToLocalOp` and its adaptor; the two
maps give the results of `applyLinearLayout` for a message index and a block index. -/
structure AsyncTMACopyGlobalToLocalOp where
  cache : CacheModifier
  evict : EvictionPolicy
  isVolatile : Bool
  pred : Bool
  desc : Nat
  coord : List Nat
  barrierBase : Nat
  resultBase : Nat
  numCopies : Nat
  msgToShared : Nat → Nat → Nat
  msgToOffset : Nat → Nat → List Nat

/-- The state of the loop over the coordinates of the load. -/
structure TmaCoordState where
  operands : List AsmOperand
  tmaInst : String
  operandIdx : Nat
  deriving DecidableEq

/-- The loop over the coordinates of the load (source lines 1431-1440). -/
def AsyncTMACopyGlobalToLocalOpConversion.coordOperands (coord offsets : List Nat)
    (st : TmaCoordState) : Option TmaCoordState :=
  let rank := coord.length
  forLoop
    (fun i st =>
      (coord[rank - i - 1]?).bind fun c =>
      (if i < offsets.length then (offsets[offsets.length - i - 1]?).map fun o => add c o
        else some c).map fun c =>
      { operands := st.operands ++ [{ value := OperandValue.word c, constraint := "r" }],
        tmaInst := st.tmaInst ++ "$" ++ toString st.operandIdx ++
          (if i ≠ rank - 1 then ", " else ""),
        operandIdx := st.operandIdx + 1 })
    st rank

/-- The instruction of one batch of the load (source lines 1415-1447), for the guard and
the message index computed by the batch. -/
def AsyncTMACopyGlobalToLocalOpConversion.instr (op : AsyncTMACopyGlobalToLocalOp)
    (ctaId : Nat) (c : TmaCopy) : Option TmaInstr :=
  let rank := op.coord.length
  let shMemOffset := op.msgToShared c.copyIdxVal (i32_val 0)
  let operands : List AsmOperand :=
    [{ value := OperandValue.i1 c.boxPred, constraint := "b" },
     { value := OperandValue.gep op.resultBase shMemOffset, constraint := "r" },
     { value := OperandValue.word op.desc, constraint := "l" }]
  let tmaInst := "@$0 cp.async.bulk.tensor." ++ toString rank ++
    "d.shared::cluster.global.mbarrier::complete_tx::bytes [$1], [$2, \x7b"
  let offsets := op.msgToOffset c.copyIdxVal ctaId
  (AsyncTMACopyGlobalToLocalOpConversion.coordOperands op.coord offsets
    { operands := operands, tmaInst := tmaInst, operandIdx := 3 }).map fun st =>
  { text := st.tmaInst ++ "\x7d], [$" ++ toString st.operandIdx ++ "];",
    operands := st.operands ++ [{ value := OperandValue.word op.barrierBase, constraint := "r" }] }

/-- The whole method `AsyncTMACopyGlobalToLocalOpConversion::matchAndRewrite` (source lines
1346-1451): the checks of the cache modifier, the eviction policy and volatility, then the
copy loop with the instruction of every batch. -/
def AsyncTMACopyGlobalToLocalOpConversion.rewrite (op : AsyncTMACopyGlobalToLocalOp)
    (numWarps warpSize : Nat) (elect : Bool) (id warpID ctaId : Nat) : Option TmaLowering :=
  if op.cache ≠ CacheModifier.NONE then
    some { actions := [], instrs := [], succeeded := false,
           error := some "cache modifiers not supported yet" }
  else if op.evict ≠ EvictionPolicy.NORMAL then
    some { actions := [], instrs := [], succeeded := false,
           error := some "eviction policy not supported yet" }
  else if op.isVolatile then
    some { actions := [], instrs := [], succeeded := false,
           error := some "volatile not supported yet" }
  else
    (AsyncTMACopyGlobalToLocalOpConversion.matchAndRewrite op.numCopies numWarps warpSize op.pred
      elect id warpID).bind fun actions =>
    (collectInstrs (AsyncTMACopyGlobalToLocalOpConversion.instr op ctaId)
      (actions.filterMap TmaAction.asCopy)).map fun instrs =>
    { actions := actions, instrs := instrs, succeeded := true, error := none }

/-- What `convertTMAStoreLikeOp` reads off its arguments. -/
structure TMAStoreLikeOp where
  tmaPtr : Nat
  coords : List Nat
  srcBase : Nat
  numCopies : Nat
  msgToShared : Nat → Nat → Nat
  msgToOffset : Nat → Nat → List Nat

/-- The loop over the coordinates of a store-like copy (source lines 1515-1521). -/
def convertTMAStoreLikeOp.coordOperands (coords offsets : List Nat)
    (operands : List AsmOperand) : Option (List AsmOperand) :=
  let rank := coords.length
  forLoop
    (fun i operands =>
      (coords[rank - i - 1]?).bind fun c =>
      (if i < offsets.length then (offsets[offsets.length - i - 1]?).map fun o => add c o
        else some c).map fun c =>
      operands ++ [{ value := OperandValue.word c, constraint := "r" }])
    operands rank

/-- The instruction of one batch of a store-like copy (source lines 1503-1525). -/
def convertTMAStoreLikeOp.instr (op : TMAStoreLikeOp) (tmaInst : String) (ctaId : Nat)
    (c : TmaCopy) : Option TmaInstr :=
  let shMemOffset := op.msgToShared c.copyIdxVal (i32_val 0)
  let operands : List AsmOperand :=
    [{ value := OperandValue.i1 c.boxPred, constraint := "b" },
     { value := OperandValue.word op.tmaPtr, constraint := "l" }]
  let offsets := op.msgToOffset c.copyIdxVal ctaId
  (convertTMAStoreLikeOp.coordOperands op.coords offsets operands).map fun operands =>
  { text := tmaInst,
    operands := operands ++
      [{ value := OperandValue.gep op.srcBase shMemOffset, constraint := "r" }] }

/-- The function `convertTMAStoreLikeOp` (source lines 1454-1534) with the instruction of
every batch. -/
def convertTMAStoreLikeOp.rewrite (op : TMAStoreLikeOp) (tmaInst : String)
    (numWarps warpSize : Nat) (elect : Bool) (id warpID ctaId : Nat) : Option TmaLowering :=
  (convertTMAStoreLikeOp op.numCopies numWarps warpSize elect id warpID).bind fun actions =>
  (collectInstrs (convertTMAStoreLikeOp.instr op tmaInst ctaId)
    (actions.filterMap TmaAction.asCopy)).map fun instrs =>
  { actions := actions, instrs := instrs, succeeded := true, error := none }

/-- The operand list `$2, $3, ...` of the text of a store-like instruction (source lines
1549-1554 and 1574-1579) and the index of the operand after it. -/
def tmaStoreOperandText (rank : Nat) : Option (String × Nat) :=
  forLoop
    (fun i st =>
      some (st.1 ++ "$" ++ toString st.2 ++ (if i ≠ rank - 1 then ", " else ""), st.2 + 1))
    ("", 2) rank

/-- The instruction text of the descriptor store (source lines 1545-1555). -/
def AsyncTMACopyLocalToGlobalOpConversion.tmaInst (rank : Nat) : Option String :=
  (tmaStoreOperandText rank).map fun st =>
  "@$0 cp.async.bulk.tensor." ++ toString rank ++ "d.global.shared::cta.bulk_group [$1, \x7b" ++
    st.1 ++ "\x7d], [$" ++ toString st.2 ++ "];"

/-- The method `AsyncTMACopyLocalToGlobalOpConversion::matchAndRewrite` (source lines
1541-1559). -/
def AsyncTMACopyLocalToGlobalOpConversion.matchAndRewrite (op : TMAStoreLikeOp)
    (numWarps warpSize : Nat) (elect : Bool) (id warpID ctaId : Nat) : Option TmaLowering :=
  (AsyncTMACopyLocalToGlobalOpConversion.tmaInst op.coords.length).bind fun tmaInst =>
  convertTMAStoreLikeOp.rewrite op tmaInst numWarps warpSize elect id warpID ctaId

/-- The instruction text of the descriptor reduce (source lines 1569-1580); `kind` is the
name of the reduction as `stringifyDescriptorReduceKind` prints it. -/
def AsyncTMAReduceOpConversion.tmaInst (kind : String) (rank : Nat) : Option String :=
  (tmaStoreOperandText rank).map fun st =>
  "@$0 cp.reduce.async.bulk.tensor." ++ toString rank ++ "d.global.shared::cta." ++ kind ++
    ".bulk_group [$1, \x7b" ++ st.1 ++ "\x7d], [$" ++ toString st.2 ++ "];"

/-- The method `AsyncTMAReduceOpConversion::matchAndRewrite` (source lines 1566-1584). -/
def AsyncTMAReduceOpConversion.matchAndRewrite (op : TMAStoreLikeOp) (kind : String)
    (numWarps warpSize : Nat) (elect : Bool) (id warpID ctaId : Nat) : Option TmaLowering :=
  (AsyncTMAReduceOpConversion.tmaInst kind op.coords.length).bind fun tmaInst =>
  convertTMAStoreLikeOp.rewrite op tmaInst numWarps warpSize elect id warpID ctaId

/-! ## Gather and scatter: the instructions -/

/-- The callback of the gather (source lines 1749-1771): the `gather4` instruction of one
invocation; `desc`, `barrierBase` and `smemBase` are the descriptor, the base of the
barrier and the base of the destination. -/
def AsyncTMAGatherOpConversion.callback (desc barrierBase smemBase : Nat)
    (call : GatherScatterCall) : TmaInstr :=
  { text := "@$0 cp.async.bulk.tensor.2d.tile::gather4.shared" ++
      "::cluster.global.mbarrier::complete_tx::bytes " ++
      "[$1], [$2, \x7b$3, $4, $5, $6, $7\x7d], [$8];",
    operands :=
      [{ value := OperandValue.i1 call.pred, constraint := "b" },
       { value := OperandValue.gep smemBase call.shMemOffset, constraint := "r" },
       { value := OperandValue.word desc, constraint := "l" },
       { value := OperandValue.word call.yOffset, constraint := "r" }] ++
      call.xOffsets.map (fun x => { value := OperandValue.word x, constraint := "r" }) ++
      [{ value := OperandValue.word barrierBase, constraint := "r" }] }

/-- The callback of the scatter (source lines 1801-1822): the `scatter4` instruction of one
invocation. -/
def AsyncTMAScatterOpConversion.callback (desc smemBase : Nat) (call : GatherScatterCall) :
    TmaInstr :=
  { text := "@$0 cp.async.bulk.tensor.2d.tile::scatter4.global" ++
      ".shared::cta.bulk_group " ++ "[$1, \x7b$2, $3, $4, $5, $6\x7d], [$7];",
    operands :=
      [{ value := OperandValue.i1 call.pred, constraint := "b" },
       { value := OperandValue.word desc, constraint := "l" },
       { value := OperandValue.word call.yOffset, constraint := "r" }] ++
      call.xOffsets.map (fun x => { value := OperandValue.word x, constraint := "r" }) ++
      [{ value := OperandValue.gep smemBase call.shMemOffset, constraint := "r" }] }

/-- The invocations of the callback in closed form: for each of the first `groups` groups
of four x offsets whose start is canonical under `regMask`, one message per message
index, in order. -/
def gatherScatterCallsClosed (op : GatherScatterOp) (pred : Bool) (warpId blockId : Nat)
    (numMessagesPerRow msgSize regMask : Nat) : Nat → List GatherScatterCall
  | 0 => []
  | groups + 1 =>
    gatherScatterCallsClosed op pred warpId blockId numMessagesPerRow msgSize regMask groups ++
      (if regMask &&& (groups * 4) ≠ 0 then []
       else (List.range numMessagesPerRow).map fun msgId =>
        { pred := pred,
          shMemOffset := op.msgToShared (i32_val (groups * 4)) (i32_val 0) warpId blockId
            (i32_val msgId),
          yOffset := add op.yOffset (i32_val (msgId * msgSize)),
          xOffsets := (op.xOffsets.drop (groups * 4)).take 4 })

/-- The guard of every message of a gather or scatter (source lines 1688-1691). -/
def gatherScatterGuard (op : GatherScatterOp) (pred elect : Bool) (warpId : Nat) : Bool :=
  (pred && icmp_eq (i32_val 0) (and_ warpId (i32_val (toUnsigned (op.freeVars.get "warp")))))
    && elect

/-! ## Example descriptor copies -/

/-- A descriptor load of five messages of a 2-d tile with default attributes. -/
def exampleTmaLoadOp : AsyncTMACopyGlobalToLocalOp :=
  { cache := CacheModifier.NONE, evict := EvictionPolicy.NORMAL, isVolatile := false,
    pred := true, desc := 7, coord := [16, 32], barrierBase := 4096, resultBase := 8192,
    numCopies := 5, msgToShared := fun msg _ => msg * 256,
    msgToOffset := fun msg _ => [msg, 0] }

/-- A descriptor store (or reduce) of five messages of a 2-d tile. -/
def exampleTmaStoreOp : TMAStoreLikeOp :=
  { tmaPtr := 7, coords := [16, 32], srcBase := 8192, numCopies := 5,
    msgToShared := fun msg _ => msg * 256, msgToOffset := fun msg _ => [msg, 0] }

end Triton

/-! # Properties -/

namespace Triton

/-! ## Vector width -/

theorem two_pow_min (i j : Nat) : min (2 ^ i) (2 ^ j) = 2 ^ min i j := by
  rcases Nat.le_total i j with h | h
  · rw [Nat.min_eq_left h, Nat.min_eq_left (Nat.pow_le_pow_right (by decide) h)]
  · rw [Nat.min_eq_right h, Nat.min_eq_right (Nat.pow_le_pow_right (by decide) h)]

theorem isLargestPowerOfTwoLE_self (k : Nat) : IsLargestPowerOfTwoLE (2 ^ k) (2 ^ k) :=
  ⟨⟨k, rfl⟩, Nat.le_refl _, fun _ h => h⟩

theorem three_ne_two_pow (k : Nat) : (3 : Nat) ≠ 2 ^ k := by
  intro h3
  rcases k with _ | _ | k
  · simp at h3
  · simp at h3
  · have : 2 ^ (k + 1 + 1) = 4 * 2 ^ k := by ring
    omega

theorem div_128_two_pow (j : Nat) (hj : j ≤ 7) : 128 / 2 ^ j = 2 ^ (7 - j) := by
  interval_cases j <;> rfl

/-- C1: for contiguity >= 1, mask alignment >= 1 and bit width between 1 and 128 the
width computed by Load and Store is at least 1, at most 128/bitwidth, at most the
contiguity and, when masked, at most the mask alignment; for a non-tensor pointer it is 1. -/
theorem vectorWidth_bounds (ptrIsTensor : Bool) (axisContiguity pointeeBitWidth : Nat)
    (maskAlignment : Option Nat) (hc : 1 ≤ axisContiguity) (hb : 1 ≤ pointeeBitWidth)
    (hb128 : pointeeBitWidth ≤ 128) (hm : ∀ a, maskAlignment = some a → 1 ≤ a) :
    1 ≤ vectorWidth ptrIsTensor axisContiguity pointeeBitWidth maskAlignment ∧
    vectorWidth ptrIsTensor axisContiguity pointeeBitWidth maskAlignment ≤ 128 / pointeeBitWidth ∧
    vectorWidth ptrIsTensor axisContiguity pointeeBitWidth maskAlignment
      ≤ getContiguity ptrIsTensor axisContiguity ∧
    (∀ a, maskAlignment = some a →
      vectorWidth ptrIsTensor axisContiguity pointeeBitWidth maskAlignment ≤ a) ∧
    (ptrIsTensor = false →
      vectorWidth ptrIsTensor axisContiguity pointeeBitWidth maskAlignment = 1) := by
  have hdiv : 1 ≤ 128 / pointeeBitWidth := (Nat.one_le_div_iff (by omega)).mpr hb128
  cases ptrIsTensor <;> cases maskAlignment with
  | none =>
    simp only [vectorWidth, getVectorSize, getContiguity]
    simp
    try omega
  | some a =>
    have ha := hm a rfl
    simp only [vectorWidth, getVectorSize, getContiguity]
    simp
    try omega

theorem vectorWidth_bounds_witness :
    1 ≤ vectorWidth true 4 32 (some 2) ∧ vectorWidth true 4 32 (some 2) ≤ 128 / 32 ∧
    vectorWidth true 4 32 (some 2) ≤ getContiguity true 4 ∧
    (∀ a, some 2 = some a → vectorWidth true 4 32 (some 2) ≤ a) ∧
    (true = false → vectorWidth true 4 32 (some 2) = 1) :=
  vectorWidth_bounds true 4 32 (some 2) (by decide) (by decide) (by decide)
    (by intro a h; cases h; decide)

/-- C2 fails as stated: with contiguity 3, 32-bit elements and no mask the width is 3,
which is not a power of two, while the largest power of two below min(3, 128/32) is 2. -/
theorem vectorWidth_not_power_of_two :
    vectorWidth true 3 32 none = 3 ∧ specWidthBound 3 none 32 = 3 ∧
    IsLargestPowerOfTwoLE 2 (specWidthBound 3 none 32) ∧
    ¬ IsLargestPowerOfTwoLE (vectorWidth true 3 32 none) (specWidthBound 3 none 32) ∧
    ¬ ∃ k, vectorWidth true 3 32 none = 2 ^ k := by
  have hw : vectorWidth true 3 32 none = 3 := by decide
  have hb : specWidthBound 3 none 32 = 3 := by decide
  refine ⟨hw, hb, ?_, ?_, ?_⟩
  · rw [hb]
    refine ⟨⟨1, rfl⟩, by decide, ?_⟩
    intro k hk
    rcases k with _ | _ | k
    · decide
    · decide
    · have : 2 ^ (k + 1 + 1) = 4 * 2 ^ k := by ring
      omega
  · rw [hw]
    rintro ⟨⟨k, hk⟩, -⟩
    exact three_ne_two_pow k hk
  · rw [hw]
    rintro ⟨k, hk⟩
    exact three_ne_two_pow k hk

/-- C2, amended: for power-of-two contiguity, mask alignment and bit width (at most 128)
the width computed by Load and Store is min(contiguity, maskAlignment, 128/bitwidth), with
the mask alignment left out when the op is unmasked, and it is the largest power of two
that is at most that minimum; in particular it is a power of two. -/
theorem vectorWidth_eq_min_of_powers (ptrIsTensor : Bool) (axisContiguity pointeeBitWidth : Nat)
    (maskAlignment : Option Nat) (hc : ∃ i, getContiguity ptrIsTensor axisContiguity = 2 ^ i)
    (hb : ∃ j, j ≤ 7 ∧ pointeeBitWidth = 2 ^ j)
    (hm : ∀ a, maskAlignment = some a → ∃ l, a = 2 ^ l) :
    vectorWidth ptrIsTensor axisContiguity pointeeBitWidth maskAlignment =
      specWidthBound (getContiguity ptrIsTensor axisContiguity) maskAlignment pointeeBitWidth ∧
    IsLargestPowerOfTwoLE (vectorWidth ptrIsTensor axisContiguity pointeeBitWidth maskAlignment)
      (specWidthBound (getContiguity ptrIsTensor axisContiguity) maskAlignment pointeeBitWidth) ∧
    ∃ k, vectorWidth ptrIsTensor axisContiguity pointeeBitWidth maskAlignment = 2 ^ k := by
  obtain ⟨i, hi⟩ := hc
  obtain ⟨j, hj, rfl⟩ := hb
  have hdiv := div_128_two_pow j hj
  have h1 : 1 ≤ 128 / 2 ^ j := by rw [hdiv]; exact Nat.one_le_two_pow
  have hw : vectorWidth ptrIsTensor axisContiguity (2 ^ j) maskAlignment =
      specWidthBound (getContiguity ptrIsTensor axisContiguity) maskAlignment (2 ^ j) := by
    cases ptrIsTensor <;> cases maskAlignment <;>
      simp only [vectorWidth, getVectorSize, getContiguity, specWidthBound] <;> simp <;> omega
  have hp : ∃ k, specWidthBound (getContiguity ptrIsTensor axisContiguity) maskAlignment (2 ^ j)
      = 2 ^ k := by
    cases maskAlignment with
    | none => exact ⟨min i (7 - j), by simp only [specWidthBound, hi, hdiv, two_pow_min]⟩
    | some a =>
      obtain ⟨l, rfl⟩ := hm a rfl
      exact ⟨min (min i l) (7 - j), by simp only [specWidthBound, hi, hdiv, two_pow_min]⟩
  obtain ⟨k, hk⟩ := hp
  rw [hw, hk]
  exact ⟨rfl, isLargestPowerOfTwoLE_self k, k, rfl⟩

theorem vectorWidth_eq_min_of_powers_witness :
    vectorWidth true 8 16 (some 4) = specWidthBound (getContiguity true 8) (some 4) 16 ∧
    IsLargestPowerOfTwoLE (vectorWidth true 8 16 (some 4))
      (specWidthBound (getContiguity true 8) (some 4) 16) ∧
    ∃ k, vectorWidth true 8 16 (some 4) = 2 ^ k :=
  vectorWidth_eq_min_of_powers true 8 16 (some 4) ⟨3, by decide⟩ ⟨4, by decide, by decide⟩
    (by intro a h; cases h; exact ⟨2, by decide⟩)

/-! ## Canonical index -/

theorem testBit_notUnsigned (m j : Nat) :
    (notUnsigned m).testBit j = (decide (j < 32) && !(m % 2 ^ 32).testBit j) := by
  have h : m % 2 ^ 32 < 2 ^ 32 := Nat.mod_lt _ (by decide)
  have := Nat.testBit_two_pow_sub_succ h j
  have he : notUnsigned m = 2 ^ 32 - (m % 2 ^ 32 + 1) := by
    unfold notUnsigned
    omega
  rw [he, this]

theorem testBit_getCanonicalIndex (i m j : Nat) (hi : i < 2 ^ 32) (hm : m < 2 ^ 32) :
    (getCanonicalIndex i m).testBit j = (i.testBit j && !m.testBit j) := by
  unfold getCanonicalIndex toUnsigned
  rw [Nat.testBit_and, testBit_notUnsigned, Nat.mod_eq_of_lt hi, Nat.mod_eq_of_lt hm]
  by_cases hj : j < 32
  · simp [hj]
  · have : i.testBit j = false :=
      Nat.testBit_lt_two_pow (Nat.lt_of_lt_of_le hi (Nat.pow_le_pow_right (by decide) (by omega)))
    simp [this]

theorem getCanonicalIndex_le (i m : Nat) (hi : i < 2 ^ 32) : getCanonicalIndex i m ≤ i := by
  unfold getCanonicalIndex toUnsigned
  rw [Nat.mod_eq_of_lt hi]
  exact Nat.and_le_left

theorem getCanonicalIndex_and_mask (i m : Nat) (hi : i < 2 ^ 32) (hm : m < 2 ^ 32) :
    getCanonicalIndex i m &&& m = 0 := by
  apply Nat.eq_of_testBit_eq
  intro j
  rw [Nat.testBit_and, testBit_getCanonicalIndex i m j hi hm]
  cases i.testBit j <;> cases m.testBit j <;> simp

theorem getCanonicalIndex_eq_self_iff (i m : Nat) (hi : i < 2 ^ 32) (hm : m < 2 ^ 32) :
    getCanonicalIndex i m = i ↔ i &&& m = 0 := by
  constructor
  · intro h
    rw [← h]
    exact getCanonicalIndex_and_mask i m hi hm
  · intro h
    apply Nat.eq_of_testBit_eq
    intro j
    rw [testBit_getCanonicalIndex i m j hi hm]
    have hj : (i &&& m).testBit j = false := by rw [h]; simp
    rw [Nat.testBit_and] at hj
    cases hb : i.testBit j <;> cases hc : m.testBit j <;> simp_all

theorem getCanonicalIndex_idem (i m : Nat) (hi : i < 2 ^ 32) (hm : m < 2 ^ 32) :
    getCanonicalIndex (getCanonicalIndex i m) m = getCanonicalIndex i m :=
  (getCanonicalIndex_eq_self_iff _ m
    (Nat.lt_of_le_of_lt (getCanonicalIndex_le i m hi) hi) hm).mpr
    (getCanonicalIndex_and_mask i m hi hm)

/-- C3: the canonical index `i & ~m` has no bit of `m` set, is at most `i`, is a fixed
point, and is the only index of its redundancy class with no bit of `m` set; an index is
canonical exactly when `i & m == 0`. -/
theorem getCanonicalIndex_canonical (i m : Nat) (hi : i < 2 ^ 32) (hm : m < 2 ^ 32) :
    getCanonicalIndex i m = toUnsigned i &&& notUnsigned m ∧
    getCanonicalIndex i m &&& m = 0 ∧
    getCanonicalIndex i m ≤ i ∧
    getCanonicalIndex (getCanonicalIndex i m) m = getCanonicalIndex i m ∧
    (∀ j, j < 2 ^ 32 → getCanonicalIndex j m = getCanonicalIndex i m → j &&& m = 0 →
      j = getCanonicalIndex i m) ∧
    (∃ c, c < 2 ^ 32 ∧ getCanonicalIndex c m = getCanonicalIndex i m ∧ c &&& m = 0 ∧
      ∀ j, j < 2 ^ 32 → getCanonicalIndex j m = getCanonicalIndex i m → j &&& m = 0 → j = c) ∧
    (getCanonicalIndex i m = i ↔ i &&& m = 0) := by
  have huniq : ∀ j, j < 2 ^ 32 → getCanonicalIndex j m = getCanonicalIndex i m → j &&& m = 0 →
      j = getCanonicalIndex i m := by
    intro j hj hc hz
    rw [← hc]
    exact ((getCanonicalIndex_eq_self_iff j m hj hm).mpr hz).symm
  exact ⟨rfl, getCanonicalIndex_and_mask i m hi hm, getCanonicalIndex_le i m hi,
    getCanonicalIndex_idem i m hi hm, huniq,
    ⟨getCanonicalIndex i m, Nat.lt_of_le_of_lt (getCanonicalIndex_le i m hi) hi,
      getCanonicalIndex_idem i m hi hm, getCanonicalIndex_and_mask i m hi hm, huniq⟩,
    getCanonicalIndex_eq_self_iff i m hi hm⟩

theorem getCanonicalIndex_canonical_witness :
    getCanonicalIndex 13 5 = toUnsigned 13 &&& notUnsigned 5 ∧
    getCanonicalIndex 13 5 &&& 5 = 0 ∧
    getCanonicalIndex 13 5 ≤ 13 ∧
    getCanonicalIndex (getCanonicalIndex 13 5) 5 = getCanonicalIndex 13 5 ∧
    (∀ j, j < 2 ^ 32 → getCanonicalIndex j 5 = getCanonicalIndex 13 5 → j &&& 5 = 0 →
      j = getCanonicalIndex 13 5) ∧
    (∃ c, c < 2 ^ 32 ∧ getCanonicalIndex c 5 = getCanonicalIndex 13 5 ∧ c &&& 5 = 0 ∧
      ∀ j, j < 2 ^ 32 → getCanonicalIndex j 5 = getCanonicalIndex 13 5 → j &&& 5 = 0 → j = c) ∧
    (getCanonicalIndex 13 5 = 13 ↔ 13 &&& 5 = 0) :=
  getCanonicalIndex_canonical 13 5 (by decide) (by decide)

/-! ## Guards -/

theorem emitRedundantThreadPredicate_eq (fvm : FreeVarMasks) (env : ThreadEnv)
    (hml : fvm.get "lane" < 2 ^ 32) (hmw : fvm.get "warp" < 2 ^ 32)
    (hmb : fvm.get "block" < 2 ^ 32) :
    emitRedundantThreadPredicate fvm env =
      maybeAnd
        (maybeAnd
          (if fvm.get "lane" ≠ 0 then some (decide (env.laneId &&& fvm.get "lane" = 0)) else none)
          (if fvm.get "warp" ≠ 0 then some (decide (env.warpId &&& fvm.get "warp" = 0)) else none))
        (if fvm.get "block" ≠ 0 then some (decide (env.clusterCTAId &&& fvm.get "block" = 0))
          else none) := by
  unfold emitRedundantThreadPredicate
  simp only [List.zip, List.zipWith, List.foldl, i32_val, and_, icmp_eq,
    Nat.mod_eq_of_lt hml, Nat.mod_eq_of_lt hmw, Nat.mod_eq_of_lt hmb]
  by_cases h1 : fvm.get "lane" = 0 <;> by_cases h2 : fvm.get "warp" = 0 <;>
    by_cases h3 : fvm.get "block" = 0 <;> simp [h1, h2, h3, maybeAnd]

/-- C5: the redundant-thread predicate is absent exactly when the lane, warp and block
masks are all zero; otherwise it is the conjunction, over the levels with a nonzero mask,
of `(levelId & mask) == 0`; it holds iff each of the three ids is its own canonical index
and is false for a non-canonical lane, warp or block. -/
theorem emitRedundantThreadPredicate_spec (fvm : FreeVarMasks) (env : ThreadEnv)
    (hl : env.laneId < 2 ^ 32) (hw : env.warpId < 2 ^ 32) (hb : env.clusterCTAId < 2 ^ 32)
    (hml : fvm.get "lane" < 2 ^ 32) (hmw : fvm.get "warp" < 2 ^ 32)
    (hmb : fvm.get "block" < 2 ^ 32) :
    (emitRedundantThreadPredicate fvm env = none ↔
      fvm.get "lane" = 0 ∧ fvm.get "warp" = 0 ∧ fvm.get "block" = 0) ∧
    emitRedundantThreadPredicate fvm env =
      maybeAnd
        (maybeAnd
          (if fvm.get "lane" ≠ 0 then some (decide (env.laneId &&& fvm.get "lane" = 0)) else none)
          (if fvm.get "warp" ≠ 0 then some (decide (env.warpId &&& fvm.get "warp" = 0)) else none))
        (if fvm.get "block" ≠ 0 then some (decide (env.clusterCTAId &&& fvm.get "block" = 0))
          else none) ∧
    (guardHolds (emitRedundantThreadPredicate fvm env) = true ↔
      getCanonicalIndex env.laneId (fvm.get "lane") = env.laneId ∧
      getCanonicalIndex env.warpId (fvm.get "warp") = env.warpId ∧
      getCanonicalIndex env.clusterCTAId (fvm.get "block") = env.clusterCTAId) ∧
    (getCanonicalIndex env.laneId (fvm.get "lane") ≠ env.laneId ∨
      getCanonicalIndex env.warpId (fvm.get "warp") ≠ env.warpId ∨
      getCanonicalIndex env.clusterCTAId (fvm.get "block") ≠ env.clusterCTAId →
      emitRedundantThreadPredicate fvm env = some false) := by
  have heq := emitRedundantThreadPredicate_eq fvm env hml hmw hmb
  have hcl := getCanonicalIndex_eq_self_iff _ _ hl hml
  have hcw := getCanonicalIndex_eq_self_iff _ _ hw hmw
  have hcb := getCanonicalIndex_eq_self_iff _ _ hb hmb
  simp only [ne_eq, hcl, hcw, hcb]
  refine ⟨?_, heq, ?_, ?_⟩ <;> rw [heq]
  · by_cases h1 : fvm.get "lane" = 0 <;> by_cases h2 : fvm.get "warp" = 0 <;>
      by_cases h3 : fvm.get "block" = 0 <;> simp [h1, h2, h3, maybeAnd]
  · by_cases h1 : fvm.get "lane" = 0 <;> by_cases h2 : fvm.get "warp" = 0 <;>
      by_cases h3 : fvm.get "block" = 0 <;> simp [h1, h2, h3, maybeAnd, guardHolds, and_assoc]
  · by_cases h1 : fvm.get "lane" = 0 <;> by_cases h2 : fvm.get "warp" = 0 <;>
      by_cases h3 : fvm.get "block" = 0 <;> simp [h1, h2, h3, maybeAnd] <;> tauto

theorem emitRedundantThreadPredicate_spec_witness :
    (emitRedundantThreadPredicate [("lane", 1), ("warp", 2)] ⟨1, 4, 0⟩ = none ↔
      FreeVarMasks.get [("lane", 1), ("warp", 2)] "lane" = 0 ∧
      FreeVarMasks.get [("lane", 1), ("warp", 2)] "warp" = 0 ∧
      FreeVarMasks.get [("lane", 1), ("warp", 2)] "block" = 0) ∧
    emitRedundantThreadPredicate [("lane", 1), ("warp", 2)] ⟨1, 4, 0⟩ = some false :=
  have h := emitRedundantThreadPredicate_spec [("lane", 1), ("warp", 2)] ⟨1, 4, 0⟩
    (by decide) (by decide) (by decide) (by decide) (by decide) (by decide)
  ⟨h.1, h.2.2.2 (Or.inl (by decide))⟩

theorem emitRedundantThreadPredicate_eq_none (fvm : FreeVarMasks) (env : ThreadEnv) :
    emitRedundantThreadPredicate fvm env = none ↔
      fvm.get "lane" = 0 ∧ fvm.get "warp" = 0 ∧ fvm.get "block" = 0 := by
  unfold emitRedundantThreadPredicate
  simp only [List.zip, List.zipWith, List.foldl]
  by_cases h1 : fvm.get "lane" = 0 <;> by_cases h2 : fvm.get "warp" = 0 <;>
    by_cases h3 : fvm.get "block" = 0 <;> simp [h1, h2, h3, maybeAnd]

theorem maybeAnd_none_right (a : Option Bool) : maybeAnd a none = a := by
  cases a <;> rfl

theorem maybeAnd_eq_none (a b : Option Bool) : maybeAnd a b = none ↔ a = none ∧ b = none := by
  cases a <;> cases b <;> simp [maybeAnd]

theorem guardHolds_maybeAnd (a b : Option Bool) :
    guardHolds (maybeAnd a b) = (guardHolds a && guardHolds b) := by
  cases a <;> cases b <;> simp [maybeAnd, guardHolds]

/-! ## Loop invariants -/

theorem forLoop_inv {σ : Type} (body : Nat → σ → Option σ) (init : σ) (Inv : Nat → σ → Prop)
    (h0 : Inv 0 init) (hstep : ∀ i s t, Inv i s → body i s = some t → Inv (i + 1) t) :
    ∀ n s, forLoop body init n = some s → Inv n s := by
  intro n
  induction n with
  | zero =>
    intro s h
    simp only [forLoop, Option.some.injEq] at h
    exact h ▸ h0
  | succ n ih =>
    intro s h
    simp only [forLoop, Option.bind_eq_some] at h
    obtain ⟨t, ht, hb⟩ := h
    exact hstep n t s (ih t ht) hb

theorem forStep_inv {σ : Type} (stop step : Nat) (body : Nat → σ → Option σ) (Inv : σ → Prop)
    (hstep : ∀ i s t, i < stop → Inv s → body i s = some t → Inv t) :
    ∀ fuel i s t, Inv s → forStep stop step body fuel i s = some t → Inv t := by
  intro fuel
  induction fuel with
  | zero =>
    intro i s t hs h
    simp only [forStep] at h
    split at h
    · cases h
    · cases h; exact hs
  | succ fuel ih =>
    intro i s t hs h
    simp only [forStep] at h
    split at h
    · rename_i hlt
      simp only [Option.bind_eq_some] at h
      obtain ⟨u, hu, hrest⟩ := h
      exact ih (i + step) u t (hstep i s u hlt hs hu) hrest
    · cases h; exact hs

/-! ## Store guard -/

theorem store_pred_some (threadPred : Option Bool) (mask : Option MaskOperand)
    (vecStart : Nat) (p : Option Bool) (h : StoreOpConversion.pred threadPred mask vecStart = some p) :
    p = maybeAnd threadPred (mask.bind (fun m => m.elems[vecStart]?)) ∧
    (∀ m, mask = some m → ∃ b, m.elems[vecStart]? = some b) := by
  cases mask with
  | none =>
    simp only [StoreOpConversion.pred, Option.some.injEq] at h
    subst h
    simp [maybeAnd_none_right]
  | some m =>
    simp only [StoreOpConversion.pred, Option.map_eq_some'] at h
    obtain ⟨b, hb, rfl⟩ := h
    simp [hb]

theorem store_stInstr_pred (op : StoreOp) (threadPred : Option Bool)
    (computeCapability : Int) (vec : Nat) (numVecs : Int) (vecStart : Nat) (instr : StInstr)
    (h : StoreOpConversion.stInstr op threadPred computeCapability vec numVecs vecStart
      = some instr) :
    StoreOpConversion.pred threadPred op.mask vecStart = some instr.pred := by
  unfold StoreOpConversion.stInstr at h
  simp only [] at h
  split at h
  · cases h
  · simp only [Option.bind_eq_some, Option.some.injEq] at h
    obtain ⟨asmArgs, -, pred, hpred, addr, -, rfl⟩ := h
    exact hpred

theorem store_group_some (op : StoreOp) (threadPred : Option Bool)
    (computeCapability : Int) (vec : Nat) (numVecs : Int) (regMask vecStart : Nat)
    (emitted out : List (Nat × StInstr))
    (h : StoreOpConversion.group op threadPred computeCapability vec numVecs regMask vecStart
      emitted = some out) :
    (isCanonicalIndex vecStart regMask = false ∧ out = emitted) ∨
    (isCanonicalIndex vecStart regMask = true ∧ ∃ instr,
      StoreOpConversion.stInstr op threadPred computeCapability vec numVecs vecStart = some instr ∧
      out = emitted ++ [(vecStart, instr)]) := by
  unfold StoreOpConversion.group at h
  cases hc : isCanonicalIndex vecStart regMask with
  | false =>
    left
    simp [hc] at h
    exact ⟨rfl, h.symm⟩
  | true =>
    right
    refine ⟨rfl, ?_⟩
    simp only [hc, Bool.not_true, Bool.false_eq_true, ↓reduceIte, Option.map_eq_some'] at h
    obtain ⟨instr, hi, rfl⟩ := h
    exact ⟨instr, hi, rfl⟩

theorem store_groups_emitted (op : StoreOp) (threadPred : Option Bool)
    (computeCapability : Int) (vec regMask : Nat) (out : List (Nat × StInstr))
    (h : StoreOpConversion.groups op threadPred computeCapability vec regMask = some out) :
    ∀ s instr, (s, instr) ∈ out →
      isCanonicalIndex s regMask = true ∧
      StoreOpConversion.stInstr op threadPred computeCapability vec
        (toInt32 (op.elemsPerThread / vec)) s = some instr := by
  unfold StoreOpConversion.groups at h
  refine forStep_inv op.elemsPerThread vec _
    (fun out => ∀ s instr, (s, instr) ∈ out →
      isCanonicalIndex s regMask = true ∧
      StoreOpConversion.stInstr op threadPred computeCapability vec
        (toInt32 (op.elemsPerThread / vec)) s = some instr) ?_ _ _ _ _ ?_ h
  · intro i em em2 _ hinv hb s instr hmem
    rcases store_group_some _ _ _ _ _ _ _ _ _ hb with ⟨-, rfl⟩ | ⟨hc, ins, hi, rfl⟩
    · exact hinv s instr hmem
    · rw [List.mem_append, List.mem_singleton] at hmem
      rcases hmem with hmem | hmem
      · exact hinv s instr hmem
      · cases hmem
        exact ⟨hc, hi⟩
  · intro s instr hmem
    cases hmem

theorem store_matchAndRewrite_some (op : StoreOp) (env : ThreadEnv)
    (computeCapability : Int) (res : StoreResult)
    (h : StoreOpConversion.matchAndRewrite op env computeCapability = some res) :
    StoreOpConversion.groups op (emitRedundantThreadPredicate op.freeVarMasks env)
      computeCapability
      (vectorWidth op.ptrIsTensor op.axisContiguity op.pointeeBitWidth
        (op.mask.map (fun m => m.alignment)))
      (toUnsigned (op.freeVarMasks.get "reg")) = some res.emitted := by
  unfold StoreOpConversion.matchAndRewrite at h
  simp only [] at h
  split at h
  · cases h
  · split at h
    · cases h
    · split at h
      · cases h
      · simp only [Option.map_eq_some'] at h
        obtain ⟨em, hem, rfl⟩ := h
        exact hem

/-- C6: reading an absent guard as true, `maybeAnd` is the logical AND: commutative,
associative, with the absent guard as identity, and absent iff both arguments are; the
guard of every emitted Store instruction is the data mask of the group start AND the
redundant-thread predicate, and it is absent iff the op has no mask and the lane, warp
and block masks are all zero. -/
theorem maybeAnd_laws_and_store_guard (op : StoreOp) (env : ThreadEnv) (computeCapability : Int)
    (res : StoreResult)
    (h : StoreOpConversion.matchAndRewrite op env computeCapability = some res) :
    (∀ a b, guardHolds (maybeAnd a b) = (guardHolds a && guardHolds b)) ∧
    (∀ a b, maybeAnd a b = maybeAnd b a) ∧
    (∀ a b c, maybeAnd (maybeAnd a b) c = maybeAnd a (maybeAnd b c)) ∧
    (∀ a, maybeAnd none a = a ∧ maybeAnd a none = a) ∧
    (∀ a b, maybeAnd a b = none ↔ a = none ∧ b = none) ∧
    (∀ s instr, (s, instr) ∈ res.emitted →
      instr.pred = maybeAnd (op.mask.bind (fun m => m.elems[s]?))
        (emitRedundantThreadPredicate op.freeVarMasks env) ∧
      (∀ m, op.mask = some m → ∃ b, m.elems[s]? = some b) ∧
      guardHolds instr.pred = (guardHolds (op.mask.bind (fun m => m.elems[s]?)) &&
        guardHolds (emitRedundantThreadPredicate op.freeVarMasks env)) ∧
      (instr.pred = none ↔ op.mask = none ∧ op.freeVarMasks.get "lane" = 0 ∧
        op.freeVarMasks.get "warp" = 0 ∧ op.freeVarMasks.get "block" = 0)) := by
  have hcomm : ∀ a b, maybeAnd a b = maybeAnd b a := by
    intro a b
    cases a <;> cases b <;> simp [maybeAnd, Bool.and_comm]
  refine ⟨guardHolds_maybeAnd, hcomm, ?_, ?_, maybeAnd_eq_none, ?_⟩
  · intro a b c
    cases a <;> cases b <;> cases c <;> simp [maybeAnd, Bool.and_assoc]
  · intro a
    exact ⟨rfl, maybeAnd_none_right a⟩
  · intro s instr hmem
    have hg := store_groups_emitted _ _ _ _ _ _
      (store_matchAndRewrite_some op env computeCapability res h) s instr hmem
    obtain ⟨hp, hm⟩ := store_pred_some _ _ _ _
      (store_stInstr_pred _ _ _ _ _ _ _ hg.2)
    have hp2 : instr.pred = maybeAnd (op.mask.bind (fun m => m.elems[s]?))
        (emitRedundantThreadPredicate op.freeVarMasks env) := by rw [hp, hcomm]
    refine ⟨hp2, hm, by rw [hp2, guardHolds_maybeAnd], ?_⟩
    rw [hp2, maybeAnd_eq_none, emitRedundantThreadPredicate_eq_none]
    constructor
    · rintro ⟨hmask, hz⟩
      refine ⟨?_, hz⟩
      cases hop : op.mask with
      | none => rfl
      | some m =>
        obtain ⟨b, hb⟩ := hm m hop
        simp [hop, hb] at hmask
    · rintro ⟨hmask, hz⟩
      exact ⟨by simp [hmask], hz⟩

theorem maybeAnd_laws_and_store_guard_witness :
    ∃ res, StoreOpConversion.matchAndRewrite exampleStoreOp ⟨1, 0, 0⟩ 80 = some res ∧
      res.emitted.map (fun e => (e.1, e.2.pred)) = [(0, some false), (2, some false)] ∧
      ∀ s instr, (s, instr) ∈ res.emitted →
        instr.pred = maybeAnd (exampleStoreOp.mask.bind (fun m => m.elems[s]?))
          (emitRedundantThreadPredicate exampleStoreOp.freeVarMasks ⟨1, 0, 0⟩) := by
  cases h : StoreOpConversion.matchAndRewrite exampleStoreOp ⟨1, 0, 0⟩ 80 with
  | none => exact absurd h (by decide)
  | some res =>
    refine ⟨res, rfl, ?_, fun s instr hmem =>
      ((maybeAnd_laws_and_store_guard exampleStoreOp ⟨1, 0, 0⟩ 80 res h).2.2.2.2.2
        s instr hmem).1⟩
    have h2 : (StoreOpConversion.matchAndRewrite exampleStoreOp ⟨1, 0, 0⟩ 80).map
        (fun r => r.emitted.map (fun e => (e.1, e.2.pred)))
        = some [(0, some false), (2, some false)] := by decide
    rw [h] at h2
    exact Option.some.inj h2

/-! ## Load guard -/

theorem load_pred_some (mask : Option MaskOperand) (vecStart : Nat)
    (p : Option Bool) (h : LoadOpConversion.pred mask vecStart = some p) :
    p = mask.bind (fun m => m.elems[vecStart]?) ∧
    (∀ m, mask = some m → ∃ b, m.elems[vecStart]? = some b) := by
  cases mask with
  | none =>
    simp only [LoadOpConversion.pred, Option.some.injEq] at h
    subst h
    simp
  | some m =>
    simp only [LoadOpConversion.pred, Option.map_eq_some'] at h
    obtain ⟨b, hb, rfl⟩ := h
    simp [hb]

theorem load_ldInstr_pred (op : LoadOp) (computeCapability : Int)
    (valueElemNBits vecStart : Nat) (plan : WordPlan) (movWidth : Nat) (instr : LdInstr)
    (h : LoadOpConversion.ldInstr op computeCapability valueElemNBits vecStart plan movWidth
      = some instr) :
    LoadOpConversion.pred op.mask vecStart = some instr.pred := by
  unfold LoadOpConversion.ldInstr at h
  simp only [Option.bind_eq_some, Option.some.injEq] at h
  obtain ⟨pred, hpred, movs, -, addr, -, rfl⟩ := h
  exact hpred

theorem load_canonicalGroup_pred (op : LoadOp) (launch : LdInstr → Nat → Nat)
    (computeCapability : Int) (vec : Nat) (numVecs : Int) (vecStart : Nat)
    (r : LdInstr × List Nat)
    (h : LoadOpConversion.canonicalGroup op launch computeCapability vec numVecs vecStart
      = some r) :
    LoadOpConversion.pred op.mask vecStart = some r.1.pred := by
  unfold LoadOpConversion.canonicalGroup at h
  simp only [] at h
  split at h
  · cases h
  · simp only [Option.bind_eq_some, Option.map_eq_some'] at h
    obtain ⟨instr, hi, vals, -, rfl⟩ := h
    exact load_ldInstr_pred _ _ _ _ _ _ _ hi

theorem load_group_some (op : LoadOp) (launch : LdInstr → Nat → Nat)
    (computeCapability : Int) (vec : Nat) (numVecs : Int) (regMask vecStart : Nat)
    (st out : LoadState)
    (h : LoadOpConversion.group op launch computeCapability vec numVecs regMask vecStart st
      = some out) :
    (vecStart ≠ getCanonicalIndex vecStart regMask ∧ out.emitted = st.emitted ∧
      LoadOpConversion.copyCanonical st.loadedVals (getCanonicalIndex vecStart regMask) vec
        = some out.loadedVals) ∨
    (vecStart = getCanonicalIndex vecStart regMask ∧ ∃ r,
      LoadOpConversion.canonicalGroup op launch computeCapability vec numVecs vecStart = some r ∧
      out.emitted = st.emitted ++ [(vecStart, r.1)] ∧
      out.loadedVals = st.loadedVals ++ r.2) := by
  unfold LoadOpConversion.group at h
  simp only [] at h
  split at h
  · rename_i hne
    left
    simp only [Option.map_eq_some'] at h
    obtain ⟨vals, hv, rfl⟩ := h
    exact ⟨hne, rfl, hv⟩
  · rename_i heq
    right
    simp only [Option.map_eq_some'] at h
    obtain ⟨r, hr, rfl⟩ := h
    exact ⟨not_not.mp heq, r, hr, rfl, rfl⟩

theorem load_groups_emitted (op : LoadOp) (launch : LdInstr → Nat → Nat)
    (computeCapability : Int) (vec regMask : Nat) (out : LoadState)
    (h : LoadOpConversion.groups op launch computeCapability vec regMask = some out) :
    ∀ s instr, (s, instr) ∈ out.emitted →
      s = getCanonicalIndex s regMask ∧
      ∃ vals, LoadOpConversion.canonicalGroup op launch computeCapability vec
        (toInt32 (op.numElems / vec)) s = some (instr, vals) := by
  unfold LoadOpConversion.groups at h
  refine forStep_inv op.numElems vec _
    (fun out => ∀ s instr, (s, instr) ∈ out.emitted →
      s = getCanonicalIndex s regMask ∧
      ∃ vals, LoadOpConversion.canonicalGroup op launch computeCapability vec
        (toInt32 (op.numElems / vec)) s = some (instr, vals)) ?_ _ _ _ _ ?_ h
  · intro i st st2 _ hinv hb s instr hmem
    rcases load_group_some _ _ _ _ _ _ _ _ _ hb with ⟨-, he, -⟩ | ⟨hc, r, hr, he, -⟩
    · rw [he] at hmem
      exact hinv s instr hmem
    · rw [he, List.mem_append, List.mem_singleton] at hmem
      rcases hmem with hmem | hmem
      · exact hinv s instr hmem
      · cases hmem
        exact ⟨hc, r.2, hr⟩
  · intro s instr hmem
    cases hmem

theorem load_matchAndRewrite_some (op : LoadOp) (launch : LdInstr → Nat → Nat)
    (computeCapability : Int) (res : LoadResult)
    (h : LoadOpConversion.matchAndRewrite op launch computeCapability = some res) :
    LoadOpConversion.groups op launch computeCapability
      (vectorWidth op.ptrIsTensor op.axisContiguity op.pointeeBitWidth
        (op.mask.map (fun m => m.alignment)))
      (toUnsigned (op.freeVarMasks.get "reg"))
      = some { emitted := res.emitted, loadedVals := res.result } := by
  unfold LoadOpConversion.matchAndRewrite at h
  simp only [] at h
  split at h
  · cases h
  · split at h
    · cases h
    · split at h
      · cases h
      · simp only [Option.map_eq_some'] at h
        obtain ⟨st, hst, rfl⟩ := h
        exact hst

/-- C7 fails as stated: an unmasked load whose data is duplicated across pairs of lanes
(lane mask 1) emits unguarded instructions, so the non-canonical lane 1, for which the
redundant-thread predicate is false, executes every load. -/
theorem load_guard_ignores_redundancy :
    getCanonicalIndex 1 (exampleLoadOp.freeVarMasks.get "lane") ≠ 1 ∧
    emitRedundantThreadPredicate exampleLoadOp.freeVarMasks ⟨1, 0, 0⟩ = some false ∧
    (LoadOpConversion.matchAndRewrite exampleLoadOp (fun _ _ => 0) 80).map
      (fun r => r.emitted.map (fun e => (e.1, e.2.pred, guardHolds e.2.pred)))
      = some [(0, none, true), (2, none, true)] := by
  decide

/-- C7, amended: the guard attached to every emitted Load instruction is exactly the data
mask of the first element of its group when the load is masked, and is absent when it is
not; the lane, warp and block masks play no part in it. -/
theorem load_guard_is_data_mask (op : LoadOp) (launch : LdInstr → Nat → Nat)
    (computeCapability : Int) (res : LoadResult)
    (h : LoadOpConversion.matchAndRewrite op launch computeCapability = some res) :
    ∀ s instr, (s, instr) ∈ res.emitted →
      instr.pred = op.mask.bind (fun m => m.elems[s]?) ∧
      (∀ m, op.mask = some m → ∃ b, m.elems[s]? = some b ∧ instr.pred = some b) ∧
      (op.mask = none → instr.pred = none) := by
  intro s instr hmem
  obtain ⟨-, vals, hg⟩ := load_groups_emitted _ _ _ _ _ _
    (load_matchAndRewrite_some op launch computeCapability res h) s instr hmem
  obtain ⟨hp, hm⟩ := load_pred_some _ _ _
    (load_canonicalGroup_pred _ _ _ _ _ _ _ hg)
  simp only [] at hp
  refine ⟨hp, ?_, ?_⟩
  · intro m hop
    obtain ⟨b, hb⟩ := hm m hop
    exact ⟨b, hb, by rw [hp, hop]; simpa using hb⟩
  · intro hop
    rw [hp, hop]
    rfl

theorem load_guard_is_data_mask_witness :
    ∃ res, LoadOpConversion.matchAndRewrite exampleSplatLoadOp (fun _ _ => 0) 80 = some res ∧
      res.emitted.map (fun e => e.1) = [0] ∧
      ∀ s instr, (s, instr) ∈ res.emitted →
        instr.pred = exampleSplatLoadOp.mask.bind (fun m => m.elems[s]?) := by
  cases h : LoadOpConversion.matchAndRewrite exampleSplatLoadOp (fun _ _ => 0) 80 with
  | none => exact absurd h (by decide)
  | some res =>
    refine ⟨res, rfl, ?_, fun s instr hmem =>
      ((load_guard_is_data_mask exampleSplatLoadOp (fun _ _ => 0) 80 res h) s instr hmem).1⟩
    have h2 : (LoadOpConversion.matchAndRewrite exampleSplatLoadOp (fun _ _ => 0) 80).map
        (fun r => r.emitted.map (fun e => e.1)) = some [0] := by decide
    rw [h] at h2
    exact Option.some.inj h2

/-! ## Word plan -/

theorem toInt32_of_lt (n : Nat) (h : n < 2 ^ 31) : toInt32 n = (n : Int) := by
  unfold toInt32
  have h1 : n % 2 ^ 32 = n := Nat.mod_eq_of_lt (by omega)
  rw [h1, if_pos h]

theorem toSizeT_natCast (n : Nat) (h : n < 2 ^ 64) : toSizeT (n : Int) = n := by
  unfold toSizeT
  have h1 : ((n : Int) % 2 ^ 64) = (n : Int) := Int.emod_eq_of_lt (by omega) (by omega)
  rw [h1, Int.toNat_ofNat]

theorem two_pow_le_sixteen (k : Nat) (h : 2 ^ k ≤ 16) : k ≤ 4 := by
  by_contra hk
  have : 2 ^ 5 ≤ 2 ^ k := Nat.pow_le_pow_right (by decide) (by omega)
  omega

theorem wordPlan_valid (bw vec k : Nat) (hbw : bw = 8 ∨ bw = 16 ∨ bw = 32 ∨ bw = 64)
    (hvec : vec = 2 ^ k) (hle : vec * bw ≤ 128) :
    (wordPlan bw vec).width ≤ 64 ∧
    (wordPlan bw vec).width * (wordPlan bw vec).nWords = bw * vec ∧
    (wordPlan bw vec).wordNElems * (wordPlan bw vec).nWords = vec ∧
    0 < (wordPlan bw vec).wordNElems ∧
    (wordPlan bw vec).width = bw * (wordPlan bw vec).wordNElems := by
  have hk : k ≤ 4 := by
    apply two_pow_le_sixteen
    rw [← hvec]
    rcases hbw with rfl | rfl | rfl | rfl <;> omega
  subst hvec
  interval_cases k <;> rcases hbw with rfl | rfl | rfl | rfl <;>
    first
    | (exfalso; revert hle; decide)
    | decide

/-- C8: for element widths 8, 16, 32 and 64, a power-of-two vector width with
vec*nbits <= 128 and a per-lane count divisible by vec, the word plan of Load and of
Store has words of at most 64 bits that hold exactly the vec elements of a group, so the
assertion `wordNElems * nWords * numVecs == numElems` holds and every packed element
index is below numElems. -/
theorem wordPlan_sound (bw vec numElems k : Nat) (hbw : bw = 8 ∨ bw = 16 ∨ bw = 32 ∨ bw = 64)
    (hvec : vec = 2 ^ k) (hle : vec * bw ≤ 128) (hdiv : vec ∣ numElems)
    (hn : numElems < 2 ^ 31) :
    LoadOpConversion.valueElemNBits bw = bw ∧ StoreOpConversion.valueElemNBits bw = bw ∧
    (wordPlan bw vec).width = min (bw * vec) (max 32 bw) ∧
    (wordPlan bw vec).nWords = max 1 (bw * vec / (wordPlan bw vec).width) ∧
    (wordPlan bw vec).wordNElems = (wordPlan bw vec).width / bw ∧
    (wordPlan bw vec).width ≤ 64 ∧
    (wordPlan bw vec).width * (wordPlan bw vec).nWords = bw * vec ∧
    (wordPlan bw vec).wordNElems * (wordPlan bw vec).nWords = vec ∧
    wordPlanAssertion (wordPlan bw vec) (toInt32 (numElems / vec)) numElems = true ∧
    ∀ vecStart wordIdx elemIdx, vecStart < numElems → vec ∣ vecStart →
      wordIdx < (wordPlan bw vec).nWords → elemIdx < (wordPlan bw vec).wordNElems →
      vecStart + wordIdx * (wordPlan bw vec).wordNElems + elemIdx < numElems := by
  obtain ⟨hw64, hwn, hen, -, -⟩ := wordPlan_valid bw vec k hbw hvec hle
  have hvpos : 0 < vec := by rw [hvec]; exact Nat.two_pow_pos k
  refine ⟨?_, ?_, rfl, rfl, rfl, hw64, hwn, hen, ?_, ?_⟩
  · rcases hbw with rfl | rfl | rfl | rfl <;> decide
  · rcases hbw with rfl | rfl | rfl | rfl <;> decide
  · unfold wordPlanAssertion
    have hq : numElems / vec < 2 ^ 31 := Nat.lt_of_le_of_lt (Nat.div_le_self _ _) hn
    rw [toInt32_of_lt _ hq, toSizeT_natCast _ (by omega), hen, Nat.mul_div_cancel' hdiv]
    simp
  · intro vecStart wordIdx elemIdx hlt hdvd hwi hei
    obtain ⟨a, rfl⟩ := hdvd
    obtain ⟨b, rfl⟩ := hdiv
    have hab : a < b := Nat.lt_of_mul_lt_mul_left hlt
    have h1 : vec * (a + 1) ≤ vec * b := Nat.mul_le_mul_left _ hab
    have h2 : (wordIdx + 1) * (wordPlan bw vec).wordNElems
        ≤ (wordPlan bw vec).nWords * (wordPlan bw vec).wordNElems :=
      Nat.mul_le_mul_right _ hwi
    rw [Nat.mul_comm (wordPlan bw vec).nWords, hen] at h2
    rw [Nat.add_mul, Nat.one_mul] at h2
    rw [Nat.mul_add, Nat.mul_one] at h1
    omega

theorem wordPlan_sound_witness :
    (wordPlan 8 16).width = 32 ∧ (wordPlan 8 16).nWords = 4 ∧ (wordPlan 8 16).wordNElems = 4 ∧
    wordPlanAssertion (wordPlan 8 16) (toInt32 (64 / 16)) 64 = true ∧
    48 + 3 * (wordPlan 8 16).wordNElems + 3 < 64 :=
  have h := wordPlan_sound 8 16 64 4 (Or.inl rfl) (by decide) (by decide) ⟨4, by decide⟩
    (by decide)
  ⟨by decide, by decide, by decide, h.2.2.2.2.2.2.2.2.1,
    h.2.2.2.2.2.2.2.2.2 48 3 3 (by decide) ⟨3, by decide⟩ (by decide) (by decide)⟩

/-! ## Fill immediate -/

/-- C10 at a failing input: for a load of 8-bit integers with vector width 4 and the
constant splat fill -2, the immediate of the 32-bit fill move is -2, whose low 32 bits are
0xFFFFFFFE, not the replicated pattern 0xFEFEFEFE; for the non-negative fill 3 the
immediate is the replicated 0x03030303. -/
theorem splat_fill_immediate_not_replicated :
    (LoadOpConversion.matchAndRewrite exampleSplatLoadOp (fun _ _ => 0) 80).map
      (fun r => r.emitted.map (fun e => e.2.movs))
      = some [[{ movWidth := 32, dst := 0, src := MovOperand.const (-2) }]] ∧
    replicatedSplatVal (-2) 32 8 = some (-2) ∧
    toU64 (-2) % 2 ^ 32 = 0xFFFFFFFE ∧
    specReplicatedPattern (-2) 8 (32 / 8) = 0xFEFEFEFE ∧
    replicatedSplatVal 3 32 8 = some 0x03030303 ∧
    specReplicatedPattern 3 8 (32 / 8) = 0x03030303 := by
  decide

/-! ## Packing and unpacking -/

theorem forLoop_append {α : Type} (body : Nat → List α → Option (List α)) (g : Nat → α)
    (init : List α) (n : Nat) (h : ∀ i, i < n → ∀ acc, body i acc = some (acc ++ [g i])) :
    forLoop body init n = some (init ++ (List.range n).map g) := by
  induction n with
  | zero => simp [forLoop]
  | succ n ih =>
    rw [forLoop, ih (fun i hi => h i (Nat.lt_succ_of_lt hi)), Option.some_bind,
      h n (Nat.lt_succ_self n), List.range_succ, List.map_append, List.append_assoc]
    rfl

theorem forLoop_insert (body : Nat → VecReg → Option VecReg) (g : Nat → Nat) (n : Nat)
    (h : ∀ i, i < n → ∀ v, body i v = some (insert_element v (g i) i)) :
    forLoop body (undefVec n) n = some ((List.range n).map (fun i => some (g i))) := by
  have key : ∀ i, i ≤ n → forLoop body (undefVec n) i
      = some ((List.range i).map (fun e => some (g e)) ++ List.replicate (n - i) none) := by
    intro i
    induction i with
    | zero => intro _; simp [forLoop, undefVec]
    | succ i ih =>
      intro hi
      rw [forLoop, ih (Nat.le_of_succ_le hi), Option.some_bind, h i hi]
      congr 1
      unfold insert_element
      have hlen : ((List.range i).map (fun e => some (g e))).length ≤ i := by simp
      rw [List.set_append_right _ _ hlen]
      have hrep : List.replicate (n - i) (none : Option Nat)
          = none :: List.replicate (n - (i + 1)) none := by
        have : n - i = (n - (i + 1)) + 1 := by omega
        rw [this, List.replicate_succ]
      simp [hrep, List.range_succ]
  have := key n (Nat.le_refl n)
  simpa using this

theorem bitcastVecToInt_map_some (nbits : Nat) (l : List Nat) :
    bitcastVecToInt nbits (l.map some) = some (wordOfElems nbits l) := by
  induction l with
  | nil => rfl
  | cons x rest ih => simp [bitcastVecToInt, wordOfElems, ih]

theorem laneOfWord_zero (nbits w : Nat) : laneOfWord nbits w 0 = w % 2 ^ nbits := by
  simp [laneOfWord]

theorem laneOfWord_succ (nbits w j : Nat) :
    laneOfWord nbits w (j + 1) = laneOfWord nbits (w / 2 ^ nbits) j := by
  unfold laneOfWord
  rw [Nat.mul_succ, Nat.add_comm, Nat.pow_add, Nat.div_div_eq_div_mul]

theorem getElem?_bitcastIntToVec (nbits : Nat) :
    ∀ (n w j : Nat), j < n → (bitcastIntToVec nbits n w)[j]? = some (laneOfWord nbits w j) := by
  intro n
  induction n with
  | zero => intro w j hj; omega
  | succ n ih =>
    intro w j hj
    cases j with
    | zero => simp [bitcastIntToVec, laneOfWord_zero]
    | succ j =>
      simp only [bitcastIntToVec, List.getElem?_cons_succ]
      rw [ih _ j (by omega), laneOfWord_succ]

theorem wordOfElems_div (nbits x : Nat) (rest : List Nat) :
    wordOfElems nbits (x :: rest) / 2 ^ nbits = wordOfElems nbits rest := by
  have hpos : 0 < 2 ^ nbits := Nat.two_pow_pos nbits
  rw [wordOfElems, Nat.add_mul_div_left _ _ hpos, Nat.div_eq_of_lt (Nat.mod_lt _ hpos), Nat.zero_add]

theorem laneOfWord_wordOfElems (nbits : Nat) :
    ∀ (l : List Nat) (j : Nat), j < l.length →
      some (laneOfWord nbits (wordOfElems nbits l) j) = l[j]?.map (fun x => x % 2 ^ nbits) := by
  intro l
  induction l with
  | nil => intro j hj; simp at hj
  | cons x rest ih =>
    intro j hj
    cases j with
    | zero =>
      rw [laneOfWord_zero]
      simp [wordOfElems]
    | succ j =>
      rw [laneOfWord_succ, wordOfElems_div, ih j (by simpa using hj)]
      simp


theorem store_packWord_eq (valueElems : List Nat) (vecStart wordIdx wordNElems : Nat)
    (h : vecStart + wordIdx * wordNElems + wordNElems ≤ valueElems.length) :
    StoreOpConversion.packWord valueElems false vecStart wordIdx wordNElems
      = some ((List.range wordNElems).map
          (fun e => some (valueElems.getD (vecStart + wordIdx * wordNElems + e) 0))) := by
  unfold StoreOpConversion.packWord
  apply forLoop_insert
  intro i hi v
  have hlt : vecStart + wordIdx * wordNElems + i < valueElems.length := by omega
  simp [hlt, List.getD_eq_getElem?_getD]

theorem store_pack_eq (valueElems : List Nat) (nbits vecStart : Nat) (plan : WordPlan)
    (h : vecStart + plan.nWords * plan.wordNElems ≤ valueElems.length) :
    StoreOpConversion.pack valueElems false nbits vecStart plan
      = some ((List.range plan.nWords).map (fun wordIdx =>
          (some (wordOfElems nbits ((List.range plan.wordNElems).map
            (fun e => valueElems.getD (vecStart + wordIdx * plan.wordNElems + e) 0))),
           readConstraint plan.width))) := by
  unfold StoreOpConversion.pack
  rw [forLoop_append _ (fun wordIdx =>
          (some (wordOfElems nbits ((List.range plan.wordNElems).map
            (fun e => valueElems.getD (vecStart + wordIdx * plan.wordNElems + e) 0))),
           readConstraint plan.width))]
  · simp
  · intro i hi acc
    have hle : (i + 1) * plan.wordNElems ≤ plan.nWords * plan.wordNElems :=
      Nat.mul_le_mul_right _ hi
    rw [Nat.add_mul, Nat.one_mul] at hle
    rw [store_packWord_eq valueElems vecStart i plan.wordNElems (by omega)]
    simp only [Option.map_some']
    rw [← bitcastVecToInt_map_some, List.map_map]
    rfl

theorem load_rets_eq (ret : Nat → Nat) (nbits : Nat) (plan : WordPlan) :
    LoadOpConversion.rets ret nbits plan
      = some ((List.range plan.nWords).map (fun ii =>
          bitcastIntToVec nbits (plan.width / nbits)
            (if 1 < plan.nWords then ret ii else ret 0))) := by
  unfold LoadOpConversion.rets
  rw [forLoop_append _ (fun ii =>
          bitcastIntToVec nbits (plan.width / nbits)
            (if 1 < plan.nWords then ret ii else ret 0))]
  · simp
  · intro i _ acc
    simp

theorem load_unpack_eq (ret : Nat → Nat) (nbits vec : Nat) (plan : WordPlan)
    (hpos : 0 < plan.width / nbits) (hvec : vec = plan.width / nbits * plan.nWords) :
    LoadOpConversion.unpack ret nbits vec plan
      = some ((List.range vec).map (fun j =>
          laneOfWord nbits (ret (j / (plan.width / nbits))) (j % (plan.width / nbits)))) := by
  unfold LoadOpConversion.unpack
  rw [load_rets_eq, Option.some_bind]
  simp only []
  rw [forLoop_append _ (fun j =>
          laneOfWord nbits (ret (j / (plan.width / nbits))) (j % (plan.width / nbits)))]
  · simp
  · intro i hi acc
    have hq : i / (plan.width / nbits) < plan.nWords := by
      apply Nat.div_lt_of_lt_mul
      rw [← hvec]
      exact hi
    have hr : i % (plan.width / nbits) < plan.width / nbits := Nat.mod_lt _ hpos
    rw [List.getElem?_map, List.getElem?_range hq]
    simp only [Option.map_some', Option.some_bind]
    rw [getElem?_bitcastIntToVec _ _ _ _ hr]
    simp only [Option.map_some']
    by_cases h1 : 1 < plan.nWords
    · simp [h1]
    · have hn1 : plan.nWords = 1 := by
        have : 0 < plan.nWords := Nat.lt_of_le_of_lt (Nat.zero_le _) hq
        omega
      have : i / (plan.width / nbits) = 0 := Nat.lt_one_iff.mp (hn1 ▸ hq)
      simp [h1, this]

theorem lane_of_packed_word (bw n vecStart j : Nat) (valueElems : List Nat) (hn : 0 < n)
    (hj : vecStart + j < valueElems.length) (hrange : ∀ x, x ∈ valueElems → x < 2 ^ bw) :
    some (laneOfWord bw (wordOfElems bw ((List.range n).map
        (fun e => valueElems.getD (vecStart + j / n * n + e) 0))) (j % n))
      = valueElems[vecStart + j]? := by
  have hr : j % n < n := Nat.mod_lt _ hn
  rw [laneOfWord_wordOfElems _ _ _ (by simpa using hr), List.getElem?_map,
    List.getElem?_range hr]
  have hidx : vecStart + j / n * n + j % n = vecStart + j := by
    have := Nat.div_add_mod j n
    rw [Nat.mul_comm] at this
    omega
  simp only [Option.map_some', hidx]
  rw [List.getD_eq_getElem?_getD, List.getElem?_eq_getElem hj]
  simp only [Option.getD_some, Option.some.injEq]
  exact Nat.mod_eq_of_lt (hrange _ (List.getElem_mem _))

/-- C9: for element sizes 8, 16, 32 and 64 bits and a power-of-two group of vec elements
with vec*nbits <= 128, Store puts element j of the group in lane j % wordNElems of word
j / wordNElems, Load reads result element j from that same lane of that same word, with
j / wordNElems < nWords, and unpacking the packed words gives back the vec elements of
the group, bit for bit and in order. -/
theorem pack_unpack_roundtrip (bw vec k vecStart : Nat) (valueElems : List Nat)
    (hbw : bw = 8 ∨ bw = 16 ∨ bw = 32 ∨ bw = 64) (hvec : vec = 2 ^ k) (hle : vec * bw ≤ 128)
    (hlen : vecStart + vec ≤ valueElems.length) (hrange : ∀ x, x ∈ valueElems → x < 2 ^ bw) :
    ∃ asmArgs,
      StoreOpConversion.pack valueElems false (StoreOpConversion.valueElemNBits bw) vecStart
        (wordPlan (StoreOpConversion.valueElemNBits bw) vec) = some asmArgs ∧
      asmArgs.length = (wordPlan bw vec).nWords ∧
      (∀ j, j < vec → j / (wordPlan bw vec).wordNElems < (wordPlan bw vec).nWords ∧
        ∃ w, (asmArgs[j / (wordPlan bw vec).wordNElems]?).map (fun a => a.1) = some (some w) ∧
          some (laneOfWord bw w (j % (wordPlan bw vec).wordNElems))
            = valueElems[vecStart + j]?) ∧
      (∀ ret : Nat → Nat,
        LoadOpConversion.unpack ret (LoadOpConversion.valueElemNBits bw) vec
            (wordPlan (LoadOpConversion.valueElemNBits bw) vec)
          = some ((List.range vec).map (fun j =>
              laneOfWord bw (ret (j / (wordPlan bw vec).wordNElems))
                (j % (wordPlan bw vec).wordNElems)))) ∧
      (∀ ret : Nat → Nat,
        (∀ ii, ii < (wordPlan bw vec).nWords →
          (asmArgs[ii]?).map (fun a => a.1) = some (some (ret ii))) →
        LoadOpConversion.unpack ret (LoadOpConversion.valueElemNBits bw) vec
            (wordPlan (LoadOpConversion.valueElemNBits bw) vec)
          = some ((valueElems.drop vecStart).take vec)) := by
  obtain ⟨-, -, hen, hnpos, hwidth⟩ := wordPlan_valid bw vec k hbw hvec hle
  have hbwpos : 0 < bw := by rcases hbw with rfl | rfl | rfl | rfl <;> decide
  have hl : LoadOpConversion.valueElemNBits bw = bw := by
    rcases hbw with rfl | rfl | rfl | rfl <;> decide
  have hs : StoreOpConversion.valueElemNBits bw = bw := by
    rcases hbw with rfl | rfl | rfl | rfl <;> decide
  have htmp : (wordPlan bw vec).width / bw = (wordPlan bw vec).wordNElems := by
    rw [hwidth, Nat.mul_div_cancel_left _ hbwpos]
  have hq : ∀ j, j < vec → j / (wordPlan bw vec).wordNElems < (wordPlan bw vec).nWords := by
    intro j hj
    apply Nat.div_lt_of_lt_mul
    rw [hen]
    exact hj
  have hunpack : ∀ ret : Nat → Nat,
      LoadOpConversion.unpack ret bw vec (wordPlan bw vec)
        = some ((List.range vec).map (fun j =>
            laneOfWord bw (ret (j / (wordPlan bw vec).wordNElems))
              (j % (wordPlan bw vec).wordNElems))) := by
    intro ret
    rw [load_unpack_eq ret bw vec (wordPlan bw vec) (by rw [htmp]; exact hnpos)
      (by rw [htmp, hen]), htmp]
  rw [hl, hs, store_pack_eq valueElems bw vecStart (wordPlan bw vec)
    (by rw [Nat.mul_comm, hen]; exact hlen)]
  refine ⟨_, rfl, by simp, ?_, hunpack, ?_⟩
  · intro j hj
    refine ⟨hq j hj, _, ?_, lane_of_packed_word bw (wordPlan bw vec).wordNElems vecStart j
      valueElems hnpos (by omega) hrange⟩
    rw [List.getElem?_map, List.getElem?_range (hq j hj)]
    rfl
  · intro ret hret
    rw [hunpack]
    congr 1
    apply List.ext_getElem?
    intro j
    by_cases hj : j < vec
    · rw [List.getElem?_map, List.getElem?_range hj, List.getElem?_take_of_lt hj,
        List.getElem?_drop]
      simp only [Option.map_some']
      have hr := hret _ (hq j hj)
      rw [List.getElem?_map, List.getElem?_range (hq j hj)] at hr
      simp only [Option.map_some', Option.some.injEq] at hr
      rw [← hr]
      exact lane_of_packed_word bw (wordPlan bw vec).wordNElems vecStart j
        valueElems hnpos (by omega) hrange
    · have h1 : ((List.range vec).map (fun j =>
            laneOfWord bw (ret (j / (wordPlan bw vec).wordNElems))
              (j % (wordPlan bw vec).wordNElems)))[j]? = none := by
        apply List.getElem?_eq_none
        simp
        omega
      have h2 : ((valueElems.drop vecStart).take vec)[j]? = none := by
        apply List.getElem?_eq_none
        simp
        omega
      rw [h1, h2]

theorem pack_unpack_roundtrip_witness :
    ∃ asmArgs,
      StoreOpConversion.pack [1, 2, 3, 4, 5, 6, 7, 8] false
        (StoreOpConversion.valueElemNBits 16) 4
        (wordPlan (StoreOpConversion.valueElemNBits 16) 4) = some asmArgs ∧
      asmArgs = [(some 393221, "r"), (some 524295, "r")] ∧
      LoadOpConversion.unpack (fun ii => [393221, 524295].getD ii 0)
          (LoadOpConversion.valueElemNBits 16) 4
          (wordPlan (LoadOpConversion.valueElemNBits 16) 4)
        = some [5, 6, 7, 8] := by
  obtain ⟨asmArgs, hp, -, -, -, hu⟩ := pack_unpack_roundtrip 16 4 2 4 [1, 2, 3, 4, 5, 6, 7, 8]
    (Or.inr (Or.inl rfl)) (by decide) (by decide) (by decide) (by decide)
  have hp2 : StoreOpConversion.pack [1, 2, 3, 4, 5, 6, 7, 8] false
      (StoreOpConversion.valueElemNBits 16) 4
      (wordPlan (StoreOpConversion.valueElemNBits 16) 4)
      = some [(some 393221, "r"), (some 524295, "r")] := by decide
  have ha : asmArgs = [(some 393221, "r"), (some 524295, "r")] := by
    rw [hp] at hp2
    exact Option.some.inj hp2
  refine ⟨asmArgs, hp, ha, ?_⟩
  have := hu (fun ii => [393221, 524295].getD ii 0) (by
    subst ha
    decide)
  simpa using this


/-! ## The loop over vector groups -/

theorem forLoop_isSome {σ : Type} (body : Nat → σ → Option σ) (init : σ) (n : Nat)
    (h : ∀ i, i < n → ∀ s, ∃ t, body i s = some t) : ∃ t, forLoop body init n = some t := by
  induction n with
  | zero => exact ⟨init, rfl⟩
  | succ n ih =>
    obtain ⟨s, hs⟩ := ih (fun i hi => h i (Nat.lt_succ_of_lt hi))
    obtain ⟨t, ht⟩ := h n (Nat.lt_succ_self n) s
    exact ⟨t, by rw [forLoop, hs, Option.some_bind, ht]⟩

theorem forStep_isSome {σ : Type} (stop step : Nat) (body : Nat → σ → Option σ)
    (hstep : 0 < step) (hbody : ∀ i s, ∃ t, body i s = some t) :
    ∀ fuel i s, stop - i ≤ fuel → ∃ t, forStep stop step body fuel i s = some t := by
  intro fuel
  induction fuel with
  | zero =>
    intro i s hf
    exact ⟨s, by simp only [forStep]; rw [if_neg (by omega)]⟩
  | succ fuel ih =>
    intro i s hf
    by_cases hlt : i < stop
    · obtain ⟨u, hu⟩ := hbody i s
      obtain ⟨t, ht⟩ := ih (i + step) u (by omega)
      exact ⟨t, by simp only [forStep]; rw [if_pos hlt, hu, Option.some_bind, ht]⟩
    · exact ⟨s, by simp only [forStep]; rw [if_neg hlt]⟩

theorem forStep_groups {σ : Type} (step count : Nat) (body : Nat → σ → Option σ)
    (Inv : Nat → σ → Prop) (hstep : 0 < step)
    (hbody : ∀ j s, j < count → Inv j s → ∃ t, body (j * step) s = some t ∧ Inv (j + 1) t) :
    ∀ fuel j s, j ≤ count → count - j ≤ fuel → Inv j s →
      ∃ t, forStep (count * step) step body fuel (j * step) s = some t ∧ Inv count t := by
  intro fuel
  induction fuel with
  | zero =>
    intro j s hj hf hinv
    have hjc : j = count := by omega
    subst hjc
    exact ⟨s, by simp only [forStep]; rw [if_neg (Nat.lt_irrefl _)], hinv⟩
  | succ fuel ih =>
    intro j s hj hf hinv
    by_cases hlt : j < count
    · obtain ⟨u, hu, hinv2⟩ := hbody j s hlt hinv
      obtain ⟨t, ht, hinv3⟩ := ih (j + 1) u hlt (by omega) hinv2
      refine ⟨t, ?_, hinv3⟩
      have hlt2 : j * step < count * step := Nat.mul_lt_mul_of_pos_right hlt hstep
      simp only [forStep]
      rw [if_pos hlt2, hu, Option.some_bind, ← Nat.succ_mul]
      exact ht
    · have hjc : j = count := by omega
      subst hjc
      exact ⟨s, by simp only [forStep]; rw [if_neg (Nat.lt_irrefl _)], hinv⟩

theorem canonical_of_multiple (k j m : Nat) (hs : j * 2 ^ k < 2 ^ 32) (hm : m < 2 ^ 32) :
    ∃ i, i ≤ j ∧ getCanonicalIndex (j * 2 ^ k) m = i * 2 ^ k := by
  have hdvd : 2 ^ k ∣ getCanonicalIndex (j * 2 ^ k) m := by
    rw [Nat.dvd_iff_mod_eq_zero]
    apply Nat.eq_of_testBit_eq
    intro b
    rw [Nat.testBit_mod_two_pow, testBit_getCanonicalIndex _ _ _ hs hm]
    simp only [Nat.zero_testBit]
    by_cases hb : b < k
    · have : (j * 2 ^ k).testBit b = false := by
        rw [Nat.mul_comm, Nat.testBit_mul_pow_two]
        simp
        omega
      simp [this]
    · simp [hb]
  obtain ⟨i, hi⟩ := hdvd
  refine ⟨i, ?_, by rw [hi, Nat.mul_comm]⟩
  have hle := getCanonicalIndex_le (j * 2 ^ k) m hs
  rw [hi, Nat.mul_comm] at hle
  exact Nat.le_of_mul_le_mul_right hle (Nat.two_pow_pos k)

theorem forLoop_eq {σ : Type} (body : Nat → σ → Option σ) (init : σ) (f : Nat → σ) (n : Nat)
    (h0 : f 0 = init) (hstep : ∀ i, i < n → body i (f i) = some (f (i + 1))) :
    forLoop body init n = some (f n) := by
  induction n with
  | zero => rw [forLoop, h0]
  | succ n ih =>
    rw [forLoop, ih (fun i hi => hstep i (Nat.lt_succ_of_lt hi)), Option.some_bind,
      hstep n (Nat.lt_succ_self n)]

theorem wordPlanAssertion_of_valid (plan : WordPlan) (vec numElems : Nat)
    (hen : plan.wordNElems * plan.nWords = vec) (hdiv : vec ∣ numElems)
    (hn : numElems < 2 ^ 31) :
    wordPlanAssertion plan (toInt32 (numElems / vec)) numElems = true := by
  unfold wordPlanAssertion
  have hq : numElems / vec < 2 ^ 31 := Nat.lt_of_le_of_lt (Nat.div_le_self _ _) hn
  rw [toInt32_of_lt _ hq, toSizeT_natCast _ (by omega), hen, Nat.mul_div_cancel' hdiv]
  simp

theorem packed_index_lt (n nWords vec numElems vecStart wordIdx elemIdx : Nat)
    (hen : n * nWords = vec) (hdiv : vec ∣ numElems) (hs : vecStart < numElems)
    (hd : vec ∣ vecStart) (hw : wordIdx < nWords) (he : elemIdx < n) :
    vecStart + wordIdx * n + elemIdx < numElems := by
  obtain ⟨a, rfl⟩ := hd
  obtain ⟨b, rfl⟩ := hdiv
  have hab : a < b := Nat.lt_of_mul_lt_mul_left hs
  have h1 : vec * (a + 1) ≤ vec * b := Nat.mul_le_mul_left _ hab
  have h2 : (wordIdx + 1) * n ≤ nWords * n := Nat.mul_le_mul_right _ hw
  rw [Nat.mul_comm nWords, hen, Nat.add_mul, Nat.one_mul] at h2
  rw [Nat.mul_add, Nat.mul_one] at h1
  omega

theorem load_copyCanonical_eq (loadedVals : List Nat) (c vec : Nat)
    (h : c + vec ≤ loadedVals.length) :
    LoadOpConversion.copyCanonical loadedVals c vec
      = some (loadedVals ++ (loadedVals.drop c).take vec) := by
  unfold LoadOpConversion.copyCanonical
  apply forLoop_eq _ _ (fun i => loadedVals ++ (loadedVals.drop c).take i)
  · simp
  · intro i hi
    have hlt : c + i < loadedVals.length := by omega
    rw [List.getElem?_append_left hlt, List.getElem?_eq_getElem hlt, Option.map_some',
      List.take_succ, List.getElem?_drop, List.getElem?_eq_getElem hlt]
    simp

theorem replicatedSplatVal_isSome (splatVal : Int) (movWidth nbits : Nat) (h : 0 < nbits) :
    ∃ v, replicatedSplatVal splatVal movWidth nbits = some v := by
  unfold replicatedSplatVal
  exact forStep_isSome movWidth nbits _ h (fun _ s => ⟨_, rfl⟩) movWidth 0 0 (by omega)

theorem load_fillMoves_isSome (op : LoadOp) (other : OtherOperand) (nbits vecStart : Nat)
    (plan : WordPlan) (movWidth : Nat) (hbits : 0 < nbits)
    (hidx : ∀ ii s, ii < plan.nWords → s < plan.width / nbits →
      vecStart + ii * (plan.width / nbits) + s < other.elems.length) :
    ∃ movs, LoadOpConversion.fillMoves op other nbits vecStart plan movWidth = some movs := by
  unfold LoadOpConversion.fillMoves
  apply forLoop_isSome
  intro ii hii movs
  have hv : ∃ v, LoadOpConversion.fillVector other.elems vecStart ii (plan.width / nbits)
      = some v := by
    unfold LoadOpConversion.fillVector
    apply forLoop_isSome
    intro s hs v
    rw [List.getElem?_eq_getElem (hidx ii s hii hs)]
    exact ⟨_, rfl⟩
  obtain ⟨v, hv⟩ := hv
  simp only [hv, Option.some_bind]
  unfold LoadOpConversion.fillOperand
  split
  · obtain ⟨r, hr⟩ := replicatedSplatVal_isSome (other.splatConstInt.getD 0) movWidth nbits hbits
    rw [hr]
    exact ⟨_, rfl⟩
  · exact ⟨_, rfl⟩

theorem load_canonicalGroup_isSome (op : LoadOp) (launch : LdInstr → Nat → Nat)
    (computeCapability : Int) (vec k vecStart : Nat)
    (hbw : op.valueElemBitWidth = 8 ∨ op.valueElemBitWidth = 16 ∨ op.valueElemBitWidth = 32 ∨
      op.valueElemBitWidth = 64)
    (hvec : vec = 2 ^ k) (hle : vec * op.valueElemBitWidth ≤ 128) (hdiv : vec ∣ op.numElems)
    (hn : op.numElems < 2 ^ 31) (hptr : op.ptrElems.length = op.numElems)
    (hmask : ∀ m, op.mask = some m → m.elems.length = op.numElems)
    (hother : ∀ o, op.other = some o → o.elems.length = op.numElems)
    (hs : vecStart < op.numElems) (hd : vec ∣ vecStart) :
    ∃ r, LoadOpConversion.canonicalGroup op launch computeCapability vec
        (toInt32 (op.numElems / vec)) vecStart = some r ∧ r.2.length = vec := by
  have hl : LoadOpConversion.valueElemNBits op.valueElemBitWidth = op.valueElemBitWidth := by
    rcases hbw with h | h | h | h <;> rw [h] <;> decide
  have hbwpos : 0 < op.valueElemBitWidth := by rcases hbw with h | h | h | h <;> omega
  obtain ⟨-, -, hen, hnpos, hwidth⟩ := wordPlan_valid _ vec k hbw hvec hle
  have htmp : (wordPlan op.valueElemBitWidth vec).width / op.valueElemBitWidth
      = (wordPlan op.valueElemBitWidth vec).wordNElems := by
    rw [hwidth, Nat.mul_div_cancel_left _ hbwpos]
  unfold LoadOpConversion.canonicalGroup
  simp only [hl]
  rw [wordPlanAssertion_of_valid _ vec _ hen hdiv hn]
  simp only [Bool.not_true, Bool.false_eq_true, ↓reduceIte]
  have hinstr : ∃ instr, LoadOpConversion.ldInstr op computeCapability op.valueElemBitWidth
      vecStart (wordPlan op.valueElemBitWidth vec)
      (LoadOpConversion.movWidth (wordPlan op.valueElemBitWidth vec).width) = some instr := by
    unfold LoadOpConversion.ldInstr
    have hp : ∃ p, LoadOpConversion.pred op.mask vecStart = some p := by
      unfold LoadOpConversion.pred
      cases hm : op.mask with
      | none => exact ⟨_, rfl⟩
      | some m =>
        simp only []
        rw [List.getElem?_eq_getElem (by rw [hmask m hm]; exact hs)]
        exact ⟨_, rfl⟩
    obtain ⟨p, hp⟩ := hp
    have hlt : vecStart < op.ptrElems.length := by rw [hptr]; exact hs
    cases ho : op.other with
    | none =>
      simp only [hp, Option.some_bind, List.getElem?_eq_getElem hlt]
      exact ⟨_, rfl⟩
    | some o =>
      have hmv : ∃ movs, LoadOpConversion.fillMoves op o op.valueElemBitWidth vecStart
          (wordPlan op.valueElemBitWidth vec)
          (LoadOpConversion.movWidth (wordPlan op.valueElemBitWidth vec).width) = some movs := by
        apply load_fillMoves_isSome _ _ _ _ _ _ hbwpos
        intro ii s hii hs2
        rw [htmp] at hs2 ⊢
        rw [hother o ho]
        exact packed_index_lt _ _ vec _ _ _ _ hen hdiv hs hd hii hs2
      obtain ⟨movs, hmv⟩ := hmv
      simp only [hp, Option.some_bind, hmv, List.getElem?_eq_getElem hlt]
      exact ⟨_, rfl⟩
  obtain ⟨instr, hinstr⟩ := hinstr
  rw [hinstr, Option.some_bind,
    load_unpack_eq _ _ vec _ (by rw [htmp]; exact hnpos) (by rw [htmp, hen])]
  exact ⟨_, rfl, by simp⟩


theorem vectorStarts_succ (vec j : Nat) :
    vectorStarts vec (j + 1) = vectorStarts vec j ++ [j * vec] := by
  simp [vectorStarts, List.range_succ]

theorem load_group_step (op : LoadOp) (launch : LdInstr → Nat → Nat)
    (computeCapability : Int) (vec k regMask j : Nat) (st : LoadState)
    (hbw : op.valueElemBitWidth = 8 ∨ op.valueElemBitWidth = 16 ∨ op.valueElemBitWidth = 32 ∨
      op.valueElemBitWidth = 64)
    (hvec : vec = 2 ^ k) (hle : vec * op.valueElemBitWidth ≤ 128) (hdiv : vec ∣ op.numElems)
    (hn : op.numElems < 2 ^ 31) (hm : regMask < 2 ^ 32)
    (hptr : op.ptrElems.length = op.numElems)
    (hmask : ∀ m, op.mask = some m → m.elems.length = op.numElems)
    (hother : ∀ o, op.other = some o → o.elems.length = op.numElems)
    (hj : j < op.numElems / vec) (hinv : LoadLoopInvariant vec regMask j st) :
    ∃ t, LoadOpConversion.group op launch computeCapability vec (toInt32 (op.numElems / vec))
        regMask (j * vec) st = some t ∧ LoadLoopInvariant vec regMask (j + 1) t := by
  obtain ⟨hem, hlen, hcopy⟩ := hinv
  have hvpos : 0 < vec := by rw [hvec]; exact Nat.two_pow_pos k
  have hs : j * vec < op.numElems := by
    have := Nat.mul_lt_mul_of_pos_right hj hvpos
    rwa [Nat.div_mul_cancel hdiv] at this
  have hs32 : j * vec < 2 ^ 32 := by omega
  obtain ⟨i, hij, hc⟩ := canonical_of_multiple k j regMask (by rw [← hvec]; exact hs32) hm
  rw [← hvec] at hc
  have hcanon := getCanonicalIndex_eq_self_iff (j * vec) regMask hs32 hm
  have hold : ∀ i2, i2 < j → ∀ e, e < vec → ∀ extra : List Nat,
      (st.loadedVals ++ extra)[i2 * vec + e]?
        = (st.loadedVals ++ extra)[getCanonicalIndex (i2 * vec) regMask + e]? := by
    intro i2 hi2 e he extra
    have h1 : (i2 + 1) * vec ≤ j * vec := Nat.mul_le_mul_right _ hi2
    rw [Nat.add_mul, Nat.one_mul] at h1
    have h2 := getCanonicalIndex_le (i2 * vec) regMask (by omega)
    rw [List.getElem?_append_left (by omega), List.getElem?_append_left (by omega)]
    exact hcopy i2 hi2 e he
  unfold LoadOpConversion.group
  simp only []
  by_cases hne : j * vec = getCanonicalIndex (j * vec) regMask
  · -- canonical start: one instruction
    obtain ⟨r, hr, hrlen⟩ := load_canonicalGroup_isSome op launch computeCapability vec k (j * vec)
      hbw hvec hle hdiv hn hptr hmask hother hs ⟨j, Nat.mul_comm _ _⟩
    rw [if_neg (not_not.mpr hne), hr]
    refine ⟨_, rfl, ?_, ?_, ?_⟩
    · have hz : j * vec &&& regMask = 0 := hcanon.mp hne.symm
      simp [vectorStarts_succ, List.filter_append, hem, hz]
    · simp [hlen, hrlen, Nat.add_mul]
    · intro i2 hi2 e he
      by_cases hlt : i2 < j
      · exact hold i2 hlt e he r.2
      · have : i2 = j := by omega
        subst this
        rw [← hne]
  · -- redundant start: copy of the canonical group
    have hilt : i < j := by
      rcases Nat.lt_or_eq_of_le hij with h | h
      · exact h
      · exact absurd (by rw [hc, h]) hne
    have h1 : (i + 1) * vec ≤ j * vec := Nat.mul_le_mul_right _ hilt
    rw [Nat.add_mul, Nat.one_mul] at h1
    have hcv : getCanonicalIndex (j * vec) regMask + vec ≤ st.loadedVals.length := by
      rw [hc, hlen]; exact h1
    rw [if_pos hne, load_copyCanonical_eq _ _ _ hcv]
    refine ⟨_, rfl, ?_, ?_, ?_⟩
    · have hz : ¬ (j * vec &&& regMask = 0) := fun h => hne (hcanon.mpr h).symm
      simp [vectorStarts_succ, List.filter_append, hem, hz]
    · simp only [List.length_append, List.length_take, List.length_drop, hlen]
      rw [hc]
      have : vec ≤ j * vec - i * vec := by omega
      rw [Nat.min_eq_left this, Nat.add_mul, Nat.one_mul]
    · intro i2 hi2 e he
      by_cases hlt : i2 < j
      · exact hold i2 hlt e he _
      · have : i2 = j := by omega
        subst this
        simp only []
        rw [List.getElem?_append_right (by omega), hlen, Nat.add_sub_cancel_left,
          List.getElem?_take_of_lt he, List.getElem?_drop,
          List.getElem?_append_left (by omega)]

theorem load_groups_invariant (op : LoadOp) (launch : LdInstr → Nat → Nat)
    (computeCapability : Int) (vec k regMask : Nat)
    (hbw : op.valueElemBitWidth = 8 ∨ op.valueElemBitWidth = 16 ∨ op.valueElemBitWidth = 32 ∨
      op.valueElemBitWidth = 64)
    (hvec : vec = 2 ^ k) (hle : vec * op.valueElemBitWidth ≤ 128) (hdiv : vec ∣ op.numElems)
    (hn : op.numElems < 2 ^ 31) (hm : regMask < 2 ^ 32)
    (hptr : op.ptrElems.length = op.numElems)
    (hmask : ∀ m, op.mask = some m → m.elems.length = op.numElems)
    (hother : ∀ o, op.other = some o → o.elems.length = op.numElems) :
    ∃ st, LoadOpConversion.groups op launch computeCapability vec regMask = some st ∧
      LoadLoopInvariant vec regMask (op.numElems / vec) st := by
  have hvpos : 0 < vec := by rw [hvec]; exact Nat.two_pow_pos k
  have h := forStep_groups vec (op.numElems / vec)
    (LoadOpConversion.group op launch computeCapability vec (toInt32 (op.numElems / vec)) regMask)
    (LoadLoopInvariant vec regMask) hvpos
    (fun j st hj hinv => load_group_step op launch computeCapability vec k regMask j st
      hbw hvec hle hdiv hn hm hptr hmask hother hj hinv)
    op.numElems 0 { emitted := [], loadedVals := [] } (Nat.zero_le _)
    (by have := Nat.div_le_self op.numElems vec; omega)
    ⟨by simp [vectorStarts], by simp, fun i hi => absurd hi (Nat.not_lt_zero i)⟩
  rw [Nat.div_mul_cancel hdiv, Nat.zero_mul] at h
  exact h

theorem store_stInstr_isSome (op : StoreOp) (threadPred : Option Bool)
    (computeCapability : Int) (vec k vecStart : Nat)
    (hbw : op.valueElemBitWidth = 8 ∨ op.valueElemBitWidth = 16 ∨ op.valueElemBitWidth = 32 ∨
      op.valueElemBitWidth = 64)
    (hvec : vec = 2 ^ k) (hle : vec * op.valueElemBitWidth ≤ 128)
    (hdiv : vec ∣ op.elemsPerThread) (hn : op.elemsPerThread < 2 ^ 31)
    (hptr : op.ptrElems.length = op.elemsPerThread)
    (hval : op.valueElems.length = op.elemsPerThread)
    (hmask : ∀ m, op.mask = some m → m.elems.length = op.elemsPerThread)
    (hs : vecStart < op.elemsPerThread) (hd : vec ∣ vecStart) :
    ∃ instr, StoreOpConversion.stInstr op threadPred computeCapability vec
        (toInt32 (op.elemsPerThread / vec)) vecStart = some instr := by
  have hl : StoreOpConversion.valueElemNBits op.valueElemBitWidth = op.valueElemBitWidth := by
    rcases hbw with h | h | h | h <;> rw [h] <;> decide
  obtain ⟨-, -, hen, -, -⟩ := wordPlan_valid _ vec k hbw hvec hle
  unfold StoreOpConversion.stInstr
  simp only [hl]
  rw [wordPlanAssertion_of_valid _ vec _ hen hdiv hn]
  simp only [Bool.not_true, Bool.false_eq_true, ↓reduceIte]
  have hpack : ∃ a, StoreOpConversion.pack op.valueElems op.valueIsI1 op.valueElemBitWidth
      vecStart (wordPlan op.valueElemBitWidth vec) = some a := by
    unfold StoreOpConversion.pack
    apply forLoop_isSome
    intro wordIdx hw acc
    have hword : ∃ v, StoreOpConversion.packWord op.valueElems op.valueIsI1 vecStart wordIdx
        (wordPlan op.valueElemBitWidth vec).wordNElems = some v := by
      unfold StoreOpConversion.packWord
      apply forLoop_isSome
      intro elemIdx he v
      have hlt : vecStart + wordIdx * (wordPlan op.valueElemBitWidth vec).wordNElems + elemIdx
          < op.valueElems.length := by
        rw [hval]
        exact packed_index_lt _ _ vec _ _ _ _ hen hdiv hs hd hw he
      simp only [hlt, not_true_eq_false, ↓reduceIte, List.getElem?_eq_getElem hlt,
        Option.map_some']
      exact ⟨_, rfl⟩
    obtain ⟨v, hv⟩ := hword
    rw [hv]
    exact ⟨_, rfl⟩
  obtain ⟨a, ha⟩ := hpack
  have hp : ∃ p, StoreOpConversion.pred threadPred op.mask vecStart = some p := by
    unfold StoreOpConversion.pred
    cases hmk : op.mask with
    | none => exact ⟨_, rfl⟩
    | some m =>
      simp only []
      rw [List.getElem?_eq_getElem (by rw [hmask m hmk]; exact hs)]
      exact ⟨_, rfl⟩
  obtain ⟨p, hp⟩ := hp
  have hlt : vecStart < op.ptrElems.length := by rw [hptr]; exact hs
  simp only [ha, hp, Option.some_bind, List.getElem?_eq_getElem hlt]
  exact ⟨_, rfl⟩

theorem store_group_step (op : StoreOp) (threadPred : Option Bool)
    (computeCapability : Int) (vec k regMask j : Nat) (emitted : List (Nat × StInstr))
    (hbw : op.valueElemBitWidth = 8 ∨ op.valueElemBitWidth = 16 ∨ op.valueElemBitWidth = 32 ∨
      op.valueElemBitWidth = 64)
    (hvec : vec = 2 ^ k) (hle : vec * op.valueElemBitWidth ≤ 128)
    (hdiv : vec ∣ op.elemsPerThread) (hn : op.elemsPerThread < 2 ^ 31) (hm : regMask < 2 ^ 32)
    (hptr : op.ptrElems.length = op.elemsPerThread)
    (hval : op.valueElems.length = op.elemsPerThread)
    (hmask : ∀ m, op.mask = some m → m.elems.length = op.elemsPerThread)
    (hj : j < op.elemsPerThread / vec) (hinv : StoreLoopInvariant vec regMask j emitted) :
    ∃ t, StoreOpConversion.group op threadPred computeCapability vec
        (toInt32 (op.elemsPerThread / vec)) regMask (j * vec) emitted = some t ∧
      StoreLoopInvariant vec regMask (j + 1) t := by
  unfold StoreLoopInvariant at hinv ⊢
  have hvpos : 0 < vec := by rw [hvec]; exact Nat.two_pow_pos k
  have hs : j * vec < op.elemsPerThread := by
    have := Nat.mul_lt_mul_of_pos_right hj hvpos
    rwa [Nat.div_mul_cancel hdiv] at this
  have hs32 : j * vec < 2 ^ 32 := by omega
  have hcanon := getCanonicalIndex_eq_self_iff (j * vec) regMask hs32 hm
  unfold StoreOpConversion.group
  cases hc : isCanonicalIndex (j * vec) regMask with
  | false =>
    have hz : ¬ (j * vec &&& regMask = 0) := by
      intro h
      have := hcanon.mpr h
      unfold isCanonicalIndex toUnsigned at hc
      rw [Nat.mod_eq_of_lt hs32] at hc
      simp [this] at hc
    refine ⟨emitted, by simp, ?_⟩
    simp [vectorStarts_succ, List.filter_append, hinv, hz]
  | true =>
    have hz : j * vec &&& regMask = 0 := by
      unfold isCanonicalIndex toUnsigned at hc
      rw [Nat.mod_eq_of_lt hs32, decide_eq_true_iff] at hc
      exact hcanon.mp hc
    obtain ⟨instr, hi⟩ := store_stInstr_isSome op threadPred computeCapability vec k (j * vec)
      hbw hvec hle hdiv hn hptr hval hmask hs ⟨j, Nat.mul_comm _ _⟩
    refine ⟨emitted ++ [(j * vec, instr)], by simp [hi], ?_⟩
    simp [vectorStarts_succ, List.filter_append, hinv, hz]

theorem store_groups_invariant (op : StoreOp) (threadPred : Option Bool)
    (computeCapability : Int) (vec k regMask : Nat)
    (hbw : op.valueElemBitWidth = 8 ∨ op.valueElemBitWidth = 16 ∨ op.valueElemBitWidth = 32 ∨
      op.valueElemBitWidth = 64)
    (hvec : vec = 2 ^ k) (hle : vec * op.valueElemBitWidth ≤ 128)
    (hdiv : vec ∣ op.elemsPerThread) (hn : op.elemsPerThread < 2 ^ 31) (hm : regMask < 2 ^ 32)
    (hptr : op.ptrElems.length = op.elemsPerThread)
    (hval : op.valueElems.length = op.elemsPerThread)
    (hmask : ∀ m, op.mask = some m → m.elems.length = op.elemsPerThread) :
    ∃ em, StoreOpConversion.groups op threadPred computeCapability vec regMask = some em ∧
      StoreLoopInvariant vec regMask (op.elemsPerThread / vec) em := by
  have hvpos : 0 < vec := by rw [hvec]; exact Nat.two_pow_pos k
  have h := forStep_groups vec (op.elemsPerThread / vec)
    (StoreOpConversion.group op threadPred computeCapability vec
      (toInt32 (op.elemsPerThread / vec)) regMask)
    (StoreLoopInvariant vec regMask) hvpos
    (fun j em hj hinv => store_group_step op threadPred computeCapability vec k regMask j em
      hbw hvec hle hdiv hn hm hptr hval hmask hj hinv)
    op.elemsPerThread 0 [] (Nat.zero_le _)
    (by have := Nat.div_le_self op.elemsPerThread vec; omega)
    (by simp [StoreLoopInvariant, vectorStarts])
  rw [Nat.div_mul_cancel hdiv, Nat.zero_mul] at h
  exact h

theorem mem_canonical_starts (vec n regMask s : Nat) (hvpos : 0 < vec) (hdiv : vec ∣ n) :
    s ∈ (vectorStarts vec (n / vec)).filter (fun s => decide (s &&& regMask = 0)) ↔
      s < n ∧ vec ∣ s ∧ s &&& regMask = 0 := by
  simp only [List.mem_filter, vectorStarts, List.mem_map, List.mem_range, decide_eq_true_eq]
  constructor
  · rintro ⟨⟨j, hj, rfl⟩, hz⟩
    refine ⟨?_, ⟨j, Nat.mul_comm _ _⟩, hz⟩
    have := Nat.mul_lt_mul_of_pos_right hj hvpos
    rwa [Nat.div_mul_cancel hdiv] at this
  · rintro ⟨hlt, ⟨j, rfl⟩, hz⟩
    refine ⟨⟨j, ?_, Nat.mul_comm _ _⟩, hz⟩
    rw [Nat.lt_div_iff_mul_lt hdiv]
    exact hlt

theorem nodup_canonical_starts (vec count regMask : Nat) (hvpos : 0 < vec) :
    ((vectorStarts vec count).filter (fun s => decide (s &&& regMask = 0))).Nodup := by
  apply List.Nodup.filter
  unfold vectorStarts
  apply List.Nodup.map _ (List.nodup_range count)
  intro a b hab
  exact Nat.eq_of_mul_eq_mul_right hvpos hab


theorem count_canonical_starts (l : List Nat) (vec n regMask s : Nat) (hvpos : 0 < vec)
    (hdiv : vec ∣ n)
    (hl : l = (vectorStarts vec (n / vec)).filter (fun s => decide (s &&& regMask = 0))) :
    l.count s = if s < n ∧ vec ∣ s ∧ s &&& regMask = 0 then 1 else 0 := by
  have hmem := mem_canonical_starts vec n regMask s hvpos hdiv
  have hnd := nodup_canonical_starts vec (n / vec) regMask hvpos
  rw [← hl] at hmem hnd
  by_cases h : s < n ∧ vec ∣ s ∧ s &&& regMask = 0
  · rw [if_pos h]
    exact List.count_eq_one_of_mem hnd (hmem.mpr h)
  · rw [if_neg h]
    exact List.count_eq_zero_of_not_mem (fun hm => h (hmem.mp hm))

/-- C4: for a per-lane count n, a power-of-two width vec dividing n and a register mask,
Load and Store emit exactly one instruction for each vector start below n with
`s & mask == 0` and none for any other start; the result list of Load has n entries and
the entries of a redundant group equal those of its canonical group; Store emits nothing
for redundant starts; with n = 256, vec = 4 and mask 0 Load emits 64 instructions. -/
theorem one_instruction_per_canonical_group (lop : LoadOp) (sop : StoreOp)
    (launch : LdInstr → Nat → Nat) (threadPred : Option Bool) (computeCapability : Int)
    (n vec k regMask : Nat) (hln : lop.numElems = n) (hsn : sop.elemsPerThread = n)
    (hvec : vec = 2 ^ k) (hdiv : vec ∣ n) (hn : n < 2 ^ 31) (hm : regMask < 2 ^ 32)
    (hlbw : lop.valueElemBitWidth = 8 ∨ lop.valueElemBitWidth = 16 ∨
      lop.valueElemBitWidth = 32 ∨ lop.valueElemBitWidth = 64)
    (hlle : vec * lop.valueElemBitWidth ≤ 128)
    (hlptr : lop.ptrElems.length = n)
    (hlmask : ∀ m, lop.mask = some m → m.elems.length = n)
    (hlother : ∀ o, lop.other = some o → o.elems.length = n)
    (hsbw : sop.valueElemBitWidth = 8 ∨ sop.valueElemBitWidth = 16 ∨
      sop.valueElemBitWidth = 32 ∨ sop.valueElemBitWidth = 64)
    (hsle : vec * sop.valueElemBitWidth ≤ 128)
    (hsptr : sop.ptrElems.length = n) (hsval : sop.valueElems.length = n)
    (hsmask : ∀ m, sop.mask = some m → m.elems.length = n) :
    (∃ st, LoadOpConversion.groups lop launch computeCapability vec regMask = some st ∧
      (∀ s, (st.emitted.map Prod.fst).count s
        = if s < n ∧ vec ∣ s ∧ s &&& regMask = 0 then 1 else 0) ∧
      st.emitted.map Prod.fst
        = (vectorStarts vec (n / vec)).filter (fun s => decide (s &&& regMask = 0)) ∧
      st.loadedVals.length = n ∧
      (∀ s, s < n → vec ∣ s → s &&& regMask ≠ 0 → ∀ e, e < vec →
        s + e < st.loadedVals.length ∧
        st.loadedVals[s + e]? = st.loadedVals[getCanonicalIndex s regMask + e]?) ∧
      (n = 256 → vec = 4 → regMask = 0 → st.emitted.length = 64)) ∧
    (∃ em, StoreOpConversion.groups sop threadPred computeCapability vec regMask = some em ∧
      (∀ s, (em.map Prod.fst).count s
        = if s < n ∧ vec ∣ s ∧ s &&& regMask = 0 then 1 else 0) ∧
      em.map Prod.fst
        = (vectorStarts vec (n / vec)).filter (fun s => decide (s &&& regMask = 0)) ∧
      (∀ s instr, (s, instr) ∈ em → s &&& regMask = 0)) := by
  have hvpos : 0 < vec := by rw [hvec]; exact Nat.two_pow_pos k
  subst hln
  constructor
  · obtain ⟨st, hst, hem, hlen, hcopy⟩ := load_groups_invariant lop launch computeCapability vec k
      regMask hlbw hvec hlle hdiv hn hm hlptr hlmask hlother
    have hlen2 : st.loadedVals.length = lop.numElems := by
      rw [hlen, Nat.div_mul_cancel hdiv]
    refine ⟨st, hst, fun s => count_canonical_starts _ vec _ regMask s hvpos hdiv hem, hem,
      hlen2, ?_, ?_⟩
    · intro s hs hd _ e he
      obtain ⟨j, rfl⟩ := hd
      have hj : j < lop.numElems / vec := by
        rw [Nat.lt_div_iff_mul_lt hdiv]
        exact hs
      have h1 : (j + 1) * vec ≤ lop.numElems / vec * vec := Nat.mul_le_mul_right _ hj
      rw [Nat.div_mul_cancel hdiv, Nat.add_mul, Nat.one_mul] at h1
      refine ⟨by rw [hlen2, Nat.mul_comm]; omega, ?_⟩
      have := hcopy j hj e he
      rwa [Nat.mul_comm] at this
    · intro h256 h4 h0
      have hl2 : st.emitted.length = (st.emitted.map Prod.fst).length := by simp
      rw [hl2, hem, h256, h4, h0]
      decide
  · obtain ⟨em, hem, hinv⟩ := store_groups_invariant sop threadPred computeCapability vec k
      regMask hsbw hvec hsle (hsn ▸ hdiv) (hsn ▸ hn) hm (hsn ▸ hsptr) (hsn ▸ hsval)
      (fun m hmk => hsn ▸ hsmask m hmk)
    unfold StoreLoopInvariant at hinv
    rw [hsn] at hinv
    refine ⟨em, hem, fun s => count_canonical_starts _ vec _ regMask s hvpos hdiv hinv, hinv, ?_⟩
    intro s instr hmem
    have : s ∈ em.map Prod.fst := List.mem_map.mpr ⟨(s, instr), hmem, rfl⟩
    rw [hinv] at this
    exact ((mem_canonical_starts vec _ regMask s hvpos hdiv).mp this).2.2

theorem one_instruction_per_canonical_group_witness :
    (∃ st, LoadOpConversion.groups scenarioLoadOp (fun _ _ => 0) 80 4 0 = some st ∧
      st.emitted.length = 64 ∧ st.loadedVals.length = 256) ∧
    (∃ em, StoreOpConversion.groups scenarioStoreOp none 80 4 0 = some em ∧
      ∀ s instr, (s, instr) ∈ em → s &&& 0 = 0) := by
  have h := one_instruction_per_canonical_group scenarioLoadOp scenarioStoreOp (fun _ _ => 0)
    none 80 256 4 2 0 rfl rfl (by decide) ⟨64, by decide⟩ (by decide) (by decide)
    (Or.inr (Or.inr (Or.inl rfl))) (by decide) (List.length_replicate 256 0)
    (by intro m hmk; cases hmk) (by intro o ho; cases ho)
    (Or.inr (Or.inr (Or.inl rfl))) (by decide) (List.length_replicate 256 0)
    (List.length_replicate 256 7) (by intro m hmk; cases hmk)
  obtain ⟨⟨st, hst, -, -, hlen, -, h64⟩, ⟨em, hem, -, -, hz⟩⟩ := h
  exact ⟨⟨st, hst, h64 rfl rfl rfl, hlen⟩, ⟨em, hem, hz⟩⟩


/-! ## Atomic compare-and-swap: width -/

theorem getVectorSize_pos (axisContiguity pointeeBitWidth : Nat) (hc : 1 ≤ axisContiguity)
    (hb1 : 1 ≤ pointeeBitWidth) (hb2 : pointeeBitWidth ≤ 128) :
    1 ≤ getVectorSize true axisContiguity pointeeBitWidth := by
  have hdiv : 1 ≤ 128 / pointeeBitWidth := Nat.div_pos hb2 hb1
  simp only [getVectorSize, getContiguity, Bool.not_true, Bool.false_eq_true, if_false]
  exact Nat.le_min.mpr ⟨hdiv, hc⟩

/-- C19: the vector width of AtomicCAS is 1 or 2 for every input of the domain (a tensor
pointer of contiguity at least 1 to elements of 1 to 128 bits); it is 2 exactly when the
result is a tensor of fp16 elements whose pointer vector size is at least 2, so only for
16-bit float elements; for a scalar it is 1; for a tensor of fp16 elements it is the
pointer vector size capped at 2, and for a tensor of any other element type, bf16
included, it is 1. -/
theorem cas_vectorSize_spec (op : AtomicCASOp)
    (hdom : op.isTensor = true →
      1 ≤ op.axisContiguity ∧ 1 ≤ op.pointeeBitWidth ∧ op.pointeeBitWidth ≤ 128) :
    (AtomicCASOpConversion.vectorSize op = 1 ∨ AtomicCASOpConversion.vectorSize op = 2) ∧
    (AtomicCASOpConversion.vectorSize op = 2 ↔
      op.isTensor = true ∧ op.valueElemTy = ElemType.f16 ∧
        2 ≤ getVectorSize op.isTensor op.axisContiguity op.pointeeBitWidth) ∧
    (op.isTensor = false → AtomicCASOpConversion.vectorSize op = 1) ∧
    (op.isTensor = true → op.valueElemTy = ElemType.f16 →
      AtomicCASOpConversion.vectorSize op
        = min (getVectorSize op.isTensor op.axisContiguity op.pointeeBitWidth) 2) ∧
    (op.isTensor = true → op.valueElemTy ≠ ElemType.f16 →
      AtomicCASOpConversion.vectorSize op = 1) := by
  cases ht : op.isTensor
  · have h1 : AtomicCASOpConversion.vectorSize op = 1 := by
      simp [AtomicCASOpConversion.vectorSize, getVectorSize, ht]
    simp [h1]
  · obtain ⟨hc, hb1, hb2⟩ := hdom ht
    have hpos := getVectorSize_pos op.axisContiguity op.pointeeBitWidth hc hb1 hb2
    by_cases hf : op.valueElemTy = ElemType.f16
    · have hv : AtomicCASOpConversion.vectorSize op
          = min (getVectorSize true op.axisContiguity op.pointeeBitWidth) 2 := by
        simp [AtomicCASOpConversion.vectorSize, ht, ElemType.isF16, hf]
      refine ⟨?_, ?_, ?_, ?_, ?_⟩
      · rw [hv]; omega
      · rw [hv]; simp only [hf, true_and]; omega
      · intro h; cases h
      · intro _ _; exact hv
      · intro _ h; exact absurd hf h
    · have hv : AtomicCASOpConversion.vectorSize op = 1 := by
        simp only [AtomicCASOpConversion.vectorSize, ht, ElemType.isF16, hf, decide_False,
          if_true, Bool.false_eq_true, if_false]
        omega
      refine ⟨Or.inl hv, ?_, ?_, ?_, ?_⟩
      · rw [hv]; simp [hf]
      · intro h; cases h
      · intro _ h; exact absurd h hf
      · intro _ _; exact hv

theorem cas_vectorSize_spec_witness :
    AtomicCASOpConversion.vectorSize exampleTensorCasOp = 2 ∧
    (AtomicCASOpConversion.vectorSize exampleTensorCasOp = 2 ↔
      exampleTensorCasOp.isTensor = true ∧ exampleTensorCasOp.valueElemTy = ElemType.f16 ∧
        2 ≤ getVectorSize exampleTensorCasOp.isTensor exampleTensorCasOp.axisContiguity
          exampleTensorCasOp.pointeeBitWidth) :=
  ⟨by decide, (cas_vectorSize_spec exampleTensorCasOp (fun _ => by decide)).2.1⟩


/-! ## Atomic read-modify-write: widths -/

theorem supportsVectorized_eq_true (s : Bool) (kind : RMWOp) (t : ElemType) :
    AtomicRMWOpConversion.supportsVectorized s kind t = true ↔
      s = true ∧ kind = RMWOp.FADD ∧ (t = ElemType.f16 ∨ t = ElemType.bf16 ∨ t = ElemType.f32) := by
  cases s <;>
    simp [AtomicRMWOpConversion.supportsVectorized, ElemType.isF16, ElemType.isBF16,
      ElemType.isF32, or_assoc]

theorem vectorWidth_pos (axisContiguity pointeeBitWidth : Nat) (maskAlignment : Option Nat)
    (hc : 1 ≤ axisContiguity) (hb1 : 1 ≤ pointeeBitWidth) (hb2 : pointeeBitWidth ≤ 128)
    (hm : ∀ a, maskAlignment = some a → 1 ≤ a) :
    1 ≤ vectorWidth true axisContiguity pointeeBitWidth maskAlignment := by
  have hpos := getVectorSize_pos axisContiguity pointeeBitWidth hc hb1 hb2
  cases hma : maskAlignment with
  | none => simpa [vectorWidth] using hpos
  | some a =>
    have := hm a hma
    simp only [vectorWidth]
    exact Nat.le_min.mpr ⟨hpos, this⟩

/-- C14: for every AtomicRMW the computed `vec` and `packed` are never both greater than
1; `packed` is 2 only for a tensor of fp16 elements when vectorized atomics are not used;
`vec` exceeds 1 only for a tensor when the target supports vectorized atomics and the
kind is FADD on fp16, bf16 or fp32; the assertion `packed == 1 || vec == 1` holds; and on
the domain of the width planner (contiguity and mask alignment at least 1, elements of 1
to 128 bits) `packed` is 1 or 2. -/
theorem rmw_widths_exclusive (op : AtomicRMWOp) (supportVectorizedAtomics : Bool) :
    ¬ (1 < (AtomicRMWOpConversion.widths op supportVectorizedAtomics).vec ∧
        1 < (AtomicRMWOpConversion.widths op supportVectorizedAtomics).packed) ∧
    ((AtomicRMWOpConversion.widths op supportVectorizedAtomics).packed = 2 →
      op.isTensor = true ∧ op.valueElemTy = ElemType.f16 ∧
      AtomicRMWOpConversion.supportsVectorized supportVectorizedAtomics op.kind op.valueElemTy
        = false ∧
      (AtomicRMWOpConversion.widths op supportVectorizedAtomics).vec = 1) ∧
    (1 < (AtomicRMWOpConversion.widths op supportVectorizedAtomics).vec →
      op.isTensor = true ∧ supportVectorizedAtomics = true ∧ op.kind = RMWOp.FADD ∧
      (op.valueElemTy = ElemType.f16 ∨ op.valueElemTy = ElemType.bf16 ∨
        op.valueElemTy = ElemType.f32) ∧
      (AtomicRMWOpConversion.widths op supportVectorizedAtomics).packed = 1) ∧
    AtomicRMWOpConversion.widthAssertion
      (AtomicRMWOpConversion.widths op supportVectorizedAtomics) = true ∧
    ((op.isTensor = true → 1 ≤ op.axisContiguity ∧ 1 ≤ op.pointeeBitWidth ∧
        op.pointeeBitWidth ≤ 128 ∧ ∀ m, op.mask = some m → 1 ≤ m.alignment) →
      (AtomicRMWOpConversion.widths op supportVectorizedAtomics).packed = 1 ∨
      (AtomicRMWOpConversion.widths op supportVectorizedAtomics).packed = 2) := by
  cases ht : op.isTensor
  · simp [AtomicRMWOpConversion.widths, AtomicRMWOpConversion.widthAssertion, ht]
  · cases hs : AtomicRMWOpConversion.supportsVectorized supportVectorizedAtomics op.kind
        op.valueElemTy
    · have hw : AtomicRMWOpConversion.widths op supportVectorizedAtomics =
          { vec := 1,
            vecOrig := vectorWidth true op.axisContiguity op.pointeeBitWidth
              (op.mask.map (fun m => m.alignment)),
            numElems := op.numElements,
            packed := min (vectorWidth true op.axisContiguity op.pointeeBitWidth
              (op.mask.map (fun m => m.alignment))) (if op.valueElemTy.isF16 then 2 else 1) } := by
        simp [AtomicRMWOpConversion.widths, ht, hs]
      rw [hw]
      refine ⟨by simp, ?_, by simp, by simp [AtomicRMWOpConversion.widthAssertion], ?_⟩
      · intro hp
        simp only at hp
        refine ⟨rfl, ?_, rfl, rfl⟩
        by_cases hf : op.valueElemTy = ElemType.f16
        · exact hf
        · simp only [ElemType.isF16, hf, decide_False, Bool.false_eq_true, if_false] at hp
          omega
      · intro hdom
        obtain ⟨hc, hb1, hb2, hm⟩ := hdom rfl
        have hpos := vectorWidth_pos op.axisContiguity op.pointeeBitWidth
          (op.mask.map (fun m => m.alignment)) hc hb1 hb2 (by
            intro a ha
            simp only [Option.map_eq_some'] at ha
            obtain ⟨m, hm1, rfl⟩ := ha
            exact hm m hm1)
        simp only
        split <;> omega
    · have hw : AtomicRMWOpConversion.widths op supportVectorizedAtomics =
          { vec := vectorWidth true op.axisContiguity op.pointeeBitWidth
              (op.mask.map (fun m => m.alignment)),
            vecOrig := vectorWidth true op.axisContiguity op.pointeeBitWidth
              (op.mask.map (fun m => m.alignment)),
            numElems := op.numElements, packed := 1 } := by
        simp [AtomicRMWOpConversion.widths, ht, hs]
      rw [hw]
      obtain ⟨h1, h2, h3⟩ := (supportsVectorized_eq_true _ _ _).mp hs
      exact ⟨by simp, by simp, fun _ => ⟨rfl, h1, h2, h3, rfl⟩,
        by simp [AtomicRMWOpConversion.widthAssertion], fun _ => Or.inl rfl⟩

theorem rmw_widths_exclusive_witness :
    (AtomicRMWOpConversion.widths exampleTensorRmwOp false).vec = 1 ∧
    (AtomicRMWOpConversion.widths exampleTensorRmwOp false).packed = 2 ∧
    (AtomicRMWOpConversion.widths exampleTensorRmwOp true).vec = 4 ∧
    (AtomicRMWOpConversion.widths exampleTensorRmwOp true).packed = 1 ∧
    ((AtomicRMWOpConversion.widths exampleTensorRmwOp false).packed = 1 ∨
      (AtomicRMWOpConversion.widths exampleTensorRmwOp false).packed = 2) :=
  ⟨by decide, by decide, by decide, by decide,
    (rmw_widths_exclusive exampleTensorRmwOp false).2.2.2.2
      (fun _ => ⟨by decide, by decide, by decide, fun m h => by cases h⟩)⟩


/-! ## Scalar atomics -/

theorem getCanonicalIndex_zero (m : Nat) : getCanonicalIndex 0 m = 0 := by
  simp [getCanonicalIndex, toUnsigned]

theorem forStepReturn_single {σ ρ : Type} (body : Nat → σ → Option (LoopStep σ ρ)) (s : σ) :
    forStepReturn 1 1 body 1 0 s =
      match body 0 s with
      | none => none
      | some (LoopStep.done r) => some (LoopStep.done r)
      | some (LoopStep.next t) => some (LoopStep.next t) := by
  simp only [forStepReturn, Nat.lt_one_iff, if_true]
  cases body 0 s with
  | none => rfl
  | some r => cases r <;> simp

theorem cas_scalar_vectorSize (op : AtomicCASOp) (ht : op.isTensor = false) :
    AtomicCASOpConversion.vectorSize op = 1 := by
  simp [AtomicCASOpConversion.vectorSize, getVectorSize, ht]

/-- The instruction of a scalar compare-and-swap. -/
theorem cas_scalar_casInstr (op : AtomicCASOp) (nbits p c v : Nat)
    (hp : op.ptrElements[0]? = some p) (hc : op.cmpElements[0]? = some c)
    (hv : op.valElements[0]? = some v) :
    AtomicCASOpConversion.casInstr op nbits 1 0 = some
      { sem := op.sem, scope := op.scope, sTy := "b" ++ toString nbits,
        tyId := if nbits * 1 = 64 then "l" else if nbits * 1 = 32 then "r" else "h",
        ptr := p, cmp := c, val := AsmValue.scalar v } := by
  simp [AtomicCASOpConversion.casInstr, AtomicCASOpConversion.casValVector, forLoop, hp, hc, hv]

/-- The lowering of a scalar compare-and-swap, in full. -/
theorem cas_scalar_lowering (op : AtomicCASOp) (env : ThreadEnv) (oracle : AtomicOracle)
    (numCTAs : Int) (nbits p c v : Nat) (ht : op.isTensor = false)
    (he : op.elemsPerThread = 1) (hw : op.valueElemTy.getIntOrFloatBitWidth = some nbits)
    (hp : op.ptrElements[0]? = some p) (hc : op.cmpElements[0]? = some c)
    (hv : op.valElements[0]? = some v) (instr : AtomCasInstr)
    (hi : instr =
      { sem := op.sem, scope := op.scope, sTy := "b" ++ toString nbits,
        tyId := if nbits * 1 = 64 then "l" else if nbits * 1 = 32 then "r" else "h",
        ptr := p, cmp := c, val := AsmValue.scalar v }) :
    AtomicCASOpConversion.matchAndRewrite op env oracle numCTAs = some
      { remarks := [],
        trace :=
          if op.resultUsed then
            [AtomicAction.atomCas instr (emitRedundantThreadPredicate op.freeVarMasks env),
              AtomicAction.stShared ("b" ++ toString nbits) (oracle.casResult instr 0)
                (emitRedundantThreadPredicate op.freeVarMasks env)]
              ++ createBarrier numCTAs
              ++ [AtomicAction.load oracle.readBack,
                  AtomicAction.replaceOp [some oracle.readBack]]
          else
            [AtomicAction.atomCas instr (emitRedundantThreadPredicate op.freeVarMasks env),
              AtomicAction.eraseOp],
        succeeded := true } := by
  have hinstr := cas_scalar_casInstr op nbits p c v hp hc hv
  rw [← hi] at hinstr
  unfold AtomicCASOpConversion.matchAndRewrite
  simp only [hw, Option.some_bind, cas_scalar_vectorSize op ht, he, forStepReturn_single,
    AtomicCASOpConversion.group, getCanonicalIndex_zero, ne_eq, not_true_eq_false, if_false,
    hinstr, ht, Bool.false_eq_true, atomicNeedsSharedMemory, Bool.not_false, Bool.true_and,
    gt_iff_lt, lt_self_iff_false, and_false]
  cases op.resultUsed <;> simp

theorem rmw_scalar_widths (op : AtomicRMWOp) (s : Bool) (ht : op.isTensor = false) :
    AtomicRMWOpConversion.widths op s = { vec := 1, vecOrig := 1, numElems := 1, packed := 1 } := by
  simp [AtomicRMWOpConversion.widths, ht]

/-- The lowering of a scalar AtomicRMW is its single loop iteration. -/
theorem rmw_scalar_matchAndRewrite (op : AtomicRMWOp) (env : ThreadEnv) (mod : ModuleInfo)
    (oracle : AtomicOracle) (stringifyRMWOp : RMWOp → String) (nbits : Nat)
    (ht : op.isTensor = false) (he : op.elemsPerThread = 1)
    (hw : op.valueElemTy.getIntOrFloatBitWidth = some nbits) :
    AtomicRMWOpConversion.matchAndRewrite op env mod oracle stringifyRMWOp =
      match AtomicRMWOpConversion.group op mod oracle stringifyRMWOp []
          (emitRedundantThreadPredicate op.freeVarMasks env) nbits
          { vec := 1, vecOrig := 1, numElems := 1, packed := 1 }
          (AtomicRMWOpConversion.doPTXLDPromotion op 1 1)
          (toUnsigned (op.freeVarMasks.get "reg")) 0
          { trace := [], resultVals := [none] } with
      | none => none
      | some (LoopStep.done r) => some r
      | some (LoopStep.next st) => some { remarks := [], trace := st.trace, succeeded := true } := by
  unfold AtomicRMWOpConversion.matchAndRewrite
  simp only [hw, Option.some_bind, rmw_scalar_widths op _ ht, he,
    AtomicRMWOpConversion.widthAssertion, decide_True, Bool.or_self, Bool.not_true,
    Bool.false_eq_true, if_false, Nat.mul_one, forStepReturn_single, gt_iff_lt,
    lt_self_iff_false, and_false, List.replicate, ht]
  cases AtomicRMWOpConversion.group op mod oracle stringifyRMWOp []
      (emitRedundantThreadPredicate op.freeVarMasks env) nbits
      { vec := 1, vecOrig := 1, numElems := 1, packed := 1 }
      (AtomicRMWOpConversion.doPTXLDPromotion op 1 1)
      (toUnsigned (op.freeVarMasks.get "reg")) 0
      { trace := [], resultVals := [none] } with
  | none => rfl
  | some r => cases r <;> rfl

/-- The first iteration of the loop of AtomicRMW handles a canonical group. -/
theorem rmw_group_zero (op : AtomicRMWOp) (mod : ModuleInfo) (oracle : AtomicOracle)
    (stringifyRMWOp : RMWOp → String) (remarks : List AtomicRemark) (threadPred : Option Bool)
    (nbits : Nat) (w : RmwWidths) (promo : Bool) (regMask p : Nat) (g : Option Bool)
    (st : AtomicState) (hp : op.ptrElements[0]? = some p)
    (hg : AtomicRMWOpConversion.pred threadPred op.mask 0 = some g) :
    AtomicRMWOpConversion.group op mod oracle stringifyRMWOp remarks threadPred nbits w promo
        regMask 0 st =
      if promo then AtomicRMWOpConversion.promoted op mod oracle remarks p g st
      else if op.valueElemTy.isBF16 && decide (mod.computeCapability < 90) then
        AtomicRMWOpConversion.branchBased op oracle remarks nbits w p g 0 st
      else
        AtomicRMWOpConversion.native op mod oracle stringifyRMWOp remarks nbits w p g 0 st := by
  simp only [AtomicRMWOpConversion.group, getCanonicalIndex_zero, ne_eq, not_true_eq_false,
    if_false, hp, hg, Option.some_bind]

theorem rmw_pred_isSome (threadPred : Option Bool) (mask : Option MaskOperand)
    (hm : ∀ m, mask = some m → m.elems ≠ []) :
    ∃ g, AtomicRMWOpConversion.pred threadPred mask 0 = some g ∧
      (g = none → threadPred = none ∧ mask = none) := by
  cases hmask : mask with
  | none => exact ⟨threadPred, rfl, fun h => ⟨h, rfl⟩⟩
  | some m =>
    have hne := hm m hmask
    cases hel : m.elems with
    | nil => exact absurd hel hne
    | cons b rest =>
      refine ⟨maybeAnd threadPred (some b), by simp [AtomicRMWOpConversion.pred, hel], ?_⟩
      intro h
      have := (maybeAnd_eq_none _ _).mp h
      exact absurd this.2 (by simp)

/-- The lowering of a scalar AtomicRMW that is promoted to a load, in full. -/
theorem rmw_scalar_promoted_lowering (op : AtomicRMWOp) (env : ThreadEnv) (mod : ModuleInfo)
    (oracle : AtomicOracle) (stringifyRMWOp : RMWOp → String) (nbits p : Nat)
    (g : Option Bool) (ht : op.isTensor = false) (he : op.elemsPerThread = 1)
    (hw : op.valueElemTy.getIntOrFloatBitWidth = some nbits)
    (hp : op.ptrElements[0]? = some p)
    (hg : AtomicRMWOpConversion.pred (emitRedundantThreadPredicate op.freeVarMasks env)
      op.mask 0 = some g)
    (hpromo : AtomicRMWOpConversion.doPTXLDPromotion op 1 1 = true) :
    AtomicRMWOpConversion.matchAndRewrite op env mod oracle stringifyRMWOp = some
      { remarks := [],
        trace :=
          if op.resultUsed then
            [AtomicAction.loadAcquire p g
                (if op.sem = MemSemantic.ACQUIRE then MemSemantic.ACQUIRE
                  else MemSemantic.RELAXED) op.scope,
              AtomicAction.storeShared (oracle.loadAcquireResult p) g]
              ++ createBarrier mod.numCTAs
              ++ [AtomicAction.load oracle.readBack,
                  AtomicAction.replaceOp [some oracle.readBack]]
          else
            [AtomicAction.loadAcquire p g
                (if op.sem = MemSemantic.ACQUIRE then MemSemantic.ACQUIRE
                  else MemSemantic.RELAXED) op.scope,
              AtomicAction.eraseOp],
        succeeded := true } := by
  rw [rmw_scalar_matchAndRewrite op env mod oracle stringifyRMWOp nbits ht he hw,
    rmw_group_zero op mod oracle stringifyRMWOp _ _ nbits _ _ _ p g _ hp hg, hpromo]
  simp only [if_true, AtomicRMWOpConversion.promoted, atomicNeedsSharedMemory, ht,
    Bool.not_false, Bool.true_and]
  cases op.resultUsed <;> simp

/-- The lowering of a scalar AtomicRMW through explicit control flow, in full. -/
theorem rmw_scalar_branch_lowering (op : AtomicRMWOp) (env : ThreadEnv) (mod : ModuleInfo)
    (oracle : AtomicOracle) (stringifyRMWOp : RMWOp → String) (p v : Nat) (cond : Bool)
    (k : RMWOp) (ht : op.isTensor = false) (he : op.elemsPerThread = 1)
    (hbf : op.valueElemTy = ElemType.bf16) (hcc : mod.computeCapability < 90)
    (hp : op.ptrElements[0]? = some p) (hv : op.valElements[0]? = some v)
    (hg : AtomicRMWOpConversion.pred (emitRedundantThreadPredicate op.freeVarMasks env)
      op.mask 0 = some (some cond))
    (hk : matchAtomicOp op.kind = some k)
    (hpromo : AtomicRMWOpConversion.doPTXLDPromotion op 1 1 = false) :
    AtomicRMWOpConversion.matchAndRewrite op env mod oracle stringifyRMWOp = some
      { remarks := [],
        trace :=
          if op.resultUsed then
            [AtomicAction.condBr cond none,
              AtomicAction.llvmAtomicRmw k p v op.sem "agent",
              AtomicAction.store (AsmValue.scalar (oracle.llvmAtomicResult k p v)),
              AtomicAction.br (AsmValue.scalar (oracle.llvmAtomicResult k p v)),
              AtomicAction.barrier,
              AtomicAction.load oracle.readBack,
              AtomicAction.replaceOp [some oracle.readBack]]
          else
            [AtomicAction.condBr cond none,
              AtomicAction.llvmAtomicRmw k p v op.sem "agent",
              AtomicAction.br (AsmValue.scalar (oracle.llvmAtomicResult k p v)),
              AtomicAction.eraseOp],
        succeeded := true } := by
  have hw : op.valueElemTy.getIntOrFloatBitWidth = some 16 := by
    rw [hbf]; rfl
  rw [rmw_scalar_matchAndRewrite op env mod oracle stringifyRMWOp 16 ht he hw,
    rmw_group_zero op mod oracle stringifyRMWOp _ _ 16 _ _ _ p (some cond) _ hp hg, hpromo]
  simp only [Bool.false_eq_true, if_false, hbf, ElemType.isBF16, decide_True, hcc, Bool.and_self,
    if_true, AtomicRMWOpConversion.branchBased, hk, Option.some_bind,
    AtomicRMWOpConversion.branchAtom, hv, atomicNeedsSharedMemory, ht, Bool.not_false,
    Bool.true_and, OfNat.one_ne_ofNat, false_and]
  cases op.resultUsed <;> simp

/-- The lowering of a scalar AtomicRMW to the native instruction, in full. -/
theorem rmw_scalar_native_lowering (op : AtomicRMWOp) (env : ThreadEnv) (mod : ModuleInfo)
    (oracle : AtomicOracle) (stringifyRMWOp : RMWOp → String) (nbits p v : Nat)
    (g : Option Bool) (tyId rmwOp sTy : String) (ht : op.isTensor = false)
    (he : op.elemsPerThread = 1) (hw : op.valueElemTy.getIntOrFloatBitWidth = some nbits)
    (hp : op.ptrElements[0]? = some p) (hv : op.valElements[0]? = some v)
    (hg : AtomicRMWOpConversion.pred (emitRedundantThreadPredicate op.freeVarMasks env)
      op.mask 0 = some g)
    (hpromo : AtomicRMWOpConversion.doPTXLDPromotion op 1 1 = false)
    (hnb : (op.valueElemTy.isBF16 && decide (mod.computeCapability < 90)) = false)
    (hty : getRegisterSizeCode (nbits * 1) false = some tyId)
    (hmn : AtomicRMWOpConversion.mnemonic stringifyRMWOp op.kind nbits op.valueElemTy.isBF16 1
      = some (rmwOp, sTy))
    (instr : AtomRmwInstr)
    (hi : instr =
      { scope := op.scope, sem := op.sem, rmwOp := rmwOp, vec := 1, sTy := sTy, tyId := tyId,
        ptr := p, val := AsmValue.scalar v }) :
    AtomicRMWOpConversion.matchAndRewrite op env mod oracle stringifyRMWOp = some
      { remarks := [],
        trace :=
          if op.resultUsed then
            [AtomicAction.atomRmw instr g,
              AtomicAction.storeShared (oracle.rmwResult instr 0) g]
              ++ createBarrier mod.numCTAs
              ++ [AtomicAction.load oracle.readBack,
                  AtomicAction.replaceOp [some oracle.readBack]]
          else [AtomicAction.atomRmw instr g, AtomicAction.eraseOp],
        succeeded := true } := by
  rw [rmw_scalar_matchAndRewrite op env mod oracle stringifyRMWOp nbits ht he hw,
    rmw_group_zero op mod oracle stringifyRMWOp _ _ nbits _ _ _ p g _ hp hg, hpromo, hnb]
  simp only [Bool.false_eq_true, if_false, AtomicRMWOpConversion.native, hty, Option.some_bind,
    AtomicRMWOpConversion.valOperand, gt_iff_lt, lt_self_iff_false, hv, Option.map_some', hmn,
    ← hi, ht, atomicNeedsSharedMemory, Bool.not_false, Bool.true_and]
  cases op.resultUsed <;> simp


/-! ## Tensor atomics -/

theorem forStepReturn_inv {σ ρ : Type} (stop step : Nat)
    (body : Nat → σ → Option (LoopStep σ ρ)) (Inv : σ → Prop) (Post : ρ → Prop)
    (hnext : ∀ i s t, i < stop → Inv s → body i s = some (LoopStep.next t) → Inv t)
    (hdone : ∀ i s r, i < stop → Inv s → body i s = some (LoopStep.done r) → Post r) :
    ∀ fuel i s, Inv s →
      (∀ t, forStepReturn stop step body fuel i s = some (LoopStep.next t) → Inv t) ∧
      (∀ r, forStepReturn stop step body fuel i s = some (LoopStep.done r) → Post r) := by
  intro fuel
  induction fuel with
  | zero =>
    intro i s hs
    simp only [forStepReturn]
    constructor
    · intro t h
      split at h
      · cases h
      · cases h; exact hs
    · intro r h
      split at h <;> cases h
  | succ fuel ih =>
    intro i s hs
    simp only [forStepReturn]
    by_cases hlt : i < stop
    · simp only [hlt, if_true]
      cases hb : body i s with
      | none => exact ⟨fun t h => (by cases h), fun r h => (by cases h)⟩
      | some x =>
        cases x with
        | next u =>
          exact ih (i + step) u (hnext i s u hlt hs hb)
        | done r0 =>
          refine ⟨fun t h => (by cases h), fun r h => ?_⟩
          simp only [Option.some.injEq, LoopStep.done.injEq] at h
          exact h ▸ hdone i s r0 hlt hs hb
    · simp only [hlt, if_false]
      exact ⟨fun t h => (by cases h; exact hs), fun r h => (by cases h)⟩

/-- The loop of a tensor compare-and-swap appends nothing but compare-and-swap
instructions. -/
theorem cas_tensor_group (op : AtomicCASOp) (oracle : AtomicOracle) (numCTAs : Int)
    (remarks : List AtomicRemark) (threadPred : Option Bool) (nbits vec regMask i : Nat)
    (st : AtomicState) (ht : op.isTensor = true) :
    (∀ t, AtomicCASOpConversion.group op oracle numCTAs remarks threadPred nbits vec regMask i st
        = some (LoopStep.next t) →
      t.trace = st.trace ∨ ∃ instr, t.trace = st.trace ++ [AtomicAction.atomCas instr threadPred]) ∧
    (∀ r, AtomicCASOpConversion.group op oracle numCTAs remarks threadPred nbits vec regMask i st
        ≠ some (LoopStep.done r)) := by
  unfold AtomicCASOpConversion.group
  simp only [ht, if_true]
  by_cases hc : getCanonicalIndex i regMask = i
  · simp only [hc, ne_eq, not_true_eq_false, if_false]
    cases hi : AtomicCASOpConversion.casInstr op nbits vec i with
    | none => exact ⟨fun t h => (by cases h), fun r h => (by cases h)⟩
    | some instr =>
      simp only [Option.some_bind]
      constructor
      · intro t h
        simp only [Option.map_eq_some'] at h
        obtain ⟨vals, _, hv⟩ := h
        cases hv
        exact Or.inr ⟨instr, rfl⟩
      · intro r h
        simp only [Option.map_eq_some'] at h
        obtain ⟨vals, _, hv⟩ := h
        cases hv
  · simp only [ne_eq, hc, not_false_eq_true, if_true]
    constructor
    · intro t h
      simp only [Option.map_eq_some'] at h
      obtain ⟨vals, _, hv⟩ := h
      cases hv
      exact Or.inl rfl
    · intro r h
      simp only [Option.map_eq_some'] at h
      obtain ⟨vals, _, hv⟩ := h
      cases hv

/-- A tensor compare-and-swap emits no store to the scratch location, no barrier and no
read-back load, and does not erase the op. -/
theorem cas_tensor_no_publication (op : AtomicCASOp) (env : ThreadEnv) (oracle : AtomicOracle)
    (numCTAs : Int) (r : AtomicLowering) (ht : op.isTensor = true)
    (h : AtomicCASOpConversion.matchAndRewrite op env oracle numCTAs = some r) :
    ∀ a ∈ r.trace, a.isPublication = false ∧ a ≠ AtomicAction.eraseOp := by
  unfold AtomicCASOpConversion.matchAndRewrite at h
  cases hw : op.valueElemTy.getIntOrFloatBitWidth with
  | none => rw [hw] at h; cases h
  | some nbits =>
    rw [hw] at h
    simp only [Option.some_bind] at h
    have hinv := forStepReturn_inv op.elemsPerThread (AtomicCASOpConversion.vectorSize op)
      (AtomicCASOpConversion.group op oracle numCTAs
        (if AtomicCASOpConversion.vectorSize op = 1 ∧ op.elemsPerThread > 1 then
          [{ vec := AtomicCASOpConversion.vectorSize op, packed := 1,
             vecOrig := getVectorSize op.isTensor op.axisContiguity op.pointeeBitWidth,
             numElems := op.elemsPerThread }]
        else [])
        (emitRedundantThreadPredicate op.freeVarMasks env) nbits
        (AtomicCASOpConversion.vectorSize op) (toUnsigned (op.freeVarMasks.get "reg")))
      (fun st => ∀ a ∈ st.trace, a.isPublication = false ∧ a ≠ AtomicAction.eraseOp)
      (fun _ => False)
      (by
        intro i s t _ hs hb
        rcases (cas_tensor_group op oracle numCTAs _ _ nbits _ _ i s ht).1 t hb with h1 | ⟨instr, h1⟩
        · rw [h1]; exact hs
        · rw [h1]
          intro a ha
          rcases List.mem_append.mp ha with ha | ha
          · exact hs a ha
          · simp only [List.mem_singleton] at ha
            subst ha
            exact ⟨rfl, by simp⟩)
      (by
        intro i s r0 _ _ hb
        exact (cas_tensor_group op oracle numCTAs _ _ nbits _ _ i s ht).2 r0 hb)
      op.elemsPerThread 0 { trace := [], resultVals := List.replicate op.elemsPerThread none }
      (by intro a ha; cases ha)
    split at h
    · cases h
    · rename_i r0 heq
      exact absurd (hinv.2 r0 heq) id
    · rename_i st heq
      have hst := hinv.1 st heq
      simp only [ht, if_true, Option.some.injEq] at h
      subst h
      intro a ha
      rcases List.mem_append.mp ha with ha | ha
      · exact hst a ha
      · simp only [List.mem_singleton] at ha
        subst ha
        exact ⟨rfl, by simp⟩

theorem rmw_branchAtom_actions (op : AtomicRMWOp) (oracle : AtomicOracle) (binOp : RMWOp)
    (nbits : Nat) (w : RmwWidths) (rmwPtr i : Nat) (r : List AtomicAction × AsmValue)
    (h : AtomicRMWOpConversion.branchAtom op oracle binOp nbits w rmwPtr i = some r) :
    ∀ a ∈ r.1, a.isLoadAcquire = false ∧ a.isPublication = false ∧ a ≠ AtomicAction.eraseOp ∧
      a.isAtomRmw = false := by
  unfold AtomicRMWOpConversion.branchAtom at h
  simp only [Option.bind_eq_some] at h
  obtain ⟨val, _, h⟩ := h
  split at h
  · simp only [Option.bind_eq_some, Option.map_eq_some'] at h
    obtain ⟨ptr2, _, val2, _, h⟩ := h
    subst h
    intro a ha
    simp only [List.mem_cons, List.mem_singleton, List.not_mem_nil, or_false] at ha
    rcases ha with ha | ha <;> subst ha <;> exact ⟨rfl, rfl, by simp, rfl⟩
  · simp only [Option.some.injEq] at h
    subst h
    intro a ha
    simp only [List.mem_singleton] at ha
    subst ha
    exact ⟨rfl, rfl, by simp, rfl⟩

/-- What one iteration of the loop of an AtomicRMW that is not promoted appends: never
the promoted load, and for a tensor never a publication action or the erasure. -/
theorem rmw_group_appends (op : AtomicRMWOp) (mod : ModuleInfo) (oracle : AtomicOracle)
    (stringifyRMWOp : RMWOp → String) (remarks : List AtomicRemark) (threadPred : Option Bool)
    (nbits : Nat) (w : RmwWidths) (regMask i : Nat) (st : AtomicState) :
    (∀ t, AtomicRMWOpConversion.group op mod oracle stringifyRMWOp remarks threadPred nbits w
        false regMask i st = some (LoopStep.next t) →
      ∃ added, t.trace = st.trace ++ added ∧
        ∀ a ∈ added, a.isLoadAcquire = false ∧
          (op.isTensor = true → a.isPublication = false ∧ a ≠ AtomicAction.eraseOp)) ∧
    (∀ r, AtomicRMWOpConversion.group op mod oracle stringifyRMWOp remarks threadPred nbits w
        false regMask i st = some (LoopStep.done r) →
      ∃ added, r.trace = st.trace ++ added ∧
        (∀ a ∈ added, a.isLoadAcquire = false) ∧ (op.isTensor = true → added = [])) := by
  unfold AtomicRMWOpConversion.group
  by_cases hc : getCanonicalIndex i regMask = i
  swap
  · simp only [ne_eq, hc, not_false_eq_true, if_true]
    constructor
    · intro t h
      simp only [Option.map_eq_some'] at h
      obtain ⟨vals, _, hv⟩ := h
      cases hv
      exact ⟨[], by simp, fun a ha => by cases ha⟩
    · intro r h
      simp only [Option.map_eq_some'] at h
      obtain ⟨vals, _, hv⟩ := h
      cases hv
  simp only [hc, ne_eq, not_true_eq_false, if_false, Bool.false_eq_true]
  cases hp : op.ptrElements[i]? with
  | none => exact ⟨fun t h => (by cases h), fun r h => (by cases h)⟩
  | some rmwPtr =>
  cases hg : AtomicRMWOpConversion.pred threadPred op.mask i with
  | none => exact ⟨fun t h => (by cases h), fun r h => (by cases h)⟩
  | some pred =>
  simp only [Option.some_bind]
  by_cases hb : (op.valueElemTy.isBF16 && decide (mod.computeCapability < 90)) = true
  · simp only [hb, if_true]
    unfold AtomicRMWOpConversion.branchBased
    cases hk : matchAtomicOp op.kind with
    | none => exact ⟨fun t h => (by cases h), fun r h => (by cases h)⟩
    | some k =>
    cases pred with
    | none => exact ⟨fun t h => (by cases h), fun r h => (by cases h)⟩
    | some cond =>
    simp only [Option.some_bind]
    cases hat : AtomicRMWOpConversion.branchAtom op oracle k nbits w rmwPtr i with
    | none => exact ⟨fun t h => (by cases h), fun r h => (by cases h)⟩
    | some r0 =>
    have hacts := rmw_branchAtom_actions op oracle k nbits w rmwPtr i r0 hat
    simp only [Option.some_bind]
    cases ht : op.isTensor
    · simp only [Bool.false_eq_true, if_false, false_implies, and_true, implies_true]
      cases hu : atomicNeedsSharedMemory false op.resultUsed
      · simp only [Bool.not_false, if_true]
        refine ⟨fun t h => (by cases h), fun r h => ?_⟩
        simp only [Option.some.injEq, LoopStep.done.injEq] at h
        subst h
        refine ⟨[AtomicAction.condBr cond none] ++ r0.1 ++
          [AtomicAction.br r0.2, AtomicAction.eraseOp], by simp, ?_⟩
        intro a ha
        simp only [List.mem_append, List.mem_cons, List.mem_singleton, List.not_mem_nil,
          or_false] at ha
        rcases ha with (ha | ha) | ha | ha
        · subst ha; rfl
        · exact (hacts a ha).1
        · subst ha; rfl
        · subst ha; rfl
      · simp only [Bool.not_true, Bool.false_eq_true, if_false]
        refine ⟨fun t h => ?_, fun r h => (by cases h)⟩
        simp only [Option.some.injEq, LoopStep.next.injEq] at h
        subst h
        refine ⟨[AtomicAction.condBr cond none] ++ r0.1 ++
          [AtomicAction.store r0.2, AtomicAction.br r0.2, AtomicAction.barrier,
           AtomicAction.load oracle.readBack, AtomicAction.replaceOp [some oracle.readBack]],
          by simp, ?_⟩
        intro a ha
        simp only [List.mem_append, List.mem_cons, List.mem_singleton, List.not_mem_nil,
          or_false] at ha
        rcases ha with (ha | ha) | ha | ha | ha | ha | ha
        · subst ha; rfl
        · exact (hacts a ha).1
        all_goals subst ha; rfl
    · simp only [if_true, forall_const]
      refine ⟨fun t h => ?_, fun r h => ?_⟩
      · simp only [Option.map_eq_some'] at h
        obtain ⟨vals, _, hv⟩ := h
        cases hv
        refine ⟨[AtomicAction.condBr cond none] ++ r0.1 ++ [AtomicAction.br r0.2], by simp, ?_⟩
        intro a ha
        simp only [List.mem_append, List.mem_cons, List.mem_singleton, List.not_mem_nil,
          or_false] at ha
        rcases ha with (ha | ha) | ha
        · subst ha; exact ⟨rfl, rfl, by simp⟩
        · exact ⟨(hacts a ha).1, (hacts a ha).2.1, (hacts a ha).2.2.1⟩
        · subst ha; exact ⟨rfl, rfl, by simp⟩
      · simp only [Option.map_eq_some'] at h
        obtain ⟨vals, _, hv⟩ := h
        cases hv
  · simp only [hb, Bool.false_eq_true, if_false]
    unfold AtomicRMWOpConversion.native
    cases hty : getRegisterSizeCode (nbits * w.packed) false with
    | none => exact ⟨fun t h => (by cases h), fun r h => (by cases h)⟩
    | some tyId =>
    cases hvo : AtomicRMWOpConversion.valOperand op.valElements w i with
    | none => exact ⟨fun t h => (by cases h), fun r h => (by cases h)⟩
    | some valOpr =>
    simp only [Option.some_bind]
    cases hmn : AtomicRMWOpConversion.mnemonic stringifyRMWOp op.kind nbits
        op.valueElemTy.isBF16 w.packed with
    | none =>
      refine ⟨fun t h => (by cases h), fun r h => ?_⟩
      simp only [Option.some.injEq, LoopStep.done.injEq] at h
      subst h
      exact ⟨[], by simp, fun a ha => (by cases ha), fun _ => rfl⟩
    | some m =>
    obtain ⟨rmwOp, sTy⟩ := m
    simp only
    cases ht : op.isTensor
    · simp only [Bool.false_eq_true, if_false, false_implies, and_true, implies_true]
      cases hu : atomicNeedsSharedMemory false op.resultUsed
      · simp only [Bool.not_false, if_true]
        refine ⟨fun t h => (by cases h), fun r h => ?_⟩
        simp only [Option.some.injEq, LoopStep.done.injEq] at h
        subst h
        refine ⟨[AtomicAction.atomRmw
          (⟨op.scope, op.sem, rmwOp, w.vec, sTy, tyId, rmwPtr, valOpr⟩ : AtomRmwInstr) pred,
          AtomicAction.eraseOp], by simp, ?_⟩
        intro a ha
        simp only [List.mem_cons, List.mem_singleton, List.not_mem_nil, or_false] at ha
        rcases ha with ha | ha <;> subst ha <;> rfl
      · simp only [Bool.not_true, Bool.false_eq_true, if_false]
        refine ⟨fun t h => ?_, fun r h => (by cases h)⟩
        simp only [Option.some.injEq, LoopStep.next.injEq] at h
        subst h
        refine ⟨[AtomicAction.atomRmw
          (⟨op.scope, op.sem, rmwOp, w.vec, sTy, tyId, rmwPtr, valOpr⟩ : AtomRmwInstr) pred,
          AtomicAction.storeShared (oracle.rmwResult
          (⟨op.scope, op.sem, rmwOp, w.vec, sTy, tyId, rmwPtr, valOpr⟩ : AtomRmwInstr) 0) pred] ++
          createBarrier mod.numCTAs ++
          [AtomicAction.load oracle.readBack, AtomicAction.replaceOp [some oracle.readBack]],
          by simp, ?_⟩
        intro a ha
        simp only [List.mem_append, List.mem_cons, List.mem_singleton, List.not_mem_nil,
          or_false] at ha
        rcases ha with ((ha | ha) | ha) | ha | ha
        · subst ha; rfl
        · subst ha; rfl
        · unfold createBarrier at ha
          split at ha
          · simp only [List.mem_singleton] at ha
            subst ha; rfl
          · simp only [List.mem_cons, List.mem_singleton, List.not_mem_nil, or_false] at ha
            rcases ha with ha | ha <;> subst ha <;> rfl
        · subst ha; rfl
        · subst ha; rfl
    · simp only [if_true, forall_const]
      refine ⟨fun t h => ?_, fun r h => ?_⟩
      · simp only [Option.map_eq_some'] at h
        obtain ⟨vals, _, hv⟩ := h
        cases hv
        refine ⟨[AtomicAction.atomRmw _ pred], rfl, ?_⟩
        intro a ha
        simp only [List.mem_singleton] at ha
        subst ha
        exact ⟨rfl, rfl, by simp⟩
      · simp only [Option.map_eq_some'] at h
        obtain ⟨vals, _, hv⟩ := h
        cases hv

theorem rmw_tensor_not_promoted (op : AtomicRMWOp) (vec packed : Nat) (ht : op.isTensor = true) :
    AtomicRMWOpConversion.doPTXLDPromotion op vec packed = false := by
  have : AtomicRMWOpConversion.isPromotableToNVPTXLD op = false := by
    unfold AtomicRMWOpConversion.isPromotableToNVPTXLD
    simp only [ht, if_true]
    split
    · rfl
    · split
      · rfl
      · split
        · rfl
        · split
          · rfl
          · split <;> rfl
  simp [AtomicRMWOpConversion.doPTXLDPromotion, this]

/-- An AtomicRMW that is not promoted emits no promoted load, and a tensor AtomicRMW emits
no store to the scratch location, no barrier and no read-back load, and does not erase
the op. -/
theorem rmw_trace_without_promotion (op : AtomicRMWOp) (env : ThreadEnv) (mod : ModuleInfo)
    (oracle : AtomicOracle) (stringifyRMWOp : RMWOp → String) (r : AtomicLowering)
    (hpromo : AtomicRMWOpConversion.doPTXLDPromotion op
      (AtomicRMWOpConversion.widths op mod.supportVectorizedAtomics).vec
      (AtomicRMWOpConversion.widths op mod.supportVectorizedAtomics).packed = false)
    (h : AtomicRMWOpConversion.matchAndRewrite op env mod oracle stringifyRMWOp = some r) :
    ∀ a ∈ r.trace, a.isLoadAcquire = false ∧
      (op.isTensor = true → a.isPublication = false ∧ a ≠ AtomicAction.eraseOp) := by
  unfold AtomicRMWOpConversion.matchAndRewrite at h
  cases hw : op.valueElemTy.getIntOrFloatBitWidth with
  | none => rw [hw] at h; cases h
  | some nbits =>
    rw [hw] at h
    simp only [Option.some_bind, hpromo] at h
    split at h
    · cases h
    · have hinv := forStepReturn_inv op.elemsPerThread
        ((AtomicRMWOpConversion.widths op mod.supportVectorizedAtomics).vec *
          (AtomicRMWOpConversion.widths op mod.supportVectorizedAtomics).packed)
        (AtomicRMWOpConversion.group op mod oracle stringifyRMWOp
          (if (AtomicRMWOpConversion.widths op mod.supportVectorizedAtomics).vec *
              (AtomicRMWOpConversion.widths op mod.supportVectorizedAtomics).packed = 1 ∧
              (AtomicRMWOpConversion.widths op mod.supportVectorizedAtomics).numElems > 1 then
            [{ vec := (AtomicRMWOpConversion.widths op mod.supportVectorizedAtomics).vec,
               packed := (AtomicRMWOpConversion.widths op mod.supportVectorizedAtomics).packed,
               vecOrig := (AtomicRMWOpConversion.widths op mod.supportVectorizedAtomics).vecOrig,
               numElems :=
                 (AtomicRMWOpConversion.widths op mod.supportVectorizedAtomics).numElems }]
          else [])
          (emitRedundantThreadPredicate op.freeVarMasks env) nbits
          (AtomicRMWOpConversion.widths op mod.supportVectorizedAtomics) false
          (toUnsigned (op.freeVarMasks.get "reg")))
        (fun st => ∀ a ∈ st.trace, a.isLoadAcquire = false ∧
          (op.isTensor = true → a.isPublication = false ∧ a ≠ AtomicAction.eraseOp))
        (fun r => ∀ a ∈ r.trace, a.isLoadAcquire = false ∧
          (op.isTensor = true → a.isPublication = false ∧ a ≠ AtomicAction.eraseOp))
        (by
          intro i s t _ hs hb
          obtain ⟨added, h1, h2⟩ :=
            (rmw_group_appends op mod oracle stringifyRMWOp _ _ nbits _ _ i s).1 t hb
          rw [h1]
          intro a ha
          rcases List.mem_append.mp ha with ha | ha
          · exact hs a ha
          · exact h2 a ha)
        (by
          intro i s r0 _ hs hb
          obtain ⟨added, h1, h2, h3⟩ :=
            (rmw_group_appends op mod oracle stringifyRMWOp _ _ nbits _ _ i s).2 r0 hb
          rw [h1]
          intro a ha
          rcases List.mem_append.mp ha with ha | ha
          · exact hs a ha
          · refine ⟨h2 a ha, fun ht => ?_⟩
            rw [h3 ht] at ha
            cases ha)
        op.elemsPerThread 0
        { trace := [], resultVals := List.replicate op.elemsPerThread none }
        (by intro a ha; cases ha)
      split at h
      · cases h
      · rename_i r0 heq
        simp only [Option.some.injEq] at h
        subst h
        exact hinv.2 r0 heq
      · rename_i st heq
        have hst := hinv.1 st heq
        simp only [Option.some.injEq] at h
        subst h
        intro a ha
        simp only at ha
        split at ha
        · rcases List.mem_append.mp ha with ha | ha
          · exact hst a ha
          · simp only [List.mem_singleton] at ha
            subst ha
            exact ⟨rfl, fun _ => ⟨rfl, by simp⟩⟩
        · exact hst a ha


/-! ## Publication of a scalar result -/

theorem maybeAnd_none_left (b : Option Bool) : maybeAnd none b = b := by
  cases b <;> rfl

theorem getElem?_zero_of_length_one {α : Type} (l : List α) (h : l.length = 1) :
    ∃ x, l[0]? = some x := by
  cases l with
  | nil => cases h
  | cons x rest => exact ⟨x, by simp⟩

theorem matchAtomicOp_isSome (kind : RMWOp) (h : ∀ raw, kind ≠ RMWOp.other raw) :
    ∃ k, matchAtomicOp kind = some k := by
  cases kind with
  | other raw => exact absurd rfl (h raw)
  | _ => exact ⟨_, rfl⟩

theorem rmw_mnemonic_isSome (stringifyRMWOp : RMWOp → String) (kind : RMWOp) (nbits : Nat)
    (isBF16 : Bool) (packed : Nat) (h : ∀ raw, kind ≠ RMWOp.other raw) :
    ∃ m, AtomicRMWOpConversion.mnemonic stringifyRMWOp kind nbits isBF16 packed = some m := by
  cases kind with
  | other raw => exact absurd rfl (h raw)
  | _ => exact ⟨_, rfl⟩

theorem getRegisterSizeCode_isSome (nbits : Nat) (h : nbits = 16 ∨ nbits = 32 ∨ nbits = 64) :
    ∃ tyId, getRegisterSizeCode (nbits * 1) false = some tyId := by
  rcases h with h | h | h <;> subst h <;> exact ⟨_, rfl⟩

theorem specScalarExpansion_of_barrier (oracle : AtomicOracle) (resultUsed : Bool)
    (numCTAs : Int) (atom store : AtomicAction) (v : AsmValue) (g : Option Bool)
    (ha : ∀ rest, publicationEvents oracle none (atom :: rest)
      = PublicationEvent.atomic v g :: publicationEvents oracle none rest)
    (hs : ∀ rest, publicationEvents oracle none (store :: rest)
      = PublicationEvent.scratchStore v g :: publicationEvents oracle none rest) :
    specScalarExpansion resultUsed
      (publicationEvents oracle none
        (if resultUsed then
          [atom, store] ++ createBarrier numCTAs ++
            [AtomicAction.load oracle.readBack, AtomicAction.replaceOp [some oracle.readBack]]
        else [atom, AtomicAction.eraseOp])) := by
  unfold specScalarExpansion
  cases resultUsed
  · simp only [Bool.false_eq_true, if_false, ha, publicationEvents]
    exact ⟨v, g, rfl⟩
  · simp only [if_true]
    refine ⟨v, g, publicationEvents oracle none (createBarrier numCTAs), oracle.readBack, ?_, ?_⟩
    · unfold createBarrier
      split
      · exact Or.inl rfl
      · exact Or.inr rfl
    · unfold createBarrier
      split <;> simp [ha, hs, publicationEvents]

/-- C11: a scalar-result atomic (AtomicCAS, and AtomicRMW on its promoted, branch-based and
native paths) lowers successfully and, when its result is unused, expands to the atomic (or
the promoted load) followed by the erasure of the op, with no scratch store, barrier or
read-back; when its result is used it expands, in this order, to the atomic, a store of
the value it returned to the scratch location under the guard of the atomic, a barrier,
and a load from the scratch location whose value replaces the op.  A tensor-result atomic
emits no scratch store, no barrier and no read-back load.  The scalar ops are well formed:
one element per lane, one value in each operand list, a kind of the table, a 16-, 32- or
64-bit element, and a guard to branch on when the branch-based path is taken. -/
theorem scalar_atomic_publication (cas : AtomicCASOp) (rmw : AtomicRMWOp) (env : ThreadEnv)
    (mod : ModuleInfo) (oracle : AtomicOracle) (stringifyRMWOp : RMWOp → String)
    (casBits rmwBits : Nat)
    (hct : cas.isTensor = false) (hce : cas.elemsPerThread = 1)
    (hcw : cas.valueElemTy.getIntOrFloatBitWidth = some casBits)
    (hcp : cas.ptrElements.length = 1) (hcc : cas.cmpElements.length = 1)
    (hcv : cas.valElements.length = 1)
    (hrt : rmw.isTensor = false) (hre : rmw.elemsPerThread = 1)
    (hrw : rmw.valueElemTy.getIntOrFloatBitWidth = some rmwBits)
    (hrs : rmwBits = 16 ∨ rmwBits = 32 ∨ rmwBits = 64)
    (hrp : rmw.ptrElements.length = 1) (hrv : rmw.valElements.length = 1)
    (hrm : ∀ m, rmw.mask = some m → m.elems.length = 1)
    (hrk : ∀ raw, rmw.kind ≠ RMWOp.other raw)
    (hrg : rmw.valueElemTy = ElemType.bf16 → mod.computeCapability < 90 →
      emitRedundantThreadPredicate rmw.freeVarMasks env ≠ none ∨ rmw.mask ≠ none) :
    (∃ r, AtomicCASOpConversion.matchAndRewrite cas env oracle mod.numCTAs = some r ∧
      r.succeeded = true ∧
      specScalarExpansion cas.resultUsed (publicationEvents oracle none r.trace)) ∧
    (∃ r, AtomicRMWOpConversion.matchAndRewrite rmw env mod oracle stringifyRMWOp = some r ∧
      r.succeeded = true ∧
      specScalarExpansion rmw.resultUsed (publicationEvents oracle none r.trace)) ∧
    (∀ (tensorCas : AtomicCASOp) r, tensorCas.isTensor = true →
      AtomicCASOpConversion.matchAndRewrite tensorCas env oracle mod.numCTAs = some r →
      ∀ a ∈ r.trace, a.isPublication = false) ∧
    (∀ (tensorRmw : AtomicRMWOp) r, tensorRmw.isTensor = true →
      AtomicRMWOpConversion.matchAndRewrite tensorRmw env mod oracle stringifyRMWOp = some r →
      ∀ a ∈ r.trace, a.isPublication = false) := by
  refine ⟨?_, ?_, ?_, ?_⟩
  · obtain ⟨p, hp⟩ := getElem?_zero_of_length_one _ hcp
    obtain ⟨c, hc⟩ := getElem?_zero_of_length_one _ hcc
    obtain ⟨v, hv⟩ := getElem?_zero_of_length_one _ hcv
    refine ⟨_, cas_scalar_lowering cas env oracle mod.numCTAs casBits p c v hct hce hcw hp hc hv
      _ rfl, rfl, ?_⟩
    exact specScalarExpansion_of_barrier oracle cas.resultUsed mod.numCTAs _ _ _ _
      (fun rest => by simp only [publicationEvents, maybeAnd_none_left]; rfl)
      (fun rest => by simp only [publicationEvents, maybeAnd_none_left])
  · obtain ⟨p, hp⟩ := getElem?_zero_of_length_one _ hrp
    obtain ⟨v, hv⟩ := getElem?_zero_of_length_one _ hrv
    obtain ⟨g, hg, hgnone⟩ := rmw_pred_isSome (emitRedundantThreadPredicate rmw.freeVarMasks env)
      rmw.mask (fun m hm => by
        have := hrm m hm
        intro h0
        rw [h0] at this
        cases this)
    cases hpromo : AtomicRMWOpConversion.doPTXLDPromotion rmw 1 1
    · cases hb : (rmw.valueElemTy.isBF16 && decide (mod.computeCapability < 90))
      · obtain ⟨tyId, hty⟩ := getRegisterSizeCode_isSome rmwBits hrs
        obtain ⟨⟨rmwOp, sTy⟩, hmn⟩ := rmw_mnemonic_isSome stringifyRMWOp rmw.kind rmwBits
          rmw.valueElemTy.isBF16 1 hrk
        refine ⟨_, rmw_scalar_native_lowering rmw env mod oracle stringifyRMWOp rmwBits p v g
          tyId rmwOp sTy hrt hre hrw hp hv hg hpromo hb hty hmn _ rfl, rfl, ?_⟩
        exact specScalarExpansion_of_barrier oracle rmw.resultUsed mod.numCTAs _ _ _ _
          (fun rest => by simp only [publicationEvents, maybeAnd_none_left]; rfl)
          (fun rest => by simp only [publicationEvents, maybeAnd_none_left])
      · simp only [Bool.and_eq_true, decide_eq_true_eq, ElemType.isBF16] at hb
        obtain ⟨hbf, hcc⟩ := hb
        obtain ⟨k, hk⟩ := matchAtomicOp_isSome rmw.kind hrk
        have hgsome : ∃ cond, g = some cond := by
          cases g with
          | some cond => exact ⟨cond, rfl⟩
          | none =>
            obtain ⟨h1, h2⟩ := hgnone rfl
            rcases hrg hbf hcc with h | h
            · exact absurd h1 h
            · exact absurd h2 h
        obtain ⟨cond, rfl⟩ := hgsome
        refine ⟨_, rmw_scalar_branch_lowering rmw env mod oracle stringifyRMWOp p v cond k hrt
          hre hbf hcc hp hv hg hk hpromo, rfl, ?_⟩
        unfold specScalarExpansion
        cases rmw.resultUsed
        · simp only [Bool.false_eq_true, if_false, publicationEvents]
          exact ⟨_, _, rfl⟩
        · simp only [if_true, publicationEvents]
          exact ⟨_, _, [PublicationEvent.blockBarrier], oracle.readBack, Or.inl rfl, rfl⟩
    · refine ⟨_, rmw_scalar_promoted_lowering rmw env mod oracle stringifyRMWOp rmwBits p g hrt
        hre hrw hp hg hpromo, rfl, ?_⟩
      exact specScalarExpansion_of_barrier oracle rmw.resultUsed mod.numCTAs _ _ _ _
        (fun rest => by simp only [publicationEvents, maybeAnd_none_left]; rfl)
        (fun rest => by simp only [publicationEvents, maybeAnd_none_left])
  · intro tensorCas r ht h a ha
    exact (cas_tensor_no_publication tensorCas env oracle mod.numCTAs r ht h a ha).1
  · intro tensorRmw r ht h a ha
    exact ((rmw_trace_without_promotion tensorRmw env mod oracle stringifyRMWOp r
      (rmw_tensor_not_promoted tensorRmw _ _ ht) h a ha).2 ht).1

theorem scalar_atomic_publication_witness :
    (∃ r, AtomicCASOpConversion.matchAndRewrite exampleScalarCasOp firstLane exampleOracle
        ampereClusterModule.numCTAs = some r ∧ r.succeeded = true ∧
      specScalarExpansion exampleScalarCasOp.resultUsed
        (publicationEvents exampleOracle none r.trace)) ∧
    (∃ r, AtomicRMWOpConversion.matchAndRewrite exampleBf16RmwOp firstLane ampereClusterModule
        exampleOracle exampleStringifyRMWOp = some r ∧ r.succeeded = true ∧
      specScalarExpansion exampleBf16RmwOp.resultUsed
        (publicationEvents exampleOracle none r.trace)) ∧
    (∃ r, AtomicCASOpConversion.matchAndRewrite exampleTensorCasOp firstLane exampleOracle
        ampereClusterModule.numCTAs = some r ∧ ∀ a ∈ r.trace, a.isPublication = false) ∧
    (∃ r, AtomicRMWOpConversion.matchAndRewrite exampleTensorRmwOp firstLane ampereClusterModule
        exampleOracle exampleStringifyRMWOp = some r ∧ ∀ a ∈ r.trace, a.isPublication = false) := by
  have h := scalar_atomic_publication exampleScalarCasOp exampleBf16RmwOp firstLane
    ampereClusterModule exampleOracle exampleStringifyRMWOp 32 16 rfl rfl rfl rfl rfl rfl
    rfl rfl rfl (Or.inl rfl) rfl rfl (by intro m hm; cases hm) (by intro raw hk; cases hk)
    (fun _ _ => Or.inl (by decide))
  obtain ⟨r1, hr1⟩ := Option.isSome_iff_exists.mp
    (by rfl : (AtomicCASOpConversion.matchAndRewrite exampleTensorCasOp firstLane exampleOracle
      ampereClusterModule.numCTAs).isSome = true)
  obtain ⟨r2, hr2⟩ := Option.isSome_iff_exists.mp
    (by rfl : (AtomicRMWOpConversion.matchAndRewrite exampleTensorRmwOp firstLane
      ampereClusterModule exampleOracle exampleStringifyRMWOp).isSome = true)
  exact ⟨h.1, h.2.1, ⟨r1, hr1, h.2.2.1 exampleTensorCasOp r1 rfl hr1⟩,
    ⟨r2, hr2, h.2.2.2 exampleTensorRmwOp r2 rfl hr2⟩⟩


/-! ## The barrier of the publication -/

theorem createBarrier_eq_specBarrier (numCTAs : Int) : createBarrier numCTAs = specBarrier numCTAs :=
  rfl

theorem specBarrier_isBarrier (numCTAs : Int) : ∀ a ∈ specBarrier numCTAs, a.isBarrier = true := by
  intro a ha
  unfold specBarrier at ha
  split at ha
  · simp only [List.mem_singleton] at ha
    subst ha; rfl
  · simp only [List.mem_cons, List.mem_singleton, List.not_mem_nil, or_false] at ha
    rcases ha with ha | ha <;> subst ha <;> rfl

/-- C12 holds for AtomicCAS and for the promoted and native paths of AtomicRMW: the barrier
between the scratch store and the read-back is the single block barrier when numCTAs is 1
and the cluster arrive followed by the cluster wait otherwise.  It fails for the
branch-based fallback (bf16 elements below compute capability 90), which places the single
block barrier whatever numCTAs is: with more than one CTA per cluster its expansion
contains no cluster arrive or wait.  The ops are well-formed scalars whose result is used. -/
theorem publication_barrier_kind (cas : AtomicCASOp) (rmw : AtomicRMWOp) (env : ThreadEnv)
    (mod : ModuleInfo) (oracle : AtomicOracle) (stringifyRMWOp : RMWOp → String)
    (casBits rmwBits : Nat)
    (hct : cas.isTensor = false) (hce : cas.elemsPerThread = 1)
    (hcw : cas.valueElemTy.getIntOrFloatBitWidth = some casBits)
    (hcp : cas.ptrElements.length = 1) (hcc : cas.cmpElements.length = 1)
    (hcv : cas.valElements.length = 1) (hcu : cas.resultUsed = true)
    (hrt : rmw.isTensor = false) (hre : rmw.elemsPerThread = 1)
    (hrw : rmw.valueElemTy.getIntOrFloatBitWidth = some rmwBits)
    (hrs : rmwBits = 16 ∨ rmwBits = 32 ∨ rmwBits = 64)
    (hrp : rmw.ptrElements.length = 1) (hrv : rmw.valElements.length = 1)
    (hrm : ∀ m, rmw.mask = some m → m.elems.length = 1)
    (hrk : ∀ raw, rmw.kind ≠ RMWOp.other raw)
    (hrg : rmw.valueElemTy = ElemType.bf16 → mod.computeCapability < 90 →
      emitRedundantThreadPredicate rmw.freeVarMasks env ≠ none ∨ rmw.mask ≠ none)
    (hru : rmw.resultUsed = true) :
    (∃ r pre, AtomicCASOpConversion.matchAndRewrite cas env oracle mod.numCTAs = some r ∧
      r.trace = pre ++ specBarrier mod.numCTAs ++
        [AtomicAction.load oracle.readBack, AtomicAction.replaceOp [some oracle.readBack]] ∧
      ∀ a ∈ pre, a.isBarrier = false) ∧
    (∃ r pre, AtomicRMWOpConversion.matchAndRewrite rmw env mod oracle stringifyRMWOp = some r ∧
      r.trace = pre ++
        (if AtomicRMWOpConversion.doPTXLDPromotion rmw 1 1 = false ∧
            rmw.valueElemTy = ElemType.bf16 ∧ mod.computeCapability < 90
          then [AtomicAction.barrier] else specBarrier mod.numCTAs) ++
        [AtomicAction.load oracle.readBack, AtomicAction.replaceOp [some oracle.readBack]] ∧
      (∀ a ∈ pre, a.isBarrier = false) ∧
      (AtomicRMWOpConversion.doPTXLDPromotion rmw 1 1 = false →
        rmw.valueElemTy = ElemType.bf16 → mod.computeCapability < 90 → mod.numCTAs ≠ 1 →
        r.trace.filter AtomicAction.isBarrier = [AtomicAction.barrier] ∧
        specBarrier mod.numCTAs = [AtomicAction.clusterArrive, AtomicAction.clusterWait])) := by
  constructor
  · obtain ⟨p, hp⟩ := getElem?_zero_of_length_one _ hcp
    obtain ⟨c, hc⟩ := getElem?_zero_of_length_one _ hcc
    obtain ⟨v, hv⟩ := getElem?_zero_of_length_one _ hcv
    have hlow := cas_scalar_lowering cas env oracle mod.numCTAs casBits p c v hct hce hcw hp hc
      hv _ rfl
    simp only [hcu, if_true] at hlow
    refine ⟨_, [_, _], hlow, rfl, ?_⟩
    · intro a ha
      simp only [List.mem_cons, List.mem_singleton, List.not_mem_nil, or_false] at ha
      rcases ha with ha | ha <;> subst ha <;> rfl
  · obtain ⟨p, hp⟩ := getElem?_zero_of_length_one _ hrp
    obtain ⟨v, hv⟩ := getElem?_zero_of_length_one _ hrv
    obtain ⟨g, hg, hgnone⟩ := rmw_pred_isSome (emitRedundantThreadPredicate rmw.freeVarMasks env)
      rmw.mask (fun m hm => by
        have := hrm m hm
        intro h0
        rw [h0] at this
        cases this)
    cases hpromo : AtomicRMWOpConversion.doPTXLDPromotion rmw 1 1
    · cases hb : (rmw.valueElemTy.isBF16 && decide (mod.computeCapability < 90))
      · obtain ⟨tyId, hty⟩ := getRegisterSizeCode_isSome rmwBits hrs
        obtain ⟨⟨rmwOp, sTy⟩, hmn⟩ := rmw_mnemonic_isSome stringifyRMWOp rmw.kind rmwBits
          rmw.valueElemTy.isBF16 1 hrk
        have hnb : ¬ (rmw.valueElemTy = ElemType.bf16 ∧ mod.computeCapability < 90) := by
          intro h
          simp [ElemType.isBF16, h.1, h.2] at hb
        have hlow := rmw_scalar_native_lowering rmw env mod oracle stringifyRMWOp rmwBits p v g
          tyId rmwOp sTy hrt hre hrw hp hv hg hpromo hb hty hmn _ rfl
        simp only [hru, if_true] at hlow
        refine ⟨_,
          [AtomicAction.atomRmw ⟨rmw.scope, rmw.sem, rmwOp, 1, sTy, tyId, p, AsmValue.scalar v⟩ g,
            AtomicAction.storeShared (oracle.rmwResult
              ⟨rmw.scope, rmw.sem, rmwOp, 1, sTy, tyId, p, AsmValue.scalar v⟩ 0) g],
          hlow, ?_, ?_, ?_⟩
        · simp only [true_and, hnb, if_false]
          rfl
        · intro a ha
          simp only [List.mem_cons, List.mem_singleton, List.not_mem_nil, or_false] at ha
          rcases ha with ha | ha <;> subst ha <;> rfl
        · intro _ h1 h2
          exact absurd ⟨h1, h2⟩ hnb
      · simp only [Bool.and_eq_true, decide_eq_true_eq, ElemType.isBF16] at hb
        obtain ⟨hbf, hcc⟩ := hb
        obtain ⟨k, hk⟩ := matchAtomicOp_isSome rmw.kind hrk
        have hgsome : ∃ cond, g = some cond := by
          cases g with
          | some cond => exact ⟨cond, rfl⟩
          | none =>
            obtain ⟨h1, h2⟩ := hgnone rfl
            rcases hrg hbf hcc with h | h
            · exact absurd h1 h
            · exact absurd h2 h
        obtain ⟨cond, rfl⟩ := hgsome
        refine ⟨_,
          [AtomicAction.condBr cond none, AtomicAction.llvmAtomicRmw k p v rmw.sem "agent",
            AtomicAction.store (AsmValue.scalar (oracle.llvmAtomicResult k p v)),
            AtomicAction.br (AsmValue.scalar (oracle.llvmAtomicResult k p v))],
          rmw_scalar_branch_lowering rmw env mod oracle stringifyRMWOp p v cond k hrt
            hre hbf hcc hp hv hg hk hpromo, ?_, ?_, ?_⟩
        · simp only [hru, if_true, hbf, hcc, and_self, List.cons_append, List.nil_append]
        · intro a ha
          simp only [List.mem_cons, List.mem_singleton, List.not_mem_nil, or_false] at ha
          rcases ha with ha | ha | ha | ha <;> subst ha <;> rfl
        · intro _ _ _ hn
          refine ⟨?_, by simp [specBarrier, hn]⟩
          simp only [hru, if_true]
          rfl
    · have hlow := rmw_scalar_promoted_lowering rmw env mod oracle stringifyRMWOp rmwBits p g hrt
        hre hrw hp hg hpromo
      simp only [hru, if_true] at hlow
      refine ⟨_,
        [AtomicAction.loadAcquire p g
            (if rmw.sem = MemSemantic.ACQUIRE then MemSemantic.ACQUIRE else MemSemantic.RELAXED)
            rmw.scope,
          AtomicAction.storeShared (oracle.loadAcquireResult p) g],
        hlow, ?_, ?_, ?_⟩
      · simp only [Bool.true_eq_false, false_and, if_false]
        rfl
      · intro a ha
        simp only [List.mem_cons, List.mem_singleton, List.not_mem_nil, or_false] at ha
        rcases ha with ha | ha <;> subst ha <;> rfl
      · intro h
        cases h

theorem publication_barrier_kind_witness :
    ∃ r, AtomicRMWOpConversion.matchAndRewrite exampleBf16RmwOp firstLane ampereClusterModule
        exampleOracle exampleStringifyRMWOp = some r ∧
      r.trace.filter AtomicAction.isBarrier = [AtomicAction.barrier] ∧
      specBarrier ampereClusterModule.numCTAs
        = [AtomicAction.clusterArrive, AtomicAction.clusterWait] := by
  obtain ⟨r, _, hr, _, _, hbug⟩ := (publication_barrier_kind exampleScalarCasOp exampleBf16RmwOp
    firstLane ampereClusterModule exampleOracle exampleStringifyRMWOp 32 16 rfl rfl rfl rfl rfl
    rfl rfl rfl rfl rfl (Or.inl rfl) rfl rfl (by intro m hm; cases hm)
    (by intro raw hk; cases hk) (fun _ _ => Or.inl (by decide)) rfl).2
  exact ⟨r, hr, hbug rfl rfl (by decide) (by decide)⟩


/-! ## Promotion of an AtomicRMW to a load -/

theorem isPromotableToNVPTXLD_iff (op : AtomicRMWOp) :
    AtomicRMWOpConversion.isPromotableToNVPTXLD op = true ↔
      (op.valDefiningOp = some (DefiningOp.constant (ConstantAttr.integer true)) ∨
        op.valDefiningOp = some (DefiningOp.constant (ConstantAttr.float true))) ∧
      (op.sem = MemSemantic.ACQUIRE ∨ op.sem = MemSemantic.RELAXED) ∧
      (op.scope = MemSyncScope.CTA ∨ op.scope = MemSyncScope.GPU ∨
        op.scope = MemSyncScope.SYSTEM) ∧
      (op.kind = RMWOp.ADD ∨ op.kind = RMWOp.FADD) ∧
      op.isTensor = false ∧ op.valueElemTy.isIntOrFloat = true := by
  unfold AtomicRMWOpConversion.isPromotableToNVPTXLD
  simp only [disableLDAcquireLowering, Bool.false_eq_true, if_false]
  by_cases h1 : op.valueElemTy.isIntOrFloat = true
  swap
  · simp [h1]
  by_cases h2 : op.sem = MemSemantic.ACQUIRE ∨ op.sem = MemSemantic.RELAXED
  swap
  · have : op.sem ≠ MemSemantic.ACQUIRE ∧ op.sem ≠ MemSemantic.RELAXED := not_or.mp h2
    simp [h1, this, h2]
  by_cases h3 : op.scope = MemSyncScope.CTA ∨ op.scope = MemSyncScope.GPU ∨
      op.scope = MemSyncScope.SYSTEM
  swap
  · have h3a : op.scope ≠ MemSyncScope.CTA ∧ op.scope ≠ MemSyncScope.GPU ∧
        op.scope ≠ MemSyncScope.SYSTEM := by
      refine ⟨fun h => h3 (Or.inl h), fun h => h3 (Or.inr (Or.inl h)),
        fun h => h3 (Or.inr (Or.inr h))⟩
    have h2a : ¬ (op.sem ≠ MemSemantic.ACQUIRE ∧ op.sem ≠ MemSemantic.RELAXED) := by
      intro h; rcases h2 with h2 | h2
      · exact h.1 h2
      · exact h.2 h2
    simp [h1, h2a, h3a, h3]
  by_cases h4 : op.kind = RMWOp.ADD ∨ op.kind = RMWOp.FADD
  swap
  · have h4a : op.kind ≠ RMWOp.ADD ∧ op.kind ≠ RMWOp.FADD := not_or.mp h4
    have h2a : ¬ (op.sem ≠ MemSemantic.ACQUIRE ∧ op.sem ≠ MemSemantic.RELAXED) := by
      intro h; rcases h2 with h2 | h2
      · exact h.1 h2
      · exact h.2 h2
    have h3a : ¬ (op.scope ≠ MemSyncScope.CTA ∧ op.scope ≠ MemSyncScope.GPU ∧
        op.scope ≠ MemSyncScope.SYSTEM) := by
      intro h; rcases h3 with h3 | h3 | h3
      · exact h.1 h3
      · exact h.2.1 h3
      · exact h.2.2 h3
    simp [h1, h2a, h3a, h4a, h4]
  have h2a : ¬ (op.sem ≠ MemSemantic.ACQUIRE ∧ op.sem ≠ MemSemantic.RELAXED) := by
    intro h; rcases h2 with h2 | h2
    · exact h.1 h2
    · exact h.2 h2
  have h3a : ¬ (op.scope ≠ MemSyncScope.CTA ∧ op.scope ≠ MemSyncScope.GPU ∧
      op.scope ≠ MemSyncScope.SYSTEM) := by
    intro h; rcases h3 with h3 | h3 | h3
    · exact h.1 h3
    · exact h.2.1 h3
    · exact h.2.2 h3
  have h4a : ¬ (op.kind ≠ RMWOp.ADD ∧ op.kind ≠ RMWOp.FADD) := by
    intro h; rcases h4 with h4 | h4
    · exact h.1 h4
    · exact h.2 h4
  simp only [h1, Bool.not_true, Bool.false_eq_true, if_false, h2a, h3a, h4a, h2, h3, h4,
    true_and, and_true]
  cases ht : op.isTensor
  · simp only [Bool.false_eq_true, if_false, and_true]
    cases hd : op.valDefiningOp with
    | none => simp
    | some d =>
      cases d with
      | other => simp
      | constant value =>
        cases value with
        | other => simp
        | float z => cases z <;> simp
        | integer z => cases z <;> simp
  · simp

theorem doPTXLDPromotion_iff (op : AtomicRMWOp) (vec packed : Nat) :
    AtomicRMWOpConversion.doPTXLDPromotion op vec packed = true ↔ specPromotes op vec packed := by
  unfold AtomicRMWOpConversion.doPTXLDPromotion specPromotes
  simp only [Bool.and_eq_true, decide_eq_true_eq, isPromotableToNVPTXLD_iff,
    AtomicRMWOpConversion.scopeMapCount, Bool.or_eq_true]
  constructor
  · rintro ⟨⟨⟨⟨h1, h2, h3, h4, h5, h6⟩, hv⟩, hp⟩, _⟩
    exact ⟨h1, h2, h3, h4, h5, h6, hv, hp⟩
  · rintro ⟨h1, h2, h3, h4, h5, h6, hv, hp⟩
    refine ⟨⟨⟨⟨h1, h2, h3, h4, h5, h6⟩, hv⟩, hp⟩, ?_⟩
    rcases h3 with h | h | h
    · exact Or.inl (Or.inl h)
    · exact Or.inl (Or.inr h)
    · exact Or.inr h

theorem getIntOrFloatBitWidth_isSome (t : ElemType) (h : t.isIntOrFloat = true) :
    ∃ n, t.getIntOrFloatBitWidth = some n := by
  cases t <;> first | exact ⟨_, rfl⟩ | cases h

/-- C13: with the toggle `disableLDAcquireLowering` off, as it is, the promotion flag of an
AtomicRMW is set iff the addend is defined by a constant that is integer or float zero, the
ordering is acquire or relaxed, the scope is CTA, GPU or SYSTEM, the kind is ADD or FADD,
the result is a scalar of integer or float type, and `vec` and `packed` are both 1; so
violating any one of these conditions clears the flag.  When the flag is set the lowering
of a well-formed scalar op begins with the promoted load and contains no atomic
instruction; when it is clear no lowering contains the promoted load. -/
theorem rmw_promotion_spec (op : AtomicRMWOp) (env : ThreadEnv) (mod : ModuleInfo)
    (oracle : AtomicOracle) (stringifyRMWOp : RMWOp → String)
    (hwf : op.isTensor = false → op.elemsPerThread = 1 ∧ op.ptrElements.length = 1 ∧
      ∀ m, op.mask = some m → m.elems.length = 1) :
    disableLDAcquireLowering = false ∧
    (∀ vec packed,
      AtomicRMWOpConversion.doPTXLDPromotion op vec packed = true ↔ specPromotes op vec packed) ∧
    (specPromotes op (AtomicRMWOpConversion.widths op mod.supportVectorizedAtomics).vec
        (AtomicRMWOpConversion.widths op mod.supportVectorizedAtomics).packed →
      ∃ r p g, AtomicRMWOpConversion.matchAndRewrite op env mod oracle stringifyRMWOp = some r ∧
        r.succeeded = true ∧
        r.trace.head? = some (AtomicAction.loadAcquire p g
          (if op.sem = MemSemantic.ACQUIRE then MemSemantic.ACQUIRE else MemSemantic.RELAXED)
          op.scope) ∧
        ∀ a ∈ r.trace, a.isAtomRmw = false ∧
          ∀ k ptr val s sc, a ≠ AtomicAction.llvmAtomicRmw k ptr val s sc) ∧
    (¬ specPromotes op (AtomicRMWOpConversion.widths op mod.supportVectorizedAtomics).vec
        (AtomicRMWOpConversion.widths op mod.supportVectorizedAtomics).packed →
      ∀ r, AtomicRMWOpConversion.matchAndRewrite op env mod oracle stringifyRMWOp = some r →
        ∀ a ∈ r.trace, a.isLoadAcquire = false) := by
  refine ⟨rfl, fun vec packed => doPTXLDPromotion_iff op vec packed, ?_, ?_⟩
  · intro hspec
    have ht : op.isTensor = false := hspec.2.2.2.2.1
    obtain ⟨he, hpl, hm⟩ := hwf ht
    obtain ⟨nbits, hw⟩ := getIntOrFloatBitWidth_isSome _ hspec.2.2.2.2.2.1
    obtain ⟨p, hp⟩ := getElem?_zero_of_length_one _ hpl
    obtain ⟨g, hg, -⟩ := rmw_pred_isSome (emitRedundantThreadPredicate op.freeVarMasks env)
      op.mask (fun m hmk => by
        have := hm m hmk
        intro h0
        rw [h0] at this
        cases this)
    rw [rmw_scalar_widths op _ ht] at hspec
    have hpromo := (doPTXLDPromotion_iff op 1 1).mpr hspec
    have hlow := rmw_scalar_promoted_lowering op env mod oracle stringifyRMWOp nbits p g ht he
      hw hp hg hpromo
    refine ⟨_, p, g, hlow, rfl, ?_, ?_⟩
    · cases op.resultUsed <;> rfl
    · intro a ha
      cases hu : op.resultUsed
      · simp only [hu, Bool.false_eq_true, if_false, List.mem_cons, List.mem_singleton,
          List.not_mem_nil, or_false] at ha
        rcases ha with ha | ha <;> subst ha <;> exact ⟨rfl, by simp⟩
      · simp only [hu, if_true, List.mem_append, List.mem_cons, List.mem_singleton,
          List.not_mem_nil, or_false] at ha
        rcases ha with ((ha | ha) | ha) | ha | ha
        · subst ha; exact ⟨rfl, by simp⟩
        · subst ha; exact ⟨rfl, by simp⟩
        · unfold createBarrier at ha
          split at ha
          · simp only [List.mem_singleton] at ha
            subst ha; exact ⟨rfl, by simp⟩
          · simp only [List.mem_cons, List.mem_singleton, List.not_mem_nil, or_false] at ha
            rcases ha with ha | ha <;> subst ha <;> exact ⟨rfl, by simp⟩
        · subst ha; exact ⟨rfl, by simp⟩
        · subst ha; exact ⟨rfl, by simp⟩
  · intro hspec r hr a ha
    have hflag : AtomicRMWOpConversion.doPTXLDPromotion op
        (AtomicRMWOpConversion.widths op mod.supportVectorizedAtomics).vec
        (AtomicRMWOpConversion.widths op mod.supportVectorizedAtomics).packed = false := by
      cases hf : AtomicRMWOpConversion.doPTXLDPromotion op
        (AtomicRMWOpConversion.widths op mod.supportVectorizedAtomics).vec
        (AtomicRMWOpConversion.widths op mod.supportVectorizedAtomics).packed
      · rfl
      · exact absurd ((doPTXLDPromotion_iff op _ _).mp hf) hspec
    exact (rmw_trace_without_promotion op env mod oracle stringifyRMWOp r hflag hr a ha).1

theorem rmw_promotion_spec_witness :
    (∃ r p g, AtomicRMWOpConversion.matchAndRewrite examplePromotedRmwOp firstLane
        hopperModule exampleOracle exampleStringifyRMWOp = some r ∧ r.succeeded = true ∧
      r.trace.head? = some (AtomicAction.loadAcquire p g
        (if examplePromotedRmwOp.sem = MemSemantic.ACQUIRE then MemSemantic.ACQUIRE
          else MemSemantic.RELAXED) examplePromotedRmwOp.scope) ∧
      ∀ a ∈ r.trace, a.isAtomRmw = false ∧
        ∀ k ptr val s sc, a ≠ AtomicAction.llvmAtomicRmw k ptr val s sc) ∧
    AtomicRMWOpConversion.doPTXLDPromotion
      { examplePromotedRmwOp with sem := MemSemantic.RELEASE } 1 1 = false ∧
    AtomicRMWOpConversion.doPTXLDPromotion
      { examplePromotedRmwOp with scope := MemSyncScope.other 7 } 1 1 = false ∧
    AtomicRMWOpConversion.doPTXLDPromotion
      { examplePromotedRmwOp with kind := RMWOp.XCHG } 1 1 = false ∧
    AtomicRMWOpConversion.doPTXLDPromotion
      { examplePromotedRmwOp with isTensor := true } 1 1 = false ∧
    AtomicRMWOpConversion.doPTXLDPromotion
      { examplePromotedRmwOp with valueElemTy := ElemType.ptr } 1 1 = false ∧
    AtomicRMWOpConversion.doPTXLDPromotion
      { examplePromotedRmwOp with
        valDefiningOp := some (DefiningOp.constant (ConstantAttr.integer false)) } 1 1 = false ∧
    AtomicRMWOpConversion.doPTXLDPromotion
      { examplePromotedRmwOp with valDefiningOp := some DefiningOp.other } 1 1 = false ∧
    AtomicRMWOpConversion.doPTXLDPromotion examplePromotedRmwOp 2 1 = false ∧
    AtomicRMWOpConversion.doPTXLDPromotion examplePromotedRmwOp 1 2 = false :=
  ⟨(rmw_promotion_spec examplePromotedRmwOp firstLane hopperModule exampleOracle
      exampleStringifyRMWOp (fun _ => ⟨rfl, rfl, fun m hm => by cases hm⟩)).2.2.1
      (by
        refine ⟨Or.inl rfl, Or.inl rfl, Or.inr (Or.inl rfl), Or.inl rfl, rfl, rfl, rfl, rfl⟩),
    by decide, by decide, by decide, by decide, by decide, by decide, by decide, by decide,
    by decide⟩


/-! ## The native atomic instruction -/

theorem forStepReturn_first_done {σ ρ : Type} (stop step : Nat)
    (body : Nat → σ → Option (LoopStep σ ρ)) (fuel : Nat) (s : σ) (r : ρ)
    (hstop : 0 < stop) (hfuel : 0 < fuel) (hb : body 0 s = some (LoopStep.done r)) :
    forStepReturn stop step body fuel 0 s = some (LoopStep.done r) := by
  cases fuel with
  | zero => cases hfuel
  | succ fuel => simp only [forStepReturn, hstop, if_true, hb]

theorem rmw_valOperand_isSome (valElements : List Nat) (w : RmwWidths)
    (h1 : 1 ≤ valElements.length) (hv : w.vec ≤ valElements.length)
    (hp : w.packed ≤ valElements.length) :
    ∃ v, AtomicRMWOpConversion.valOperand valElements w 0 = some v := by
  unfold AtomicRMWOpConversion.valOperand
  split
  · obtain ⟨t, ht⟩ := forLoop_isSome
      (fun ii vals => (valElements[0 + ii]?).map fun v => vals ++ [v]) [] w.vec
      (fun i hi s => by
        have hlt : 0 + i < valElements.length := by omega
        simp only [List.getElem?_eq_getElem hlt, Option.map_some']
        exact ⟨_, rfl⟩)
    exact ⟨_, by rw [ht]; rfl⟩
  · split
    · obtain ⟨t, ht⟩ := forLoop_isSome
        (fun ii rmwVal => (valElements[0 + ii]?).map fun v => insert_element rmwVal v ii)
        (undefVec w.packed) w.packed
        (fun i hi s => by
          have hlt : 0 + i < valElements.length := by omega
          simp only [List.getElem?_eq_getElem hlt, Option.map_some']
          exact ⟨_, rfl⟩)
      exact ⟨_, by rw [ht]; rfl⟩
    · have hlt : 0 < valElements.length := h1
      simp only [List.getElem?_eq_getElem hlt, Option.map_some']
      exact ⟨_, rfl⟩

theorem rmw_widthAssertion (op : AtomicRMWOp) (s : Bool) :
    AtomicRMWOpConversion.widthAssertion (AtomicRMWOpConversion.widths op s) = true := by
  unfold AtomicRMWOpConversion.widths AtomicRMWOpConversion.widthAssertion
  cases op.isTensor
  · simp
  · cases AtomicRMWOpConversion.supportsVectorized s op.kind op.valueElemTy <;> simp

theorem getElem?_zero_of_length_pos {α : Type} (l : List α) (h : 1 ≤ l.length) :
    ∃ x, l[0]? = some x := by
  cases l with
  | nil => cases h
  | cons x rest => exact ⟨x, by simp⟩

/-- A kind outside the table makes the native path fail in the first iteration. -/
theorem rmw_unknown_kind_fails (op : AtomicRMWOp) (env : ThreadEnv) (mod : ModuleInfo)
    (oracle : AtomicOracle) (stringifyRMWOp : RMWOp → String) (nbits raw : Nat)
    (hk : op.kind = RMWOp.other raw)
    (hw : op.valueElemTy.getIntOrFloatBitWidth = some nbits)
    (he : 1 ≤ op.elemsPerThread) (hp : 1 ≤ op.ptrElements.length)
    (hv : 1 ≤ op.valElements.length)
    (hvv : (AtomicRMWOpConversion.widths op mod.supportVectorizedAtomics).vec
      ≤ op.valElements.length)
    (hvp : (AtomicRMWOpConversion.widths op mod.supportVectorizedAtomics).packed
      ≤ op.valElements.length)
    (hm : ∀ m, op.mask = some m → 1 ≤ m.elems.length)
    (hnb : (op.valueElemTy.isBF16 && decide (mod.computeCapability < 90)) = false)
    (hty : ∃ tyId, getRegisterSizeCode
      (nbits * (AtomicRMWOpConversion.widths op mod.supportVectorizedAtomics).packed) false
        = some tyId) :
    ∃ r, AtomicRMWOpConversion.matchAndRewrite op env mod oracle stringifyRMWOp = some r ∧
      r.succeeded = false ∧ r.trace = [] := by
  obtain ⟨p, hp0⟩ := getElem?_zero_of_length_pos _ hp
  obtain ⟨g, hg, -⟩ := rmw_pred_isSome (emitRedundantThreadPredicate op.freeVarMasks env)
    op.mask (fun m hmk => by
      have := hm m hmk
      intro h0
      rw [h0] at this
      cases this)
  obtain ⟨tyId, hty⟩ := hty
  obtain ⟨valOpr, hvo⟩ := rmw_valOperand_isSome op.valElements _ hv hvv hvp
  have hpromo : ∀ vec packed, AtomicRMWOpConversion.doPTXLDPromotion op vec packed = false := by
    intro vec packed
    cases hf : AtomicRMWOpConversion.doPTXLDPromotion op vec packed
    · rfl
    · have := ((doPTXLDPromotion_iff op vec packed).mp hf).2.2.2.1
      rw [hk] at this
      rcases this with h | h <;> cases h
  have hassert := rmw_widthAssertion op mod.supportVectorizedAtomics
  unfold AtomicRMWOpConversion.matchAndRewrite
  simp only [hw, Option.some_bind, hassert, Bool.not_true, Bool.false_eq_true, if_false, hpromo]
  rw [forStepReturn_first_done _ _ _ _ _ _ he he
    (by
      rw [rmw_group_zero op mod oracle stringifyRMWOp _ _ nbits _ _ _ p g _ hp0 hg]
      simp only [Bool.false_eq_true, if_false, hnb, AtomicRMWOpConversion.native, hty,
        Option.some_bind, hvo, hk, AtomicRMWOpConversion.mnemonic]
      rfl)]
  exact ⟨_, rfl, rfl, rfl⟩

/-- C15: on the native path the mnemonic and the type suffix of the atomic are a fixed
function of the kind, the element bit width N, whether the element is bf16, and `packed`:
AND, OR, XOR and XCHG give the name of the kind with suffix bN; ADD gives it with uN; FADD
gives add, or add.noftz when N is 16, with fN, or bfN for bf16, followed by x2 when
`packed` is 2 and N is 16; MAX and MIN give the name of the kind with sN; UMAX and UMIN
give max and min with uN.  The instruction emitted for a scalar op of a kind of the table
carries this mnemonic and suffix.  For a kind outside the table the lowering returns
failure without having emitted an atomic instruction or replaced the op.  The op is well
formed and reaches the native path. -/
theorem rmw_native_mnemonic_table (op : AtomicRMWOp) (env : ThreadEnv) (mod : ModuleInfo)
    (oracle : AtomicOracle) (stringifyRMWOp : RMWOp → String) (nbits : Nat)
    (hw : op.valueElemTy.getIntOrFloatBitWidth = some nbits)
    (he : 1 ≤ op.elemsPerThread) (hp : op.ptrElements.length = op.elemsPerThread)
    (hv : op.valElements.length = op.elemsPerThread)
    (hvv : (AtomicRMWOpConversion.widths op mod.supportVectorizedAtomics).vec
      ≤ op.elemsPerThread)
    (hvp : (AtomicRMWOpConversion.widths op mod.supportVectorizedAtomics).packed
      ≤ op.elemsPerThread)
    (hm : ∀ m, op.mask = some m → m.elems.length = op.elemsPerThread)
    (hnb : ¬ (op.valueElemTy = ElemType.bf16 ∧ mod.computeCapability < 90))
    (hty : nbits * (AtomicRMWOpConversion.widths op mod.supportVectorizedAtomics).packed = 16 ∨
      nbits * (AtomicRMWOpConversion.widths op mod.supportVectorizedAtomics).packed = 32 ∨
      nbits * (AtomicRMWOpConversion.widths op mod.supportVectorizedAtomics).packed = 64) :
    (∀ (N : Nat) (isBF16 : Bool) (packed : Nat),
      AtomicRMWOpConversion.mnemonic stringifyRMWOp RMWOp.AND N isBF16 packed
        = some (stringifyRMWOp RMWOp.AND, "b" ++ toString N) ∧
      AtomicRMWOpConversion.mnemonic stringifyRMWOp RMWOp.OR N isBF16 packed
        = some (stringifyRMWOp RMWOp.OR, "b" ++ toString N) ∧
      AtomicRMWOpConversion.mnemonic stringifyRMWOp RMWOp.XOR N isBF16 packed
        = some (stringifyRMWOp RMWOp.XOR, "b" ++ toString N) ∧
      AtomicRMWOpConversion.mnemonic stringifyRMWOp RMWOp.XCHG N isBF16 packed
        = some (stringifyRMWOp RMWOp.XCHG, "b" ++ toString N) ∧
      AtomicRMWOpConversion.mnemonic stringifyRMWOp RMWOp.ADD N isBF16 packed
        = some (stringifyRMWOp RMWOp.ADD, "u" ++ toString N) ∧
      AtomicRMWOpConversion.mnemonic stringifyRMWOp RMWOp.FADD N isBF16 packed
        = some (if N = 16 then "add.noftz" else "add",
            (if isBF16 then "bf" else "f") ++ toString N ++
              (if packed = 2 ∧ N = 16 then "x2" else "")) ∧
      AtomicRMWOpConversion.mnemonic stringifyRMWOp RMWOp.MAX N isBF16 packed
        = some (stringifyRMWOp RMWOp.MAX, "s" ++ toString N) ∧
      AtomicRMWOpConversion.mnemonic stringifyRMWOp RMWOp.MIN N isBF16 packed
        = some (stringifyRMWOp RMWOp.MIN, "s" ++ toString N) ∧
      AtomicRMWOpConversion.mnemonic stringifyRMWOp RMWOp.UMAX N isBF16 packed
        = some ("max", "u" ++ toString N) ∧
      AtomicRMWOpConversion.mnemonic stringifyRMWOp RMWOp.UMIN N isBF16 packed
        = some ("min", "u" ++ toString N) ∧
      ∀ raw, AtomicRMWOpConversion.mnemonic stringifyRMWOp (RMWOp.other raw) N isBF16 packed
        = none) ∧
    ((∀ raw, op.kind ≠ RMWOp.other raw) → op.isTensor = false → op.elemsPerThread = 1 →
      AtomicRMWOpConversion.doPTXLDPromotion op 1 1 = false →
      ∃ r instr g,
        AtomicRMWOpConversion.matchAndRewrite op env mod oracle stringifyRMWOp = some r ∧
        r.succeeded = true ∧ r.trace.head? = some (AtomicAction.atomRmw instr g) ∧
        AtomicRMWOpConversion.mnemonic stringifyRMWOp op.kind nbits op.valueElemTy.isBF16 1
          = some (instr.rmwOp, instr.sTy) ∧
        instr.vec = 1 ∧ instr.scope = op.scope ∧ instr.sem = op.sem) ∧
    (∀ raw, op.kind = RMWOp.other raw →
      ∃ r, AtomicRMWOpConversion.matchAndRewrite op env mod oracle stringifyRMWOp = some r ∧
        r.succeeded = false ∧ r.trace = [] ∧
        (∀ a ∈ r.trace, a.isAtomRmw = false ∧ ∀ vals, a ≠ AtomicAction.replaceOp vals)) := by
  have hnb2 : (op.valueElemTy.isBF16 && decide (mod.computeCapability < 90)) = false := by
    cases hb : (op.valueElemTy.isBF16 && decide (mod.computeCapability < 90))
    · rfl
    · simp only [Bool.and_eq_true, decide_eq_true_eq, ElemType.isBF16] at hb
      exact absurd hb hnb
  refine ⟨?_, ?_, ?_⟩
  · intro N isBF16 packed
    refine ⟨rfl, rfl, rfl, rfl, rfl, ?_, rfl, rfl, rfl, rfl, fun _ => rfl⟩
    simp only [AtomicRMWOpConversion.mnemonic]
    by_cases h16 : N = 16 <;> simp [h16]
  · intro hk ht he1 hpromo
    obtain ⟨p, hp0⟩ := getElem?_zero_of_length_pos _ (hp ▸ he)
    obtain ⟨v, hv0⟩ := getElem?_zero_of_length_pos _ (hv ▸ he)
    obtain ⟨g, hg, -⟩ := rmw_pred_isSome (emitRedundantThreadPredicate op.freeVarMasks env)
      op.mask (fun m hmk => by
        have := hm m hmk
        intro h0
        rw [h0, List.length_nil] at this
        omega)
    rw [rmw_scalar_widths op _ ht] at hty
    obtain ⟨tyId, hty⟩ := getRegisterSizeCode_isSome nbits (by simpa using hty)
    obtain ⟨⟨rmwOp, sTy⟩, hmn⟩ := rmw_mnemonic_isSome stringifyRMWOp op.kind nbits
      op.valueElemTy.isBF16 1 hk
    have hlow := rmw_scalar_native_lowering op env mod oracle stringifyRMWOp nbits p v g tyId
      rmwOp sTy ht he1 hw hp0 hv0 hg hpromo hnb2 hty hmn _ rfl
    refine ⟨_, ⟨op.scope, op.sem, rmwOp, 1, sTy, tyId, p, AsmValue.scalar v⟩, g, hlow, rfl, ?_,
      hmn, rfl, rfl, rfl⟩
    cases op.resultUsed <;> rfl
  · intro raw hk
    obtain ⟨r, hr, hs, htr⟩ := rmw_unknown_kind_fails op env mod oracle stringifyRMWOp nbits raw
      hk hw he (hp ▸ he) (hv ▸ he) (hv ▸ hvv) (hv ▸ hvp) (fun m hmk => by rw [hm m hmk]; exact he)
      hnb2 (by
        rcases hty with h | h | h <;> rw [h] <;> exact ⟨_, rfl⟩)
    exact ⟨r, hr, hs, htr, fun a ha => by rw [htr] at ha; cases ha⟩

theorem rmw_native_mnemonic_table_witness :
    (∃ r, AtomicRMWOpConversion.matchAndRewrite exampleUnknownKindRmwOp firstLane hopperModule
        exampleOracle exampleStringifyRMWOp = some r ∧ r.succeeded = false ∧ r.trace = [] ∧
      (∀ a ∈ r.trace, a.isAtomRmw = false ∧ ∀ vals, a ≠ AtomicAction.replaceOp vals)) ∧
    AtomicRMWOpConversion.mnemonic exampleStringifyRMWOp RMWOp.FADD 16 false 2
      = some ("add.noftz", "f16x2") ∧
    AtomicRMWOpConversion.mnemonic exampleStringifyRMWOp RMWOp.FADD 16 true 1
      = some ("add.noftz", "bf16") ∧
    AtomicRMWOpConversion.mnemonic exampleStringifyRMWOp RMWOp.FADD 32 false 1
      = some ("add", "f32") ∧
    AtomicRMWOpConversion.mnemonic exampleStringifyRMWOp RMWOp.UMAX 32 false 1
      = some ("max", "u32") ∧
    AtomicRMWOpConversion.mnemonic exampleStringifyRMWOp RMWOp.MIN 64 false 1
      = some ("min", "s64") ∧
    AtomicRMWOpConversion.mnemonic exampleStringifyRMWOp RMWOp.XCHG 32 false 1
      = some ("exch", "b32") :=
  ⟨(rmw_native_mnemonic_table exampleUnknownKindRmwOp firstLane hopperModule exampleOracle
      exampleStringifyRMWOp 32 rfl (by decide) rfl rfl (by decide) (by decide)
      (fun m hm => by cases hm) (by decide) (Or.inr (Or.inl (by decide)))).2.2 11 rfl,
    by decide, by decide, by decide, by decide, by decide, by decide⟩


/-! ## Direct-addressed async copy: width -/

theorem asyncCopy_maxVec_two_pow (srcIsTensor : Bool) (axisContiguity : Nat)
    (maskAlignment : Option Nat) (j : Nat) (hj : j ≤ 7)
    (hc : ∃ a, getContiguity srcIsTensor axisContiguity = 2 ^ a)
    (hm : ∀ m, maskAlignment = some m → ∃ b, m = 2 ^ b) :
    ∃ k, k ≤ 7 - j ∧
      AsyncCopyGlobalToLocalOpConversion.maxVec srcIsTensor axisContiguity maskAlignment (2 ^ j)
        = 2 ^ k := by
  obtain ⟨a, ha⟩ := hc
  unfold AsyncCopyGlobalToLocalOpConversion.maxVec
  rw [div_128_two_pow j hj, ha]
  cases hma : maskAlignment with
  | none =>
    simp only
    rw [two_pow_min]
    exact ⟨min a (7 - j), Nat.min_le_right _ _, rfl⟩
  | some m =>
    obtain ⟨b, rfl⟩ := hm m hma
    simp only
    rw [two_pow_min, two_pow_min]
    exact ⟨min (min a b) (7 - j), Nat.min_le_right _ _, rfl⟩

theorem asyncCopy_vecBytes_cases (j k : Nat) (hj : 3 ≤ j) (hj2 : j ≤ 6) (hk : k ≤ 7 - j) :
    AsyncCopyGlobalToLocalOpConversion.vecBytes (2 ^ k) (2 ^ j) = 1 ∨
    AsyncCopyGlobalToLocalOpConversion.vecBytes (2 ^ k) (2 ^ j) = 2 ∨
    AsyncCopyGlobalToLocalOpConversion.vecBytes (2 ^ k) (2 ^ j) = 4 ∨
    AsyncCopyGlobalToLocalOpConversion.vecBytes (2 ^ k) (2 ^ j) = 8 ∨
    AsyncCopyGlobalToLocalOpConversion.vecBytes (2 ^ k) (2 ^ j) = 16 := by
  have hj' : j = 3 ∨ j = 4 ∨ j = 5 ∨ j = 6 := by omega
  rcases hj' with rfl | rfl | rfl | rfl
  · have : k = 0 ∨ k = 1 ∨ k = 2 ∨ k = 3 ∨ k = 4 := by omega
    rcases this with rfl | rfl | rfl | rfl | rfl <;> decide
  · have : k = 0 ∨ k = 1 ∨ k = 2 ∨ k = 3 := by omega
    rcases this with rfl | rfl | rfl | rfl <;> decide
  · have : k = 0 ∨ k = 1 ∨ k = 2 := by omega
    rcases this with rfl | rfl | rfl <;> decide
  · have : k = 0 ∨ k = 1 := by omega
    rcases this with rfl | rfl <;> decide

/-- C16: with maxVec = min(contiguity, mask alignment if masked, 128/bitwidth) and
vecBytes = maxVec*bitwidth/8, the direct-addressed async copy fails with the error of a
transfer smaller than 4 bytes iff vecBytes < 4; when the width check passes, the width and
byte count it hands on are maxVec and vecBytes themselves, never larger ones; when the
contiguity and the mask alignment are powers of two and the bit width is 8, 16, 32 or 64,
vecBytes is below 4 or one of 4, 8, 16, so the assertion holds and the check passes
whenever vecBytes is at least 4; a computed width of 2 bytes fails. -/
theorem cp_async_width_check (srcIsTensor : Bool) (axisContiguity : Nat)
    (maskAlignment : Option Nat) (bitWidth : Nat) (hb : bitWidth ≠ 0) :
    (AsyncCopyGlobalToLocalOpConversion.vecBytes
        (AsyncCopyGlobalToLocalOpConversion.maxVec srcIsTensor axisContiguity maskAlignment
          bitWidth) bitWidth < 4 →
      AsyncCopyGlobalToLocalOpConversion.checkWidth srcIsTensor axisContiguity maskAlignment
          bitWidth
        = some (Except.error ("cp.async does not support transfers smaller than " ++
            "4 bytes; calculated this as " ++
            toString (AsyncCopyGlobalToLocalOpConversion.vecBytes
              (AsyncCopyGlobalToLocalOpConversion.maxVec srcIsTensor axisContiguity
                maskAlignment bitWidth) bitWidth) ++ " bytes"))) ∧
    ((∃ msg, AsyncCopyGlobalToLocalOpConversion.checkWidth srcIsTensor axisContiguity
          maskAlignment bitWidth = some (Except.error msg)) →
      AsyncCopyGlobalToLocalOpConversion.vecBytes
        (AsyncCopyGlobalToLocalOpConversion.maxVec srcIsTensor axisContiguity maskAlignment
          bitWidth) bitWidth < 4) ∧
    (∀ mv vb, AsyncCopyGlobalToLocalOpConversion.checkWidth srcIsTensor axisContiguity
        maskAlignment bitWidth = some (Except.ok (mv, vb)) →
      mv = AsyncCopyGlobalToLocalOpConversion.maxVec srcIsTensor axisContiguity maskAlignment
        bitWidth ∧
      vb = AsyncCopyGlobalToLocalOpConversion.vecBytes mv bitWidth ∧
      (vb = 16 ∨ vb = 8 ∨ vb = 4)) ∧
    ((∃ a, getContiguity srcIsTensor axisContiguity = 2 ^ a) →
      (∀ m, maskAlignment = some m → ∃ b, m = 2 ^ b) →
      (bitWidth = 8 ∨ bitWidth = 16 ∨ bitWidth = 32 ∨ bitWidth = 64) →
      AsyncCopyGlobalToLocalOpConversion.checkWidth srcIsTensor axisContiguity maskAlignment
        bitWidth ≠ none ∧
      (¬ AsyncCopyGlobalToLocalOpConversion.vecBytes
          (AsyncCopyGlobalToLocalOpConversion.maxVec srcIsTensor axisContiguity maskAlignment
            bitWidth) bitWidth < 4 →
        (AsyncCopyGlobalToLocalOpConversion.vecBytes
            (AsyncCopyGlobalToLocalOpConversion.maxVec srcIsTensor axisContiguity maskAlignment
              bitWidth) bitWidth = 16 ∨
          AsyncCopyGlobalToLocalOpConversion.vecBytes
            (AsyncCopyGlobalToLocalOpConversion.maxVec srcIsTensor axisContiguity maskAlignment
              bitWidth) bitWidth = 8 ∨
          AsyncCopyGlobalToLocalOpConversion.vecBytes
            (AsyncCopyGlobalToLocalOpConversion.maxVec srcIsTensor axisContiguity maskAlignment
              bitWidth) bitWidth = 4) ∧
        AsyncCopyGlobalToLocalOpConversion.checkWidth srcIsTensor axisContiguity maskAlignment
            bitWidth
          = some (Except.ok
              (AsyncCopyGlobalToLocalOpConversion.maxVec srcIsTensor axisContiguity
                maskAlignment bitWidth,
               AsyncCopyGlobalToLocalOpConversion.vecBytes
                (AsyncCopyGlobalToLocalOpConversion.maxVec srcIsTensor axisContiguity
                  maskAlignment bitWidth) bitWidth)))) ∧
    (AsyncCopyGlobalToLocalOpConversion.vecBytes
        (AsyncCopyGlobalToLocalOpConversion.maxVec srcIsTensor axisContiguity maskAlignment
          bitWidth) bitWidth = 2 →
      ∃ msg, AsyncCopyGlobalToLocalOpConversion.checkWidth srcIsTensor axisContiguity
        maskAlignment bitWidth = some (Except.error msg)) := by
  have hlt : AsyncCopyGlobalToLocalOpConversion.vecBytes
        (AsyncCopyGlobalToLocalOpConversion.maxVec srcIsTensor axisContiguity maskAlignment
          bitWidth) bitWidth < 4 →
      AsyncCopyGlobalToLocalOpConversion.checkWidth srcIsTensor axisContiguity maskAlignment
          bitWidth
        = some (Except.error ("cp.async does not support transfers smaller than " ++
            "4 bytes; calculated this as " ++
            toString (AsyncCopyGlobalToLocalOpConversion.vecBytes
              (AsyncCopyGlobalToLocalOpConversion.maxVec srcIsTensor axisContiguity
                maskAlignment bitWidth) bitWidth) ++ " bytes")) := by
    intro h
    simp only [AsyncCopyGlobalToLocalOpConversion.checkWidth, hb, if_false, h, if_true]
  refine ⟨hlt, ?_, ?_, ?_, ?_⟩
  · rintro ⟨msg, h⟩
    by_contra hn
    simp only [AsyncCopyGlobalToLocalOpConversion.checkWidth, hb, if_false, hn] at h
    split at h <;> cases h
  · intro mv vb h
    simp only [AsyncCopyGlobalToLocalOpConversion.checkWidth, hb, if_false] at h
    split at h
    · cases h
    · split at h
      · cases h
      · rename_i h1 h2
        simp only [Option.some.injEq, Except.ok.injEq, Prod.mk.injEq] at h
        obtain ⟨rfl, rfl⟩ := h
        exact ⟨rfl, rfl, not_not.mp h2⟩
  · intro hc hm hbw
    obtain ⟨j, hj3, hj6, rfl⟩ : ∃ j, 3 ≤ j ∧ j ≤ 6 ∧ bitWidth = 2 ^ j := by
      rcases hbw with h | h | h | h
      · exact ⟨3, by decide, by decide, h⟩
      · exact ⟨4, by decide, by decide, h⟩
      · exact ⟨5, by decide, by decide, h⟩
      · exact ⟨6, by decide, by decide, h⟩
    obtain ⟨k, hk, hmv⟩ := asyncCopy_maxVec_two_pow srcIsTensor axisContiguity maskAlignment j
      (by omega) hc hm
    have hcases := asyncCopy_vecBytes_cases j k hj3 hj6 hk
    rw [← hmv] at hcases
    have hok : ¬ AsyncCopyGlobalToLocalOpConversion.vecBytes
          (AsyncCopyGlobalToLocalOpConversion.maxVec srcIsTensor axisContiguity maskAlignment
            (2 ^ j)) (2 ^ j) < 4 →
        (AsyncCopyGlobalToLocalOpConversion.vecBytes
            (AsyncCopyGlobalToLocalOpConversion.maxVec srcIsTensor axisContiguity maskAlignment
              (2 ^ j)) (2 ^ j) = 16 ∨
          AsyncCopyGlobalToLocalOpConversion.vecBytes
            (AsyncCopyGlobalToLocalOpConversion.maxVec srcIsTensor axisContiguity maskAlignment
              (2 ^ j)) (2 ^ j) = 8 ∨
          AsyncCopyGlobalToLocalOpConversion.vecBytes
            (AsyncCopyGlobalToLocalOpConversion.maxVec srcIsTensor axisContiguity maskAlignment
              (2 ^ j)) (2 ^ j) = 4) := by
      intro hn
      rcases hcases with h | h | h | h | h
      · rw [h] at hn; exact absurd (by decide) hn
      · rw [h] at hn; exact absurd (by decide) hn
      · exact Or.inr (Or.inr h)
      · exact Or.inr (Or.inl h)
      · exact Or.inl h
    have hok2 : ¬ AsyncCopyGlobalToLocalOpConversion.vecBytes
          (AsyncCopyGlobalToLocalOpConversion.maxVec srcIsTensor axisContiguity maskAlignment
            (2 ^ j)) (2 ^ j) < 4 →
        AsyncCopyGlobalToLocalOpConversion.checkWidth srcIsTensor axisContiguity maskAlignment
            (2 ^ j)
          = some (Except.ok
              (AsyncCopyGlobalToLocalOpConversion.maxVec srcIsTensor axisContiguity
                maskAlignment (2 ^ j),
               AsyncCopyGlobalToLocalOpConversion.vecBytes
                (AsyncCopyGlobalToLocalOpConversion.maxVec srcIsTensor axisContiguity
                  maskAlignment (2 ^ j)) (2 ^ j))) := by
      intro hn
      simp only [AsyncCopyGlobalToLocalOpConversion.checkWidth, hb, if_false, hn, hok hn,
        not_true_eq_false]
    refine ⟨?_, fun hn => ⟨hok hn, hok2 hn⟩⟩
    by_cases hn : AsyncCopyGlobalToLocalOpConversion.vecBytes
          (AsyncCopyGlobalToLocalOpConversion.maxVec srcIsTensor axisContiguity maskAlignment
            (2 ^ j)) (2 ^ j) < 4
    · rw [hlt hn]; simp
    · rw [hok2 hn]; simp
  · intro h2
    exact ⟨_, hlt (by rw [h2]; decide)⟩

theorem cp_async_width_check_witness :
    (∃ msg, AsyncCopyGlobalToLocalOpConversion.checkWidth true 1 none 16
      = some (Except.error msg)) ∧
    AsyncCopyGlobalToLocalOpConversion.vecBytes
      (AsyncCopyGlobalToLocalOpConversion.maxVec true 1 none 16) 16 = 2 ∧
    AsyncCopyGlobalToLocalOpConversion.checkWidth true 8 (some 4) 32
      = some (Except.ok (4, 16)) :=
  ⟨(cp_async_width_check true 1 none 16 (by decide)).2.2.2.2 (by decide), by decide,
    ((cp_async_width_check true 8 (some 4) 32 (by decide)).2.2.2.1 ⟨3, by decide⟩
      (fun m hm => ⟨2, by cases hm; rfl⟩) (Or.inr (Or.inr (Or.inl rfl)))).2 (by decide) |>.2⟩


/-! ## The remark on failed vectorization -/

/-- A well-formed load lowers successfully, with the remarks computed from its width. -/
theorem load_matchAndRewrite_isSome (op : LoadOp) (launch : LdInstr → Nat → Nat)
    (computeCapability : Int) (k : Nat)
    (hbw : op.valueElemBitWidth = 8 ∨ op.valueElemBitWidth = 16 ∨ op.valueElemBitWidth = 32 ∨
      op.valueElemBitWidth = 64)
    (hvec : vectorWidth op.ptrIsTensor op.axisContiguity op.pointeeBitWidth
      (op.mask.map (fun m => m.alignment)) = 2 ^ k)
    (hle : 2 ^ k * op.valueElemBitWidth ≤ 128) (hdiv : 2 ^ k ∣ op.numElems)
    (hn : op.numElems < 2 ^ 31) (hptr : op.ptrElems.length = op.numElems)
    (hmask : ∀ m, op.mask = some m → m.elems.length = op.numElems)
    (hother : ∀ o, op.other = some o → o.elems.length = op.numElems) :
    ∃ res, LoadOpConversion.matchAndRewrite op launch computeCapability = some res ∧
      res.remarks = vectorizationRemarks (2 ^ k)
        (getVectorSize op.ptrIsTensor op.axisContiguity op.pointeeBitWidth) op.numElems op.mask := by
  obtain ⟨st, hst, -⟩ := load_groups_invariant op launch computeCapability (2 ^ k) k
    (toUnsigned (op.freeVarMasks.get "reg")) hbw rfl hle hdiv hn
    (Nat.mod_lt _ (by decide)) hptr hmask hother
  have hne : (2 : Nat) ^ k ≠ 0 := Nat.pos_iff_ne_zero.mp (Nat.two_pow_pos k)
  unfold LoadOpConversion.matchAndRewrite
  cases hm : op.mask with
  | none =>
    simp only [hm, Option.map_none'] at hvec
    simp only [hptr, ne_eq, not_true_eq_false, if_false, Bool.false_eq_true, Option.map_none',
      hvec, hne, hst, Option.map_some']
    exact ⟨_, rfl, rfl⟩
  | some m =>
    simp only [hm, Option.map_some'] at hvec
    simp only [hptr, ne_eq, not_true_eq_false, if_false, hmask m hm, decide_False,
      Bool.false_eq_true, Option.map_some', hvec, hne, hst]
    exact ⟨_, rfl, rfl⟩

/-- A well-formed store lowers successfully, with the remarks computed from its width. -/
theorem store_matchAndRewrite_isSome (op : StoreOp) (env : ThreadEnv)
    (computeCapability : Int) (k : Nat)
    (hbw : op.valueElemBitWidth = 8 ∨ op.valueElemBitWidth = 16 ∨ op.valueElemBitWidth = 32 ∨
      op.valueElemBitWidth = 64)
    (hvec : vectorWidth op.ptrIsTensor op.axisContiguity op.pointeeBitWidth
      (op.mask.map (fun m => m.alignment)) = 2 ^ k)
    (hle : 2 ^ k * op.valueElemBitWidth ≤ 128) (hdiv : 2 ^ k ∣ op.elemsPerThread)
    (hn : op.elemsPerThread < 2 ^ 31) (hptr : op.ptrElems.length = op.elemsPerThread)
    (hval : op.valueElems.length = op.elemsPerThread)
    (hmask : ∀ m, op.mask = some m → m.elems.length = op.elemsPerThread) :
    ∃ res, StoreOpConversion.matchAndRewrite op env computeCapability = some res ∧
      res.remarks = vectorizationRemarks (2 ^ k)
        (getVectorSize op.ptrIsTensor op.axisContiguity op.pointeeBitWidth) op.elemsPerThread
        op.mask := by
  obtain ⟨em, hem, -⟩ := store_groups_invariant op
    (emitRedundantThreadPredicate op.freeVarMasks env) computeCapability (2 ^ k) k
    (toUnsigned (op.freeVarMasks.get "reg")) hbw rfl hle hdiv hn
    (Nat.mod_lt _ (by decide)) hptr hval hmask
  have hne : (2 : Nat) ^ k ≠ 0 := Nat.pos_iff_ne_zero.mp (Nat.two_pow_pos k)
  unfold StoreOpConversion.matchAndRewrite
  cases hm : op.mask with
  | none =>
    simp only [hm, Option.map_none'] at hvec
    simp only [hptr, hval, ne_eq, not_true_eq_false, if_false, Bool.false_eq_true,
      Option.map_none', hvec, hne, hem, Option.map_some']
    exact ⟨_, rfl, rfl⟩
  | some m =>
    simp only [hm, Option.map_some'] at hvec
    simp only [hptr, hval, ne_eq, not_true_eq_false, if_false, hmask m hm, decide_False,
      Bool.false_eq_true, Option.map_some', hvec, hne, hem]
    exact ⟨_, rfl, rfl⟩

theorem vectorizationRemarks_length (vec vecOrig numElems : Nat) (mask : Option MaskOperand) :
    (vectorizationRemarks vec vecOrig numElems mask).length
      = if vec = 1 ∧ numElems > 1 then 1 else 0 := by
  unfold vectorizationRemarks
  split <;> rfl

/-- C20: a well-formed Load or Store lowers successfully whatever its width, and emits
exactly one remark, carrying the width 1, the original width and the per-lane element
count, when the final width is 1 and the per-lane element count exceeds 1, and no remark
otherwise.  A store of 8-bit elements with mask alignment 1 has width 1 for every
contiguity of at least 1, and a load of 32-bit elements with contiguity 4 and no mask has
width 4. -/
theorem vectorization_remark_spec (lop : LoadOp) (sop : StoreOp)
    (launch : LdInstr → Nat → Nat) (env : ThreadEnv) (computeCapability : Int) (kl ks : Nat)
    (hlbw : lop.valueElemBitWidth = 8 ∨ lop.valueElemBitWidth = 16 ∨
      lop.valueElemBitWidth = 32 ∨ lop.valueElemBitWidth = 64)
    (hlvec : vectorWidth lop.ptrIsTensor lop.axisContiguity lop.pointeeBitWidth
      (lop.mask.map (fun m => m.alignment)) = 2 ^ kl)
    (hlle : 2 ^ kl * lop.valueElemBitWidth ≤ 128) (hldiv : 2 ^ kl ∣ lop.numElems)
    (hln : lop.numElems < 2 ^ 31) (hlptr : lop.ptrElems.length = lop.numElems)
    (hlmask : ∀ m, lop.mask = some m → m.elems.length = lop.numElems)
    (hlother : ∀ o, lop.other = some o → o.elems.length = lop.numElems)
    (hsbw : sop.valueElemBitWidth = 8 ∨ sop.valueElemBitWidth = 16 ∨
      sop.valueElemBitWidth = 32 ∨ sop.valueElemBitWidth = 64)
    (hsvec : vectorWidth sop.ptrIsTensor sop.axisContiguity sop.pointeeBitWidth
      (sop.mask.map (fun m => m.alignment)) = 2 ^ ks)
    (hsle : 2 ^ ks * sop.valueElemBitWidth ≤ 128) (hsdiv : 2 ^ ks ∣ sop.elemsPerThread)
    (hsn : sop.elemsPerThread < 2 ^ 31) (hsptr : sop.ptrElems.length = sop.elemsPerThread)
    (hsval : sop.valueElems.length = sop.elemsPerThread)
    (hsmask : ∀ m, sop.mask = some m → m.elems.length = sop.elemsPerThread) :
    (∃ res, LoadOpConversion.matchAndRewrite lop launch computeCapability = some res ∧
      res.result.length = lop.numElems ∧
      res.remarks.length = (if 2 ^ kl = 1 ∧ lop.numElems > 1 then 1 else 0) ∧
      ∀ rm ∈ res.remarks, rm.vec = 1 ∧ rm.numElems = lop.numElems ∧
        rm.vecOrig = getVectorSize lop.ptrIsTensor lop.axisContiguity lop.pointeeBitWidth) ∧
    (∃ res, StoreOpConversion.matchAndRewrite sop env computeCapability = some res ∧
      res.remarks.length = (if 2 ^ ks = 1 ∧ sop.elemsPerThread > 1 then 1 else 0) ∧
      ∀ rm ∈ res.remarks, rm.vec = 1 ∧ rm.numElems = sop.elemsPerThread ∧
        rm.vecOrig = getVectorSize sop.ptrIsTensor sop.axisContiguity sop.pointeeBitWidth) ∧
    (∀ contiguity, 1 ≤ contiguity → vectorWidth true contiguity 8 (some 1) = 1) ∧
    vectorWidth true 4 32 none = 4 := by
  refine ⟨?_, ?_, ?_, by decide⟩
  · obtain ⟨res, hres, hrem⟩ := load_matchAndRewrite_isSome lop launch computeCapability kl hlbw
      hlvec hlle hldiv hln hlptr hlmask hlother
    obtain ⟨st, hst, -, hlen, -⟩ := load_groups_invariant lop launch computeCapability (2 ^ kl) kl
      (toUnsigned (lop.freeVarMasks.get "reg")) hlbw rfl hlle hldiv hln
      (Nat.mod_lt _ (by decide)) hlptr hlmask hlother
    have hgr := load_matchAndRewrite_some lop launch computeCapability res hres
    rw [hlvec, hst] at hgr
    have hrl : res.result = st.loadedVals := by
      simp only [Option.some.injEq] at hgr
      rw [hgr]
    refine ⟨res, hres, ?_, ?_, ?_⟩
    · rw [hrl, hlen, Nat.div_mul_cancel hldiv]
    · rw [hrem, vectorizationRemarks_length]
    · intro rm hrm
      rw [hrem] at hrm
      unfold vectorizationRemarks at hrm
      split at hrm
      · rename_i hc
        simp only [List.mem_singleton] at hrm
        subst hrm
        exact ⟨hc.1, rfl, rfl⟩
      · cases hrm
  · obtain ⟨res, hres, hrem⟩ := store_matchAndRewrite_isSome sop env computeCapability ks hsbw
      hsvec hsle hsdiv hsn hsptr hsval hsmask
    refine ⟨res, hres, ?_, ?_⟩
    · rw [hrem, vectorizationRemarks_length]
    · intro rm hrm
      rw [hrem] at hrm
      unfold vectorizationRemarks at hrm
      split at hrm
      · rename_i hc
        simp only [List.mem_singleton] at hrm
        subst hrm
        exact ⟨hc.1, rfl, rfl⟩
      · cases hrm
  · intro contiguity hc
    simp only [vectorWidth, getVectorSize, getContiguity, Bool.not_true, Bool.false_eq_true,
      if_false]
    omega

theorem vectorization_remark_spec_witness :
    (∃ res, LoadOpConversion.matchAndRewrite scenarioLoadOp (fun _ _ => 0) 80 = some res ∧
      res.result.length = 256 ∧ res.remarks.length = 0) ∧
    (∃ res, StoreOpConversion.matchAndRewrite scenarioMaskedStoreOp firstLane 80 = some res ∧
      res.remarks.length = 1 ∧
      ∀ rm ∈ res.remarks, rm.vec = 1 ∧ rm.numElems = 8 ∧ rm.vecOrig = 8) ∧
    vectorWidth scenarioMaskedStoreOp.ptrIsTensor scenarioMaskedStoreOp.axisContiguity
      scenarioMaskedStoreOp.pointeeBitWidth
      (scenarioMaskedStoreOp.mask.map (fun m => m.alignment)) = 1 ∧
    vectorWidth scenarioLoadOp.ptrIsTensor scenarioLoadOp.axisContiguity
      scenarioLoadOp.pointeeBitWidth (scenarioLoadOp.mask.map (fun m => m.alignment)) = 4 := by
  have h := vectorization_remark_spec scenarioLoadOp scenarioMaskedStoreOp (fun _ _ => 0)
    firstLane 80 2 0 (Or.inr (Or.inr (Or.inl rfl))) (by decide) (by decide) ⟨64, by decide⟩
    (by decide) (List.length_replicate 256 0) (by intro m hm; cases hm)
    (by intro o ho; cases ho) (Or.inl rfl) (by decide) (by decide) ⟨8, by decide⟩ (by decide)
    (by decide) (by decide) (by intro m hm; cases hm; decide)
  obtain ⟨⟨res1, h1, hlen, hrem1, -⟩, ⟨res2, h2, hrem2, hall⟩, -, -⟩ := h
  exact ⟨⟨res1, h1, hlen, hrem1⟩, ⟨res2, h2, hrem2, hall⟩, by decide, by decide⟩


/-! ## Descriptor bulk copies -/

theorem forStep_batches {σ : Type} (stop step count : Nat) (body : Nat → σ → Option σ)
    (Inv : Nat → σ → Prop) (hcount : ∀ j, j * step < stop ↔ j < count)
    (hbody : ∀ j s, j < count → Inv j s → ∃ t, body (j * step) s = some t ∧ Inv (j + 1) t) :
    ∀ fuel j s, j ≤ count → count - j ≤ fuel → Inv j s →
      ∃ t, forStep stop step body fuel (j * step) s = some t ∧ Inv count t := by
  intro fuel
  induction fuel with
  | zero =>
    intro j s hj hf hinv
    have hjc : j = count := by omega
    subst hjc
    refine ⟨s, ?_, hinv⟩
    simp only [forStep]
    rw [if_neg (by rw [hcount]; exact Nat.lt_irrefl _)]
  | succ fuel ih =>
    intro j s hj hf hinv
    by_cases hlt : j < count
    · obtain ⟨u, hu, hinv2⟩ := hbody j s hlt hinv
      obtain ⟨t, ht, hinv3⟩ := ih (j + 1) u hlt (by omega) hinv2
      refine ⟨t, ?_, hinv3⟩
      simp only [forStep]
      rw [if_pos ((hcount j).mpr hlt), hu, Option.some_bind, ← Nat.succ_mul]
      exact ht
    · have hjc : j = count := by omega
      subst hjc
      refine ⟨s, ?_, hinv⟩
      simp only [forStep]
      rw [if_neg (by rw [hcount]; exact Nat.lt_irrefl _)]

theorem ceil_div_count (numCopies numWarps : Nat) (hw : 1 ≤ numWarps) (j : Nat) :
    j * numWarps < numCopies ↔ j < (numCopies + numWarps - 1) / numWarps := by
  rw [Nat.lt_iff_add_one_le (n := (numCopies + numWarps - 1) / numWarps),
    Nat.le_div_iff_mul_le hw, Nat.add_mul, Nat.one_mul]
  omega

/-- The copy loop returns, and its instructions are the closed forms of the batches. -/
theorem tma_copy_loop_closed (numCopies numWarps warpSize id : Nat) (pred : Bool)
    (hw : 1 ≤ numWarps) (hid : id < numWarps * warpSize)
    (hb1 : numCopies < 2 ^ 31) (hb2 : numWarps * warpSize < 2 ^ 31) :
    ∃ st, forStep numCopies numWarps (tmaCopyBatch numCopies numWarps warpSize pred id)
        numCopies 0 { warpID := id / warpSize, emitted := [] } = some st ∧
      st.emitted = (List.range ((numCopies + numWarps - 1) / numWarps)).map
        (tmaBatchCopy numCopies numWarps warpSize pred id (id / warpSize)) := by
  have hcount := ceil_div_count numCopies numWarps hw
  have hle : (numCopies + numWarps - 1) / numWarps ≤ numCopies := by
    by_contra hn
    have := (hcount numCopies).mpr (by omega)
    have h2 : numCopies * 1 ≤ numCopies * numWarps := Nat.mul_le_mul_left _ hw
    omega
  have h := forStep_batches numCopies numWarps ((numCopies + numWarps - 1) / numWarps)
    (tmaCopyBatch numCopies numWarps warpSize pred id)
    (fun j st => st.emitted = (List.range j).map
        (tmaBatchCopy numCopies numWarps warpSize pred id (id / warpSize)) ∧
      (j < (numCopies + numWarps - 1) / numWarps → st.warpID = id / warpSize ∨ numWarps = 1))
    hcount
    (by
      intro j st hj ⟨hem, hwarp⟩
      have hjlt : j * numWarps < numCopies := (hcount j).mpr hj
      have hcnt : min (numCopies - j * numWarps) numWarps * warpSize ≤ numWarps * warpSize :=
        Nat.mul_le_mul_right _ (Nat.min_le_right _ _)
      have hwle : id / warpSize ≤ id := Nat.div_le_self _ _
      refine ⟨_, rfl, ?_, ?_⟩
      · simp only [hem, List.range_succ, List.map_append, List.map_cons, List.map_nil]
        congr 1
        simp only [tmaBatchCopy, List.cons.injEq, and_true, TmaCopy.mk.injEq]
        constructor
        · have e1 : id % 2 ^ 32 = id := Nat.mod_eq_of_lt (by omega)
          have e2 : min (numCopies - j * numWarps) numWarps * warpSize % 2 ^ 32
              = min (numCopies - j * numWarps) numWarps * warpSize :=
            Nat.mod_eq_of_lt (by omega)
          simp only [icmp_ult, i32_val, e1, e2]
        · simp only [add, i32_val]
          by_cases h1 : min (numCopies - j * numWarps) numWarps = 1
          · simp only [h1, if_true, Nat.zero_mod, Nat.zero_add]
            rw [Nat.mod_eq_of_lt (by omega : j * numWarps < 2 ^ 32),
              Nat.mod_eq_of_lt (by omega : j * numWarps < 2 ^ 32)]
          · simp only [h1, if_false]
            have hwid : st.warpID = id / warpSize := by
              rcases hwarp hj with h | h
              · exact h
              · exfalso
                apply h1
                rw [h] at hjlt ⊢
                omega
            rw [hwid, Nat.mod_eq_of_lt (by omega : j * numWarps < 2 ^ 32),
              Nat.mod_eq_of_lt (by omega : id / warpSize + j * numWarps < 2 ^ 32)]
      · intro hj1
        have hj1lt : (j + 1) * numWarps < numCopies := (hcount (j + 1)).mpr hj1
        rw [Nat.add_mul, Nat.one_mul] at hj1lt
        by_cases h1 : min (numCopies - j * numWarps) numWarps = 1
        · right
          omega
        · simp only [h1, if_false]
          exact hwarp hj)
    numCopies 0 { warpID := id / warpSize, emitted := [] } (Nat.zero_le _) (by omega)
    ⟨by simp, fun _ => Or.inl rfl⟩
  rw [Nat.zero_mul] at h
  obtain ⟨st, hst, hem, -⟩ := h
  exact ⟨st, hst, hem⟩

/-- The closed forms of the batches satisfy the batching contract. -/
theorem tma_batches_spec (numCopies numWarps warpSize id : Nat) (pred : Bool)
    (hw : 1 ≤ numWarps) (hs : 1 ≤ warpSize) :
    SpecTmaBatching numCopies numWarps warpSize pred id
      ((List.range ((numCopies + numWarps - 1) / numWarps)).map
        (tmaBatchCopy numCopies numWarps warpSize pred id (id / warpSize))) := by
  have hcount := ceil_div_count numCopies numWarps hw
  refine ⟨by simp, ?_, ?_⟩
  · intro k hk
    simp only [List.length_map, List.length_range] at hk
    refine ⟨tmaBatchCopy numCopies numWarps warpSize pred id (id / warpSize) k, ?_, rfl⟩
    rw [List.getElem?_map, List.getElem?_range hk]
    rfl
  · intro k m
    constructor
    · rintro ⟨c, hc, hbp, hidx⟩
      have hk : k < (numCopies + numWarps - 1) / numWarps := by
        by_contra hn
        rw [List.getElem?_eq_none (by simp; omega)] at hc
        cases hc
      rw [List.getElem?_map, List.getElem?_range hk] at hc
      simp only [Option.map_some', Option.some.injEq] at hc
      subst hc
      simp only [tmaBatchCopy, Bool.and_eq_true, decide_eq_true_eq] at hbp hidx
      obtain ⟨hp, hlt⟩ := hbp
      have hklt : k * numWarps < numCopies := (hcount k).mpr hk
      have hwlt : id / warpSize < min (numCopies - k * numWarps) numWarps :=
        (Nat.div_lt_iff_lt_mul hs).mpr hlt
      have hwn : id / warpSize < numWarps := lt_of_lt_of_le hwlt (Nat.min_le_right _ _)
      have hwc : id / warpSize < numCopies - k * numWarps :=
        lt_of_lt_of_le hwlt (Nat.min_le_left _ _)
      have hm : m = id / warpSize + k * numWarps := by
        rw [← hidx]
        split
        · rename_i h1
          rw [h1] at hwlt
          rw [Nat.lt_one_iff.mp hwlt]
        · rfl
      have hmlt : m < numCopies := by
        rw [hm]
        generalize id / warpSize = w at hwc
        generalize k * numWarps = kn at hwc hklt
        omega
      refine ⟨hp, hmlt, ?_, ?_⟩
      · rw [hm, Nat.add_mul_div_right _ _ hw, Nat.div_eq_of_lt hwn, Nat.zero_add]
      · rw [hm, Nat.add_mul_mod_self_right, Nat.mod_eq_of_lt hwn]
    · rintro ⟨hp, hm, hk, hwarp⟩
      have hdm := Nat.div_add_mod m numWarps
      have hmod : m % numWarps < numWarps := Nat.mod_lt _ hw
      have hkm : k * numWarps + m % numWarps = m := by
        rw [hk, Nat.mul_comm]; exact hdm
      have hklt : k < (numCopies + numWarps - 1) / numWarps := (hcount k).mp (by omega)
      have hwlt : id / warpSize < min (numCopies - k * numWarps) numWarps := by
        rw [hwarp]
        apply Nat.lt_min.mpr
        refine ⟨?_, hmod⟩
        generalize k * numWarps = kn at hkm
        generalize m % numWarps = r at hkm
        omega
      refine ⟨tmaBatchCopy numCopies numWarps warpSize pred id (id / warpSize) k, ?_, ?_, ?_⟩
      · rw [List.getElem?_map, List.getElem?_range hklt]
        rfl
      · simp only [tmaBatchCopy, hp, Bool.true_and, decide_eq_true_eq]
        exact (Nat.div_lt_iff_lt_mul hs).mp hwlt
      · simp only [tmaBatchCopy]
        split
        · rename_i h1
          rw [h1] at hwlt
          rw [← hkm, ← hwarp, Nat.lt_one_iff.mp hwlt, Nat.zero_add, Nat.add_zero]
        · rw [← hkm, ← hwarp, Nat.add_comm]

/-- C18: for every message count and warp count of at least 1 and every warp size of at
least 1, the descriptor bulk copy from global memory and the store-like bulk copies
return, having emitted ceil(numCopies / numWarps) instructions (followed by the erasure of
the op, and for the store-like ops by the commit of the group first); the guard of batch
k is the guard computed before the loop and threadId < min(numCopies - k*numWarps,
numWarps) * warpSize; and the lane issues message m in batch k exactly when the guard
computed before the loop holds, m < numCopies, k = m / numWarps and the warp of the lane
is m % numWarps, so every message below numCopies is issued by exactly one pair of batch
and warp and no other index is issued.  The lane exists (its thread id is below
numWarps * warpSize, its warp id is threadId / warpSize) and the counts fit an `int`. -/
theorem tma_copy_batching (numCopies numWarps warpSize id : Nat) (opPred elect : Bool)
    (hc : 1 ≤ numCopies) (hw : 1 ≤ numWarps) (hs : 1 ≤ warpSize)
    (hid : id < numWarps * warpSize) (hb1 : numCopies < 2 ^ 31)
    (hb2 : numWarps * warpSize < 2 ^ 31) :
    (∃ copies,
      AsyncTMACopyGlobalToLocalOpConversion.matchAndRewrite numCopies numWarps warpSize opPred
        elect id (id / warpSize) = some (copies.map TmaAction.copy ++ [TmaAction.eraseOp]) ∧
      1 ≤ copies.length ∧
      SpecTmaBatching numCopies numWarps warpSize (opPred && elect) id copies) ∧
    (∃ copies,
      convertTMAStoreLikeOp numCopies numWarps warpSize elect id (id / warpSize)
        = some (copies.map TmaAction.copy ++ [TmaAction.commitGroup, TmaAction.eraseOp]) ∧
      1 ≤ copies.length ∧
      SpecTmaBatching numCopies numWarps warpSize elect id copies) := by
  have hpos : 1 ≤ (numCopies + numWarps - 1) / numWarps :=
    (ceil_div_count numCopies numWarps hw 0).mp (by omega)
  constructor
  · obtain ⟨st, hst, hem⟩ := tma_copy_loop_closed numCopies numWarps warpSize id
      (opPred && elect) hw hid hb1 hb2
    refine ⟨st.emitted, ?_, ?_, ?_⟩
    · simp only [AsyncTMACopyGlobalToLocalOpConversion.matchAndRewrite, hst, Option.map_some']
    · rw [hem]; simpa using hpos
    · rw [hem]; exact tma_batches_spec numCopies numWarps warpSize id _ hw hs
  · obtain ⟨st, hst, hem⟩ := tma_copy_loop_closed numCopies numWarps warpSize id elect hw hid
      hb1 hb2
    refine ⟨st.emitted, ?_, ?_, ?_⟩
    · simp only [convertTMAStoreLikeOp, hst, Option.map_some']
    · rw [hem]; simpa using hpos
    · rw [hem]; exact tma_batches_spec numCopies numWarps warpSize id _ hw hs

theorem tma_copy_batching_witness :
    (∃ copies,
      AsyncTMACopyGlobalToLocalOpConversion.matchAndRewrite 5 4 32 true true 32 (32 / 32)
        = some (copies.map TmaAction.copy ++ [TmaAction.eraseOp]) ∧
      1 ≤ copies.length ∧ SpecTmaBatching 5 4 32 (true && true) 32 copies) ∧
    AsyncTMACopyGlobalToLocalOpConversion.matchAndRewrite 5 4 32 true true 32 1
      = some [TmaAction.copy { boxPred := true, copyIdxVal := 1 },
          TmaAction.copy { boxPred := false, copyIdxVal := 4 }, TmaAction.eraseOp] ∧
    AsyncTMACopyGlobalToLocalOpConversion.matchAndRewrite 5 4 32 true true 0 0
      = some [TmaAction.copy { boxPred := true, copyIdxVal := 0 },
          TmaAction.copy { boxPred := true, copyIdxVal := 4 }, TmaAction.eraseOp] :=
  ⟨(tma_copy_batching 5 4 32 32 true true (by decide) (by decide) (by decide) (by decide)
      (by decide) (by decide)).1, by decide, by decide⟩


/-! ## Gather and scatter: validation -/

theorem basesGrouped_spec (op : GatherScatterOp) (h4 : ¬ op.registerSize < 4)
    (hwf : ∀ b ∈ op.xRegisterBases, b ≠ []) :
    ∃ g, op.basesGrouped = some g ∧
      (g = true ↔ op.registerBasisFront 0 = some 1 ∧ op.registerBasisFront 1 = some 2) := by
  have hlen : 2 ≤ op.xRegisterBases.length := by
    by_contra hn
    apply h4
    unfold GatherScatterOp.registerSize
    have : op.xRegisterBases.length = 0 ∨ op.xRegisterBases.length = 1 := by omega
    rcases this with h | h <;> rw [h] <;> decide
  unfold GatherScatterOp.basesGrouped GatherScatterOp.registerBasisFront
  cases hb : op.xRegisterBases with
  | nil => rw [hb] at hlen; simp at hlen
  | cons b0 rest =>
    cases rest with
    | nil => rw [hb] at hlen; simp at hlen
    | cons b1 rest =>
      have h0 : b0 ≠ [] := hwf b0 (by rw [hb]; simp)
      have h1 : b1 ≠ [] := hwf b1 (by rw [hb]; simp)
      cases b0 with
      | nil => exact absurd rfl h0
      | cons f0 t0 =>
        cases b1 with
        | nil => exact absurd rfl h1
        | cons f1 t1 =>
          simp only [forLoop, Option.some_bind, Bool.not_true, Bool.false_eq_true, if_false,
            List.getElem?_cons_zero, List.head?_cons, Option.map_some', List.getElem?_cons_succ,
            Option.some.injEq]
          by_cases hf0 : f0 = 1
          · by_cases hf1 : f1 = 2
            · subst hf0 hf1
              exact ⟨true, by decide, by simp⟩
            · subst hf0
              refine ⟨false, ?_, by simp [hf1]⟩
              simp [hf1]
          · refine ⟨false, ?_, by simp [hf0]⟩
            simp [hf0]

/-- The outcome of `iterateGatherScatterIndices` on an invalid op. -/
theorem iterate_invalid (op : GatherScatterOp) (pred elect : Bool) (warpId blockId : Nat)
    (hwf : ∀ b ∈ op.xRegisterBases, b ≠ [])
    (hassert : ¬ op.registerSize < 4 →
      (op.registerBasisFront 0 = some 1 ∧ op.registerBasisFront 1 = some 2) →
      ¬ (op.allocShape.length < 2 ∨ op.shape ≠ op.allocShape.drop (op.allocShape.length - 2)) →
      op.encodingIsNVMMAShared = true → op.assertionsHold)
    (hinv : op.specInvalid) :
    ∃ msg, iterateGatherScatterIndices op pred elect warpId blockId
        = some { calls := [], error := some msg } ∧
      (op.registerSize < 4 → msg = "must have at least 4 x offsets per warp") ∧
      (¬ op.registerSize < 4 →
        ¬ (op.registerBasisFront 0 = some 1 ∧ op.registerBasisFront 1 = some 2) →
        msg = "x offsets are not grouped by 4 contiguous elements") := by
  by_cases hA : op.registerSize < 4
  · have hres : iterateGatherScatterIndices op pred elect warpId blockId
        = some { calls := [], error := some "must have at least 4 x offsets per warp" } := by
      unfold iterateGatherScatterIndices
      simp only [hA, if_true]
    exact ⟨_, hres, fun _ => rfl, fun h => absurd hA h⟩
  obtain ⟨g, hg, hgiff⟩ := basesGrouped_spec op hA hwf
  by_cases hB : op.registerBasisFront 0 = some 1 ∧ op.registerBasisFront 1 = some 2
  swap
  · have hgf : g = false := by
      cases g
      · rfl
      · exact absurd (hgiff.mp rfl) hB
    subst hgf
    have hres : iterateGatherScatterIndices op pred elect warpId blockId
        = some { calls := [],
                 error := some "x offsets are not grouped by 4 contiguous elements" } := by
      unfold iterateGatherScatterIndices
      simp only [hA, if_false, hg, Option.some_bind, Bool.not_false, if_true]
    exact ⟨_, hres, fun h => absurd h hA, fun _ _ => rfl⟩
  have hgt : g = true := hgiff.mpr hB
  subst hgt
  by_cases hC : op.allocShape.length < 2 ∨
      op.shape ≠ op.allocShape.drop (op.allocShape.length - 2)
  · have hres : iterateGatherScatterIndices op pred elect warpId blockId
        = some { calls := [], error := some "memdesc shape must match alloc shape" } := by
      unfold iterateGatherScatterIndices
      simp only [hA, if_false, hg, Option.some_bind, Bool.not_true, Bool.false_eq_true, hC,
        if_true]
    exact ⟨_, hres, fun h => absurd h hA, fun _ h => absurd hB h⟩
  cases hD : op.encodingIsNVMMAShared
  · have hres : iterateGatherScatterIndices op pred elect warpId blockId
        = some { calls := [], error := some "requires dst encoding NVMMASharedEncodingAttr" } := by
      unfold iterateGatherScatterIndices
      simp only [hA, if_false, hg, Option.some_bind, Bool.not_true, Bool.false_eq_true, hC, hD,
        Bool.not_false, if_true]
    exact ⟨_, hres, fun h => absurd h hA, fun _ h => absurd hB h⟩
  obtain ⟨h1, h2, h3, h4⟩ := hassert hA hB hC hD
  have hE : toUnsigned (op.freeVars.get "lane") ≠ toUnsigned (op.threadsPerWarp + (2 ^ 32 - 1)) := by
    rcases hinv with h | h | h | h | h
    · exact absurd h hA
    · exact absurd hB h
    · exact absurd h hC
    · rw [hD] at h; cases h
    · exact h
  unfold GatherScatterOp.numMessagesPerRow at h2 h3 h4
  have hres : iterateGatherScatterIndices op pred elect warpId blockId
      = some { calls := [],
               error := some "x offsets must be broadcasted across each warp" } := by
    unfold iterateGatherScatterIndices
    simp only [hA, if_false, hg, Option.some_bind, Bool.not_true, Bool.false_eq_true, hC, hD,
      h1, h2, h3, ne_eq, not_true_eq_false, h4, hE, not_false_eq_true, if_true]
  exact ⟨_, hres, fun h => absurd h hA, fun _ h => absurd hB h⟩

/-- C17: when the layout of the x offsets has fewer than 4 register slots, or its first two
register bases are not 1 and 2, or the shape of the memory descriptor differs from the
last two dimensions of its allocation shape, or the encoding is not NVMMA-shared, or the
lane free-variable mask differs from threadsPerWarp - 1, `iterateGatherScatterIndices`
returns failure without having invoked the callback, with the error of the missing
grouping in the second case; the gather and the scatter lowering then fail with nothing
emitted: no instruction, no commit marker, and the op is not erased.  The register bases
have an output coordinate, and the block sizes satisfy the assertions that precede the
check of the lane mask. -/
theorem gather_scatter_validation (op : GatherScatterOp) (opPred elect : Bool)
    (warpId blockId : Nat)
    (hwf : ∀ b ∈ op.xRegisterBases, b ≠ [])
    (hassert : ¬ op.registerSize < 4 →
      (op.registerBasisFront 0 = some 1 ∧ op.registerBasisFront 1 = some 2) →
      ¬ (op.allocShape.length < 2 ∨ op.shape ≠ op.allocShape.drop (op.allocShape.length - 2)) →
      op.encodingIsNVMMAShared = true → op.assertionsHold)
    (hinv : op.specInvalid) :
    (∃ msg, iterateGatherScatterIndices op opPred elect warpId blockId
        = some { calls := [], error := some msg } ∧
      (¬ op.registerSize < 4 →
        ¬ (op.registerBasisFront 0 = some 1 ∧ op.registerBasisFront 1 = some 2) →
        msg = "x offsets are not grouped by 4 contiguous elements")) ∧
    (∃ r, AsyncTMAGatherOpConversion.matchAndRewrite op opPred elect warpId blockId = some r ∧
      r.succeeded = false ∧ r.actions = [] ∧ GatherScatterAction.eraseOp ∉ r.actions) ∧
    (∃ r, AsyncTMAScatterOpConversion.matchAndRewrite op elect warpId blockId = some r ∧
      r.succeeded = false ∧ r.actions = [] ∧ GatherScatterAction.eraseOp ∉ r.actions ∧
      GatherScatterAction.commitGroup ∉ r.actions) := by
  obtain ⟨msg, hit, -, hmsg⟩ := iterate_invalid op opPred elect warpId blockId hwf hassert hinv
  obtain ⟨msg2, hit2, -, -⟩ := iterate_invalid op true elect warpId blockId hwf hassert hinv
  refine ⟨⟨msg, hit, hmsg⟩, ?_, ?_⟩
  · have hg : AsyncTMAGatherOpConversion.matchAndRewrite op opPred elect warpId blockId
        = some { actions := [], succeeded := false, error := some msg } := by
      simp only [AsyncTMAGatherOpConversion.matchAndRewrite, hit, Option.map_some', List.map_nil]
    exact ⟨_, hg, rfl, rfl, by simp⟩
  · have hs : AsyncTMAScatterOpConversion.matchAndRewrite op elect warpId blockId
        = some { actions := [], succeeded := false, error := some msg2 } := by
      simp only [AsyncTMAScatterOpConversion.matchAndRewrite, hit2, Option.map_some',
        List.map_nil]
    exact ⟨_, hs, rfl, rfl, by simp, by simp⟩

theorem gather_scatter_validation_witness :
    (∃ msg, iterateGatherScatterIndices exampleUngroupedGatherOp true true 0 0
        = some { calls := [], error := some msg } ∧
      (¬ exampleUngroupedGatherOp.registerSize < 4 →
        ¬ (exampleUngroupedGatherOp.registerBasisFront 0 = some 1 ∧
          exampleUngroupedGatherOp.registerBasisFront 1 = some 2) →
        msg = "x offsets are not grouped by 4 contiguous elements")) ∧
    (∃ r, AsyncTMAGatherOpConversion.matchAndRewrite exampleGatherOp true true 0 0 = some r ∧
      r.succeeded = true ∧ r.actions.length = 3 ∧ GatherScatterAction.eraseOp ∈ r.actions) ∧
    (∃ r, AsyncTMAScatterOpConversion.matchAndRewrite exampleGatherOp true 0 0 = some r ∧
      r.succeeded = true ∧ GatherScatterAction.commitGroup ∈ r.actions ∧
      GatherScatterAction.eraseOp ∈ r.actions) :=
  ⟨(gather_scatter_validation exampleUngroupedGatherOp true true 0 0
      (by decide) (fun _ h => absurd h (by decide)) (Or.inr (Or.inl (by decide)))).1,
    ⟨_, rfl, rfl, rfl, by decide⟩, ⟨_, rfl, rfl, by decide, by decide⟩⟩


/-! ## The copy for a redundant group reads entries already produced -/

theorem forLoop_inv_isSome {σ : Type} (body : Nat → σ → Option σ) (init : σ) (Inv : σ → Prop)
    (n : Nat) (h0 : Inv init)
    (hstep : ∀ i s, i < n → Inv s → ∃ t, body i s = some t ∧ Inv t) :
    ∃ t, forLoop body init n = some t ∧ Inv t := by
  induction n with
  | zero => exact ⟨init, rfl, h0⟩
  | succ n ih =>
    obtain ⟨s, hs, hinv⟩ := ih (fun i s hi => hstep i s (Nat.lt_succ_of_lt hi))
    obtain ⟨t, ht, hinv2⟩ := hstep n s (Nat.lt_succ_self n) hinv
    exact ⟨t, by rw [forLoop, hs, Option.some_bind, ht], hinv2⟩

/-- A start that is a multiple of a power of two and differs from its canonical index
lies a whole group above it. -/
theorem canonical_group_below (k j regMask : Nat) (hs : j * 2 ^ k < 2 ^ 32)
    (hm : regMask < 2 ^ 32) (hne : j * 2 ^ k ≠ getCanonicalIndex (j * 2 ^ k) regMask) :
    2 ^ k ∣ getCanonicalIndex (j * 2 ^ k) regMask ∧
      getCanonicalIndex (j * 2 ^ k) regMask + 2 ^ k ≤ j * 2 ^ k := by
  obtain ⟨i, hij, hi⟩ := canonical_of_multiple k j regMask hs hm
  rw [hi] at hne ⊢
  refine ⟨Dvd.intro_left i rfl, ?_⟩
  have hlt : i < j := by
    rcases Nat.lt_or_ge i j with h | h
    · exact h
    · exact absurd (by rw [Nat.le_antisymm hij h]) hne
  have : (i + 1) * 2 ^ k ≤ j * 2 ^ k := Nat.mul_le_mul_right _ hlt
  rw [Nat.add_mul, Nat.one_mul] at this
  exact this

/-- The copy of the results of an atomic into a redundant group goes through when the
canonical group lies below the group and the group lies within the results; it keeps the
number of results. -/
theorem copyCanonicalResults_isSome (resultVals : List (Option Nat)) (i c width : Nat)
    (hc : c + width ≤ i) (hi : i + width ≤ resultVals.length) :
    ∃ vals, copyCanonicalResults resultVals i c width = some vals ∧
      vals.length = resultVals.length ∧
      (∀ e, e < i → vals[e]? = resultVals[e]?) ∧
      (∀ e, e < width → vals[i + e]? = resultVals[c + e]?) := by
  unfold copyCanonicalResults
  have key : ∀ n, n ≤ width → ∃ t, forLoop
      (fun iVec resultVals =>
        (resultVals[c + iVec]?).bind fun v => assignResult resultVals (i + iVec) v)
      resultVals n = some t ∧ t.length = resultVals.length ∧
      (∀ e, e < i → t[e]? = resultVals[e]?) ∧
      (∀ e, e < n → t[i + e]? = resultVals[c + e]?) := by
    intro n
    induction n with
    | zero => intro _; exact ⟨resultVals, rfl, rfl, fun _ _ => rfl, fun e he => absurd he (by omega)⟩
    | succ n ih =>
      intro hn
      obtain ⟨s, hs, hlen, hlow, hcopied⟩ := ih (by omega)
      have h1 : c + n < s.length := by omega
      have h2 : i + n < s.length := by omega
      refine ⟨s.set (i + n) s[c + n], ?_, by simp [hlen], ?_, ?_⟩
      · rw [forLoop, hs, Option.some_bind, List.getElem?_eq_getElem h1, Option.some_bind,
          assignResult, if_pos h2]
      · intro e he
        rw [List.getElem?_set_ne (by omega)]
        exact hlow e he
      · intro e he
        by_cases hen : e = n
        · subst hen
          rw [List.getElem?_set_eq_of_lt _ h2, ← List.getElem?_eq_getElem h1]
          exact hlow (c + e) (by omega)
        · rw [List.getElem?_set_ne (by omega)]
          exact hcopied e (by omega)
  exact key width (Nat.le_refl _)

/-- C28: in the Load loop, at a start `s` that is a multiple of a power-of-two width
`vec` and differs from its canonical index `c = s & ~regMask`, whatever the register
mask is, `c` is a multiple of `vec` and `c + vec <= s`.  So the lookups
`loadedVals[c + k]` for `k < vec` of the copy for a redundant group, made when the
`s` values of the groups below `s` are in `loadedVals`, read entries that are there: the
copy goes through and appends the values of the canonical group.  The same holds for the
result copies of AtomicCAS and AtomicRMW, whose lookups `resultVals[c + k]` lie below `s`
and whose copy goes through and puts the results of the canonical group at `s`. -/
theorem canonical_lookups_read_produced_entries (k j regMask : Nat) (hs : j * 2 ^ k < 2 ^ 32)
    (hm : regMask < 2 ^ 32) (hne : j * 2 ^ k ≠ getCanonicalIndex (j * 2 ^ k) regMask) :
    2 ^ k ∣ getCanonicalIndex (j * 2 ^ k) regMask ∧
    getCanonicalIndex (j * 2 ^ k) regMask + 2 ^ k ≤ j * 2 ^ k ∧
    (∀ loadedVals : List Nat, loadedVals.length = j * 2 ^ k →
      (∀ e, e < 2 ^ k →
        ∃ v, loadedVals[getCanonicalIndex (j * 2 ^ k) regMask + e]? = some v) ∧
      LoadOpConversion.copyCanonical loadedVals (getCanonicalIndex (j * 2 ^ k) regMask) (2 ^ k)
        = some (loadedVals ++
            (loadedVals.drop (getCanonicalIndex (j * 2 ^ k) regMask)).take (2 ^ k))) ∧
    (∀ resultVals : List (Option Nat), j * 2 ^ k + 2 ^ k ≤ resultVals.length →
      ∃ vals, copyCanonicalResults resultVals (j * 2 ^ k)
          (getCanonicalIndex (j * 2 ^ k) regMask) (2 ^ k) = some vals ∧
        vals.length = resultVals.length ∧
        (∀ e, e < j * 2 ^ k → vals[e]? = resultVals[e]?) ∧
        (∀ e, e < 2 ^ k → getCanonicalIndex (j * 2 ^ k) regMask + e < j * 2 ^ k ∧
          vals[j * 2 ^ k + e]? = resultVals[getCanonicalIndex (j * 2 ^ k) regMask + e]?)) := by
  obtain ⟨hdvd, hle⟩ := canonical_group_below k j regMask hs hm hne
  refine ⟨hdvd, hle, ?_, ?_⟩
  · intro loadedVals hlen
    refine ⟨fun e he => ?_, load_copyCanonical_eq loadedVals _ _ (by omega)⟩
    have hlt : getCanonicalIndex (j * 2 ^ k) regMask + e < loadedVals.length := by omega
    exact ⟨_, List.getElem?_eq_getElem hlt⟩
  · intro resultVals hlen
    obtain ⟨vals, hv, hl, hlow, hcopy⟩ :=
      copyCanonicalResults_isSome resultVals (j * 2 ^ k) _ (2 ^ k) hle hlen
    exact ⟨vals, hv, hl, hlow, fun e he => ⟨by omega, hcopy e he⟩⟩

theorem canonical_lookups_read_produced_entries_witness :
    2 ^ 1 ∣ getCanonicalIndex (3 * 2 ^ 1) 4 ∧
    getCanonicalIndex (3 * 2 ^ 1) 4 + 2 ^ 1 ≤ 3 * 2 ^ 1 ∧
    LoadOpConversion.copyCanonical [10, 11, 12, 13, 14, 15] (getCanonicalIndex (3 * 2 ^ 1) 4)
      (2 ^ 1) = some [10, 11, 12, 13, 14, 15, 12, 13] :=
  have h := canonical_lookups_read_produced_entries 1 3 4 (by decide) (by decide) (by decide)
  ⟨h.1, h.2.1, by rw [(h.2.2.1 [10, 11, 12, 13, 14, 15] rfl).2]; decide⟩


/-! ## Cache policy token and eviction qualifiers -/

theorem createCachePolicy_isSome_iff (opEvict : EvictionPolicy) (computeCapability : Int) :
    (createCachePolicy opEvict computeCapability).isSome = true ↔
      (opEvict = EvictionPolicy.EVICT_FIRST ∨ opEvict = EvictionPolicy.EVICT_LAST) ∧
        computeCapability ≥ 80 := by
  unfold createCachePolicy
  by_cases h : (opEvict = EvictionPolicy.EVICT_FIRST ∨ opEvict = EvictionPolicy.EVICT_LAST) ∧
      computeCapability ≥ 80
  · simp [h]
  · have : ¬ ((decide (opEvict = EvictionPolicy.EVICT_FIRST) ||
        decide (opEvict = EvictionPolicy.EVICT_LAST)) && decide (computeCapability ≥ 80)) = true := by
      simpa using h
    simp only [this, if_false, Option.isSome_none, Bool.false_eq_true, false_iff]
    exact h

theorem load_ldOpts_spec (op : LoadOp) (l2PolicyReg : Option CachePolicyInstr) :
    ("L2::cache_hint" ∈ LoadOpConversion.ldOpts op l2PolicyReg ↔ l2PolicyReg.isSome = true) ∧
    ("L1::evict_first" ∈ LoadOpConversion.ldOpts op l2PolicyReg ↔
      op.evict = EvictionPolicy.EVICT_FIRST) ∧
    ("L1::evict_last" ∈ LoadOpConversion.ldOpts op l2PolicyReg ↔
      op.evict = EvictionPolicy.EVICT_LAST) := by
  unfold LoadOpConversion.ldOpts ptxO
  refine ⟨?_, ?_, ?_⟩
  · cases l2PolicyReg.isSome <;> cases op.isVolatile <;> cases op.cache <;> cases op.evict <;> simp
  · cases l2PolicyReg.isSome <;> cases op.isVolatile <;> cases op.cache <;> cases op.evict <;> simp
  · cases l2PolicyReg.isSome <;> cases op.isVolatile <;> cases op.cache <;> cases op.evict <;> simp

theorem store_stOpts_spec (op : StoreOp) (l2PolicyReg : Option CachePolicyInstr) :
    ("L2::cache_hint" ∈ StoreOpConversion.stOpts op l2PolicyReg ↔ l2PolicyReg.isSome = true) ∧
    ("L1::evict_first" ∈ StoreOpConversion.stOpts op l2PolicyReg ↔
      op.evict = EvictionPolicy.EVICT_FIRST) ∧
    ("L1::evict_last" ∈ StoreOpConversion.stOpts op l2PolicyReg ↔
      op.evict = EvictionPolicy.EVICT_LAST) := by
  unfold StoreOpConversion.stOpts ptxO
  refine ⟨?_, ?_, ?_⟩
  · cases l2PolicyReg.isSome <;> cases op.cache <;> cases op.evict <;> simp
  · cases l2PolicyReg.isSome <;> cases op.cache <;> cases op.evict <;> simp
  · cases l2PolicyReg.isSome <;> cases op.cache <;> cases op.evict <;> simp

theorem load_ldInstr_policy (op : LoadOp) (computeCapability : Int)
    (valueElemNBits vecStart : Nat) (plan : WordPlan) (movWidth : Nat) (instr : LdInstr)
    (h : LoadOpConversion.ldInstr op computeCapability valueElemNBits vecStart plan movWidth
      = some instr) :
    instr.opts = LoadOpConversion.ldOpts op (createCachePolicy op.evict computeCapability) ∧
    instr.evictOpr = createCachePolicy op.evict computeCapability := by
  unfold LoadOpConversion.ldInstr at h
  simp only [Option.bind_eq_some] at h
  obtain ⟨_, -, _, -, _, -, h⟩ := h
  cases h
  exact ⟨rfl, rfl⟩

theorem load_canonicalGroup_policy (op : LoadOp) (launch : LdInstr → Nat → Nat)
    (computeCapability : Int) (vec : Nat) (numVecs : Int) (vecStart : Nat) (instr : LdInstr)
    (vals : List Nat)
    (h : LoadOpConversion.canonicalGroup op launch computeCapability vec numVecs vecStart
      = some (instr, vals)) :
    instr.opts = LoadOpConversion.ldOpts op (createCachePolicy op.evict computeCapability) ∧
    instr.evictOpr = createCachePolicy op.evict computeCapability := by
  unfold LoadOpConversion.canonicalGroup at h
  simp only [] at h
  split at h
  · cases h
  · simp only [Option.bind_eq_some, Option.map_eq_some', Prod.mk.injEq] at h
    obtain ⟨ins, hins, _, -, hi, -⟩ := h
    subst hi
    exact load_ldInstr_policy _ _ _ _ _ _ _ hins

theorem store_stInstr_policy (op : StoreOp) (threadPred : Option Bool) (computeCapability : Int)
    (vec : Nat) (numVecs : Int) (vecStart : Nat) (instr : StInstr)
    (h : StoreOpConversion.stInstr op threadPred computeCapability vec numVecs vecStart
      = some instr) :
    instr.opts = StoreOpConversion.stOpts op (createCachePolicy op.evict computeCapability) ∧
    instr.evictOpr = createCachePolicy op.evict computeCapability := by
  unfold StoreOpConversion.stInstr at h
  simp only [] at h
  split at h
  · cases h
  · simp only [Option.bind_eq_some] at h
    obtain ⟨_, -, _, -, _, -, h⟩ := h
    cases h
    exact ⟨rfl, rfl⟩

/-- C26: `createCachePolicy` produces a policy token exactly when the eviction policy is
evict-first or evict-last and the compute capability is at least 80.  Every instruction a
Load or a Store emits carries the qualifier `L2::cache_hint` exactly when the token is
produced, and has the policy operand exactly then (the operand is the token); it carries
`L1::evict_first` exactly when the eviction policy is evict-first and `L1::evict_last`
exactly when it is evict-last, whatever the compute capability. -/
theorem cache_policy_token_and_qualifiers (lop : LoadOp) (launch : LdInstr → Nat → Nat)
    (sop : StoreOp) (env : ThreadEnv) (computeCapability : Int) (lres : LoadResult)
    (sres : StoreResult)
    (hl : LoadOpConversion.matchAndRewrite lop launch computeCapability = some lres)
    (hs : StoreOpConversion.matchAndRewrite sop env computeCapability = some sres) :
    (∀ opEvict : EvictionPolicy, (createCachePolicy opEvict computeCapability).isSome = true ↔
      (opEvict = EvictionPolicy.EVICT_FIRST ∨ opEvict = EvictionPolicy.EVICT_LAST) ∧
        computeCapability ≥ 80) ∧
    (∀ s instr, (s, instr) ∈ lres.emitted →
      ("L2::cache_hint" ∈ instr.opts ↔
        (createCachePolicy lop.evict computeCapability).isSome = true) ∧
      instr.evictOpr = createCachePolicy lop.evict computeCapability ∧
      ("L1::evict_first" ∈ instr.opts ↔ lop.evict = EvictionPolicy.EVICT_FIRST) ∧
      ("L1::evict_last" ∈ instr.opts ↔ lop.evict = EvictionPolicy.EVICT_LAST)) ∧
    (∀ s instr, (s, instr) ∈ sres.emitted →
      ("L2::cache_hint" ∈ instr.opts ↔
        (createCachePolicy sop.evict computeCapability).isSome = true) ∧
      instr.evictOpr = createCachePolicy sop.evict computeCapability ∧
      ("L1::evict_first" ∈ instr.opts ↔ sop.evict = EvictionPolicy.EVICT_FIRST) ∧
      ("L1::evict_last" ∈ instr.opts ↔ sop.evict = EvictionPolicy.EVICT_LAST)) := by
  refine ⟨fun e => createCachePolicy_isSome_iff e computeCapability, ?_, ?_⟩
  · intro s instr hmem
    obtain ⟨-, vals, hg⟩ := load_groups_emitted _ _ _ _ _ _
      (load_matchAndRewrite_some lop launch computeCapability lres hl) s instr hmem
    obtain ⟨ho, he⟩ := load_canonicalGroup_policy _ _ _ _ _ _ _ _ hg
    obtain ⟨h1, h2, h3⟩ := load_ldOpts_spec lop (createCachePolicy lop.evict computeCapability)
    rw [ho]
    exact ⟨h1, he, h2, h3⟩
  · intro s instr hmem
    obtain ⟨-, hg⟩ := store_groups_emitted _ _ _ _ _ _
      (store_matchAndRewrite_some sop env computeCapability sres hs) s instr hmem
    obtain ⟨ho, he⟩ := store_stInstr_policy _ _ _ _ _ _ _ hg
    obtain ⟨h1, h2, h3⟩ := store_stOpts_spec sop (createCachePolicy sop.evict computeCapability)
    rw [ho]
    exact ⟨h1, he, h2, h3⟩

theorem cache_policy_token_and_qualifiers_witness :
    (∃ lres, LoadOpConversion.matchAndRewrite
        { exampleLoadOp with evict := EvictionPolicy.EVICT_FIRST } (fun _ _ => 0) 80 = some lres ∧
      lres.emitted.length = 2 ∧
      ∀ s instr, (s, instr) ∈ lres.emitted →
        "L2::cache_hint" ∈ instr.opts ∧ instr.evictOpr.isSome = true ∧
        "L1::evict_first" ∈ instr.opts) ∧
    (∃ sres, StoreOpConversion.matchAndRewrite
        { exampleStoreOp with evict := EvictionPolicy.EVICT_LAST } ⟨0, 0, 0⟩ 75 = some sres ∧
      sres.emitted.length = 2 ∧
      ∀ s instr, (s, instr) ∈ sres.emitted →
        "L2::cache_hint" ∉ instr.opts ∧ instr.evictOpr = none ∧
        "L1::evict_last" ∈ instr.opts) := by
  cases hl : LoadOpConversion.matchAndRewrite
      { exampleLoadOp with evict := EvictionPolicy.EVICT_FIRST } (fun _ _ => 0) 80 with
  | none => exact absurd hl (by decide)
  | some lres =>
    cases hs : StoreOpConversion.matchAndRewrite
        { exampleStoreOp with evict := EvictionPolicy.EVICT_LAST } ⟨0, 0, 0⟩ 75 with
    | none => exact absurd hs (by decide)
    | some sres =>
      have hl80 : LoadOpConversion.matchAndRewrite
          { exampleLoadOp with evict := EvictionPolicy.EVICT_FIRST } (fun _ _ => 0) 80
          = some lres := hl
      have hs80 : ∃ r, StoreOpConversion.matchAndRewrite
          { exampleStoreOp with evict := EvictionPolicy.EVICT_LAST } ⟨0, 0, 0⟩ 80 = some r := by
        cases h : StoreOpConversion.matchAndRewrite
            { exampleStoreOp with evict := EvictionPolicy.EVICT_LAST } ⟨0, 0, 0⟩ 80 with
        | none => exact absurd h (by decide)
        | some r => exact ⟨r, rfl⟩
      have hl75 : ∃ r, LoadOpConversion.matchAndRewrite
          { exampleLoadOp with evict := EvictionPolicy.EVICT_FIRST } (fun _ _ => 0) 75
          = some r := by
        cases h : LoadOpConversion.matchAndRewrite
            { exampleLoadOp with evict := EvictionPolicy.EVICT_FIRST } (fun _ _ => 0) 75 with
        | none => exact absurd h (by decide)
        | some r => exact ⟨r, rfl⟩
      obtain ⟨s80, hs80⟩ := hs80
      obtain ⟨l75, hl75⟩ := hl75
      have hA := (cache_policy_token_and_qualifiers _ _ _ _ 80 lres s80 hl80 hs80).2.1
      have hB := (cache_policy_token_and_qualifiers _ _ _ _ 75 l75 sres hl75 hs).2.2
      refine ⟨⟨lres, rfl, ?_, fun s instr hmem => ?_⟩, ⟨sres, rfl, ?_, fun s instr hmem => ?_⟩⟩
      · have h2 : (LoadOpConversion.matchAndRewrite
            { exampleLoadOp with evict := EvictionPolicy.EVICT_FIRST } (fun _ _ => 0) 80).map
            (fun r => r.emitted.length) = some 2 := by decide
        rw [hl] at h2
        exact Option.some.inj h2
      · obtain ⟨h1, h2, h3, -⟩ := hA s instr hmem
        exact ⟨h1.mpr (by decide), by rw [h2]; decide, h3.mpr rfl⟩
      · have h2 : (StoreOpConversion.matchAndRewrite
            { exampleStoreOp with evict := EvictionPolicy.EVICT_LAST } ⟨0, 0, 0⟩ 75).map
            (fun r => r.emitted.length) = some 2 := by decide
        rw [hs] at h2
        exact Option.some.inj h2
      · obtain ⟨h1, h2, -, h4⟩ := hB s instr hmem
        exact ⟨fun hc => absurd (h1.mp hc) (by decide), by rw [h2]; decide, h4.mpr rfl⟩


/-! ## The new-value operand of a compare-and-swap -/

theorem casValVector_isSome (valElements : List Nat) (i vec : Nat)
    (h : ∀ ii, ii < vec → ∃ v, valElements[i + ii]? = some v) :
    ∃ casVal, AtomicCASOpConversion.casValVector valElements i vec = some casVal := by
  unfold AtomicCASOpConversion.casValVector
  apply forLoop_isSome
  intro ii hii s
  obtain ⟨v, hv⟩ := h ii hii
  exact ⟨_, by rw [hv]; rfl⟩

/-- C30: the new-value operand of the compare-and-swap instruction of a group of width
`vec` is the single value `valElements[i]`, whatever `vec` is: the instruction is the same
for every list of new values that has the same entry at `i` (and entries up to
`i + vec`), so the second value `valElements[i + 1]` of a group of width 2 does not reach
the instruction, and the operand is not the vector of the `vec` values that the loop before
it builds.  Only for `vec = 1` is the operand all the new values of the group. -/
theorem cas_new_value_operand_is_first_element (op : AtomicCASOp) (valueElemNBits vec i : Nat)
    (instr : AtomCasInstr)
    (h : AtomicCASOpConversion.casInstr op valueElemNBits vec i = some instr) :
    (∃ v, op.valElements[i]? = some v ∧ instr.val = AsmValue.scalar v) ∧
    (∃ casVal, AtomicCASOpConversion.casValVector op.valElements i vec = some casVal ∧
      instr.val ≠ AsmValue.vector casVal) ∧
    (∀ valElements : List Nat, valElements[i]? = op.valElements[i]? →
      (∀ ii, ii < vec → ∃ v, valElements[i + ii]? = some v) →
      AtomicCASOpConversion.casInstr { op with valElements := valElements } valueElemNBits vec i
        = some instr) := by
  unfold AtomicCASOpConversion.casInstr at h
  simp only [Option.bind_eq_some, Option.map_eq_some'] at h
  obtain ⟨casVal, hvec, p, hp, c, hc, v, hv, hi⟩ := h
  subst hi
  refine ⟨⟨v, hv, rfl⟩, ⟨casVal, hvec, by simp⟩, ?_⟩
  intro valElements h0 hall
  obtain ⟨casVal2, hvec2⟩ := casValVector_isSome valElements i vec hall
  unfold AtomicCASOpConversion.casInstr
  simp only [hvec2, Option.some_bind, hp, hc, h0, hv, Option.map_some']

theorem cas_new_value_operand_is_first_element_witness :
    AtomicCASOpConversion.vectorSize exampleTensorCasOp = 2 ∧
    (∃ instr, AtomicCASOpConversion.casInstr exampleTensorCasOp 16 2 0 = some instr ∧
      exampleTensorCasOp.valElements = [5, 6, 7, 8] ∧ instr.val = AsmValue.scalar 5 ∧
      instr.tyId = "r" ∧
      AtomicCASOpConversion.casInstr { exampleTensorCasOp with valElements := [5, 99, 7, 8] }
        16 2 0 = some instr) ∧
    AtomicCASOpConversion.matchAndRewrite
        { exampleTensorCasOp with valElements := [5, 99, 7, 98] } firstLane exampleOracle 1
      = AtomicCASOpConversion.matchAndRewrite exampleTensorCasOp firstLane exampleOracle 1 ∧
    (AtomicCASOpConversion.matchAndRewrite exampleTensorCasOp firstLane exampleOracle 1).map
        (fun r => r.trace.length) = some 3 :=
  ⟨by decide,
    ⟨_, rfl, rfl, rfl, rfl,
      (cas_new_value_operand_is_first_element exampleTensorCasOp 16 2 0 _ rfl).2.2
        [5, 99, 7, 8] rfl (fun ii hii => by interval_cases ii <;> simp)⟩,
    by decide, by decide⟩


/-! ## The name under which the register mask is read -/

theorem freeVarMasks_get_cons_ne (key name : String) (m : Nat) (rest : FreeVarMasks)
    (h : name ≠ key) : FreeVarMasks.get ((key, m) :: rest) name = FreeVarMasks.get rest name := by
  unfold FreeVarMasks.get
  rw [List.lookup_cons]
  have : (name == key) = false := by simpa using h
  rw [this]

theorem emitRedundantThreadPredicate_cons_register (m : Nat) (rest : FreeVarMasks)
    (env : ThreadEnv) :
    emitRedundantThreadPredicate (("register", m) :: rest) env
      = emitRedundantThreadPredicate rest env := by
  unfold emitRedundantThreadPredicate
  simp only [List.zip, List.zipWith, List.foldl,
    freeVarMasks_get_cons_ne "register" "lane" m rest (by decide),
    freeVarMasks_get_cons_ne "register" "warp" m rest (by decide),
    freeVarMasks_get_cons_ne "register" "block" m rest (by decide)]

theorem load_matchAndRewrite_cons_register (op : LoadOp) (m : Nat) (rest : FreeVarMasks)
    (launch : LdInstr → Nat → Nat) (computeCapability : Int) :
    LoadOpConversion.matchAndRewrite { op with freeVarMasks := ("register", m) :: rest } launch
        computeCapability
      = LoadOpConversion.matchAndRewrite { op with freeVarMasks := rest } launch
          computeCapability := by
  unfold LoadOpConversion.matchAndRewrite
  simp only [freeVarMasks_get_cons_ne "register" "reg" m rest (by decide)]
  rfl

theorem store_matchAndRewrite_cons_register (op : StoreOp) (m : Nat) (rest : FreeVarMasks)
    (env : ThreadEnv) (computeCapability : Int) :
    StoreOpConversion.matchAndRewrite { op with freeVarMasks := ("register", m) :: rest } env
        computeCapability
      = StoreOpConversion.matchAndRewrite { op with freeVarMasks := rest } env
          computeCapability := by
  unfold StoreOpConversion.matchAndRewrite
  simp only [freeVarMasks_get_cons_ne "register" "reg" m rest (by decide),
    emitRedundantThreadPredicate_cons_register]
  rfl

theorem cas_matchAndRewrite_cons_register (op : AtomicCASOp) (m : Nat) (rest : FreeVarMasks)
    (env : ThreadEnv) (oracle : AtomicOracle) (numCTAs : Int) :
    AtomicCASOpConversion.matchAndRewrite { op with freeVarMasks := ("register", m) :: rest } env
        oracle numCTAs
      = AtomicCASOpConversion.matchAndRewrite { op with freeVarMasks := rest } env oracle
          numCTAs := by
  unfold AtomicCASOpConversion.matchAndRewrite
  simp only [freeVarMasks_get_cons_ne "register" "reg" m rest (by decide),
    emitRedundantThreadPredicate_cons_register]
  rfl

theorem rmw_matchAndRewrite_cons_register (op : AtomicRMWOp) (m : Nat) (rest : FreeVarMasks)
    (env : ThreadEnv) (mod : ModuleInfo) (oracle : AtomicOracle)
    (stringifyRMWOp : RMWOp → String) :
    AtomicRMWOpConversion.matchAndRewrite { op with freeVarMasks := ("register", m) :: rest } env
        mod oracle stringifyRMWOp
      = AtomicRMWOpConversion.matchAndRewrite { op with freeVarMasks := rest } env mod oracle
          stringifyRMWOp := by
  unfold AtomicRMWOpConversion.matchAndRewrite
  simp only [freeVarMasks_get_cons_ne "register" "reg" m rest (by decide),
    emitRedundantThreadPredicate_cons_register]
  rfl

/-- C29: Load, Store, AtomicCAS and AtomicRMW read the register mask under the name
`reg`, not under the name `register` that the gather and scatter lowering and the
async copy use for the register dimension: the entry of the map under `register` has no
effect on any of the four lowerings, whose result is the same for every value `m` of
that entry as for the map without it.  They cull with the entry under `reg`, which is 0
for a map that has the register mask under `register` only. -/
theorem register_mask_read_under_reg (m : Nat) (rest : FreeVarMasks) (lop : LoadOp)
    (launch : LdInstr → Nat → Nat) (sop : StoreOp) (cas : AtomicCASOp) (rmw : AtomicRMWOp)
    (env : ThreadEnv) (mod : ModuleInfo) (oracle : AtomicOracle)
    (stringifyRMWOp : RMWOp → String) :
    FreeVarMasks.get (("register", m) :: rest) "register" = m ∧
    FreeVarMasks.get (("register", m) :: rest) "reg" = FreeVarMasks.get rest "reg" ∧
    LoadOpConversion.matchAndRewrite { lop with freeVarMasks := ("register", m) :: rest } launch
        mod.computeCapability
      = LoadOpConversion.matchAndRewrite { lop with freeVarMasks := rest } launch
          mod.computeCapability ∧
    StoreOpConversion.matchAndRewrite { sop with freeVarMasks := ("register", m) :: rest } env
        mod.computeCapability
      = StoreOpConversion.matchAndRewrite { sop with freeVarMasks := rest } env
          mod.computeCapability ∧
    AtomicCASOpConversion.matchAndRewrite { cas with freeVarMasks := ("register", m) :: rest } env
        oracle mod.numCTAs
      = AtomicCASOpConversion.matchAndRewrite { cas with freeVarMasks := rest } env oracle
          mod.numCTAs ∧
    AtomicRMWOpConversion.matchAndRewrite { rmw with freeVarMasks := ("register", m) :: rest } env
        mod oracle stringifyRMWOp
      = AtomicRMWOpConversion.matchAndRewrite { rmw with freeVarMasks := rest } env mod oracle
          stringifyRMWOp :=
  ⟨by simp [FreeVarMasks.get, List.lookup],
    freeVarMasks_get_cons_ne "register" "reg" m rest (by decide),
    load_matchAndRewrite_cons_register lop m rest launch mod.computeCapability,
    store_matchAndRewrite_cons_register sop m rest env mod.computeCapability,
    cas_matchAndRewrite_cons_register cas m rest env oracle mod.numCTAs,
    rmw_matchAndRewrite_cons_register rmw m rest env mod oracle stringifyRMWOp⟩

theorem register_mask_read_under_reg_witness :
    FreeVarMasks.get [("register", 2)] "register" = 2 ∧
    LoadOpConversion.matchAndRewrite { exampleLoadOp with freeVarMasks := [("register", 2)] }
        (fun _ _ => 0) 80
      = LoadOpConversion.matchAndRewrite { exampleLoadOp with freeVarMasks := [] }
          (fun _ _ => 0) 80 ∧
    (LoadOpConversion.matchAndRewrite { exampleLoadOp with freeVarMasks := [("register", 2)] }
        (fun _ _ => 0) 80).map (fun r => r.emitted.map Prod.fst) = some [0, 2] ∧
    (LoadOpConversion.matchAndRewrite { exampleLoadOp with freeVarMasks := [("reg", 2)] }
        (fun _ _ => 0) 80).map (fun r => r.emitted.map Prod.fst) = some [0] ∧
    (StoreOpConversion.matchAndRewrite { exampleStoreOp with freeVarMasks := [("register", 2)] }
        firstLane 80).map (fun r => r.emitted.map Prod.fst) = some [0, 2] ∧
    (StoreOpConversion.matchAndRewrite { exampleStoreOp with freeVarMasks := [("reg", 2)] }
        firstLane 80).map (fun r => r.emitted.map Prod.fst) = some [0] ∧
    (AtomicCASOpConversion.matchAndRewrite
        { exampleTensorCasOp with freeVarMasks := [("register", 2)] } firstLane exampleOracle
        2).map (fun r => r.trace.length) = some 3 ∧
    (AtomicCASOpConversion.matchAndRewrite
        { exampleTensorCasOp with freeVarMasks := [("reg", 2)] } firstLane exampleOracle
        2).map (fun r => r.trace.length) = some 2 ∧
    (AtomicRMWOpConversion.matchAndRewrite
        { exampleTensorRmwOp with freeVarMasks := [("register", 2)] } firstLane
        ampereClusterModule exampleOracle exampleStringifyRMWOp).map
        (fun r => r.trace.map AtomicAction.isAtomRmw) = some [true, true, false] ∧
    (AtomicRMWOpConversion.matchAndRewrite
        { exampleTensorRmwOp with freeVarMasks := [("reg", 2)] } firstLane
        ampereClusterModule exampleOracle exampleStringifyRMWOp).map
        (fun r => r.trace.map AtomicAction.isAtomRmw) = some [true, false] :=
  have h := register_mask_read_under_reg 2 [] exampleLoadOp (fun _ _ => 0) exampleStoreOp
    exampleTensorCasOp exampleTensorRmwOp firstLane ampereClusterModule exampleOracle
    exampleStringifyRMWOp
  ⟨h.1, h.2.2.1, by decide, by decide, by decide, by decide, by decide, by decide, by decide,
    by decide⟩


/-! ## The paths of an AtomicRMW that is not promoted -/

theorem rmw_branchAtom_shape (op : AtomicRMWOp) (oracle : AtomicOracle) (binOp : RMWOp)
    (nbits : Nat) (w : RmwWidths) (rmwPtr i : Nat) (r : List AtomicAction × AsmValue)
    (h : AtomicRMWOpConversion.branchAtom op oracle binOp nbits w rmwPtr i = some r) :
    ∃ val rest, op.valElements[i]? = some val ∧
      r.1 = AtomicAction.llvmAtomicRmw binOp rmwPtr val op.sem "agent" :: rest ∧
      (∀ a ∈ r.1, a.isGenericAtomic = true ∧ a.isControlFlow = false ∧ a.isAtomRmw = false) ∧
      (r.2 = AsmValue.scalar (oracle.llvmAtomicResult binOp rmwPtr val) ∨
        ∃ atom2, r.2 = AsmValue.vector (insert_element
          (insert_element (undefVec w.vec) (oracle.llvmAtomicResult binOp rmwPtr val) 0)
          atom2 1)) := by
  unfold AtomicRMWOpConversion.branchAtom at h
  simp only [Option.bind_eq_some] at h
  obtain ⟨val, hval, h⟩ := h
  split at h
  · simp only [Option.bind_eq_some, Option.map_eq_some'] at h
    obtain ⟨ptr2, _, val2, _, h⟩ := h
    subst h
    refine ⟨val, _, hval, rfl, ?_, Or.inr ⟨_, rfl⟩⟩
    intro a ha
    simp only [List.mem_cons, List.mem_singleton, List.not_mem_nil, or_false] at ha
    rcases ha with ha | ha <;> subst ha <;> exact ⟨rfl, rfl, rfl⟩
  · simp only [Option.some.injEq] at h
    subst h
    refine ⟨val, [], hval, rfl, ?_, Or.inl rfl⟩
    intro a ha
    simp only [List.mem_singleton] at ha
    subst ha
    exact ⟨rfl, rfl, rfl⟩

/-- What one iteration of the loop of an AtomicRMW that is not promoted appends for a
canonical group: on the branch-based path a conditional branch on the guard with the
undefined placeholder, the generic atomics, and a tail that branches with their result; on
the native path nothing (the kind has no mnemonic) or one predicated native instruction
and a tail without control flow and without a generic atomic. -/
theorem rmw_group_path (op : AtomicRMWOp) (mod : ModuleInfo) (oracle : AtomicOracle)
    (stringifyRMWOp : RMWOp → String) (remarks : List AtomicRemark) (threadPred : Option Bool)
    (nbits : Nat) (w : RmwWidths) (regMask i : Nat) (st : AtomicState)
    (tr : List AtomicAction) (hc : getCanonicalIndex i regMask = i)
    (h : (∃ t, AtomicRMWOpConversion.group op mod oracle stringifyRMWOp remarks threadPred nbits w
          false regMask i st = some (LoopStep.next t) ∧ t.trace = tr) ∨
      (∃ r, AtomicRMWOpConversion.group op mod oracle stringifyRMWOp remarks threadPred nbits w
          false regMask i st = some (LoopStep.done r) ∧ r.trace = tr)) :
    ∃ rmwPtr pred, op.ptrElements[i]? = some rmwPtr ∧
      AtomicRMWOpConversion.pred threadPred op.mask i = some pred ∧
      (AtomicRMWOpConversion.takesBranchPath op mod = true →
        ∃ cond k acts atom tail, pred = some cond ∧ matchAtomicOp op.kind = some k ∧
          AtomicRMWOpConversion.branchAtom op oracle k nbits w rmwPtr i = some (acts, atom) ∧
          tr = st.trace ++ [AtomicAction.condBr cond none] ++ acts ++ tail ∧
          (tail = [AtomicAction.br atom] ∨
            tail = [AtomicAction.br atom, AtomicAction.eraseOp] ∨
            tail = [AtomicAction.store atom, AtomicAction.br atom, AtomicAction.barrier,
              AtomicAction.load oracle.readBack,
              AtomicAction.replaceOp [some oracle.readBack]])) ∧
      (AtomicRMWOpConversion.takesBranchPath op mod = false →
        tr = st.trace ∨
        ∃ instr tail, tr = st.trace ++ [AtomicAction.atomRmw instr pred] ++ tail ∧
          ∀ a ∈ tail, a.isControlFlow = false ∧ a.isGenericAtomic = false ∧
            a.isAtomRmw = false) := by
  unfold AtomicRMWOpConversion.group at h
  simp only [hc, ne_eq, not_true_eq_false, if_false, Bool.false_eq_true] at h
  cases hp : op.ptrElements[i]? with
  | none =>
    rw [hp] at h
    rcases h with ⟨t, h, -⟩ | ⟨r, h, -⟩ <;> cases h
  | some rmwPtr =>
  cases hg : AtomicRMWOpConversion.pred threadPred op.mask i with
  | none =>
    rw [hp, hg] at h
    rcases h with ⟨t, h, -⟩ | ⟨r, h, -⟩ <;> cases h
  | some pred =>
  rw [hp, hg] at h
  simp only [Option.some_bind] at h
  refine ⟨rmwPtr, pred, rfl, rfl, ?_, ?_⟩
  · intro hb
    unfold AtomicRMWOpConversion.takesBranchPath at hb
    simp only [hb, if_true] at h
    unfold AtomicRMWOpConversion.branchBased at h
    cases hk : matchAtomicOp op.kind with
    | none =>
      rw [hk] at h
      rcases h with ⟨t, h, -⟩ | ⟨r, h, -⟩ <;> cases h
    | some k =>
    cases pred with
    | none =>
      rw [hk] at h
      rcases h with ⟨t, h, -⟩ | ⟨r, h, -⟩ <;> cases h
    | some cond =>
    rw [hk] at h
    simp only [Option.some_bind] at h
    cases hat : AtomicRMWOpConversion.branchAtom op oracle k nbits w rmwPtr i with
    | none =>
      rw [hat] at h
      rcases h with ⟨t, h, -⟩ | ⟨r, h, -⟩ <;> cases h
    | some r0 =>
    rw [hat] at h
    simp only [Option.some_bind] at h
    obtain ⟨acts, atom⟩ := r0
    refine ⟨cond, k, acts, atom, ?_⟩
    cases ht : op.isTensor
    · simp only [ht, Bool.false_eq_true, if_false] at h
      cases hu : atomicNeedsSharedMemory false op.resultUsed
      · simp only [hu, Bool.not_false, if_true] at h
        rcases h with ⟨t, h, -⟩ | ⟨r, h, htr⟩
        · cases h
        · simp only [Option.some.injEq, LoopStep.done.injEq] at h
          subst h
          subst htr
          exact ⟨_, rfl, rfl, hat, by simp, Or.inr (Or.inl rfl)⟩
      · simp only [hu, Bool.not_true, Bool.false_eq_true, if_false] at h
        rcases h with ⟨t, h, htr⟩ | ⟨r, h, -⟩
        · simp only [Option.some.injEq, LoopStep.next.injEq] at h
          subst h
          subst htr
          exact ⟨_, rfl, rfl, hat, by simp, Or.inr (Or.inr rfl)⟩
        · cases h
    · simp only [ht, if_true] at h
      rcases h with ⟨t, h, htr⟩ | ⟨r, h, -⟩
      · simp only [Option.map_eq_some'] at h
        obtain ⟨vals, _, hv⟩ := h
        cases hv
        subst htr
        exact ⟨_, rfl, rfl, hat, by simp, Or.inl rfl⟩
      · simp only [Option.map_eq_some'] at h
        obtain ⟨vals, _, hv⟩ := h
        cases hv
  · intro hb
    unfold AtomicRMWOpConversion.takesBranchPath at hb
    simp only [hb, Bool.false_eq_true, if_false] at h
    unfold AtomicRMWOpConversion.native at h
    cases hty : getRegisterSizeCode (nbits * w.packed) false with
    | none =>
      rw [hty] at h
      rcases h with ⟨t, h, -⟩ | ⟨r, h, -⟩ <;> cases h
    | some tyId =>
    cases hvo : AtomicRMWOpConversion.valOperand op.valElements w i with
    | none =>
      rw [hty, hvo] at h
      rcases h with ⟨t, h, -⟩ | ⟨r, h, -⟩ <;> cases h
    | some valOpr =>
    rw [hty, hvo] at h
    simp only [Option.some_bind] at h
    cases hmn : AtomicRMWOpConversion.mnemonic stringifyRMWOp op.kind nbits
        op.valueElemTy.isBF16 w.packed with
    | none =>
      rw [hmn] at h
      rcases h with ⟨t, h, -⟩ | ⟨r, h, htr⟩
      · cases h
      · simp only [Option.some.injEq, LoopStep.done.injEq] at h
        subst h
        subst htr
        exact Or.inl rfl
    | some m =>
    obtain ⟨rmwOp, sTy⟩ := m
    rw [hmn] at h
    simp only at h
    right
    refine ⟨(⟨op.scope, op.sem, rmwOp, w.vec, sTy, tyId, rmwPtr, valOpr⟩ : AtomRmwInstr), ?_⟩
    cases ht : op.isTensor
    · simp only [ht, Bool.false_eq_true, if_false] at h
      cases hu : atomicNeedsSharedMemory false op.resultUsed
      · simp only [hu, Bool.not_false, if_true] at h
        rcases h with ⟨t, h, -⟩ | ⟨r, h, htr⟩
        · cases h
        · simp only [Option.some.injEq, LoopStep.done.injEq] at h
          subst h
          subst htr
          refine ⟨[AtomicAction.eraseOp], by simp, ?_⟩
          intro a ha
          simp only [List.mem_singleton] at ha
          subst ha
          exact ⟨rfl, rfl, rfl⟩
      · simp only [hu, Bool.not_true, Bool.false_eq_true, if_false] at h
        rcases h with ⟨t, h, htr⟩ | ⟨r, h, -⟩
        · simp only [Option.some.injEq, LoopStep.next.injEq] at h
          subst h
          subst htr
          refine ⟨[AtomicAction.storeShared (oracle.rmwResult
            (⟨op.scope, op.sem, rmwOp, w.vec, sTy, tyId, rmwPtr, valOpr⟩ : AtomRmwInstr) 0)
            pred] ++ createBarrier mod.numCTAs ++
            [AtomicAction.load oracle.readBack, AtomicAction.replaceOp [some oracle.readBack]],
            by simp, ?_⟩
          intro a ha
          simp only [List.mem_append, List.mem_cons, List.mem_singleton, List.not_mem_nil,
            or_false] at ha
          rcases ha with (ha | ha) | ha | ha
          · subst ha; exact ⟨rfl, rfl, rfl⟩
          · unfold createBarrier at ha
            split at ha
            · simp only [List.mem_singleton] at ha
              subst ha; exact ⟨rfl, rfl, rfl⟩
            · simp only [List.mem_cons, List.mem_singleton, List.not_mem_nil, or_false] at ha
              rcases ha with ha | ha <;> subst ha <;> exact ⟨rfl, rfl, rfl⟩
          · subst ha; exact ⟨rfl, rfl, rfl⟩
          · subst ha; exact ⟨rfl, rfl, rfl⟩
        · cases h
    · simp only [ht, if_true] at h
      rcases h with ⟨t, h, htr⟩ | ⟨r, h, -⟩
      · simp only [Option.map_eq_some'] at h
        obtain ⟨vals, _, hv⟩ := h
        cases hv
        subst htr
        exact ⟨[], by simp, fun a ha => by cases ha⟩
      · simp only [Option.map_eq_some'] at h
        obtain ⟨vals, _, hv⟩ := h
        cases hv

/-- What one iteration of the loop of an AtomicRMW that is not promoted appends, canonical
group or not: on the branch-based path no native instruction, and conditional branches
only with the undefined placeholder; on the native path no control flow and no generic
atomic. -/
theorem rmw_group_path_actions (op : AtomicRMWOp) (mod : ModuleInfo) (oracle : AtomicOracle)
    (stringifyRMWOp : RMWOp → String) (remarks : List AtomicRemark) (threadPred : Option Bool)
    (nbits : Nat) (w : RmwWidths) (regMask i : Nat) (st : AtomicState)
    (tr : List AtomicAction)
    (h : (∃ t, AtomicRMWOpConversion.group op mod oracle stringifyRMWOp remarks threadPred nbits w
          false regMask i st = some (LoopStep.next t) ∧ t.trace = tr) ∨
      (∃ r, AtomicRMWOpConversion.group op mod oracle stringifyRMWOp remarks threadPred nbits w
          false regMask i st = some (LoopStep.done r) ∧ r.trace = tr)) :
    ∃ added, tr = st.trace ++ added ∧
      (AtomicRMWOpConversion.takesBranchPath op mod = true →
        ∀ a ∈ added, a.isAtomRmw = false ∧ ∀ c f, a = AtomicAction.condBr c f → f = none) ∧
      (AtomicRMWOpConversion.takesBranchPath op mod = false →
        ∀ a ∈ added, a.isControlFlow = false ∧ a.isGenericAtomic = false) := by
  by_cases hc : getCanonicalIndex i regMask = i
  · obtain ⟨rmwPtr, pred, -, -, hbr, hnat⟩ := rmw_group_path op mod oracle stringifyRMWOp remarks
      threadPred nbits w regMask i st tr hc h
    cases hb : AtomicRMWOpConversion.takesBranchPath op mod
    · rcases hnat hb with htr | ⟨instr, tail, htr, htail⟩
      · exact ⟨[], by simp [htr], fun h => (by cases h), fun _ a ha => (by cases ha)⟩
      · refine ⟨[AtomicAction.atomRmw instr pred] ++ tail, by simp [htr], fun h => (by cases h),
          fun _ a ha => ?_⟩
        simp only [List.singleton_append, List.mem_cons] at ha
        rcases ha with ha | ha
        · subst ha; exact ⟨rfl, rfl⟩
        · exact ⟨(htail a ha).1, (htail a ha).2.1⟩
    · obtain ⟨cond, k, acts, atom, tail, -, -, hat, htr, htail⟩ := hbr hb
      obtain ⟨val, rest, -, -, hacts, -⟩ := rmw_branchAtom_shape op oracle k nbits w rmwPtr i _ hat
      refine ⟨[AtomicAction.condBr cond none] ++ acts ++ tail, by simp [htr],
        fun _ a ha => ?_, fun h => (by cases h)⟩
      simp only [List.mem_append, List.mem_singleton] at ha
      rcases ha with (ha | ha) | ha
      · subst ha
        refine ⟨rfl, fun c f hcf => ?_⟩
        cases hcf; rfl
      · refine ⟨(hacts a ha).2.2, fun c f hcf => ?_⟩
        subst hcf
        have := (hacts _ ha).1
        cases this
      · rcases htail with ht | ht | ht <;> subst ht <;>
          simp only [List.mem_cons, List.mem_singleton, List.not_mem_nil, or_false] at ha
        · subst ha; exact ⟨rfl, fun c f hcf => by cases hcf⟩
        · rcases ha with ha | ha <;> subst ha <;> exact ⟨rfl, fun c f hcf => by cases hcf⟩
        · rcases ha with ha | ha | ha | ha | ha <;> subst ha <;>
            exact ⟨rfl, fun c f hcf => by cases hcf⟩
  · unfold AtomicRMWOpConversion.group at h
    simp only [ne_eq, hc, not_false_eq_true, if_true] at h
    rcases h with ⟨t, h, htr⟩ | ⟨r, h, -⟩
    · simp only [Option.map_eq_some'] at h
      obtain ⟨vals, _, hv⟩ := h
      cases hv
      subst htr
      exact ⟨[], by simp, fun _ a ha => (by cases ha), fun _ a ha => (by cases ha)⟩
    · simp only [Option.map_eq_some'] at h
      obtain ⟨vals, _, hv⟩ := h
      cases hv

/-- The actions of an AtomicRMW that is not promoted: on the branch-based path no native
instruction, and conditional branches only with the undefined placeholder; on the native
path no control flow and no generic atomic. -/
theorem rmw_trace_path (op : AtomicRMWOp) (env : ThreadEnv) (mod : ModuleInfo)
    (oracle : AtomicOracle) (stringifyRMWOp : RMWOp → String) (r : AtomicLowering)
    (hpromo : AtomicRMWOpConversion.doPTXLDPromotion op
      (AtomicRMWOpConversion.widths op mod.supportVectorizedAtomics).vec
      (AtomicRMWOpConversion.widths op mod.supportVectorizedAtomics).packed = false)
    (h : AtomicRMWOpConversion.matchAndRewrite op env mod oracle stringifyRMWOp = some r) :
    (AtomicRMWOpConversion.takesBranchPath op mod = true →
      ∀ a ∈ r.trace, a.isAtomRmw = false ∧ ∀ c f, a = AtomicAction.condBr c f → f = none) ∧
    (AtomicRMWOpConversion.takesBranchPath op mod = false →
      ∀ a ∈ r.trace, a.isControlFlow = false ∧ a.isGenericAtomic = false) := by
  unfold AtomicRMWOpConversion.matchAndRewrite at h
  cases hw : op.valueElemTy.getIntOrFloatBitWidth with
  | none => rw [hw] at h; cases h
  | some nbits =>
    rw [hw] at h
    simp only [Option.some_bind, hpromo] at h
    split at h
    · cases h
    · have hinv := forStepReturn_inv op.elemsPerThread
        ((AtomicRMWOpConversion.widths op mod.supportVectorizedAtomics).vec *
          (AtomicRMWOpConversion.widths op mod.supportVectorizedAtomics).packed)
        (AtomicRMWOpConversion.group op mod oracle stringifyRMWOp
          (if (AtomicRMWOpConversion.widths op mod.supportVectorizedAtomics).vec *
              (AtomicRMWOpConversion.widths op mod.supportVectorizedAtomics).packed = 1 ∧
              (AtomicRMWOpConversion.widths op mod.supportVectorizedAtomics).numElems > 1 then
            [{ vec := (AtomicRMWOpConversion.widths op mod.supportVectorizedAtomics).vec,
               packed := (AtomicRMWOpConversion.widths op mod.supportVectorizedAtomics).packed,
               vecOrig := (AtomicRMWOpConversion.widths op mod.supportVectorizedAtomics).vecOrig,
               numElems :=
                 (AtomicRMWOpConversion.widths op mod.supportVectorizedAtomics).numElems }]
          else [])
          (emitRedundantThreadPredicate op.freeVarMasks env) nbits
          (AtomicRMWOpConversion.widths op mod.supportVectorizedAtomics) false
          (toUnsigned (op.freeVarMasks.get "reg")))
        (fun st => (AtomicRMWOpConversion.takesBranchPath op mod = true →
            ∀ a ∈ st.trace, a.isAtomRmw = false ∧
              ∀ c f, a = AtomicAction.condBr c f → f = none) ∧
          (AtomicRMWOpConversion.takesBranchPath op mod = false →
            ∀ a ∈ st.trace, a.isControlFlow = false ∧ a.isGenericAtomic = false))
        (fun r => (AtomicRMWOpConversion.takesBranchPath op mod = true →
            ∀ a ∈ r.trace, a.isAtomRmw = false ∧
              ∀ c f, a = AtomicAction.condBr c f → f = none) ∧
          (AtomicRMWOpConversion.takesBranchPath op mod = false →
            ∀ a ∈ r.trace, a.isControlFlow = false ∧ a.isGenericAtomic = false))
        (by
          intro i s t _ hs hb
          obtain ⟨added, h1, h2, h3⟩ :=
            rmw_group_path_actions op mod oracle stringifyRMWOp _ _ nbits _ _ i s t.trace
              (Or.inl ⟨t, hb, rfl⟩)
          rw [h1]
          refine ⟨fun hbr a ha => ?_, fun hbr a ha => ?_⟩
          · rcases List.mem_append.mp ha with ha | ha
            · exact hs.1 hbr a ha
            · exact h2 hbr a ha
          · rcases List.mem_append.mp ha with ha | ha
            · exact hs.2 hbr a ha
            · exact h3 hbr a ha)
        (by
          intro i s r0 _ hs hb
          obtain ⟨added, h1, h2, h3⟩ :=
            rmw_group_path_actions op mod oracle stringifyRMWOp _ _ nbits _ _ i s r0.trace
              (Or.inr ⟨r0, hb, rfl⟩)
          rw [h1]
          refine ⟨fun hbr a ha => ?_, fun hbr a ha => ?_⟩
          · rcases List.mem_append.mp ha with ha | ha
            · exact hs.1 hbr a ha
            · exact h2 hbr a ha
          · rcases List.mem_append.mp ha with ha | ha
            · exact hs.2 hbr a ha
            · exact h3 hbr a ha)
        op.elemsPerThread 0
        { trace := [], resultVals := List.replicate op.elemsPerThread none }
        ⟨fun _ a ha => (by cases ha), fun _ a ha => (by cases ha)⟩
      split at h
      · cases h
      · rename_i r0 heq
        simp only [Option.some.injEq] at h
        subst h
        exact hinv.2 r0 heq
      · rename_i st heq
        have hst := hinv.1 st heq
        simp only [Option.some.injEq] at h
        subst h
        refine ⟨fun hbr a ha => ?_, fun hbr a ha => ?_⟩
        · simp only at ha
          split at ha
          · rcases List.mem_append.mp ha with ha | ha
            · exact hst.1 hbr a ha
            · simp only [List.mem_singleton] at ha
              subst ha
              exact ⟨rfl, fun c f hcf => by cases hcf⟩
          · exact hst.1 hbr a ha
        · simp only at ha
          split at ha
          · rcases List.mem_append.mp ha with ha | ha
            · exact hst.2 hbr a ha
            · simp only [List.mem_singleton] at ha
              subst ha
              exact ⟨rfl, rfl⟩
          · exact hst.2 hbr a ha

/-- C21: for an AtomicRMW on which the promotion did not fire, the branch-based path is
taken exactly when the element type is bf16 and the compute capability is below 90.  Then
the lowering contains no native atomic instruction, every conditional branch carries the
undefined placeholder on its other edge, and each canonical group appends a conditional
branch on its guard, the generic atomics (the first on the pointer and the value of the
group, with scope `agent`), and a tail that branches to the merge block with the result
of the atomics.  In every other case the lowering contains no control flow and no generic
atomic, and each canonical group appends one native instruction predicated by its guard
(nothing when the kind has no mnemonic).  A well-formed scalar op lowers successfully on
either path: on the branch-based path, given a guard to branch on, to the conditional
branch and the generic atomic followed by the branch with its result; on the native
path to the predicated native instruction. -/
theorem rmw_branch_fallback_selection (op : AtomicRMWOp) (env : ThreadEnv) (mod : ModuleInfo)
    (oracle : AtomicOracle) (stringifyRMWOp : RMWOp → String)
    (hpromo : AtomicRMWOpConversion.doPTXLDPromotion op
      (AtomicRMWOpConversion.widths op mod.supportVectorizedAtomics).vec
      (AtomicRMWOpConversion.widths op mod.supportVectorizedAtomics).packed = false) :
    (AtomicRMWOpConversion.takesBranchPath op mod = true ↔
      op.valueElemTy = ElemType.bf16 ∧ mod.computeCapability < 90) ∧
    (∀ r, AtomicRMWOpConversion.matchAndRewrite op env mod oracle stringifyRMWOp = some r →
      (AtomicRMWOpConversion.takesBranchPath op mod = true →
        ∀ a ∈ r.trace, a.isAtomRmw = false ∧ ∀ c f, a = AtomicAction.condBr c f → f = none) ∧
      (AtomicRMWOpConversion.takesBranchPath op mod = false →
        ∀ a ∈ r.trace, a.isControlFlow = false ∧ a.isGenericAtomic = false)) ∧
    (∀ (remarks : List AtomicRemark) (threadPred : Option Bool) (nbits : Nat) (w : RmwWidths)
      (regMask i : Nat) (st : AtomicState) (tr : List AtomicAction),
      getCanonicalIndex i regMask = i →
      ((∃ t, AtomicRMWOpConversion.group op mod oracle stringifyRMWOp remarks threadPred nbits w
          false regMask i st = some (LoopStep.next t) ∧ t.trace = tr) ∨
        (∃ r, AtomicRMWOpConversion.group op mod oracle stringifyRMWOp remarks threadPred nbits w
          false regMask i st = some (LoopStep.done r) ∧ r.trace = tr)) →
      ∃ rmwPtr pred, op.ptrElements[i]? = some rmwPtr ∧
        AtomicRMWOpConversion.pred threadPred op.mask i = some pred ∧
        (AtomicRMWOpConversion.takesBranchPath op mod = true →
          ∃ cond k val acts atom tail, pred = some cond ∧ op.valElements[i]? = some val ∧
            tr = st.trace ++ [AtomicAction.condBr cond none] ++
              (AtomicAction.llvmAtomicRmw k rmwPtr val op.sem "agent" :: acts) ++ tail ∧
            (∀ a ∈ acts, a.isGenericAtomic = true) ∧
            (atom = AsmValue.scalar (oracle.llvmAtomicResult k rmwPtr val) ∨
              ∃ atom2, atom = AsmValue.vector (insert_element
                (insert_element (undefVec w.vec) (oracle.llvmAtomicResult k rmwPtr val) 0)
                atom2 1)) ∧
            (tail = [AtomicAction.br atom] ∨
              tail = [AtomicAction.br atom, AtomicAction.eraseOp] ∨
              tail = [AtomicAction.store atom, AtomicAction.br atom, AtomicAction.barrier,
                AtomicAction.load oracle.readBack,
                AtomicAction.replaceOp [some oracle.readBack]])) ∧
        (AtomicRMWOpConversion.takesBranchPath op mod = false →
          tr = st.trace ∨
          ∃ instr tail, tr = st.trace ++ [AtomicAction.atomRmw instr pred] ++ tail ∧
            ∀ a ∈ tail, a.isControlFlow = false ∧ a.isGenericAtomic = false ∧
              a.isAtomRmw = false)) ∧
    (∀ (nbits p v : Nat) (g : Option Bool), op.isTensor = false → op.elemsPerThread = 1 →
      op.valueElemTy.getIntOrFloatBitWidth = some nbits →
      (nbits = 16 ∨ nbits = 32 ∨ nbits = 64) →
      op.ptrElements[0]? = some p → op.valElements[0]? = some v →
      AtomicRMWOpConversion.pred (emitRedundantThreadPredicate op.freeVarMasks env) op.mask 0
        = some g →
      (∀ raw, op.kind ≠ RMWOp.other raw) →
      (AtomicRMWOpConversion.takesBranchPath op mod = true → ∀ cond, g = some cond →
        ∃ r k rest, AtomicRMWOpConversion.matchAndRewrite op env mod oracle stringifyRMWOp
            = some r ∧ r.succeeded = true ∧
          r.trace = AtomicAction.condBr cond none ::
            AtomicAction.llvmAtomicRmw k p v op.sem "agent" :: rest ∧
          AtomicAction.br (AsmValue.scalar (oracle.llvmAtomicResult k p v)) ∈ rest) ∧
      (AtomicRMWOpConversion.takesBranchPath op mod = false →
        ∃ r instr rest, AtomicRMWOpConversion.matchAndRewrite op env mod oracle stringifyRMWOp
            = some r ∧ r.succeeded = true ∧
          r.trace = AtomicAction.atomRmw instr g :: rest ∧ instr.ptr = p ∧
          instr.val = AsmValue.scalar v)) := by
  have hiff : AtomicRMWOpConversion.takesBranchPath op mod = true ↔
      op.valueElemTy = ElemType.bf16 ∧ mod.computeCapability < 90 := by
    unfold AtomicRMWOpConversion.takesBranchPath
    simp only [Bool.and_eq_true, decide_eq_true_eq]
    constructor
    · rintro ⟨h1, h2⟩
      refine ⟨?_, h2⟩
      cases hty : op.valueElemTy <;> rw [hty] at h1 <;> first | rfl | cases h1
    · rintro ⟨h1, h2⟩
      exact ⟨by rw [h1]; rfl, h2⟩
  refine ⟨hiff, fun r h => rmw_trace_path op env mod oracle stringifyRMWOp r hpromo h, ?_, ?_⟩
  · intro remarks threadPred nbits w regMask i st tr hc h
    obtain ⟨rmwPtr, pred, hp, hg, hbr, hnat⟩ := rmw_group_path op mod oracle stringifyRMWOp
      remarks threadPred nbits w regMask i st tr hc h
    refine ⟨rmwPtr, pred, hp, hg, fun hb => ?_, hnat⟩
    obtain ⟨cond, k, acts, atom, tail, hcond, -, hat, htr, htail⟩ := hbr hb
    obtain ⟨val, rest, hval, hacts, hall, hatom⟩ :=
      rmw_branchAtom_shape op oracle k nbits w rmwPtr i _ hat
    simp only at hacts hall hatom
    refine ⟨cond, k, val, rest, atom, tail, hcond, hval, by rw [htr, hacts], ?_, hatom, htail⟩
    intro a ha
    exact (hall a (by rw [hacts]; exact List.mem_cons_of_mem _ ha)).1
  · intro nbits p v g ht he hw hs hp hv hg hrk
    have hw1 := rmw_scalar_widths op mod.supportVectorizedAtomics ht
    rw [hw1] at hpromo
    simp only at hpromo
    refine ⟨fun hb cond hgc => ?_, fun hb => ?_⟩
    · obtain ⟨hbf, hcc⟩ := hiff.mp hb
      obtain ⟨k, hk⟩ := matchAtomicOp_isSome op.kind hrk
      subst hgc
      have hlow := rmw_scalar_branch_lowering op env mod oracle stringifyRMWOp p v cond k ht he
        hbf hcc hp hv hg hk hpromo
      cases hru : op.resultUsed
      · simp only [hru, Bool.false_eq_true, if_false] at hlow
        exact ⟨_, k, [_, _], hlow, rfl, rfl, by simp⟩
      · simp only [hru, if_true] at hlow
        exact ⟨_, k, [_, _, _, _, _], hlow, rfl, rfl, by simp⟩
    · obtain ⟨tyId, hty⟩ := getRegisterSizeCode_isSome nbits hs
      obtain ⟨⟨rmwOp, sTy⟩, hmn⟩ := rmw_mnemonic_isSome stringifyRMWOp op.kind nbits
        op.valueElemTy.isBF16 1 hrk
      have hlow := rmw_scalar_native_lowering op env mod oracle stringifyRMWOp nbits p v g
        tyId rmwOp sTy ht he hw hp hv hg hpromo hb hty hmn
        (⟨op.scope, op.sem, rmwOp, 1, sTy, tyId, p, AsmValue.scalar v⟩ : AtomRmwInstr) rfl
      cases hru : op.resultUsed
      · simp only [hru, Bool.false_eq_true, if_false] at hlow
        exact ⟨_, _, [_], hlow, rfl, rfl, rfl, rfl⟩
      · simp only [hru, if_true] at hlow
        exact ⟨_, _, _, hlow, rfl, rfl, rfl, rfl⟩

theorem rmw_branch_fallback_selection_witness :
    AtomicRMWOpConversion.takesBranchPath exampleBf16RmwOp ampereClusterModule = true ∧
    AtomicRMWOpConversion.takesBranchPath exampleBf16RmwOp hopperModule = false ∧
    (∃ r k rest, AtomicRMWOpConversion.matchAndRewrite exampleBf16RmwOp firstLane
        ampereClusterModule exampleOracle exampleStringifyRMWOp = some r ∧ r.succeeded = true ∧
      r.trace = AtomicAction.condBr true none ::
        AtomicAction.llvmAtomicRmw k 1000 7 MemSemantic.ACQUIRE_RELEASE "agent" :: rest ∧
      AtomicAction.br (AsmValue.scalar (exampleOracle.llvmAtomicResult k 1000 7)) ∈ rest) ∧
    (∃ r instr rest, AtomicRMWOpConversion.matchAndRewrite exampleBf16RmwOp firstLane
        hopperModule exampleOracle exampleStringifyRMWOp = some r ∧ r.succeeded = true ∧
      r.trace = AtomicAction.atomRmw instr (some true) :: rest ∧ instr.ptr = 1000 ∧
      instr.val = AsmValue.scalar 7) :=
  ⟨by decide, by decide,
    ((rmw_branch_fallback_selection exampleBf16RmwOp firstLane ampereClusterModule
        exampleOracle exampleStringifyRMWOp (by decide)).2.2.2 16 1000 7 (some true) rfl rfl rfl
        (Or.inl rfl) rfl rfl (by decide) (fun raw h => by cases h)).1 (by decide) true rfl,
    ((rmw_branch_fallback_selection exampleBf16RmwOp firstLane hopperModule
        exampleOracle exampleStringifyRMWOp (by decide)).2.2.2 16 1000 7 (some true) rfl rfl rfl
        (Or.inl rfl) rfl rfl (by decide) (fun raw h => by cases h)).2 (by decide)⟩


/-! ## Gather and scatter: the messages of a valid op -/

theorem gatherScatterMessages_closed (op : GatherScatterOp) (pred : Bool) (warpId blockId : Nat)
    (numMessagesPerRow msgSize regId : Nat) (calls : List GatherScatterCall)
    (h : regId + 4 ≤ op.xOffsets.length) :
    gatherScatterMessages op pred warpId blockId numMessagesPerRow msgSize regId calls
      = some (calls ++ (List.range numMessagesPerRow).map fun msgId =>
          { pred := pred,
            shMemOffset := op.msgToShared (i32_val regId) (i32_val 0) warpId blockId
              (i32_val msgId),
            yOffset := add op.yOffset (i32_val (msgId * msgSize)),
            xOffsets := (op.xOffsets.drop regId).take 4 }) := by
  unfold gatherScatterMessages
  apply forLoop_append
  intro i _ acc
  rw [if_neg (by omega)]

/-- The outcome of `iterateGatherScatterIndices` on a valid op: success, with the
invocations of the callback in closed form. -/
theorem iterate_valid (op : GatherScatterOp) (pred elect : Bool) (warpId blockId : Nat)
    (hwf : ∀ b ∈ op.xRegisterBases, b ≠ []) (hvalid : ¬ op.specInvalid)
    (hassert : op.assertionsHold) (hlen : op.xOffsets.length % 4 = 0) :
    iterateGatherScatterIndices op pred elect warpId blockId
      = some { calls := gatherScatterCallsClosed op (gatherScatterGuard op pred elect warpId)
                 warpId blockId op.numMessagesPerRow
                 (toUnsigned op.innerBlockSize / op.numMessagesPerRow)
                 (toUnsigned (op.freeVars.get "register")) (op.xOffsets.length / 4),
               error := none } := by
  unfold GatherScatterOp.specInvalid at hvalid
  simp only [not_or, not_not] at hvalid
  obtain ⟨hA, hB, hC, hD, hE⟩ := hvalid
  have hC2 : ¬ (op.allocShape.length < 2 ∨
      op.shape ≠ op.allocShape.drop (op.allocShape.length - 2)) := by
    simp only [not_or, not_not]; exact hC
  have hD2 : op.encodingIsNVMMAShared = true := by
    cases h : op.encodingIsNVMMAShared
    · exact absurd h hD
    · rfl
  obtain ⟨g, hg, hgiff⟩ := basesGrouped_spec op hA hwf
  have hgt : g = true := hgiff.mpr hB
  subst hgt
  obtain ⟨h1, h2, h3, h4⟩ := hassert
  unfold GatherScatterOp.numMessagesPerRow at h2 h3 h4
  have hloop : ∃ calls, forStep (op.xOffsets.length / 4 * 4) 4
      (fun regId calls =>
        if toUnsigned (op.freeVars.get "register") &&& regId ≠ 0 then some calls
        else gatherScatterMessages op (gatherScatterGuard op pred elect warpId) warpId blockId
          op.numMessagesPerRow (toUnsigned op.innerBlockSize / op.numMessagesPerRow) regId calls)
      op.xOffsets.length (0 * 4) [] = some calls ∧
      calls = gatherScatterCallsClosed op (gatherScatterGuard op pred elect warpId)
        warpId blockId op.numMessagesPerRow
        (toUnsigned op.innerBlockSize / op.numMessagesPerRow)
        (toUnsigned (op.freeVars.get "register")) (op.xOffsets.length / 4) := by
    refine forStep_groups 4 (op.xOffsets.length / 4) _
      (fun j calls => calls = gatherScatterCallsClosed op
        (gatherScatterGuard op pred elect warpId) warpId blockId op.numMessagesPerRow
        (toUnsigned op.innerBlockSize / op.numMessagesPerRow)
        (toUnsigned (op.freeVars.get "register")) j) (by decide) ?_
      op.xOffsets.length 0 [] (Nat.zero_le _) ?_ rfl
    · intro j s hj hs
      subst hs
      by_cases hr : toUnsigned (op.freeVars.get "register") &&& (j * 4) ≠ 0
      · refine ⟨_, by rw [if_pos hr], ?_⟩
        simp only [gatherScatterCallsClosed, hr, ne_eq, not_false_eq_true, if_true,
          List.append_nil]
      · have hle : j * 4 + 4 ≤ op.xOffsets.length := by omega
        refine ⟨_, by rw [if_neg hr]; exact gatherScatterMessages_closed op _ _ _ _ _ _ _ hle, ?_⟩
        simp only [gatherScatterCallsClosed, hr, if_false]
    · have := Nat.div_le_self op.xOffsets.length 4
      omega
  obtain ⟨calls, hcalls, hcl⟩ := hloop
  have hmul : op.xOffsets.length / 4 * 4 = op.xOffsets.length := by omega
  rw [hmul, Nat.zero_mul] at hcalls
  unfold iterateGatherScatterIndices
  simp only [hA, if_false, hg, Option.some_bind, Bool.not_true, Bool.false_eq_true, hC2, hD2,
    h1, h2, h3, ne_eq, not_true_eq_false, h4, hE, not_false_eq_true]
  unfold gatherScatterGuard GatherScatterOp.numMessagesPerRow at hcalls
  rw [hcalls, hcl]
  rfl

theorem gatherScatterCallsClosed_length (op : GatherScatterOp) (pred : Bool)
    (warpId blockId n msgSize regMask groups : Nat) :
    (gatherScatterCallsClosed op pred warpId blockId n msgSize regMask groups).length
      = ((List.range groups).filter (fun g => decide (regMask &&& (g * 4) = 0))).length * n := by
  induction groups with
  | zero => simp [gatherScatterCallsClosed]
  | succ k ih =>
    rw [gatherScatterCallsClosed, List.length_append, ih, List.range_succ, List.filter_append,
      List.length_append, Nat.add_mul]
    by_cases hr : regMask &&& (k * 4) = 0
    · simp [hr]
    · simp [hr]

theorem gatherScatterCallsClosed_mem (op : GatherScatterOp) (pred : Bool)
    (warpId blockId n msgSize regMask groups : Nat) (c : GatherScatterCall)
    (h : c ∈ gatherScatterCallsClosed op pred warpId blockId n msgSize regMask groups) :
    ∃ g msgId, g < groups ∧ regMask &&& (g * 4) = 0 ∧ msgId < n ∧
      c = { pred := pred,
            shMemOffset := op.msgToShared (i32_val (g * 4)) (i32_val 0) warpId blockId
              (i32_val msgId),
            yOffset := add op.yOffset (i32_val (msgId * msgSize)),
            xOffsets := (op.xOffsets.drop (g * 4)).take 4 } := by
  induction groups with
  | zero => simp [gatherScatterCallsClosed] at h
  | succ k ih =>
    rw [gatherScatterCallsClosed, List.mem_append] at h
    rcases h with h | h
    · obtain ⟨g, msgId, hg, hrest⟩ := ih h
      exact ⟨g, msgId, Nat.lt_succ_of_lt hg, hrest⟩
    · by_cases hr : regMask &&& (k * 4) = 0
      · simp only [hr, ne_eq, not_true_eq_false, if_false, List.mem_map, List.mem_range] at h
        obtain ⟨msgId, hm, hc⟩ := h
        exact ⟨k, msgId, Nat.lt_succ_self k, hr, hm, hc.symm⟩
      · simp [hr] at h

theorem isPowerOf2_32_two_pow (c : Nat) : isPowerOf2_32 (2 ^ c) = true := by
  unfold isPowerOf2_32
  have h1 : 2 ^ c ≠ 0 := Nat.pos_iff_ne_zero.mp (Nat.two_pow_pos c)
  have h2 : 2 ^ c &&& (2 ^ c - 1) = 0 := by
    rw [Nat.and_pow_two_sub_one_eq_mod, Nat.mod_self]
  simp [h1, h2]

/-- The number of messages per group and the size of a message for power-of-two block
sizes. -/
theorem gather_message_sizes (op : GatherScatterOp) (a b : Nat) (ha : a ≤ 31) (hb : b ≤ 31)
    (hE : op.innerBlockSize = 2 ^ a) (hM : op.contigDimSize = 2 ^ b) :
    op.numMessagesPerRow = 2 ^ (a - b) ∧
    toUnsigned op.innerBlockSize / op.numMessagesPerRow = 2 ^ (min a b) ∧
    op.assertionsHold := by
  have hEl : 2 ^ a ≤ 2 ^ 31 := Nat.pow_le_pow_right (by decide) ha
  have hMl : 2 ^ b ≤ 2 ^ 31 := Nat.pow_le_pow_right (by decide) hb
  have hEp : 0 < 2 ^ a := Nat.two_pow_pos a
  have hMp : 0 < 2 ^ b := Nat.two_pow_pos b
  have hKp : 0 < 2 ^ (a - b) := Nat.two_pow_pos (a - b)
  have hEu : toUnsigned (2 ^ a) = 2 ^ a := Nat.mod_eq_of_lt (by omega)
  have hMu : toUnsigned (2 ^ b) = 2 ^ b := Nat.mod_eq_of_lt (by omega)
  have hSu : toUnsigned (2 ^ a + 2 ^ b - 1) = 2 ^ a + 2 ^ b - 1 := Nat.mod_eq_of_lt (by omega)
  have hn : op.numMessagesPerRow = 2 ^ (a - b) := by
    unfold GatherScatterOp.numMessagesPerRow
    rw [hE, hM, hEu, hMu, hSu]
    apply Nat.div_eq_of_lt_le
    · by_cases hab : b ≤ a
      · rw [Nat.pow_sub_mul_pow 2 hab]; omega
      · have h0 : a - b = 0 := by omega
        rw [h0, Nat.pow_zero, Nat.one_mul]; omega
    · rw [Nat.add_mul, Nat.one_mul]
      by_cases hab : b ≤ a
      · rw [Nat.pow_sub_mul_pow 2 hab]; omega
      · have h0 : a - b = 0 := by omega
        have hlt : 2 ^ a < 2 ^ b := Nat.pow_lt_pow_right (by decide) (by omega)
        rw [h0, Nat.pow_zero, Nat.one_mul]; omega
  have hsize : toUnsigned op.innerBlockSize / op.numMessagesPerRow = 2 ^ (min a b) := by
    rw [hn, hE, hEu, Nat.pow_div (Nat.sub_le a b) (by decide)]
    congr 1
    omega
  refine ⟨hn, hsize, ?_, ?_, ?_, ?_⟩
  · rw [hM]
    have : 2 ^ b % 2 ^ 32 = 2 ^ b := hMu
    omega
  · rw [hn]; omega
  · rw [hn, hE, hEu]
    exact Nat.dvd_iff_mod_eq_zero.mp (Nat.pow_dvd_pow 2 (Nat.sub_le a b))
  · rw [hn]; exact isPowerOf2_32_two_pow _

/-- C22: for a valid gather or scatter whose inner block size E and message width M are
powers of two (as values of `unsigned`) and whose x offsets come in whole groups of 4,
the number of messages per group is ceil(E / M) = 2 ^ (a - b) for E = 2 ^ a and M = 2 ^ b,
a power of two that divides E, so both assertions of the code hold; the size of a message
is E / ceil(E / M) = min(E, M); the y sub-offsets msgId * msgSize for msgId below the number
of messages partition the range [0, E): every y below E lies in exactly one interval
[msgId * msgSize, msgId * msgSize + msgSize); and `iterateGatherScatterIndices` returns
success having invoked the callback once per message index for each group of 4 x offsets
whose start regId has regId & regMask == 0, in order, that is (number of such groups) *
ceil(E / M) times, with y offset `yOffset + msgId * msgSize`. -/
theorem gather_scatter_message_splitting (op : GatherScatterOp) (pred elect : Bool)
    (warpId blockId a b : Nat) (ha : a ≤ 31) (hb : b ≤ 31)
    (hE : op.innerBlockSize = 2 ^ a) (hM : op.contigDimSize = 2 ^ b)
    (hwf : ∀ b ∈ op.xRegisterBases, b ≠ []) (hvalid : ¬ op.specInvalid)
    (hlen : op.xOffsets.length % 4 = 0) :
    op.numMessagesPerRow = (2 ^ a + 2 ^ b - 1) / 2 ^ b ∧
    op.numMessagesPerRow = 2 ^ (a - b) ∧
    isPowerOf2_32 op.numMessagesPerRow = true ∧
    2 ^ a % op.numMessagesPerRow = 0 ∧
    op.assertionsHold ∧
    toUnsigned op.innerBlockSize / op.numMessagesPerRow = min (2 ^ a) (2 ^ b) ∧
    op.numMessagesPerRow * min (2 ^ a) (2 ^ b) = 2 ^ a ∧
    (∀ y, y < 2 ^ a → ∃ msgId, msgId < op.numMessagesPerRow ∧
      (msgId * min (2 ^ a) (2 ^ b) ≤ y ∧ y < msgId * min (2 ^ a) (2 ^ b) + min (2 ^ a) (2 ^ b)) ∧
      ∀ other, other * min (2 ^ a) (2 ^ b) ≤ y ∧
        y < other * min (2 ^ a) (2 ^ b) + min (2 ^ a) (2 ^ b) → other = msgId) ∧
    (∃ calls, iterateGatherScatterIndices op pred elect warpId blockId
        = some { calls := calls, error := none } ∧
      calls = gatherScatterCallsClosed op (gatherScatterGuard op pred elect warpId) warpId blockId
        op.numMessagesPerRow (min (2 ^ a) (2 ^ b)) (toUnsigned (op.freeVars.get "register"))
        (op.xOffsets.length / 4) ∧
      calls.length = ((List.range (op.xOffsets.length / 4)).filter
        (fun g => decide (toUnsigned (op.freeVars.get "register") &&& (g * 4) = 0))).length
          * op.numMessagesPerRow ∧
      ∀ c ∈ calls, ∃ g msgId, g < op.xOffsets.length / 4 ∧
        toUnsigned (op.freeVars.get "register") &&& (g * 4) = 0 ∧
        msgId < op.numMessagesPerRow ∧
        c.yOffset = add op.yOffset (i32_val (msgId * min (2 ^ a) (2 ^ b))) ∧
        c.xOffsets = (op.xOffsets.drop (g * 4)).take 4) := by
  obtain ⟨hn, hsize, hassert⟩ := gather_message_sizes op a b ha hb hE hM
  have hEl : 2 ^ a ≤ 2 ^ 31 := Nat.pow_le_pow_right (by decide) ha
  have hMl : 2 ^ b ≤ 2 ^ 31 := Nat.pow_le_pow_right (by decide) hb
  have hEp : 0 < 2 ^ a := Nat.two_pow_pos a
  have hEu : toUnsigned (2 ^ a) = 2 ^ a := Nat.mod_eq_of_lt (by omega)
  have hMu : toUnsigned (2 ^ b) = 2 ^ b := Nat.mod_eq_of_lt (by omega)
  have hSu : toUnsigned (2 ^ a + 2 ^ b - 1) = 2 ^ a + 2 ^ b - 1 := Nat.mod_eq_of_lt (by omega)
  have hmin : (2 : Nat) ^ (min a b) = min (2 ^ a) (2 ^ b) := by
    rcases Nat.le_total a b with h | h
    · rw [Nat.min_eq_left h, Nat.min_eq_left (Nat.pow_le_pow_right (by decide) h)]
    · rw [Nat.min_eq_right h, Nat.min_eq_right (Nat.pow_le_pow_right (by decide) h)]
  rw [hmin] at hsize
  have hprod : op.numMessagesPerRow * min (2 ^ a) (2 ^ b) = 2 ^ a := by
    rw [hn, ← hmin, ← pow_add]
    congr 1
    omega
  have hmpos : 0 < min (2 ^ a) (2 ^ b) := by
    rw [← hmin]; exact Nat.two_pow_pos _
  have hit := iterate_valid op pred elect warpId blockId hwf hvalid hassert hlen
  rw [hsize] at hit
  refine ⟨?_, hn, ?_, ?_, hassert, hsize, hprod, ?_, ?_⟩
  · unfold GatherScatterOp.numMessagesPerRow
    rw [hE, hM, hEu, hMu, hSu]
  · rw [hn]; exact isPowerOf2_32_two_pow _
  · rw [hn]
    exact Nat.dvd_iff_mod_eq_zero.mp (Nat.pow_dvd_pow 2 (Nat.sub_le a b))
  · intro y hy
    refine ⟨y / min (2 ^ a) (2 ^ b), ?_, ⟨?_, ?_⟩, ?_⟩
    · rw [Nat.div_lt_iff_lt_mul hmpos, hprod]; exact hy
    · exact Nat.div_mul_le_self y _
    · have := Nat.lt_mul_div_succ y hmpos
      rw [Nat.mul_add, Nat.mul_one, Nat.mul_comm] at this
      exact this
    · rintro other ⟨h1, h2⟩
      symm
      apply Nat.div_eq_of_lt_le h1
      rw [Nat.add_mul, Nat.one_mul]
      exact h2
  · refine ⟨_, hit, rfl, gatherScatterCallsClosed_length _ _ _ _ _ _ _ _, ?_⟩
    intro c hc
    obtain ⟨g, msgId, hg, hr, hm, hceq⟩ := gatherScatterCallsClosed_mem _ _ _ _ _ _ _ _ c hc
    exact ⟨g, msgId, hg, hr, hm, by rw [hceq], by rw [hceq]⟩

theorem gather_scatter_message_splitting_witness :
    exampleGatherOp.numMessagesPerRow = 2 ^ (6 - 6) ∧
    toUnsigned exampleGatherOp.innerBlockSize / exampleGatherOp.numMessagesPerRow
      = min (2 ^ 6) (2 ^ 6) ∧
    (∃ calls, iterateGatherScatterIndices exampleGatherOp true true 0 0
        = some { calls := calls, error := none } ∧
      calls.length = ((List.range (exampleGatherOp.xOffsets.length / 4)).filter
        (fun g => decide (toUnsigned (exampleGatherOp.freeVars.get "register") &&& (g * 4) = 0))).length
          * exampleGatherOp.numMessagesPerRow) ∧
    (iterateGatherScatterIndices exampleGatherOp true true 0 0).map
        (fun it => it.calls.map (fun c => (c.yOffset, c.xOffsets)))
      = some [(0, [0, 1, 2, 3]), (0, [4, 5, 6, 7])] ∧
    (iterateGatherScatterIndices { exampleGatherOp with innerBlockSize := 128 } true true 0 0).map
        (fun it => it.calls.map (fun c => (c.yOffset, c.xOffsets)))
      = some [(0, [0, 1, 2, 3]), (64, [0, 1, 2, 3]), (0, [4, 5, 6, 7]), (64, [4, 5, 6, 7])] :=
  have h := gather_scatter_message_splitting exampleGatherOp true true 0 0 6 6 (by decide)
    (by decide) rfl rfl (by decide) (by unfold GatherScatterOp.specInvalid; decide) (by decide)
  ⟨h.2.1, h.2.2.2.2.2.1,
    ⟨_, h.2.2.2.2.2.2.2.2.choose_spec.1, h.2.2.2.2.2.2.2.2.choose_spec.2.2.1⟩,
    by decide, by decide⟩


/-! ## Gather and scatter: the guard of a message -/

theorem gatherScatterGuard_eq (op : GatherScatterOp) (pred elect : Bool) (warpId : Nat) :
    gatherScatterGuard op pred elect warpId
      = (pred && decide (warpId &&& toUnsigned (op.freeVars.get "warp") = 0) && elect) := by
  unfold gatherScatterGuard icmp_eq and_ i32_val toUnsigned
  rw [Nat.mod_mod, Nat.zero_mod]
  congr 2
  exact decide_eq_decide.mpr eq_comm

/-- The lowering of a gather and of a scatter on a valid op, with the guard of every
message. -/
theorem gather_scatter_valid_lowering (op : GatherScatterOp) (callerPred elect : Bool)
    (warpId blockId : Nat) (hwf : ∀ b ∈ op.xRegisterBases, b ≠ []) (hvalid : ¬ op.specInvalid)
    (hassert : op.assertionsHold) (hlen : op.xOffsets.length % 4 = 0) :
    (∃ calls : List GatherScatterCall, AsyncTMAGatherOpConversion.matchAndRewrite op callerPred elect warpId blockId
        = some { actions := calls.map GatherScatterAction.gather4 ++ [GatherScatterAction.eraseOp],
                 succeeded := true, error := none } ∧
      calls.length = ((List.range (op.xOffsets.length / 4)).filter
        (fun g => decide (toUnsigned (op.freeVars.get "register") &&& (g * 4) = 0))).length
          * op.numMessagesPerRow ∧
      ∀ c ∈ calls, c.pred = gatherScatterGuard op callerPred elect warpId) ∧
    (∃ calls : List GatherScatterCall, AsyncTMAScatterOpConversion.matchAndRewrite op elect warpId blockId
        = some { actions := calls.map GatherScatterAction.scatter4 ++
                   [GatherScatterAction.commitGroup, GatherScatterAction.eraseOp],
                 succeeded := true, error := none } ∧
      calls.length = ((List.range (op.xOffsets.length / 4)).filter
        (fun g => decide (toUnsigned (op.freeVars.get "register") &&& (g * 4) = 0))).length
          * op.numMessagesPerRow ∧
      ∀ c ∈ calls, c.pred = gatherScatterGuard op true elect warpId) := by
  have hg := iterate_valid op callerPred elect warpId blockId hwf hvalid hassert hlen
  have hs := iterate_valid op true elect warpId blockId hwf hvalid hassert hlen
  constructor
  · refine ⟨gatherScatterCallsClosed op (gatherScatterGuard op callerPred elect warpId) warpId
      blockId op.numMessagesPerRow (toUnsigned op.innerBlockSize / op.numMessagesPerRow)
      (toUnsigned (op.freeVars.get "register")) (op.xOffsets.length / 4),
      by simp only [AsyncTMAGatherOpConversion.matchAndRewrite, hg, Option.map_some'],
      gatherScatterCallsClosed_length _ _ _ _ _ _ _ _, ?_⟩
    intro c hc
    obtain ⟨g, msgId, -, -, -, hceq⟩ := gatherScatterCallsClosed_mem _ _ _ _ _ _ _ _ c hc
    rw [hceq]
  · refine ⟨gatherScatterCallsClosed op (gatherScatterGuard op true elect warpId) warpId
      blockId op.numMessagesPerRow (toUnsigned op.innerBlockSize / op.numMessagesPerRow)
      (toUnsigned (op.freeVars.get "register")) (op.xOffsets.length / 4),
      by simp only [AsyncTMAScatterOpConversion.matchAndRewrite, hs, Option.map_some'],
      gatherScatterCallsClosed_length _ _ _ _ _ _ _ _, ?_⟩
    intro c hc
    obtain ⟨g, msgId, -, -, -, hceq⟩ := gatherScatterCallsClosed_mem _ _ _ _ _ _ _ _ c hc
    rw [hceq]

/-- C23: on a valid op the gather lowering succeeds and the guard of every message it
issues is callerPred and (warpId & warpMask) == 0 and elect, where warpMask is the warp
free-variable mask; the scatter lowering succeeds with the same guard started from the
constant true, that is (warpId & warpMask) == 0 and elect; so in a warp that is redundant
under the warp mask ((warpId & warpMask) != 0) the guard of every message of either is
false, and in a lane that is not elected as well. -/
theorem gather_scatter_message_guard (op : GatherScatterOp) (callerPred elect : Bool)
    (warpId blockId : Nat) (hwf : ∀ b ∈ op.xRegisterBases, b ≠ []) (hvalid : ¬ op.specInvalid)
    (hassert : op.assertionsHold) (hlen : op.xOffsets.length % 4 = 0) :
    (∃ calls : List GatherScatterCall, AsyncTMAGatherOpConversion.matchAndRewrite op callerPred elect warpId blockId
        = some { actions := calls.map GatherScatterAction.gather4 ++ [GatherScatterAction.eraseOp],
                 succeeded := true, error := none } ∧
      (∀ c ∈ calls, c.pred = (callerPred &&
        decide (warpId &&& toUnsigned (op.freeVars.get "warp") = 0) && elect)) ∧
      (warpId &&& toUnsigned (op.freeVars.get "warp") ≠ 0 → ∀ c ∈ calls, c.pred = false) ∧
      (elect = false → ∀ c ∈ calls, c.pred = false)) ∧
    (∃ calls : List GatherScatterCall, AsyncTMAScatterOpConversion.matchAndRewrite op elect warpId blockId
        = some { actions := calls.map GatherScatterAction.scatter4 ++
                   [GatherScatterAction.commitGroup, GatherScatterAction.eraseOp],
                 succeeded := true, error := none } ∧
      (∀ c ∈ calls, c.pred =
        (decide (warpId &&& toUnsigned (op.freeVars.get "warp") = 0) && elect)) ∧
      (warpId &&& toUnsigned (op.freeVars.get "warp") ≠ 0 → ∀ c ∈ calls, c.pred = false) ∧
      (elect = false → ∀ c ∈ calls, c.pred = false)) := by
  obtain ⟨⟨gc, hg, -, hgp⟩, ⟨sc, hs, -, hsp⟩⟩ :=
    gather_scatter_valid_lowering op callerPred elect warpId blockId hwf hvalid hassert hlen
  refine ⟨⟨gc, hg, fun c hc => ?_, fun hw c hc => ?_, fun he c hc => ?_⟩,
    ⟨sc, hs, fun c hc => ?_, fun hw c hc => ?_, fun he c hc => ?_⟩⟩
  · rw [hgp c hc, gatherScatterGuard_eq]
  · rw [hgp c hc, gatherScatterGuard_eq]
    simp [hw]
  · rw [hgp c hc, gatherScatterGuard_eq, he]
    simp
  · rw [hsp c hc, gatherScatterGuard_eq]
    simp
  · rw [hsp c hc, gatherScatterGuard_eq]
    simp [hw]
  · rw [hsp c hc, gatherScatterGuard_eq, he]
    simp

theorem gather_scatter_message_guard_witness :
    (∃ calls : List GatherScatterCall, AsyncTMAGatherOpConversion.matchAndRewrite
        { exampleGatherOp with freeVars := [("register", 0), ("lane", 31), ("warp", 2)] }
        true true 3 0
        = some { actions := calls.map GatherScatterAction.gather4 ++ [GatherScatterAction.eraseOp],
                 succeeded := true, error := none } ∧
      calls.length = 2 ∧ ∀ c ∈ calls, c.pred = false) ∧
    (AsyncTMAGatherOpConversion.matchAndRewrite
        { exampleGatherOp with freeVars := [("register", 0), ("lane", 31), ("warp", 2)] }
        true true 1 0).map (fun r => r.actions.map (fun a =>
          match a with
          | GatherScatterAction.gather4 c => some c.pred
          | _ => none)) = some [some true, some true, none] ∧
    (AsyncTMAGatherOpConversion.matchAndRewrite
        { exampleGatherOp with freeVars := [("register", 0), ("lane", 31), ("warp", 2)] }
        false true 1 0).map (fun r => r.actions.map (fun a =>
          match a with
          | GatherScatterAction.gather4 c => some c.pred
          | _ => none)) = some [some false, some false, none] ∧
    (AsyncTMAScatterOpConversion.matchAndRewrite
        { exampleGatherOp with freeVars := [("register", 0), ("lane", 31), ("warp", 2)] }
        true 1 0).map (fun r => r.actions.map (fun a =>
          match a with
          | GatherScatterAction.scatter4 c => some c.pred
          | _ => none)) = some [some true, some true, none, none] := by
  have h := (gather_scatter_message_guard
    { exampleGatherOp with freeVars := [("register", 0), ("lane", 31), ("warp", 2)] }
    true true 3 0 (by decide) (by unfold GatherScatterOp.specInvalid; decide)
    (by unfold GatherScatterOp.assertionsHold; decide) (by decide)).1
  obtain ⟨calls, hc, -, hw, -⟩ := h
  refine ⟨⟨calls, hc, ?_, hw (by decide)⟩, by decide, by decide, by decide⟩
  have h2 : (AsyncTMAGatherOpConversion.matchAndRewrite
      { exampleGatherOp with freeVars := [("register", 0), ("lane", 31), ("warp", 2)] }
      true true 3 0).map (fun r => r.actions.length) = some 3 := by decide
  rw [hc] at h2
  simp only [Option.map_some', List.length_append, List.length_map, List.length_singleton,
    Option.some.injEq] at h2
  omega


/-! ## Descriptor bulk copies: instructions, commit marker and checks -/

theorem forLoop_ind {σ : Type} (body : Nat → σ → Option σ) (init : σ) (Inv : Nat → σ → Prop)
    (n : Nat) (h0 : Inv 0 init)
    (hstep : ∀ i s, i < n → Inv i s → ∃ t, body i s = some t ∧ Inv (i + 1) t) :
    ∃ t, forLoop body init n = some t ∧ Inv n t := by
  induction n with
  | zero => exact ⟨init, rfl, h0⟩
  | succ n ih =>
    obtain ⟨s, hs, hinv⟩ := ih (fun i s hi => hstep i s (Nat.lt_succ_of_lt hi))
    obtain ⟨t, ht, hinv2⟩ := hstep n s (Nat.lt_succ_self n) hinv
    exact ⟨t, by rw [forLoop, hs, Option.some_bind, ht], hinv2⟩

theorem tma_load_coordOperands (coord offsets : List Nat) (st : TmaCoordState) :
    ∃ t, AsyncTMACopyGlobalToLocalOpConversion.coordOperands coord offsets st = some t ∧
      ∃ extra, t.operands = st.operands ++ extra ∧ extra.length = coord.length ∧
        ∀ o ∈ extra, o.constraint = "r" := by
  unfold AsyncTMACopyGlobalToLocalOpConversion.coordOperands
  refine forLoop_ind _ st
    (fun i t => ∃ extra, t.operands = st.operands ++ extra ∧ extra.length = i ∧
      ∀ o ∈ extra, o.constraint = "r") coord.length ⟨[], by simp, rfl, fun o ho => (by cases ho)⟩ ?_
  intro i s hi ⟨extra, hops, hlen, hall⟩
  have h1 : coord.length - i - 1 < coord.length := by omega
  obtain ⟨cv, hcv⟩ : ∃ cv, coord[coord.length - i - 1]? = some cv :=
    ⟨_, List.getElem?_eq_getElem h1⟩
  rw [hcv, Option.some_bind]
  by_cases ho : i < offsets.length
  · have h2 : offsets.length - i - 1 < offsets.length := by omega
    obtain ⟨ov, hov⟩ : ∃ ov, offsets[offsets.length - i - 1]? = some ov :=
      ⟨_, List.getElem?_eq_getElem h2⟩
    rw [if_pos ho, hov]
    refine ⟨_, rfl, extra ++ [⟨OperandValue.word (add cv ov), "r"⟩], by simp [hops],
      by simp [hlen], ?_⟩
    intro o hmem
    rcases List.mem_append.mp hmem with hm | hm
    · exact hall o hm
    · simp only [List.mem_singleton] at hm
      subst hm; rfl
  · rw [if_neg ho]
    refine ⟨_, rfl, extra ++ [⟨OperandValue.word cv, "r"⟩], by simp [hops], by simp [hlen], ?_⟩
    intro o hmem
    rcases List.mem_append.mp hmem with hm | hm
    · exact hall o hm
    · simp only [List.mem_singleton] at hm
      subst hm; rfl

/-- The instruction of a batch of the descriptor load: its operands are the guard, the
destination, the descriptor, one coordinate per dimension, and last the base of the
barrier. -/
theorem tma_load_instr (op : AsyncTMACopyGlobalToLocalOp) (ctaId : Nat) (c : TmaCopy) :
    ∃ instr coords, AsyncTMACopyGlobalToLocalOpConversion.instr op ctaId c = some instr ∧
      instr.operands =
        [{ value := OperandValue.i1 c.boxPred, constraint := "b" },
         { value := OperandValue.gep op.resultBase (op.msgToShared c.copyIdxVal (i32_val 0)),
           constraint := "r" },
         { value := OperandValue.word op.desc, constraint := "l" }] ++ coords ++
        [{ value := OperandValue.word op.barrierBase, constraint := "r" }] ∧
      coords.length = op.coord.length ∧
      instr.operands.getLast? = some { value := OperandValue.word op.barrierBase, constraint := "r" } := by
  unfold AsyncTMACopyGlobalToLocalOpConversion.instr
  obtain ⟨t, ht, extra, hops, hlen, -⟩ := tma_load_coordOperands op.coord
    (op.msgToOffset c.copyIdxVal ctaId)
    { operands :=
        [{ value := OperandValue.i1 c.boxPred, constraint := "b" },
         { value := OperandValue.gep op.resultBase (op.msgToShared c.copyIdxVal (i32_val 0)),
           constraint := "r" },
         { value := OperandValue.word op.desc, constraint := "l" }],
      tmaInst := "@$0 cp.async.bulk.tensor." ++ toString op.coord.length ++
        "d.shared::cluster.global.mbarrier::complete_tx::bytes [$1], [$2, \x7b",
      operandIdx := 3 }
  simp only [ht, Option.map_some']
  refine ⟨_, extra, rfl, ?_, hlen, ?_⟩
  · simp only [hops]
  · simp

theorem tma_store_coordOperands (coords offsets : List Nat) (operands : List AsmOperand) :
    ∃ t, convertTMAStoreLikeOp.coordOperands coords offsets operands = some t ∧
      ∃ extra, t = operands ++ extra ∧ extra.length = coords.length := by
  unfold convertTMAStoreLikeOp.coordOperands
  refine forLoop_ind _ operands
    (fun i t => ∃ extra, t = operands ++ extra ∧ extra.length = i) coords.length
    ⟨[], by simp, rfl⟩ ?_
  intro i s hi ⟨extra, hops, hlen⟩
  have h1 : coords.length - i - 1 < coords.length := by omega
  obtain ⟨cv, hcv⟩ : ∃ cv, coords[coords.length - i - 1]? = some cv :=
    ⟨_, List.getElem?_eq_getElem h1⟩
  rw [hcv, Option.some_bind]
  by_cases ho : i < offsets.length
  · have h2 : offsets.length - i - 1 < offsets.length := by omega
    obtain ⟨ov, hov⟩ : ∃ ov, offsets[offsets.length - i - 1]? = some ov :=
      ⟨_, List.getElem?_eq_getElem h2⟩
    rw [if_pos ho, hov]
    exact ⟨_, rfl, extra ++ [⟨OperandValue.word (add cv ov), "r"⟩], by simp [hops],
      by simp [hlen]⟩
  · rw [if_neg ho]
    exact ⟨_, rfl, extra ++ [⟨OperandValue.word cv, "r"⟩], by simp [hops], by simp [hlen]⟩

/-- The instruction of a batch of a store-like copy: its operands are the guard, the
descriptor, one coordinate per dimension, and last the source in shared memory. -/
theorem tma_store_instr (op : TMAStoreLikeOp) (tmaInst : String) (ctaId : Nat) (c : TmaCopy) :
    ∃ instr coords, convertTMAStoreLikeOp.instr op tmaInst ctaId c = some instr ∧
      instr.text = tmaInst ∧
      instr.operands =
        [{ value := OperandValue.i1 c.boxPred, constraint := "b" },
         { value := OperandValue.word op.tmaPtr, constraint := "l" }] ++ coords ++
        [{ value := OperandValue.gep op.srcBase (op.msgToShared c.copyIdxVal (i32_val 0)),
           constraint := "r" }] ∧
      coords.length = op.coords.length := by
  unfold convertTMAStoreLikeOp.instr
  obtain ⟨t, ht, extra, hops, hlen⟩ := tma_store_coordOperands op.coords
    (op.msgToOffset c.copyIdxVal ctaId)
    [{ value := OperandValue.i1 c.boxPred, constraint := "b" },
     { value := OperandValue.word op.tmaPtr, constraint := "l" }]
  simp only [ht, Option.map_some']
  exact ⟨_, extra, rfl, rfl, by simp only [hops], hlen⟩

theorem collectInstrs_spec (instr : TmaCopy → Option TmaInstr) (P : TmaInstr → Prop)
    (copies : List TmaCopy) (h : ∀ c ∈ copies, ∃ i, instr c = some i ∧ P i) :
    ∃ instrs, collectInstrs instr copies = some instrs ∧ instrs.length = copies.length ∧
      ∀ i ∈ instrs, P i := by
  induction copies with
  | nil => exact ⟨[], rfl, rfl, fun i hi => (by cases hi)⟩
  | cons c cs ih =>
    obtain ⟨i, hi, hp⟩ := h c (List.mem_cons_self c cs)
    obtain ⟨rest, hrest, hlen, hall⟩ := ih (fun d hd => h d (List.mem_cons_of_mem c hd))
    refine ⟨i :: rest, by simp [collectInstrs, hi, hrest], by simp [hlen], ?_⟩
    intro j hj
    rcases List.mem_cons.mp hj with hj | hj
    · subst hj; exact hp
    · exact hall j hj

theorem filterMap_asCopy (copies : List TmaCopy) (tail : List TmaAction)
    (h : ∀ a ∈ tail, a.asCopy = none) :
    (copies.map TmaAction.copy ++ tail).filterMap TmaAction.asCopy = copies := by
  rw [List.filterMap_append]
  have h1 : (copies.map TmaAction.copy).filterMap TmaAction.asCopy = copies := by
    induction copies with
    | nil => rfl
    | cons c cs ih => simp [List.filterMap_cons, TmaAction.asCopy, ih]
  have h2 : tail.filterMap TmaAction.asCopy = [] := by
    induction tail with
    | nil => rfl
    | cons a as ih =>
      rw [List.filterMap_cons, h a (List.mem_cons_self a as)]
      exact ih (fun b hb => h b (List.mem_cons_of_mem a hb))
  rw [h1, h2, List.append_nil]

theorem tmaStoreOperandText_isSome (rank : Nat) : ∃ st, tmaStoreOperandText rank = some st := by
  unfold tmaStoreOperandText
  exact forLoop_isSome _ _ _ (fun i _ s => ⟨_, rfl⟩)

/-- The lowering of a store-like descriptor copy: the copy loop returns, every batch has
its instruction, and the actions are the copies, then the commit of the group, then the
erasure of the op. -/
theorem tma_store_like_rewrite (op : TMAStoreLikeOp) (tmaInst : String)
    (numWarps warpSize id ctaId : Nat) (elect : Bool)
    (hw : 1 ≤ numWarps) (hid : id < numWarps * warpSize)
    (hb1 : op.numCopies < 2 ^ 31) (hb2 : numWarps * warpSize < 2 ^ 31) :
    ∃ (copies : List TmaCopy) (instrs : List TmaInstr), convertTMAStoreLikeOp.rewrite op tmaInst numWarps warpSize elect id
        (id / warpSize) ctaId
        = some { actions := copies.map TmaAction.copy ++
                   [TmaAction.commitGroup, TmaAction.eraseOp],
                 instrs := instrs, succeeded := true, error := none } ∧
      copies.length = (op.numCopies + numWarps - 1) / numWarps ∧
      instrs.length = copies.length ∧ ∀ i ∈ instrs, i.text = tmaInst := by
  obtain ⟨st, hst, hem⟩ := tma_copy_loop_closed op.numCopies numWarps warpSize id elect hw hid
    hb1 hb2
  have hconv : convertTMAStoreLikeOp op.numCopies numWarps warpSize elect id (id / warpSize)
      = some (st.emitted.map TmaAction.copy ++ [TmaAction.commitGroup, TmaAction.eraseOp]) := by
    simp only [convertTMAStoreLikeOp, hst, Option.map_some']
  obtain ⟨instrs, hin, hlen, hall⟩ := collectInstrs_spec
    (convertTMAStoreLikeOp.instr op tmaInst ctaId) (fun i => i.text = tmaInst) st.emitted
    (fun c _ => by
      obtain ⟨i, _, hi, ht, -⟩ := tma_store_instr op tmaInst ctaId c
      exact ⟨i, hi, ht⟩)
  refine ⟨st.emitted, instrs, ?_, by rw [hem]; simp, hlen, hall⟩
  unfold convertTMAStoreLikeOp.rewrite
  rw [hconv, Option.some_bind, filterMap_asCopy _ _ (by
    intro a ha
    simp only [List.mem_cons, List.mem_singleton, List.not_mem_nil, or_false] at ha
    rcases ha with ha | ha <;> subst ha <;> rfl), hin]
  rfl

/-- The lowering of a descriptor load with default attributes: the copy loop returns,
every batch has its instruction, whose last operand is the base of the barrier, and the
actions are the copies, then the erasure of the op. -/
theorem tma_load_rewrite (op : AsyncTMACopyGlobalToLocalOp)
    (numWarps warpSize id ctaId : Nat) (elect : Bool)
    (hcache : op.cache = CacheModifier.NONE) (hevict : op.evict = EvictionPolicy.NORMAL)
    (hvol : op.isVolatile = false)
    (hw : 1 ≤ numWarps) (hid : id < numWarps * warpSize)
    (hb1 : op.numCopies < 2 ^ 31) (hb2 : numWarps * warpSize < 2 ^ 31) :
    ∃ (copies : List TmaCopy) (instrs : List TmaInstr),
      AsyncTMACopyGlobalToLocalOpConversion.rewrite op numWarps warpSize elect id
        (id / warpSize) ctaId
        = some { actions := copies.map TmaAction.copy ++ [TmaAction.eraseOp],
                 instrs := instrs, succeeded := true, error := none } ∧
      copies.length = (op.numCopies + numWarps - 1) / numWarps ∧
      instrs.length = copies.length ∧
      ∀ i ∈ instrs, i.operands.getLast?
        = some { value := OperandValue.word op.barrierBase, constraint := "r" } := by
  obtain ⟨st, hst, hem⟩ := tma_copy_loop_closed op.numCopies numWarps warpSize id
    (op.pred && elect) hw hid hb1 hb2
  have hconv : AsyncTMACopyGlobalToLocalOpConversion.matchAndRewrite op.numCopies numWarps
      warpSize op.pred elect id (id / warpSize)
      = some (st.emitted.map TmaAction.copy ++ [TmaAction.eraseOp]) := by
    simp only [AsyncTMACopyGlobalToLocalOpConversion.matchAndRewrite, hst, Option.map_some']
  obtain ⟨instrs, hin, hlen, hall⟩ := collectInstrs_spec
    (AsyncTMACopyGlobalToLocalOpConversion.instr op ctaId)
    (fun i => i.operands.getLast?
      = some { value := OperandValue.word op.barrierBase, constraint := "r" }) st.emitted
    (fun c _ => by
      obtain ⟨i, _, hi, -, -, hl⟩ := tma_load_instr op ctaId c
      exact ⟨i, hi, hl⟩)
  refine ⟨st.emitted, instrs, ?_, by rw [hem]; simp, hlen, hall⟩
  unfold AsyncTMACopyGlobalToLocalOpConversion.rewrite
  rw [hcache, hevict, hvol]
  simp only [ne_eq, not_true_eq_false, if_false, Bool.false_eq_true]
  rw [hconv, Option.some_bind, filterMap_asCopy _ _ (by
    intro a ha
    simp only [List.mem_singleton] at ha
    subst ha; rfl), hin]
  rfl


/-- C27: the descriptor copy from global to local memory fails, having emitted nothing and
without erasing the op, when the cache modifier is not NONE, or the eviction policy is not
NORMAL, or the volatile flag is set, whatever the lane is; the error is that of the first
of these three conditions, in this order, that holds.  When the cache modifier is NONE, the
eviction policy NORMAL and the volatile flag clear, the lowering succeeds: it returns with
the copies followed by the erasure of the op.  So it fails iff one of the three conditions
holds.  For the success the lane exists (its thread id is below numWarps * warpSize, its
warp id is threadId / warpSize) and the counts fit an `int`. -/
theorem tma_load_attribute_checks (op : AsyncTMACopyGlobalToLocalOp)
    (numWarps warpSize id ctaId : Nat) (elect : Bool)
    (hw : 1 ≤ numWarps) (hid : id < numWarps * warpSize)
    (hb1 : op.numCopies < 2 ^ 31) (hb2 : numWarps * warpSize < 2 ^ 31) :
    ((op.cache ≠ CacheModifier.NONE ∨ op.evict ≠ EvictionPolicy.NORMAL ∨ op.isVolatile = true) →
      ∀ (anyWarps anySize anyId anyWarp anyCta : Nat) (anyElect : Bool),
        AsyncTMACopyGlobalToLocalOpConversion.rewrite op anyWarps anySize anyElect anyId anyWarp
          anyCta
        = some { actions := [], instrs := [], succeeded := false,
                 error := some (if op.cache ≠ CacheModifier.NONE then
                     "cache modifiers not supported yet"
                   else if op.evict ≠ EvictionPolicy.NORMAL then
                     "eviction policy not supported yet"
                   else "volatile not supported yet") }) ∧
    (op.cache = CacheModifier.NONE → op.evict = EvictionPolicy.NORMAL → op.isVolatile = false →
      ∃ (copies : List TmaCopy) (instrs : List TmaInstr),
        AsyncTMACopyGlobalToLocalOpConversion.rewrite op numWarps warpSize elect id
          (id / warpSize) ctaId
        = some { actions := copies.map TmaAction.copy ++ [TmaAction.eraseOp],
                 instrs := instrs, succeeded := true, error := none } ∧
        copies.length = (op.numCopies + numWarps - 1) / numWarps ∧
        instrs.length = copies.length) ∧
    (∃ r, AsyncTMACopyGlobalToLocalOpConversion.rewrite op numWarps warpSize elect id
        (id / warpSize) ctaId = some r ∧
      (r.succeeded = false ↔
        (op.cache ≠ CacheModifier.NONE ∨ op.evict ≠ EvictionPolicy.NORMAL ∨
          op.isVolatile = true)) ∧
      (r.succeeded = false →
        r.actions = [] ∧ r.instrs = [] ∧ TmaAction.eraseOp ∉ r.actions ∧ r.error ≠ none) ∧
      (r.succeeded = true → TmaAction.eraseOp ∈ r.actions ∧ r.error = none)) := by
  have hfail : (op.cache ≠ CacheModifier.NONE ∨ op.evict ≠ EvictionPolicy.NORMAL ∨
      op.isVolatile = true) →
      ∀ (anyWarps anySize anyId anyWarp anyCta : Nat) (anyElect : Bool),
        AsyncTMACopyGlobalToLocalOpConversion.rewrite op anyWarps anySize anyElect anyId anyWarp
          anyCta
        = some { actions := [], instrs := [], succeeded := false,
                 error := some (if op.cache ≠ CacheModifier.NONE then
                     "cache modifiers not supported yet"
                   else if op.evict ≠ EvictionPolicy.NORMAL then
                     "eviction policy not supported yet"
                   else "volatile not supported yet") } := by
    intro hbad anyWarps anySize anyId anyWarp anyCta anyElect
    unfold AsyncTMACopyGlobalToLocalOpConversion.rewrite
    by_cases h1 : op.cache ≠ CacheModifier.NONE
    · simp only [h1, ne_eq, not_false_eq_true, if_true]
    · by_cases h2 : op.evict ≠ EvictionPolicy.NORMAL
      · simp only [not_not] at h1
        simp only [h1, h2, ne_eq, not_true_eq_false, not_false_eq_true, if_true, if_false]
      · have h3 : op.isVolatile = true := by
          rcases hbad with h | h | h
          · exact absurd h h1
          · exact absurd h h2
          · exact h
        simp only [not_not] at h1 h2
        simp only [h1, h2, h3, ne_eq, not_true_eq_false, if_true, if_false]
  have hok : op.cache = CacheModifier.NONE → op.evict = EvictionPolicy.NORMAL →
      op.isVolatile = false →
      ∃ (copies : List TmaCopy) (instrs : List TmaInstr),
        AsyncTMACopyGlobalToLocalOpConversion.rewrite op numWarps warpSize elect id
          (id / warpSize) ctaId
        = some { actions := copies.map TmaAction.copy ++ [TmaAction.eraseOp],
                 instrs := instrs, succeeded := true, error := none } ∧
        copies.length = (op.numCopies + numWarps - 1) / numWarps ∧
        instrs.length = copies.length := by
    intro hc he hv
    obtain ⟨copies, instrs, h, h1, h2, -⟩ := tma_load_rewrite op numWarps warpSize id ctaId elect
      hc he hv hw hid hb1 hb2
    exact ⟨copies, instrs, h, h1, h2⟩
  refine ⟨hfail, hok, ?_⟩
  by_cases hbad : op.cache ≠ CacheModifier.NONE ∨ op.evict ≠ EvictionPolicy.NORMAL ∨
      op.isVolatile = true
  · refine ⟨_, hfail hbad numWarps warpSize id (id / warpSize) ctaId elect, ?_, ?_, ?_⟩
    · exact ⟨fun _ => hbad, fun _ => rfl⟩
    · intro _
      exact ⟨rfl, rfl, by simp, by simp⟩
    · intro h
      cases h
  · simp only [not_or, not_not] at hbad
    obtain ⟨hc, he, hv⟩ := hbad
    have hv2 : op.isVolatile = false := by
      cases h : op.isVolatile
      · rfl
      · exact absurd h hv
    obtain ⟨copies, instrs, h, -, -⟩ := hok hc he hv2
    refine ⟨_, h, ?_, ?_, ?_⟩
    · constructor
      · intro hs; cases hs
      · rintro (h1 | h1 | h1)
        · exact absurd hc h1
        · exact absurd he h1
        · rw [hv2] at h1; cases h1
    · intro hs; cases hs
    · intro _
      exact ⟨by simp, rfl⟩

theorem tma_load_attribute_checks_witness :
    AsyncTMACopyGlobalToLocalOpConversion.rewrite
        { exampleTmaLoadOp with evict := EvictionPolicy.EVICT_FIRST, isVolatile := true }
        4 32 true 0 0 0
      = some { actions := [], instrs := [], succeeded := false,
               error := some "eviction policy not supported yet" } ∧
    (∃ (copies : List TmaCopy) (instrs : List TmaInstr),
      AsyncTMACopyGlobalToLocalOpConversion.rewrite exampleTmaLoadOp 4 32 true 0 (0 / 32) 0
        = some { actions := copies.map TmaAction.copy ++ [TmaAction.eraseOp],
                 instrs := instrs, succeeded := true, error := none } ∧
      copies.length = (exampleTmaLoadOp.numCopies + 4 - 1) / 4 ∧
      instrs.length = copies.length) ∧
    (AsyncTMACopyGlobalToLocalOpConversion.rewrite exampleTmaLoadOp 4 32 true 0 0 0).map
        (fun r => r.instrs.map (fun i => i.text))
      = some ["@$0 cp.async.bulk.tensor.2d.shared::cluster.global.mbarrier::complete_tx::bytes [$1], [$2, \x7b$3, $4\x7d], [$5];",
          "@$0 cp.async.bulk.tensor.2d.shared::cluster.global.mbarrier::complete_tx::bytes [$1], [$2, \x7b$3, $4\x7d], [$5];"] :=
  ⟨(tma_load_attribute_checks
      { exampleTmaLoadOp with evict := EvictionPolicy.EVICT_FIRST, isVolatile := true }
      4 32 0 0 true (by decide) (by decide) (by decide) (by decide)).1
      (Or.inr (Or.inl (by decide))) 4 32 0 0 0 true,
    (tma_load_attribute_checks exampleTmaLoadOp 4 32 0 0 true (by decide) (by decide)
      (by decide) (by decide)).2.1 rfl rfl rfl,
    by decide⟩


/-! ## The commit marker -/

theorem tma_count_commitGroup (copies : List TmaCopy) :
    (copies.map TmaAction.copy ++ [TmaAction.commitGroup, TmaAction.eraseOp]).count
      TmaAction.commitGroup = 1 ∧
    TmaAction.commitGroup ∉ copies.map TmaAction.copy ++ [TmaAction.eraseOp] := by
  have h0 : TmaAction.commitGroup ∉ copies.map TmaAction.copy := by
    intro h
    obtain ⟨c, -, hc⟩ := List.mem_map.mp h
    cases hc
  refine ⟨?_, ?_⟩
  · rw [List.count_append, List.count_eq_zero.mpr h0]
    decide
  · intro h
    rcases List.mem_append.mp h with h | h
    · exact h0 h
    · simp at h

theorem gather_scatter_count_commitGroup (calls : List GatherScatterCall) :
    (calls.map GatherScatterAction.scatter4 ++
      [GatherScatterAction.commitGroup, GatherScatterAction.eraseOp]).count
      GatherScatterAction.commitGroup = 1 ∧
    GatherScatterAction.commitGroup ∉
      calls.map GatherScatterAction.gather4 ++ [GatherScatterAction.eraseOp] := by
  have h0 : GatherScatterAction.commitGroup ∉ calls.map GatherScatterAction.scatter4 := by
    intro h
    obtain ⟨c, -, hc⟩ := List.mem_map.mp h
    cases hc
  have h1 : GatherScatterAction.commitGroup ∉ calls.map GatherScatterAction.gather4 := by
    intro h
    obtain ⟨c, -, hc⟩ := List.mem_map.mp h
    cases hc
  refine ⟨?_, ?_⟩
  · rw [List.count_append, List.count_eq_zero.mpr h0]
    decide
  · intro h
    rcases List.mem_append.mp h with h | h
    · exact h1 h
    · simp at h

/-- C24: the descriptor store, the descriptor reduce (of any kind) and the scatter return
with the instructions of all their messages, then exactly one commit-group marker, then the
erasure of the op, whatever the number of messages is; the descriptor load and the gather
return with the instructions of their messages and the erasure of the op, with no commit
marker, and the last operand of every instruction of theirs is the base of the completion
barrier handed in by the caller.  The lane exists and the counts fit an `int`; the load has
default attributes; the gather and scatter op is valid, its block sizes satisfy the
assertions of the code, and its x offsets come in whole groups of 4. -/
theorem commit_marker_placement (sop : TMAStoreLikeOp) (kind : String)
    (lop : AsyncTMACopyGlobalToLocalOp) (gop : GatherScatterOp)
    (numWarps warpSize id ctaId warpId blockId desc barrierBase smemBase : Nat)
    (opPred elect : Bool)
    (hw : 1 ≤ numWarps) (hid : id < numWarps * warpSize)
    (hbs : sop.numCopies < 2 ^ 31) (hbl : lop.numCopies < 2 ^ 31)
    (hb2 : numWarps * warpSize < 2 ^ 31)
    (hcache : lop.cache = CacheModifier.NONE) (hevict : lop.evict = EvictionPolicy.NORMAL)
    (hvol : lop.isVolatile = false)
    (hwf : ∀ b ∈ gop.xRegisterBases, b ≠ []) (hvalid : ¬ gop.specInvalid)
    (hassert : gop.assertionsHold) (hlen : gop.xOffsets.length % 4 = 0) :
    (∃ (copies : List TmaCopy) (instrs : List TmaInstr),
      AsyncTMACopyLocalToGlobalOpConversion.matchAndRewrite sop numWarps warpSize elect id
          (id / warpSize) ctaId
        = some { actions := copies.map TmaAction.copy ++
                   [TmaAction.commitGroup, TmaAction.eraseOp],
                 instrs := instrs, succeeded := true, error := none } ∧
      copies.length = (sop.numCopies + numWarps - 1) / numWarps ∧
      instrs.length = copies.length ∧
      (copies.map TmaAction.copy ++ [TmaAction.commitGroup, TmaAction.eraseOp]).count
        TmaAction.commitGroup = 1) ∧
    (∃ (copies : List TmaCopy) (instrs : List TmaInstr),
      AsyncTMAReduceOpConversion.matchAndRewrite sop kind numWarps warpSize elect id
          (id / warpSize) ctaId
        = some { actions := copies.map TmaAction.copy ++
                   [TmaAction.commitGroup, TmaAction.eraseOp],
                 instrs := instrs, succeeded := true, error := none } ∧
      copies.length = (sop.numCopies + numWarps - 1) / numWarps ∧
      instrs.length = copies.length ∧
      (copies.map TmaAction.copy ++ [TmaAction.commitGroup, TmaAction.eraseOp]).count
        TmaAction.commitGroup = 1) ∧
    (∃ calls : List GatherScatterCall,
      AsyncTMAScatterOpConversion.matchAndRewrite gop elect warpId blockId
        = some { actions := calls.map GatherScatterAction.scatter4 ++
                   [GatherScatterAction.commitGroup, GatherScatterAction.eraseOp],
                 succeeded := true, error := none } ∧
      calls.length = ((List.range (gop.xOffsets.length / 4)).filter
        (fun g => decide (toUnsigned (gop.freeVars.get "register") &&& (g * 4) = 0))).length
          * gop.numMessagesPerRow ∧
      (calls.map GatherScatterAction.scatter4 ++
        [GatherScatterAction.commitGroup, GatherScatterAction.eraseOp]).count
        GatherScatterAction.commitGroup = 1) ∧
    (∃ (copies : List TmaCopy) (instrs : List TmaInstr),
      AsyncTMACopyGlobalToLocalOpConversion.rewrite lop numWarps warpSize elect id
          (id / warpSize) ctaId
        = some { actions := copies.map TmaAction.copy ++ [TmaAction.eraseOp],
                 instrs := instrs, succeeded := true, error := none } ∧
      copies.length = (lop.numCopies + numWarps - 1) / numWarps ∧
      instrs.length = copies.length ∧
      TmaAction.commitGroup ∉ copies.map TmaAction.copy ++ [TmaAction.eraseOp] ∧
      ∀ i ∈ instrs, i.operands.getLast?
        = some { value := OperandValue.word lop.barrierBase, constraint := "r" }) ∧
    (∃ calls : List GatherScatterCall,
      AsyncTMAGatherOpConversion.matchAndRewrite gop opPred elect warpId blockId
        = some { actions := calls.map GatherScatterAction.gather4 ++
                   [GatherScatterAction.eraseOp],
                 succeeded := true, error := none } ∧
      calls.length = ((List.range (gop.xOffsets.length / 4)).filter
        (fun g => decide (toUnsigned (gop.freeVars.get "register") &&& (g * 4) = 0))).length
          * gop.numMessagesPerRow ∧
      GatherScatterAction.commitGroup ∉
        calls.map GatherScatterAction.gather4 ++ [GatherScatterAction.eraseOp] ∧
      ∀ c : GatherScatterCall,
        (AsyncTMAGatherOpConversion.callback desc barrierBase smemBase c).operands.getLast?
          = some { value := OperandValue.word barrierBase, constraint := "r" }) := by
  obtain ⟨⟨gc, hg, hgl, -⟩, ⟨sc, hs, hsl, -⟩⟩ :=
    gather_scatter_valid_lowering gop opPred elect warpId blockId hwf hvalid hassert hlen
  refine ⟨?_, ?_, ⟨sc, hs, hsl, (gather_scatter_count_commitGroup sc).1⟩, ?_,
    ⟨gc, hg, hgl, (gather_scatter_count_commitGroup gc).2, fun c => ?_⟩⟩
  · obtain ⟨text, htext⟩ : ∃ t, AsyncTMACopyLocalToGlobalOpConversion.tmaInst sop.coords.length
        = some t := by
      obtain ⟨st, hst⟩ := tmaStoreOperandText_isSome sop.coords.length
      exact ⟨_, by unfold AsyncTMACopyLocalToGlobalOpConversion.tmaInst; rw [hst]; rfl⟩
    obtain ⟨copies, instrs, h, h1, h2, -⟩ := tma_store_like_rewrite sop text numWarps warpSize id
      ctaId elect hw hid hbs hb2
    refine ⟨copies, instrs, ?_, h1, h2, (tma_count_commitGroup copies).1⟩
    unfold AsyncTMACopyLocalToGlobalOpConversion.matchAndRewrite
    rw [htext, Option.some_bind, h]
  · obtain ⟨text, htext⟩ : ∃ t, AsyncTMAReduceOpConversion.tmaInst kind sop.coords.length
        = some t := by
      obtain ⟨st, hst⟩ := tmaStoreOperandText_isSome sop.coords.length
      exact ⟨_, by unfold AsyncTMAReduceOpConversion.tmaInst; rw [hst]; rfl⟩
    obtain ⟨copies, instrs, h, h1, h2, -⟩ := tma_store_like_rewrite sop text numWarps warpSize id
      ctaId elect hw hid hbs hb2
    refine ⟨copies, instrs, ?_, h1, h2, (tma_count_commitGroup copies).1⟩
    unfold AsyncTMAReduceOpConversion.matchAndRewrite
    rw [htext, Option.some_bind, h]
  · obtain ⟨copies, instrs, h, h1, h2, h3⟩ := tma_load_rewrite lop numWarps warpSize id ctaId
      elect hcache hevict hvol hw hid hbl hb2
    exact ⟨copies, instrs, h, h1, h2, (tma_count_commitGroup copies).2, h3⟩
  · unfold AsyncTMAGatherOpConversion.callback
    exact List.getLast?_concat _

theorem commit_marker_placement_witness :
    (AsyncTMACopyLocalToGlobalOpConversion.matchAndRewrite exampleTmaStoreOp 4 32 true 0 (0 / 32)
        0).map (fun r => r.actions)
      = some [TmaAction.copy { boxPred := true, copyIdxVal := 0 },
          TmaAction.copy { boxPred := true, copyIdxVal := 4 }, TmaAction.commitGroup,
          TmaAction.eraseOp] ∧
    (AsyncTMAReduceOpConversion.matchAndRewrite { exampleTmaStoreOp with numCopies := 0 } "add"
        4 32 true 0 (0 / 32) 0).map (fun r => (r.actions, r.instrs))
      = some ([TmaAction.commitGroup, TmaAction.eraseOp], []) ∧
    (∃ (copies : List TmaCopy) (instrs : List TmaInstr),
      AsyncTMACopyGlobalToLocalOpConversion.rewrite exampleTmaLoadOp 4 32 true 0 (0 / 32) 0
        = some { actions := copies.map TmaAction.copy ++ [TmaAction.eraseOp],
                 instrs := instrs, succeeded := true, error := none } ∧
      copies.length = (exampleTmaLoadOp.numCopies + 4 - 1) / 4 ∧
      instrs.length = copies.length ∧
      TmaAction.commitGroup ∉ copies.map TmaAction.copy ++ [TmaAction.eraseOp] ∧
      ∀ i ∈ instrs, i.operands.getLast?
        = some { value := OperandValue.word exampleTmaLoadOp.barrierBase, constraint := "r" }) ∧
    (AsyncTMAScatterOpConversion.matchAndRewrite exampleGatherOp true 0 0).map
        (fun r => r.actions.drop 2)
      = some [GatherScatterAction.commitGroup, GatherScatterAction.eraseOp] :=
  have h := commit_marker_placement exampleTmaStoreOp "add" exampleTmaLoadOp exampleGatherOp
    4 32 0 0 0 0 7 4096 8192 true true (by decide) (by decide) (by decide) (by decide) (by decide)
    rfl rfl rfl (by decide) (by unfold GatherScatterOp.specInvalid; decide)
    (by unfold GatherScatterOp.assertionsHold; decide) (by decide)
  ⟨by decide, by decide, h.2.2.2.1, by decide⟩


/-! ## Direct-addressed async copy: copy size and source size -/

theorem asyncCopy_zipVals (srcElems : List Nat) (maskElems : Option (List Bool))
    (hmask : ∀ m, maskElems = some m → m.length = srcElems.length) :
    ∃ vals, AsyncCopyGlobalToLocalOpConversion.zipVals srcElems maskElems = some vals ∧
      vals.length = srcElems.length ∧
      ∀ i, i < srcElems.length → ∃ src, srcElems[i]? = some src ∧
        vals[i]? = some (src, (maskElems.bind fun m => m[i]?).getD false) := by
  unfold AsyncCopyGlobalToLocalOpConversion.zipVals
  cases maskElems with
  | none =>
    refine forLoop_ind _ ([] : List (Nat × Bool))
      (fun n vals => vals.length = n ∧
        ∀ i, i < n → ∃ src, srcElems[i]? = some src ∧ vals[i]? = some (src, false))
      srcElems.length ⟨rfl, fun i hi => absurd hi (Nat.not_lt_zero i)⟩ ?_
    intro n s hn ⟨hlen, hall⟩
    obtain ⟨src, hsrc⟩ : ∃ src, srcElems[n]? = some src := ⟨_, List.getElem?_eq_getElem hn⟩
    refine ⟨s ++ [(src, false)], by simp [hsrc], by simp [hlen], ?_⟩
    intro i hi
    by_cases hin : i = n
    · subst hin
      exact ⟨src, hsrc, by rw [← hlen]; simp⟩
    · obtain ⟨sr, h1, h2⟩ := hall i (by omega)
      exact ⟨sr, h1, by rw [List.getElem?_append_left (by omega)]; exact h2⟩
  | some m =>
    have hml := hmask m rfl
    refine forLoop_ind _ ([] : List (Nat × Bool))
      (fun n vals => vals.length = n ∧
        ∀ i, i < n → ∃ src, srcElems[i]? = some src ∧
          vals[i]? = some (src, (m[i]?).getD false))
      srcElems.length ⟨rfl, fun i hi => absurd hi (Nat.not_lt_zero i)⟩ ?_
    intro n s hn ⟨hlen, hall⟩
    obtain ⟨src, hsrc⟩ : ∃ src, srcElems[n]? = some src := ⟨_, List.getElem?_eq_getElem hn⟩
    have hnm : n < m.length := by rw [hml]; exact hn
    obtain ⟨mb, hmb⟩ : ∃ mb, m[n]? = some mb := ⟨_, List.getElem?_eq_getElem hnm⟩
    refine ⟨s ++ [(src, mb)], by simp [hsrc, hmb], by simp [hlen], ?_⟩
    intro i hi
    by_cases hin : i = n
    · refine ⟨src, by rw [hin]; exact hsrc, ?_⟩
      rw [hin, hmb, Option.getD_some, ← hlen]
      simp
    · obtain ⟨sr, h1, h2⟩ := hall i (by omega)
      exact ⟨sr, h1, by rw [List.getElem?_append_left (by omega)]; exact h2⟩

/-- C25: the lambda `emitCpAsync` returns exactly when the byte count nBytes of the vector
type is 16, 8 or 4 and the start index is within the values; the instruction it emits has
copy size nBytes; when the op has a mask its source-size operand is a register holding
nBytes if the mask bit of the value at the start index (the first element of the group) is
true and 0 if it is false; when the op has no mask its source-size operand is the constant
nBytes, the same as the copy size.  The instruction has no operand for a fill value (the
lambda is not given one), it is guarded by the thread predicate, and the mask bit paired
with a source pointer is the mask element of the same index. -/
theorem cp_async_sizes (threadPred : Option Bool) (hasMask : Bool) (vals : List (Nat × Bool))
    (shmemAddr startIdx numElements elemBitWidth : Nat) (srcElems : List Nat)
    (maskElems : List Bool) (hmask : maskElems.length = srcElems.length) :
    ((∃ instr, AsyncCopyGlobalToLocalOpConversion.emitCpAsync threadPred hasMask vals shmemAddr
        startIdx numElements elemBitWidth = some instr) ↔
      ((numElements * elemBitWidth / 8 = 16 ∨ numElements * elemBitWidth / 8 = 8 ∨
        numElements * elemBitWidth / 8 = 4) ∧ startIdx < vals.length)) ∧
    (∀ instr, AsyncCopyGlobalToLocalOpConversion.emitCpAsync threadPred hasMask vals shmemAddr
        startIdx numElements elemBitWidth = some instr →
      instr.copySize = numElements * elemBitWidth / 8 ∧
      (instr.copySize = 16 ∨ instr.copySize = 8 ∨ instr.copySize = 4) ∧
      instr.pred = threadPred ∧ instr.dst = shmemAddr ∧
      ∃ src maskBit, vals[startIdx]? = some (src, maskBit) ∧ instr.src = src ∧
        (hasMask = true → instr.srcSize =
          CpAsyncSrcSize.reg (if maskBit then instr.copySize else 0) "r") ∧
        (hasMask = false → instr.srcSize = CpAsyncSrcSize.const instr.copySize)) ∧
    (∃ zipped : List (Nat × Bool),
      AsyncCopyGlobalToLocalOpConversion.zipVals srcElems (some maskElems) = some zipped ∧
      ∀ (i src : Nat), srcElems[i]? = some src → ∃ maskBit, maskElems[i]? = some maskBit ∧
        zipped[i]? = some (src, maskBit)) ∧
    (∃ zipped : List (Nat × Bool),
      AsyncCopyGlobalToLocalOpConversion.zipVals srcElems none = some zipped ∧
      ∀ (i src : Nat), srcElems[i]? = some src → zipped[i]? = some (src, false)) := by
  refine ⟨?_, ?_, ?_, ?_⟩
  · unfold AsyncCopyGlobalToLocalOpConversion.emitCpAsync
    by_cases hn : numElements * elemBitWidth / 8 = 16 ∨ numElements * elemBitWidth / 8 = 8 ∨
        numElements * elemBitWidth / 8 = 4
    · simp only [hn, not_true_eq_false, if_false, true_and]
      constructor
      · rintro ⟨instr, h⟩
        simp only [Option.map_eq_some'] at h
        obtain ⟨e, he, -⟩ := h
        by_contra hlt
        rw [List.getElem?_eq_none (by omega)] at he
        cases he
      · intro hlt
        rw [List.getElem?_eq_getElem hlt]
        exact ⟨_, rfl⟩
    · simp only [hn, not_false_eq_true, if_true, false_and, iff_false]
      rintro ⟨instr, h⟩
      cases h
  · intro instr h
    unfold AsyncCopyGlobalToLocalOpConversion.emitCpAsync at h
    by_cases hn : numElements * elemBitWidth / 8 = 16 ∨ numElements * elemBitWidth / 8 = 8 ∨
        numElements * elemBitWidth / 8 = 4
    · simp only [hn, not_true_eq_false, if_false, Option.map_eq_some'] at h
      obtain ⟨⟨src, maskBit⟩, he, hi⟩ := h
      subst hi
      refine ⟨rfl, hn, rfl, rfl, src, maskBit, he, rfl, ?_, ?_⟩
      · intro hm
        have hlt : numElements * elemBitWidth / 8 < 2 ^ 32 := by
          rcases hn with h | h | h <;> rw [h] <;> decide
        simp only [hm, if_true, select, i32_val, Nat.mod_eq_of_lt hlt, Nat.zero_mod]
      · intro hm
        simp only [hm, Bool.false_eq_true, if_false]
    · simp only [hn, not_false_eq_true, if_true] at h
      cases h
  · obtain ⟨zipped, hz, -, hall⟩ := asyncCopy_zipVals srcElems (some maskElems)
      (fun m hm => by cases hm; exact hmask)
    refine ⟨zipped, hz, fun i src hsrc => ?_⟩
    have hi : i < srcElems.length := by
      by_contra hlt
      rw [List.getElem?_eq_none (by omega)] at hsrc
      cases hsrc
    obtain ⟨src2, h1, h2⟩ := hall i hi
    rw [hsrc] at h1
    cases h1
    have hml : i < maskElems.length := by rw [hmask]; exact hi
    refine ⟨maskElems[i], List.getElem?_eq_getElem hml, ?_⟩
    rw [h2, Option.some_bind, List.getElem?_eq_getElem hml]
    rfl
  · obtain ⟨zipped, hz, -, hall⟩ := asyncCopy_zipVals srcElems none (fun m hm => by cases hm)
    refine ⟨zipped, hz, fun i src hsrc => ?_⟩
    have hi : i < srcElems.length := by
      by_contra hlt
      rw [List.getElem?_eq_none (by omega)] at hsrc
      cases hsrc
    obtain ⟨src2, h1, h2⟩ := hall i hi
    rw [hsrc] at h1
    cases h1
    exact h2

theorem cp_async_sizes_witness :
    AsyncCopyGlobalToLocalOpConversion.emitCpAsync (some true) true
        [(1000, true), (1004, true), (2000, false), (2004, false)] 64 2 2 32
      = some { cacheModifier := CacheModifier.CA, dst := 64, src := 2000, copySize := 8,
               srcSize := CpAsyncSrcSize.reg 0 "r", pred := some true } ∧
    AsyncCopyGlobalToLocalOpConversion.emitCpAsync (some true) true
        [(1000, true), (1004, true), (2000, false), (2004, false)] 64 0 2 32
      = some { cacheModifier := CacheModifier.CA, dst := 64, src := 1000, copySize := 8,
               srcSize := CpAsyncSrcSize.reg 8 "r", pred := some true } ∧
    AsyncCopyGlobalToLocalOpConversion.emitCpAsync none false
        [(1000, false), (1004, false), (2000, false), (2004, false)] 64 0 4 32
      = some { cacheModifier := CacheModifier.CG, dst := 64, src := 1000, copySize := 16,
               srcSize := CpAsyncSrcSize.const 16, pred := none } ∧
    (∃ instr, AsyncCopyGlobalToLocalOpConversion.emitCpAsync (some true) true
        [(1000, true), (1004, true), (2000, false), (2004, false)] 64 2 2 32 = some instr) ∧
    AsyncCopyGlobalToLocalOpConversion.emitCpAsync none false [(1000, false)] 64 0 1 16 = none :=
  ⟨by decide, by decide, by decide,
    ((cp_async_sizes (some true) true [(1000, true), (1004, true), (2000, false), (2004, false)]
      64 2 2 32 [1000, 1004, 2000, 2004] [true, true, false, false] rfl).1).mpr
      ⟨Or.inr (Or.inl (by decide)), by decide⟩,
    by decide⟩

end Triton
